import Mathlib

/-!
# dbstream: chunked blob storage over a relational backend

A shallow embedding of `MySqlStream` (`mysqlstream.cpp`, `mysqlstream.h`,
`streambuf.h`, `dbstream.h`).

* The backend connection is an explicit state (`World`): the rows of the two
  tables as this connection sees them, the rows as of the last commit, the
  auto-increment counters, and the list of statements sent so far.
* Every statement sent to the backend may throw; which ones do is decided by a
  fault oracle indexed by the position of the statement in the statement list.
* C++ control flow (`THROW`, `TRY`/`CATCH`, destructors that throw) is an
  outcome value: normal return, propagating exception, or `std::terminate`.
* The `DBStreamReader` callback is a function of the calls delivered so far
  and of the current call; every call is recorded in the world.
* Range deletion acts on the same world; the `ON DELETE CASCADE` of the chunk
  table's foreign key is part of the effect of the `DELETE` statement.
* Construction (`CreateDBStream`, the constructor, `InitDatabase` and the table
  checks) runs over a separate state (`Env`): the server's schemas and tables,
  the connector calls made so far, and the engine objects allocated.
-/

namespace DbStream

/-! ## Data model -/

/-- Value of one `unsigned char`. -/
abbrev Byte := Nat

/-- Stream reading begin. -/
def DB_STREAM_READ_BEGIN : Nat := 1
/-- Stream reading in progress. -/
def DB_STREAM_READ_DATA : Nat := 2
/-- Stream reading completed. -/
def DB_STREAM_READ_END : Nat := 3

/-- The `StreamHeader` struct of `dbstream.h`; `descr` is a nullable C string. -/
structure StreamHeader where
  id : Nat
  descr : Option String
  type : Nat
  timestamp : Nat
  size : Nat
deriving DecidableEq, Repr

/-- One row of table `stream` (see `InitTranTable`). -/
structure StreamRow where
  id : Nat
  descr : String
  type : Nat
  size : Nat
  timestamp : Nat
deriving DecidableEq, Repr

/-- One row of table `streamdata` (see `InitTranDataTable`). -/
structure DataRow where
  id : Nat
  masterid : Nat
  data : List Byte
deriving DecidableEq, Repr

/-- Rows of the two tables, in physical order. -/
structure Tables where
  stream : List StreamRow
  streamdata : List DataRow
deriving DecidableEq, Repr

/-- One `DBStreamReader::OnRead` call: the header, the `size` bytes of `mBuf`
that were passed, and the reading state. -/
structure Call where
  hdr : StreamHeader
  data : List Byte
  state : Nat
deriving DecidableEq, Repr

/-- One delivered `OnRead` call together with the boolean the reader returned. -/
structure Event where
  call : Call
  answer : Bool
deriving DecidableEq, Repr

/-- A bound of a range query: inclusive flag and value. -/
abbrev Bound := Option (Bool × Nat)

/-- The comparison operators of the WHERE clauses: `>=`, `>`, `<=`, `<`. -/
inductive Op where
  | ge
  | gt
  | le
  | lt
deriving DecidableEq, Repr

/-- One comparison `column op value` of a WHERE clause; the comparisons of a
clause are joined by `AND`. -/
structure Cond where
  column : String
  op : Op
  value : Nat
deriving DecidableEq, Repr

/-- Statements sent to the backend over the connection. -/
inductive Stmt where
  | setAutoCommit (enable : Bool)
  | insertStream (descr : String) (type timestamp : Nat)
  | selectLastInsertId
  | prepareInsertData
  | insertData (masterid : Nat) (data : List Byte)
  | updateSize (size id : Nat)
  | commit
  | rollback
  | lockRead
  | unlock
  | selectStreams (column : String) (lower upper : Bound) (limit : Option Nat)
  | selectDataIds (masterid : Nat)
  | selectData (id : Nat)
  | selectBoundary (order : String)
  | selectExists (column : String) (val : Nat)
  | lockWrite
  | deleteStreams (cond : List Cond)
  | alterAutoIncrement (table : String) (value : Nat)
  | describe (table : String)
deriving DecidableEq, Repr

/-- State of the connection and of the two collaborators (reader, logger). -/
structure World where
  /-- rows as seen by this connection -/
  tables : Tables
  /-- rows as of the last commit -/
  committed : Tables
  autoCommit : Bool
  /-- AUTO_INCREMENT counter of `stream` -/
  nextStreamId : Nat
  /-- AUTO_INCREMENT counter of `streamdata` -/
  nextDataId : Nat
  lastInsertId : Nat
  /-- statements sent so far, oldest first -/
  log : List Stmt
  /-- `OnRead` calls delivered so far, oldest first -/
  calls : List Event
  /-- `OnLogError` messages -/
  errors : List String
  /-- `OnLogInfo` messages -/
  infos : List String
deriving DecidableEq, Repr

/-- A reader callback: given the calls delivered before and the current call,
the boolean it returns (`true` = keep reading). -/
abbrev Reader := List Event → Call → Bool

/-- The members of `MySqlStream` fixed at construction. -/
structure Engine where
  /-- `mReader`, possibly NULL -/
  mReader : Option Reader
  /-- whether `mLogger` is non-NULL -/
  mLogger : Bool

/-- Fault oracle: `f n` tells whether the statement at position `n` of the
statement list throws `sql::SQLException`. -/
abbrev Faults := Nat → Bool

/-- No backend failure. -/
def noFault : Faults := fun _ => false

/-! ## Control flow -/

/-- How a C++ call ends. -/
inductive Outcome (α : Type) where
  | ret (a : α)
  | throw (msg : String)
  | abort
deriving DecidableEq, Repr

/-- A computation over the world. -/
def M (α : Type) : Type := World → Outcome α × World

/-- Return a value. -/
def M.pure {α : Type} (a : α) : M α := fun w => (.ret a, w)

/-- Sequencing: an exception or termination skips the rest. -/
def M.bind {α β : Type} (m : M α) (k : α → M β) : M β := fun w =>
  match m w with
  | (.ret a, w1) => k a w1
  | (.throw e, w1) => (.throw e, w1)
  | (.abort, w1) => (.abort, w1)

instance : Monad M where
  pure := M.pure
  bind := M.bind

/-- The `THROW(msg)` of the source (the function name and line number the macro
puts in front of the message are left out). -/
def THROW {α : Type} (msg : String) : M α := fun w => (.throw msg, w)

/-- Log types. -/
def LOG_ERR : Nat := 1
/-- Log type for informational messages. -/
def LOG_INFO : Nat := 2

/-- See `MySqlStream::WriteToLog`. -/
def WriteToLog (e : Engine) (type : Nat) (msg : String) (w : World) : World :=
  if e.mLogger = false then w
  else if type = LOG_ERR then { w with errors := w.errors ++ [msg] }
  else if type = LOG_INFO then { w with infos := w.infos ++ [msg] }
  else w

/-- `TRY { body } CATCH  rest`: every body of the source ends in `return`, so a
normal completion of `body` is the result; any exception is logged as an error
(one `WriteToLog(LOG_ERR, ..)`, of which only the exception message is kept)
and control continues with `rest`. -/
def tryCatch {α : Type} (e : Engine) (body : M α) (rest : M α) : M α := fun w =>
  match body w with
  | (.ret a, w1) => (.ret a, w1)
  | (.throw msg, w1) => rest (WriteToLog e LOG_ERR msg w1)
  | (.abort, w1) => (.abort, w1)

/-- Run `body` holding an object whose destructor sends `stmt` (the `SqlLock`
of the source): the destructor runs on every exit of the scope; a destructor
that throws ends the program (`std::terminate`). -/
def withDtor {α : Type} (dtor : M Unit) (body : M α) : M α := fun w =>
  match body w with
  | (.abort, w1) => (.abort, w1)
  | (r, w1) =>
    match dtor w1 with
    | (.ret _, w2) => (r, w2)
    | (_, w2) => (.abort, w2)

/-! ## Backend -/

/-- Send one statement: it is appended to the statement list; it throws when
the oracle says so (and then has no effect), otherwise `run` is its effect. -/
def backend {α : Type} (f : Faults) (s : Stmt) (run : World → α × World) : M α := fun w =>
  let w1 := { w with log := w.log ++ [s] }
  if f w.log.length then (.throw "SQLException", w1)
  else (.ret (run w1).1, (run w1).2)

/-- In autocommit mode every data-changing statement is committed at once. -/
def settle (w : World) : World :=
  if w.autoCommit then { w with committed := w.tables } else w

/-- Statement `SET autocommit`; switching it on commits the open transaction. -/
def setAutoCommit (f : Faults) (enable : Bool) : M Unit :=
  backend f (.setAutoCommit enable) fun w => ((), settle { w with autoCommit := enable })

/-- Statement `INSERT INTO stream (descr, type, timestamp)`: the id is assigned
from the counter, `size` takes its default 0. The statement carries the
arguments of the `sprintf` that builds its text (`insertSql`); the effect is
that of a text the server reads as these three values, as it does for a
description without quote or backslash that fits the buffer. -/
def execInsertStream (f : Faults) (descr : String) (type timestamp : Nat) : M Unit :=
  backend f (.insertStream descr type timestamp) fun w =>
    ((), settle { w with
      tables := { w.tables with stream := w.tables.stream ++
        [{ id := w.nextStreamId, descr := descr, type := type, size := 0,
           timestamp := timestamp }] }
      lastInsertId := w.nextStreamId
      nextStreamId := w.nextStreamId + 1 })

/-- Statement `SELECT LAST_INSERT_ID()`. -/
def queryLastInsertId (f : Faults) : M Nat :=
  backend f .selectLastInsertId fun w => (w.lastInsertId, w)

/-- Preparing `INSERT INTO streamdata (masterid, data) VALUES (?,?)`. -/
def prepareInsertData (f : Faults) : M Unit :=
  backend f .prepareInsertData fun w => ((), w)

/-- Executing the prepared insert into `streamdata`. -/
def execInsertData (f : Faults) (masterid : Nat) (data : List Byte) : M Unit :=
  backend f (.insertData masterid data) fun w =>
    ((), settle { w with
      tables := { w.tables with streamdata := w.tables.streamdata ++
        [{ id := w.nextDataId, masterid := masterid, data := data }] }
      lastInsertId := w.nextDataId
      nextDataId := w.nextDataId + 1 })

/-- Statement `UPDATE stream SET size=.. WHERE id=..`. -/
def execUpdateSize (f : Faults) (size id : Nat) : M Unit :=
  backend f (.updateSize size id) fun w =>
    ((), settle { w with
      tables := { w.tables with stream := w.tables.stream.map fun r =>
        if r.id = id then { r with size := size } else r } })

/-- Commit of the open transaction. -/
def commit (f : Faults) : M Unit :=
  backend f .commit fun w => ((), { w with committed := w.tables })

/-- Rollback of the open transaction: the rows return to the last commit;
the auto-increment counters are not restored. -/
def rollback (f : Faults) : M Unit :=
  backend f .rollback fun w => ((), { w with tables := w.committed })

/-! ## Byte sources -/

/-- The size of `mBuf`: the maximum length of a BLOB column. -/
def BUF_SIZE : Nat := 65535

/-- A `std::istream`: the bytes not yet extracted and the state bits that
matter (`badbit` is folded into `failbit`). -/
structure IStream where
  buf : List Byte
  eofbit : Bool
  failbit : Bool
deriving DecidableEq, Repr

/-- The stream of a `StreamBuf(ptr, size)`: `size` bytes, no bit set. -/
def StreamBuf (bytes : List Byte) : IStream :=
  { buf := bytes, eofbit := false, failbit := false }

/-- The `operator bool` of a stream: `!fail()`. -/
def IStream.ok (s : IStream) : Bool := !s.failbit

/-- The call `read(buf, n)` followed by `gcount()`: when a state bit is
already set nothing is extracted and `failbit` is set; otherwise up to `n`
bytes are extracted, and running out of bytes before `n` sets `eofbit` and
`failbit`. -/
def IStream.read (s : IStream) (n : Nat) : List Byte × IStream :=
  if s.eofbit || s.failbit then ([], { s with failbit := true })
  else if n ≤ s.buf.length then (s.buf.take n, { s with buf := s.buf.drop n })
  else (s.buf, { buf := [], eofbit := true, failbit := true })

/-- The bytes a source can yield to a reading loop. -/
def IStream.avail (s : IStream) : List Byte :=
  if s.eofbit || s.failbit then [] else s.buf

/-! ## Write -/

/-- The loop `while(data_stream) { read; if(size_read > 0) insert chunk }` of
`Write`; `size_total` is a `uint64_t`. The first argument bounds the
iterations; `buf.length + 2` is enough for every source (`writeLoop_ret`). -/
def writeLoop (f : Faults) (master_id : Nat) : Nat → IStream → Nat → M Nat
  | 0, _, size_total => pure size_total
  | fuel + 1, s, size_total =>
    if s.ok then
      let r := s.read BUF_SIZE
      let size_read := r.1.length
      let size_total1 := (size_total + size_read) % 2 ^ 64
      if size_read > 0 then do
        execInsertData f master_id r.1
        writeLoop f master_id fuel r.2 size_total1
      else writeLoop f master_id fuel r.2 size_total1
    else pure size_total

/-- The body of the `TRY` block of `Write(const StreamHeader*, std::istream&)`.
It returns the master id on success. The header's `type` is a `uint8_t`; a NULL
`descr` is taken as the text `(null)` that `%s` prints for it. -/
def WriteBody (f : Faults) (hdr : Option StreamHeader) (data_stream : IStream) : M Nat :=
  match hdr with
  | none => THROW "StreamHeader* hdr is NULL"
  | some h => do
    setAutoCommit f false
    execInsertStream f (h.descr.getD "(null)") (h.type % 256) h.timestamp
    let master_id ← queryLastInsertId f
    prepareInsertData f
    let size_total ← writeLoop f master_id (data_stream.buf.length + 2) data_stream 0
    execUpdateSize f size_total master_id
    commit f
    pure master_id

/-- The result of a `Write`: the boolean returned and the caller's header
(whose `id` is `mutable` and is written on success), or `none` for NULL. -/
abbrev WriteResult := Bool × Option StreamHeader

/-- See `MySqlStream::Write(const StreamHeader* hdr, std::istream& data_stream)`. -/
def Write (e : Engine) (f : Faults) (hdr : Option StreamHeader) (data_stream : IStream) :
    M WriteResult := fun w =>
  match WriteBody f hdr data_stream w with
  | (.ret master_id, w1) => (.ret (true, hdr.map fun h => { h with id := master_id }), w1)
  | (.throw msg, w1) =>
    (do rollback f; pure (false, hdr) : M WriteResult) (WriteToLog e LOG_ERR msg w1)
  | (.abort, w1) => (.abort, w1)

/-- See `MySqlStream::Write(const StreamHeader* hdr, const unsigned char* data)`:
both NULL checks throw outside any `TRY`; the source is the first `hdr->size`
bytes at `data`. -/
def WriteBuf (e : Engine) (f : Faults) (hdr : Option StreamHeader)
    (data : Option (List Byte)) : M WriteResult :=
  match hdr, data with
  | none, _ => THROW "StreamHeader* hdr is NULL"
  | some _, none => THROW "data is NULL"
  | some h, some d => Write e f (some h) (StreamBuf (d.take h.size))

/-! ## Ranged read -/

/-- Max number of streams per query. -/
def STREAMS_PER_QUERY : Nat := 100

/-- Acquiring the READ lock (`LOCK TABLES stream READ LOCAL, streamdata READ
LOCAL`), which implicitly commits an open transaction. -/
def lockRead (f : Faults) : M Unit :=
  backend f .lockRead fun w => ((), { w with committed := w.tables })

/-- Releasing the lock (`UNLOCK TABLES`). -/
def unlock (f : Faults) : M Unit :=
  backend f .unlock fun w => ((), { w with committed := w.tables })

/-- The numeric columns of table `stream` a statement can compare and order by.
The text column `descr` is not modelled: a statement that compares or orders by
it is treated like one that names a column the table does not have, and so is
a name written in another case than the column's (the server would accept
`ID`). -/
def colKey (column : String) : Option (StreamRow → Nat) :=
  if column = "id" then some fun r => r.id
  else if column = "timestamp" then some fun r => r.timestamp
  else if column = "size" then some fun r => r.size
  else if column = "type" then some fun r => r.type
  else none

/-- Whether a value satisfies a lower bound (`>=` or `>`). -/
def lowerOk (b : Bound) (v : Nat) : Bool :=
  match b with
  | none => true
  | some (true, x) => decide (x ≤ v)
  | some (false, x) => decide (x < v)

/-- Whether a value satisfies an upper bound (`<=` or `<`). -/
def upperOk (b : Bound) (v : Nat) : Bool :=
  match b with
  | none => true
  | some (true, x) => decide (v ≤ x)
  | some (false, x) => decide (v < x)

/-- The rows `SELECT * FROM stream WHERE .. ORDER BY key ASC [LIMIT n]` yields. -/
def selectRows (key : StreamRow → Nat) (lower upper : Bound) (limit : Option Nat)
    (rows : List StreamRow) : List StreamRow :=
  let sel := (rows.filter fun r => lowerOk lower (key r) && upperOk upper (key r)).insertionSort
    fun a b => key a ≤ key b
  match limit with
  | none => sel
  | some n => sel.take n

/-- The header query of `Read`; a column the table does not have is an error
of the statement. -/
def queryStreams (f : Faults) (column : String) (lower upper : Bound) (limit : Option Nat) :
    M (List StreamRow) :=
  match colKey column with
  | none => backend (fun _ => true) (.selectStreams column lower upper limit) fun w => ([], w)
  | some key => backend f (.selectStreams column lower upper limit) fun w =>
      (selectRows key lower upper limit w.tables.stream, w)

/-- Statement `SELECT id FROM streamdata WHERE masterid = .. order by id`. -/
def queryDataIds (f : Faults) (masterid : Nat) : M (List Nat) :=
  backend f (.selectDataIds masterid) fun w =>
    ((((w.tables.streamdata.filter fun d => d.masterid = masterid).insertionSort
      fun a b => a.id ≤ b.id).map fun d => d.id), w)

/-- Statement `SELECT data FROM streamdata WHERE id=..`: the blobs of the rows
selected. -/
def queryData (f : Faults) (id : Nat) : M (List (List Byte)) :=
  backend f (.selectData id) fun w =>
    (((w.tables.streamdata.filter fun d => d.id = id).map fun d => d.data), w)

/-- One `mReader->OnRead(&hdr, mBuf, size, state)`: the call and its answer
are recorded. -/
def OnRead (rd : Reader) (hdr : StreamHeader) (data : List Byte) (state : Nat) : M Bool :=
  fun w =>
    let c : Call := { hdr := hdr, data := data, state := state }
    (.ret (rd w.calls c), { w with calls := w.calls ++ [{ call := c, answer := rd w.calls c }] })

/-- Logging through `WriteToLog` inside a computation. -/
def logMsg (e : Engine) (type : Nat) (msg : String) : M Unit := fun w =>
  (.ret (), WriteToLog e type msg w)

/-- The loop `while(keepReading && *blob)` of `ReadData`. The first argument
bounds the iterations; `buf.length + 2` is enough for every blob. -/
def readBlob (rd : Reader) (hdr : StreamHeader) : Nat → IStream → Bool → M Bool
  | 0, _, keepReading => pure keepReading
  | fuel + 1, blob, keepReading =>
    if keepReading && blob.ok then
      let r := blob.read BUF_SIZE
      if r.1.length > 0 then do
        let keep1 ← OnRead rd hdr r.1 DB_STREAM_READ_DATA
        readBlob rd hdr fuel r.2 keep1
      else readBlob rd hdr fuel r.2 keepReading
    else pure keepReading

/-- The loop `while(keepReading && res->next())` of `ReadData` over the chunk
ids. -/
def readChunks (f : Faults) (rd : Reader) (hdr : StreamHeader) : List Nat → Bool → M Bool
  | [], keepReading => pure keepReading
  | id :: rest, keepReading =>
    if keepReading then do
      let data_res ← queryData f id
      match data_res with
      | [] => THROW "ResultSet::next failed"
      | blob :: _ => do
        let keep1 ← readBlob rd hdr (blob.length + 2) (StreamBuf blob) keepReading
        readChunks f rd hdr rest keep1
    else pure keepReading

/-- See `MySqlStream::ReadData`: the pair is the returned boolean and the
value of `*stopped` afterwards (`Read` sets it to false before the call, and
it is written only on success). -/
def ReadData (e : Engine) (f : Faults) (rd : Reader) (hdr : StreamHeader) : M (Bool × Bool) :=
  tryCatch e
    (do
      let res ← queryDataIds f hdr.id
      let keepReading ← OnRead rd hdr [] DB_STREAM_READ_BEGIN
      let keepReading ← readChunks f rd hdr res keepReading
      let _ ← OnRead rd hdr [] DB_STREAM_READ_END
      pure (true, !keepReading))
    (pure (false, false))

/-- The header a result row is copied into. -/
def hdrOfRow (r : StreamRow) : StreamHeader :=
  { id := r.id, descr := some r.descr, type := r.type % 256, timestamp := r.timestamp,
    size := r.size }

/-- The value of the local `hdr` of `Read` before any row was fetched (it is
not initialised; it is read only after a full batch). -/
def hdrUninit : StreamHeader :=
  { id := 0, descr := none, type := 0, timestamp := 0, size := 0 }

/-- The info line `Read` logs for a row of size 0. -/
def invalidStreamMsg (hdr : StreamHeader) : String :=
  "MySqlStream: Invalid stream (size=0): id=" ++ toString hdr.id ++ ", descr='" ++
    hdr.descr.getD "" ++ "'"

/-- The loop `while(res->next())` of `Read` over the rows of one batch: the
result is the final `stopped` and the final `hdr`. -/
def readRows (e : Engine) (f : Faults) (rd : Reader) :
    List StreamRow → StreamHeader → M (Bool × StreamHeader)
  | [], hdr => pure (false, hdr)
  | row :: rest, _ =>
    let hdr := hdrOfRow row
    if hdr.size = 0 then do
      logMsg e LOG_INFO (invalidStreamMsg hdr)
      let _ ← OnRead rd hdr [] DB_STREAM_READ_BEGIN
      let _ ← OnRead rd hdr [] DB_STREAM_READ_END
      readRows e f rd rest hdr
    else do
      let r ← ReadData e f rd hdr
      if !r.1 then THROW "ReadData failed"
      else if r.2 then do
        logMsg e LOG_INFO "ReadData stopped by caller"
        pure (true, hdr)
      else readRows e f rd rest hdr

/-- One iteration of the `while(true)` of `Read`: lock, query, row loop, the
decision to stop (`none`) or the new `first` (`some`), unlock on every exit
once the lock object is constructed. -/
def readBatch (e : Engine) (f : Faults) (rd : Reader) (column : String) (limit : Nat)
    (first : Nat) (inclusive_first : Bool) (last : Nat) (inclusive_last : Bool) :
    M (Option Nat) := do
  let lower : Bound := if first > 0 then some (inclusive_first, first) else none
  let upper : Bound := if last > 0 then some (inclusive_last, last) else none
  let lim : Option Nat := if limit > 0 then some limit else none
  lockRead f
  withDtor (unlock f) do
    let res ← queryStreams f column lower upper lim
    let r ← readRows e f rd res hdrUninit
    if r.1 || limit = 0 || res.length < limit then pure none
    else if column = "id" then pure (some r.2.id)
    else if column = "timestamp" then pure (some r.2.timestamp)
    else THROW ("Invalid column='" ++ column ++ "'")

/-- The `while(true)` of `Read`. The first argument bounds the number of
batches; `none` means the loop did not finish within the bound. -/
def readLoop (e : Engine) (f : Faults) (rd : Reader) (column : String) (limit : Nat)
    (last : Nat) (inclusive_last : Bool) : Nat → Nat → Bool → M (Option Bool)
  | 0, _, _ => pure none
  | fuel + 1, first, inclusive_first => do
    let next ← readBatch e f rd column limit first inclusive_first last inclusive_last
    match next with
    | none => pure (some true)
    | some first1 => readLoop e f rd column limit last inclusive_last fuel first1 false

/-- See `MySqlStream::Read`; `fuel` bounds the number of batches. -/
def Read (e : Engine) (f : Faults) (fuel : Nat) (column : Option String)
    (first : Nat) (inclusive_first : Bool) (last : Nat) (inclusive_last : Bool) :
    M (Option Bool) :=
  tryCatch e
    (match e.mReader, column with
      | none, _ => THROW "mReader is NULL"
      | some _, none => THROW "column is NULL"
      | some rd, some col =>
        readLoop e f rd col STREAMS_PER_QUERY last inclusive_last fuel first inclusive_first)
    (pure (some false))

/-- See `MySqlStream::ReadById`. -/
def ReadById (e : Engine) (f : Faults) (fuel : Nat)
    (id_first : Nat) (inclusive_first : Bool) (id_last : Nat) (inclusive_last : Bool) :
    M (Option Bool) :=
  Read e f fuel (some "id") id_first inclusive_first id_last inclusive_last

/-! ## Lookup and boundary retrieval -/

/-- The query of `Get`: the row at one end of the id order, if any; an order
word other than `ASC` and `DESC` is a syntax error of the statement. -/
def queryBoundary (f : Faults) (order : String) : M (List StreamRow) :=
  if order = "ASC" then
    backend f (.selectBoundary order) fun w =>
      (((w.tables.stream.insertionSort fun a b => a.id ≤ b.id).take 1), w)
  else if order = "DESC" then
    backend f (.selectBoundary order) fun w =>
      (((w.tables.stream.insertionSort fun a b => b.id ≤ a.id).take 1), w)
  else backend (fun _ => true) (.selectBoundary order) fun w => ([], w)

/-- See `MySqlStream::Get`: the result is the returned boolean and the
caller's header afterwards (`type` is never written). -/
def Get (e : Engine) (f : Faults) (hdr : Option StreamHeader) (order : Option String) :
    M (Bool × Option StreamHeader) :=
  tryCatch e
    (match hdr, order with
      | none, _ => THROW "StreamHeader* hdr is NULL"
      | some _, none => THROW "order is NULL"
      | some h, some ord => do
        lockRead f
        withDtor (unlock f) do
          let res ← queryBoundary f ord
          match res with
          | [] => pure (true, some { h with id := 0, descr := none, size := 0, timestamp := 0 })
          | row :: _ =>
            pure (true, some { h with id := row.id, descr := some row.descr, size := row.size,
                                      timestamp := row.timestamp }))
    (pure (false, hdr))

/-- See `MySqlStream::GetFirst`. -/
def GetFirst (e : Engine) (f : Faults) (hdr : Option StreamHeader) :
    M (Bool × Option StreamHeader) :=
  Get e f hdr (some "ASC")

/-- See `MySqlStream::GetLast`. -/
def GetLast (e : Engine) (f : Faults) (hdr : Option StreamHeader) :
    M (Bool × Option StreamHeader) :=
  Get e f hdr (some "DESC")

/-- The existence probe `SELECT 1 FROM stream WHERE column = val LIMIT 1`. -/
def queryExists (f : Faults) (column : String) (val : Nat) : M Nat :=
  match colKey column with
  | none => backend (fun _ => true) (.selectExists column val) fun w => (0, w)
  | some key => backend f (.selectExists column val) fun w =>
      ((((w.tables.stream.filter fun r => key r = val).take 1).length), w)

/-- See `MySqlStream::Lookup`: the result is the returned boolean and the
value of `*found` afterwards (`none` for a NULL pointer). -/
def Lookup (e : Engine) (f : Faults) (column : Option String) (val : Nat)
    (found : Option Bool) : M (Bool × Option Bool) :=
  tryCatch e
    (match column, found with
      | none, _ => THROW "column is NULL"
      | some _, none => THROW "bool* found is NULL"
      | some col, some _ => do
        lockRead f
        withDtor (unlock f) do
          let n ← queryExists f col val
          pure (true, some (decide (n > 0))))
    (pure (false, found))

/-- See `MySqlStream::LookupById`. -/
def LookupById (e : Engine) (f : Faults) (id : Nat) (found : Option Bool) :
    M (Bool × Option Bool) :=
  Lookup e f (some "id") id found

/-! ## Range deletion -/

/-- Stream table. -/
def STREAM_TABLE : String := "stream"

/-- Stream data table. -/
def STREAMDATA_TABLE : String := "streamdata"

/-- Acquiring the WRITE lock (`LOCK TABLES stream WRITE, streamdata WRITE`),
which implicitly commits an open transaction. -/
def lockWrite (f : Faults) : M Unit :=
  backend f .lockWrite fun w => ((), { w with committed := w.tables })

/-- The operator `more` of `Read` and `Delete`. -/
def moreOp (inclusive_first : Bool) : Op := if inclusive_first then .ge else .gt

/-- The operator `less` of `Read` and `Delete`. -/
def lessOp (inclusive_last : Bool) : Op := if inclusive_last then .le else .lt

/-- The WHERE clause `Delete` formats into its statement: with both bounds
given the upper one is put on column `id`. -/
def deleteWhere (column : String) (first : Nat) (inclusive_first : Bool) (last : Nat)
    (inclusive_last : Bool) : List Cond :=
  if first > 0 ∧ last > 0 then
    [{ column := column, op := moreOp inclusive_first, value := first },
     { column := "id", op := lessOp inclusive_last, value := last }]
  else if first > 0 then [{ column := column, op := moreOp inclusive_first, value := first }]
  else if last > 0 then [{ column := column, op := lessOp inclusive_last, value := last }]
  else []

/-- The WHERE clause `Read` formats into the header query of a batch. -/
def readWhere (column : String) (first : Nat) (inclusive_first : Bool) (last : Nat)
    (inclusive_last : Bool) : List Cond :=
  if first > 0 ∧ last > 0 then
    [{ column := column, op := moreOp inclusive_first, value := first },
     { column := column, op := lessOp inclusive_last, value := last }]
  else if first > 0 then [{ column := column, op := moreOp inclusive_first, value := first }]
  else if last > 0 then [{ column := column, op := lessOp inclusive_last, value := last }]
  else []

/-- Whether every comparison of a clause names a numeric column of `stream`. -/
def whereValid (cs : List Cond) : Bool := cs.all fun c => (colKey c.column).isSome

/-- Whether a row satisfies one comparison (false for an unknown column). -/
def Cond.holds (c : Cond) (r : StreamRow) : Bool :=
  match colKey c.column with
  | none => false
  | some key =>
    match c.op with
    | .ge => decide (c.value ≤ key r)
    | .gt => decide (c.value < key r)
    | .le => decide (key r ≤ c.value)
    | .lt => decide (key r < c.value)

/-- Whether a row satisfies a WHERE clause (the conjunction of its comparisons). -/
def whereHolds (cs : List Cond) (r : StreamRow) : Bool := cs.all fun c => c.holds r

/-- The rows left by `DELETE FROM stream [WHERE ..]`: the header rows
satisfying the clause are removed, and with them every chunk row whose
`masterid` is the id of a removed row (`FOREIGN KEY(masterid) REFERENCES
stream(id) ON DELETE CASCADE` of `InitTranDataTable`). -/
def deleteFrom (cs : List Cond) (t : Tables) : Tables :=
  { stream := t.stream.filter fun r => !whereHolds cs r
    streamdata := t.streamdata.filter fun d =>
      !(t.stream.any fun r => whereHolds cs r && r.id == d.masterid) }

/-- Statement `DELETE FROM stream [WHERE ..]`; a column the table does not
have is an error of the statement. -/
def execDelete (f : Faults) (cs : List Cond) : M Unit :=
  if whereValid cs then
    backend f (.deleteStreams cs) fun w => ((), settle { w with tables := deleteFrom cs w.tables })
  else backend (fun _ => true) (.deleteStreams cs) fun w => ((), w)

/-- The largest value in a list of ids (0 for none). -/
def maxId (ids : List Nat) : Nat := ids.foldl max 0

/-- Statement `ALTER table .. AUTO_INCREMENT=v`: the counter becomes `v`, or
one above the largest id in use when `v` is not above it; the statement commits. -/
def execAlterAutoIncrement (f : Faults) (table : String) (v : Nat) : M Unit :=
  if table = STREAM_TABLE then
    backend f (.alterAutoIncrement table v) fun w =>
      ((), { w with nextStreamId := max v (maxId (w.tables.stream.map fun r => r.id) + 1)
                    committed := w.tables })
  else if table = STREAMDATA_TABLE then
    backend f (.alterAutoIncrement table v) fun w =>
      ((), { w with nextDataId := max v (maxId (w.tables.streamdata.map fun d => d.id) + 1)
                    committed := w.tables })
  else backend (fun _ => true) (.alterAutoIncrement table v) fun w => ((), w)

/-- See `MySqlStream::Delete`. -/
def Delete (e : Engine) (f : Faults) (column : Option String)
    (first : Nat) (inclusive_first : Bool) (last : Nat) (inclusive_last : Bool)
    (reset_id : Bool) : M Bool :=
  tryCatch e
    (match column with
      | none => THROW "column is NULL"
      | some col => do
        setAutoCommit f true
        lockWrite f
        withDtor (unlock f) do
          execDelete f (deleteWhere col first inclusive_first last inclusive_last)
          if reset_id && first == 0 && last == 0 then do
            execAlterAutoIncrement f STREAM_TABLE 1
            execAlterAutoIncrement f STREAMDATA_TABLE 1
            pure true
          else pure true)
    (pure false)

/-- See `MySqlStream::DeleteById` (`reset_id` takes its default, false). -/
def DeleteById (e : Engine) (f : Faults)
    (id_first : Nat) (inclusive_first : Bool) (id_last : Nat) (inclusive_last : Bool) : M Bool :=
  Delete e f (some "id") id_first inclusive_first id_last inclusive_last false

/-- See `MySqlStream::DeleteAll`. -/
def DeleteAll (e : Engine) (f : Faults) : M Bool :=
  Delete e f (some "id") 0 true 0 true false

/-! ## Diagnostics -/

/-- The text `%-Ns` prints for a string: left-justified, padded with blanks to
at least `n` characters. -/
def padTo (n : Nat) (s : String) : String :=
  s ++ String.mk (List.replicate (n - s.length) ' ')

/-- The line `sprintf(buf, "| %-25s | %-20s |", a, b)` of `Describe`. -/
def describeLine (a b : String) : String :=
  "| " ++ padTo 25 a ++ " | " ++ padTo 20 b ++ " |"

/-- The separator line of `Describe`. -/
def describeSeparator : String := "+...........................+......................+"

/-- Statement `DESCRIBE table`: the `Field` and `Type` of every column, as the
server `layout` has them. -/
def queryDescribe (f : Faults) (layout : String → List (String × String)) (table : String) :
    M (List (String × String)) :=
  backend f (.describe table) fun w => (layout table, w)

/-- Logging the lines of a list, one `WriteToLog` each. -/
def logLines (e : Engine) (type : Nat) : List String → M Unit
  | [] => pure ()
  | l :: rest => do
    logMsg e type l
    logLines e type rest

/-- The loop `for(int i=0; tables[i] != NULL; i++)` of `Describe`. -/
def describeTables (e : Engine) (f : Faults) (layout : String → List (String × String)) :
    List String → M Unit
  | [] => pure ()
  | table :: rest => do
    let res ← queryDescribe f layout table
    if res.length > 0 then do
      logMsg e LOG_INFO ("MySqlStream: Table '" ++ table ++ "':")
      logMsg e LOG_INFO describeSeparator
      logMsg e LOG_INFO (describeLine "Field" "Type")
      logMsg e LOG_INFO describeSeparator
      logLines e LOG_INFO (res.map fun c => describeLine c.1 c.2)
      logMsg e LOG_INFO describeSeparator
      describeTables e f layout rest
    else do
      logMsg e LOG_INFO ("MySqlStream: Table '" ++ table ++ "' does not exist.")
      describeTables e f layout rest

/-- See `MySqlStream::Describe`; `layout` is what the server answers to
`DESCRIBE` for each table. -/
def Describe (e : Engine) (f : Faults) (layout : String → List (String × String)) : M Bool :=
  tryCatch e
    (do
      describeTables e f layout [STREAM_TABLE, STREAMDATA_TABLE]
      pure true)
    (pure false)

/-! ## Construction -/

/-- Calls on the connector made while an engine is constructed. -/
inductive InitOp where
  | connect (host user passwd : String)
  | getMetaData
  | getSchemas
  | setSchema (database : String)
  | getTables (schema table : String)
  | createTable (table sql : String)
  | close
deriving DecidableEq, Repr

/-- The server and the process around the construction of an engine. -/
structure Env where
  /-- whether the server accepts a connection for host, user, password -/
  accepts : String → String → String → Bool
  /-- what `getCDBCMajorVersion()` returns (an `unsigned int`) -/
  cdbcMajor : Nat
  /-- what `getCDBCMinorVersion()` returns -/
  cdbcMinor : Nat
  /-- the `TABLE_SCHEM` column of the result of `getSchemas()`; `none`: NULL -/
  schemas : Option (List String)
  /-- whether `getTables(..)` returns a result set (false: NULL) -/
  listsTables : Bool
  /-- the tables on the server, as (schema, table name, definition) -/
  tables : List (String × String × String)
  /-- the schema the connection uses (`setSchema`) -/
  schema : String
  /-- the calls made so far, oldest first, each with whether it threw -/
  ops : List (InitOp × Bool)
  /-- `OnLogInfo` messages -/
  infos : List String
  /-- `OnLogError` messages -/
  errors : List String
  /-- engine objects allocated and not deleted -/
  objects : Nat

/-- A computation over the construction environment. -/
def I (α : Type) : Type := Env → Outcome α × Env

/-- Return a value. -/
def I.pure {α : Type} (a : α) : I α := fun s => (.ret a, s)

/-- Sequencing: an exception or termination skips the rest. -/
def I.bind {α β : Type} (m : I α) (k : α → I β) : I β := fun s =>
  match m s with
  | (.ret a, s1) => k a s1
  | (.throw e, s1) => (.throw e, s1)
  | (.abort, s1) => (.abort, s1)

instance : Monad I where
  pure := I.pure
  bind := I.bind

/-- The `THROW(msg)` of the source during construction. -/
def throwI {α : Type} (msg : String) : I α := fun s => (.throw msg, s)

/-- See `MySqlStream::WriteToLog`, during construction; `logger` tells whether
`mLogger` is non-NULL. -/
def Env.writeToLog (logger : Bool) (type : Nat) (msg : String) (s : Env) : Env :=
  if logger = false then s
  else if type = LOG_ERR then { s with errors := s.errors ++ [msg] }
  else if type = LOG_INFO then { s with infos := s.infos ++ [msg] }
  else s

/-- Logging inside a construction step. -/
def logI (logger : Bool) (type : Nat) (msg : String) : I Unit := fun s =>
  (.ret (), s.writeToLog logger type msg)

/-- The form `TRY { body } CATCH  rest` during construction. -/
def tryCatchI {α : Type} (logger : Bool) (body : I α) (rest : I α) : I α := fun s =>
  match body s with
  | (.ret a, s1) => (.ret a, s1)
  | (.throw msg, s1) => rest (s1.writeToLog logger LOG_ERR msg)
  | (.abort, s1) => (.abort, s1)

/-- One call on the connector: it is recorded with whether it threw; it throws
when the oracle says so or when the server refuses it (`ok` false), and then has
no effect; otherwise `run` is its effect. -/
def callI {α : Type} (f : Faults) (op : InitOp) (ok : Env → Bool) (run : Env → α × Env) : I α :=
  fun s =>
    let threw := f s.ops.length || !ok s
    let s1 := { s with ops := s.ops ++ [(op, threw)] }
    if threw then (.throw "SQLException", s1) else (.ret (run s1).1, (run s1).2)

/-- See `MySqlStream::LookupTable`: the result is the returned boolean and
`*found` afterwards. The catalog and schema arguments of `getTables` are the
connection's; the name pattern holds no wildcard, so the result set holds the
tables of that name in the current schema. -/
def LookupTable (logger : Bool) (f : Faults) (table : String) (found : Bool) : I (Bool × Bool) :=
  tryCatchI logger
    (do
      let res ← (fun s => callI f (.getTables s.schema table) (fun _ => true)
        (fun s1 => ((if s1.listsTables then
            some ((s1.tables.filter fun t => t.1 = s1.schema ∧ t.2.1 = table).map fun t => t.2.1)
          else none), s1)) s : I (Option (List String)))
      match res with
      | none => (fun s => (.throw ("getTables failed for db='" ++ s.schema ++ "', table='" ++
          table ++ "'"), s) : I (Bool × Bool))
      | some names => pure (true, names.any fun n => n == table))
    (pure (false, found))

/-- The statement `CREATE TABLE IF NOT EXISTS ..` sent through `execute`: the
table is added to the current schema unless a table of that name exists. -/
def createTable (f : Faults) (table sql : String) : I Unit :=
  callI f (.createTable table sql) (fun _ => true) fun s =>
    ((), if s.tables.any (fun t => t.1 == s.schema && t.2.1 == table) then s
         else { s with tables := s.tables ++ [(s.schema, table, sql)] })

/-- The statement `InitTranTable` sends to create table `stream`. -/
def streamTableSql : String :=
  "CREATE TABLE IF NOT EXISTS stream (" ++
  "id BIGINT UNSIGNED NOT NULL AUTO_INCREMENT, " ++
  "descr VARCHAR(120) NOT NULL default '', " ++
  "type TINYINT UNSIGNED NOT NULL DEFAULT '0', " ++
  "size BIGINT UNSIGNED NOT NULL DEFAULT '0', " ++
  "timestamp BIGINT UNSIGNED NOT NULL DEFAULT '0', " ++
  "PRIMARY KEY(id)) ENGINE=InnoDB"

/-- The statement `InitTranDataTable` sends to create table `streamdata`. -/
def streamdataTableSql : String :=
  "CREATE TABLE IF NOT EXISTS streamdata (" ++
  "id BIGINT UNSIGNED NOT NULL AUTO_INCREMENT, " ++
  "masterid BIGINT UNSIGNED NOT NULL DEFAULT '0', " ++
  "data BLOB NOT NULL, " ++
  "PRIMARY KEY(id), " ++
  "FOREIGN KEY(masterid) " ++
  "REFERENCES stream(id) " ++
  "ON DELETE CASCADE) ENGINE=InnoDB"

/-- The common body of `InitTranTable` and `InitTranDataTable`: look the table
up, and create it when it is not there. -/
def initTable (logger : Bool) (f : Faults) (table sql : String) : I Bool :=
  tryCatchI logger
    (do
      let r ← LookupTable logger f table false
      if !r.1 then throwI "LookupTable failed"
      else if r.2 then do
        logI logger LOG_INFO ("MySqlStream: The table '" ++ table ++ "' exists.")
        pure true
      else do
        logI logger LOG_INFO ("MySqlStream: The table '" ++ table ++ "' does not exist. Create...")
        logI logger LOG_INFO sql
        createTable f table sql
        logI logger LOG_INFO ("MySqlStream: The table '" ++ table ++ "' created.")
        pure true)
    (pure false)

/-- See `MySqlStream::InitTranTable`. -/
def InitTranTable (logger : Bool) (f : Faults) : I Bool :=
  initTable logger f STREAM_TABLE streamTableSql

/-- See `MySqlStream::InitTranDataTable`. -/
def InitTranDataTable (logger : Bool) (f : Faults) : I Bool :=
  initTable logger f STREAMDATA_TABLE streamdataTableSql

/-- See `MySqlStream::InitDatabase`; obtaining the metadata object and reading
the API major version from it are one call here. -/
def InitDatabase (logger : Bool) (f : Faults) (database : String) : I Bool :=
  tryCatchI logger
    (do
      let major ← callI f .getMetaData (fun _ => true) fun s => (s.cdbcMajor, s)
      logI logger LOG_INFO ("MySqlStream: CDBC (API) major version = " ++ toString major)
      if major ≤ 0 then throwI "API major version must not be 0"
      else do
        let minor ← (fun s => (.ret s.cdbcMinor, s) : I Nat)
        logI logger LOG_INFO ("MySqlStream: CDBC (API) minor version = " ++ toString minor)
        let res ← callI f .getSchemas (fun _ => true) fun s => (s.schemas, s)
        match res with
        | none => throwI "getSchemas failed"
        | some names =>
          if !(names.any fun n => n == database) then
            throwI ("The database '" ++ database ++ "' does not exist")
          else do
            callI f (.setSchema database) (fun _ => true) fun s => ((), { s with schema := database })
            let a ← InitTranTable logger f
            if !a then throwI "InitTable failed"
            else do
              let b ← InitTranDataTable logger f
              if !b then throwI "InitTable failed"
              else pure true)
    (pure false)

/-- The object a constructor call leaves: the members fixed at construction and
whether `mCon` holds a connection. -/
structure MySqlStream where
  engine : Engine
  /-- whether the `unique_ptr` `mCon` is non-null -/
  mCon : Bool

/-- See `MySqlStream::IsValid`. -/
def MySqlStream.IsValid (s : MySqlStream) : Bool := s.mCon

/-- The constructor `MySqlStream::MySqlStream`: inside its `TRY` it connects
(`mCon` is set), runs `InitDatabase` and, when that fails, closes the
connection and resets `mCon`; an exception leaves `mCon` as it is at that
point and is logged by the `CATCH`. -/
def MySqlStream.construct (f : Faults) (host user passwd database : String)
    (reader : Option Reader) (logger : Bool) : I MySqlStream := fun s =>
  let eng : Engine := { mReader := reader, mLogger := logger }
  match callI f (.connect host user passwd) (fun s => s.accepts host user passwd)
      (fun s => ((), s)) s with
  | (.ret _, s1) =>
    match InitDatabase logger f database s1 with
    | (.ret true, s2) => (.ret { engine := eng, mCon := true }, s2)
    | (.ret false, s2) =>
      match callI f .close (fun _ => true) (fun s => ((), s)) s2 with
      | (.ret _, s3) => (.ret { engine := eng, mCon := false }, s3)
      | (.throw msg, s3) => (.ret { engine := eng, mCon := true }, s3.writeToLog logger LOG_ERR msg)
      | (.abort, s3) => (.abort, s3)
    | (.throw msg, s2) => (.ret { engine := eng, mCon := true }, s2.writeToLog logger LOG_ERR msg)
    | (.abort, s2) => (.abort, s2)
  | (.throw msg, s1) => (.ret { engine := eng, mCon := false }, s1.writeToLog logger LOG_ERR msg)
  | (.abort, s1) => (.abort, s1)

/-- See `MySqlStream::Create`: `new MySqlStream(..)`. -/
def MySqlStream.Create (f : Faults) (host user passwd database : String)
    (reader : Option Reader) (logger : Bool) : I MySqlStream := fun s =>
  MySqlStream.construct f host user passwd database reader logger
    { s with objects := s.objects + 1 }

/-- See `MySqlStream::Destroy`: `delete this`. -/
def MySqlStream.Destroy (_ : MySqlStream) : I Unit := fun s =>
  (.ret (), { s with objects := s.objects - 1 })

/-- See `CreateDBStream`: the result is the pointer returned (`none`: NULL);
`Create` never yields NULL. -/
def CreateDBStream (f : Faults) (host user passwd database : String)
    (reader : Option Reader) (logger : Bool) : I (Option MySqlStream) := do
  let mysqlStream ← MySqlStream.Create f host user passwd database reader logger
  if !mysqlStream.IsValid then do
    mysqlStream.Destroy
    pure none
  else pure (some mysqlStream)

/-! ## Auxiliary definitions for the statements -/

/-- Rows inserted for a list of chunks, ids counted up from `i`. -/
def dataRows (m : Nat) : Nat → List (List Byte) → List DataRow
  | _, [] => []
  | i, c :: cs => { id := i, masterid := m, data := c } :: dataRows m (i + 1) cs

/-- The shape of the chunks of one payload: every chunk holds between 1 and
`BUF_SIZE` bytes and every chunk but the last holds exactly `BUF_SIZE`. -/
def ChunkShape (cs : List (List Byte)) : Prop :=
  (∀ c ∈ cs, 0 < c.length ∧ c.length ≤ BUF_SIZE) ∧ ∀ c ∈ cs.dropLast, c.length = BUF_SIZE

/-- Iterations the reading loops need for a source. -/
def IStream.need (s : IStream) : Nat :=
  if s.failbit then 0 else if s.eofbit then 1 else s.buf.length + 2

/-- The world `w2` is `w` with the chunk rows of `cs` appended for master `m`. -/
def Appended (m : Nat) (cs : List (List Byte)) (w w2 : World) : Prop :=
  w2.tables.stream = w.tables.stream ∧
  w2.tables.streamdata = w.tables.streamdata ++ dataRows m w.nextDataId cs ∧
  w2.nextStreamId = w.nextStreamId ∧ w2.nextDataId = w.nextDataId + cs.length ∧
  w2.autoCommit = w.autoCommit ∧ w2.calls = w.calls

/-- Well-formed store: the constraints the schema enforces (primary keys,
AUTO_INCREMENT counters starting at 1 and above every id in use, the foreign
key of `streamdata.masterid`). -/
def Wf (w : World) : Prop :=
  0 < w.nextStreamId ∧
  (∀ r ∈ w.tables.stream, 0 < r.id ∧ r.id < w.nextStreamId) ∧
  (w.tables.stream.map fun r => r.id).Nodup ∧
  (∀ d ∈ w.tables.streamdata, d.id < w.nextDataId ∧ d.masterid < w.nextStreamId) ∧
  (w.tables.streamdata.map fun d => d.id).Nodup

instance (w : World) : Decidable (Wf w) := by
  unfold Wf; infer_instance

/-- The header row a successful `Write` leaves for `hdr` and `n` payload bytes. -/
def writtenRow (id : Nat) (hdr : StreamHeader) (n : Nat) : StreamRow :=
  { id := id, descr := hdr.descr.getD "(null)", type := hdr.type % 256, size := n % 2 ^ 64,
    timestamp := hdr.timestamp }

/-- The fields of the world a statement without effect on data leaves alone. -/
def Same (w w2 : World) : Prop :=
  w2.tables = w.tables ∧ w2.nextStreamId = w.nextStreamId ∧ w2.nextDataId = w.nextDataId ∧
  w2.lastInsertId = w.lastInsertId ∧ w2.calls = w.calls

/-- The chunk rows of stream `m` in ascending chunk-id order (what the chunk
query of `ReadData` selects). -/
def chunkRows (t : Tables) (m : Nat) : List DataRow :=
  (t.streamdata.filter fun d => d.masterid = m).insertionSort fun a b => a.id ≤ b.id

/-- The stream `id` of the tables holds exactly `bytes`: its chunks in
ascending chunk-id order concatenate to `bytes`, a header row with that id
exists, and the `size` of every such row is the number of bytes, which is
the sum of the chunk lengths. -/
def Holds (t : Tables) (id : Nat) (bytes : List Byte) : Prop :=
  ((chunkRows t id).map fun d => d.data).flatten = bytes ∧
  (∃ r ∈ t.stream, r.id = id) ∧
  ∀ r ∈ t.stream, r.id = id →
    r.size = bytes.length ∧ r.size = ((chunkRows t id).map fun d => d.data.length).sum

/-- An engine with a reader that never stops and a logger. -/
def exEngine : Engine := { mReader := some fun _ _ => true, mLogger := true }

/-- An empty store on a fresh connection. -/
def exEmpty : World :=
  { tables := { stream := [], streamdata := [] }, committed := { stream := [], streamdata := [] },
    autoCommit := true, nextStreamId := 1, nextDataId := 1, lastInsertId := 0, log := [],
    calls := [], errors := [], infos := [] }

/-- A header whose declared size (7) differs from the payload written. -/
def exHdr : StreamHeader := { id := 0, descr := some "a", type := 1, timestamp := 5, size := 7 }

/-- The store after writing the three bytes 1, 2, 3 under `exHdr` into `exEmpty`. -/
def exWritten : World :=
  { tables := { stream := [{ id := 1, descr := "a", type := 1, size := 3, timestamp := 5 }],
                streamdata := [{ id := 1, masterid := 1, data := [1, 2, 3] }] },
    committed := { stream := [{ id := 1, descr := "a", type := 1, size := 3, timestamp := 5 }],
                   streamdata := [{ id := 1, masterid := 1, data := [1, 2, 3] }] },
    autoCommit := false, nextStreamId := 2, nextDataId := 2, lastInsertId := 1,
    log := [.setAutoCommit false, .insertStream "a" 1 5, .selectLastInsertId, .prepareInsertData,
            .insertData 1 [1, 2, 3], .updateSize 3 1, .commit],
    calls := [], errors := [], infos := [] }

/-- Inside an open transaction (autocommit off) the computation keeps the
transaction open and the committed rows untouched, and does not terminate the
program. -/
def KeepsTxn {α : Type} (m : M α) : Prop :=
  ∀ w r w2, w.autoCommit = false → m w = (r, w2) →
    r ≠ .abort ∧ (∀ a, r = .ret a → w2.autoCommit = false ∧ w2.committed = w.committed) ∧
      ∀ msg, r = .throw msg → w2.committed = w.committed

/-- Inside an open transaction an exception of the computation leaves the
committed rows untouched, and the computation does not terminate the program. -/
def ThrowKeeps {α : Type} (m : M α) : Prop :=
  ∀ w r w2, w.autoCommit = false → m w = (r, w2) →
    r ≠ .abort ∧ ∀ msg, r = .throw msg → w2.committed = w.committed

/-- No statement sent between `w` and `w2` failed. -/
def NoFaultIn (f : Faults) (w w2 : World) : Prop :=
  w.log.length ≤ w2.log.length ∧ ∀ n, w.log.length ≤ n → n < w2.log.length → f n = false

/-- A normal completion of the computation means that none of the statements
it sent failed. -/
def RetClean {α : Type} (f : Faults) (m : M α) : Prop :=
  ∀ w a w2, m w = (.ret a, w2) → NoFaultIn f w w2

/-- A fault oracle that fails the fifth statement (position 4). -/
def exFault : Faults := fun n => n == 4

/-- The store after a `Write` into `exEmpty` whose chunk insert failed. -/
def exRolledBack : World :=
  { tables := { stream := [], streamdata := [] }, committed := { stream := [], streamdata := [] },
    autoCommit := false, nextStreamId := 2, nextDataId := 1, lastInsertId := 1,
    log := [.setAutoCommit false, .insertStream "a" 1 5, .selectLastInsertId, .prepareInsertData,
            .insertData 1 [1, 2, 3], .rollback],
    calls := [], errors := ["SQLException"], infos := [] }

/-- The BEGIN call for a header. -/
def beginCall (hdr : StreamHeader) : Call :=
  { hdr := hdr, data := [], state := DB_STREAM_READ_BEGIN }

/-- The END call for a header. -/
def endCall (hdr : StreamHeader) : Call :=
  { hdr := hdr, data := [], state := DB_STREAM_READ_END }

/-- The DATA call for a header and a block of bytes. -/
def dataCall (hdr : StreamHeader) (b : List Byte) : Call :=
  { hdr := hdr, data := b, state := DB_STREAM_READ_DATA }

/-- The event of a DATA call delivered after the events `hist`. -/
def dataEvent (rd : Reader) (hist : List Event) (hdr : StreamHeader) (b : List Byte) : Event :=
  { call := dataCall hdr b, answer := rd hist (dataCall hdr b) }

/-- The events are DATA calls for `hdr`, each carrying between 1 and `BUF_SIZE`
bytes. -/
def DataEvents (hdr : StreamHeader) (ext : List Event) : Prop :=
  ∀ x ∈ ext, x.call.hdr = hdr ∧ x.call.state = DB_STREAM_READ_DATA ∧
    0 < x.call.data.length ∧ x.call.data.length ≤ BUF_SIZE

/-- Every recorded answer is an answer of the reader `rd` to that call. -/
def Answered (rd : Reader) (ext : List Event) : Prop :=
  ∀ x ∈ ext, ∃ hist, x.answer = rd hist x.call

/-- A run of calls each of which can stop the reading: either all were
answered true (`k = true`), or the last one was answered false and all before
it true (`k = false`). -/
def Chain (ext : List Event) (k : Bool) : Prop :=
  (k = true ∧ ∀ x ∈ ext, x.answer = true) ∨
  (k = false ∧ ∃ e1 c, ext = e1 ++ [{ call := c, answer := false }] ∧ ∀ x ∈ e1, x.answer = true)

/-- The world with further `OnRead` events recorded. -/
def World.deliver (w : World) (ext : List Event) : World :=
  { w with calls := w.calls ++ ext }

/-- What one blob loop delivers: DATA events for `hdr`, answered by `rd`,
forming a chain that ends with `k`; when not stopped their bytes are `bytes`. -/
def DataRun (rd : Reader) (hdr : StreamHeader) (bytes : List Byte) (ext : List Event)
    (k : Bool) : Prop :=
  DataEvents hdr ext ∧ Answered rd ext ∧ Chain ext k ∧
    (k = true → (ext.map fun x => x.call.data).flatten = bytes)

/-- Every chunk query `SELECT id FROM streamdata WHERE masterid = m` among the
statements `lg` belongs to a stream of non-zero size for which the reader was
called in `ext`. -/
def ChunkQueried (lg : List Stmt) (ext : List Event) : Prop :=
  ∀ m, Stmt.selectDataIds m ∈ lg → ∃ x ∈ ext, x.call.hdr.id = m ∧ x.call.hdr.size ≠ 0

/-- The world `w2` is `w` after a stretch that changed no row, delivered the
events `ext`, and sent chunk queries only for streams of `ext`. -/
def Reads (w w2 : World) (ext : List Event) : Prop :=
  w2.tables = w.tables ∧ w2.calls = w.calls ++ ext ∧
    ∃ lg, w2.log = w.log ++ lg ∧ ChunkQueried lg ext

/-- The trace of one stream with data: BEGIN, DATA events, END, all for `hdr`;
BEGIN and the DATA events form a chain that ends stopped or not; when not
stopped the DATA bytes are the stream's chunks in ascending chunk-id order. -/
def StreamTrace (rd : Reader) (t : Tables) (hdr : StreamHeader) (g : List Event)
    (stopped : Bool) : Prop :=
  ∃ a datas a2, g = { call := beginCall hdr, answer := a } :: datas ++
      [{ call := endCall hdr, answer := a2 }] ∧
    (∃ hist, a = rd hist (beginCall hdr)) ∧ (∃ hist, a2 = rd hist (endCall hdr)) ∧
    DataEvents hdr datas ∧ Answered rd datas ∧
    Chain ({ call := beginCall hdr, answer := a } :: datas) (!stopped) ∧
    (stopped = false →
      (datas.map fun x => x.call.data).flatten = ((chunkRows t hdr.id).map fun d => d.data).flatten)

/-- The trace of one header row: for a row of size 0 just BEGIN and END (never
stopped); for a row with data the trace of `ReadData`. -/
def Group (rd : Reader) (t : Tables) (row : StreamRow) (g : List Event) (stopped : Bool) : Prop :=
  if row.size = 0 then
    stopped = false ∧ ∃ a a2, g = [{ call := beginCall (hdrOfRow row), answer := a },
        { call := endCall (hdrOfRow row), answer := a2 }] ∧
      (∃ hist, a = rd hist (beginCall (hdrOfRow row))) ∧
      (∃ hist, a2 = rd hist (endCall (hdrOfRow row)))
  else StreamTrace rd t (hdrOfRow row) g stopped

/-- The traces of a scan: `RowsTrace rd t rows ext stopped` says that visiting
exactly the rows `rows`, in this order, delivers the events `ext`, the last
row having stopped the scan or not. -/
inductive RowsTrace (rd : Reader) (t : Tables) : List StreamRow → List Event → Bool → Prop where
  | nil : RowsTrace rd t [] [] false
  | cons {row : StreamRow} {rest : List StreamRow} {g ext : List Event} {s : Bool} :
      Group rd t row g false → RowsTrace rd t rest ext s → RowsTrace rd t (row :: rest) (g ++ ext) s
  | stop {row : StreamRow} {g : List Event} : Group rd t row g true → RowsTrace rd t [row] g true

/-- Every chunk row is the first row its own id selects (ids are a primary key). -/
def ChunksFound (t : Tables) : Prop :=
  ∀ d ∈ t.streamdata, ∃ more,
    ((t.streamdata.filter fun x => x.id = d.id).map fun x => x.data) = d.data :: more

/-- The bound `Read` puts into the statement for `first` (or `last`): none
when the value is 0. -/
def boundOf (v : Nat) (inclusive : Bool) : Bound :=
  if v > 0 then some (inclusive, v) else none

/-- Strictly ascending ids. -/
def AscIds (l : List StreamRow) : Prop := l.Sorted fun a b => a.id < b.id

/-- A call whose answer `false` stops the scan: a DATA call, or the BEGIN call
of a stream of non-zero size. -/
def Stopping (c : Call) : Prop :=
  c.state = DB_STREAM_READ_DATA ∨ (c.state = DB_STREAM_READ_BEGIN ∧ c.hdr.size ≠ 0)

/-- No stopping call of the events was answered false. -/
def Quiet (ext : List Event) : Prop := ∀ x ∈ ext, Stopping x.call → x.answer = true

/-- The rows `ReadById` selects over all batches: the rows within the bounds in
ascending id order. -/
def inRange (first : Nat) (inclusive_first : Bool) (last : Nat) (inclusive_last : Bool)
    (t : Tables) : List StreamRow :=
  selectRows (fun r => r.id) (boundOf first inclusive_first) (boundOf last inclusive_last) none
    t.stream

/-- A reader that stops at the first DATA call. -/
def exStopAtData : Reader := fun _ c => c.state != DB_STREAM_READ_DATA

/-- A reader that stops at every call. -/
def exStopAlways : Reader := fun _ _ => false

/-- The header `ReadById` passes for the stream of `exWritten`. -/
def exHdr1 : StreamHeader := { id := 1, descr := some "a", type := 1, timestamp := 5, size := 3 }

/-- A store with two streams of size 0 (ids 1 and 2). -/
def exTwoEmpty : World :=
  { tables := { stream := [{ id := 1, descr := "a", type := 0, size := 0, timestamp := 5 },
                           { id := 2, descr := "b", type := 0, size := 0, timestamp := 6 }],
                streamdata := [] },
    committed := { stream := [{ id := 1, descr := "a", type := 0, size := 0, timestamp := 5 },
                              { id := 2, descr := "b", type := 0, size := 0, timestamp := 6 }],
                   streamdata := [] },
    autoCommit := false, nextStreamId := 3, nextDataId := 1, lastInsertId := 0, log := [],
    calls := [], errors := [], infos := [] }

/-- The headers of the BEGIN calls among the events, in order: the rows visited. -/
def begins (ext : List Event) : List StreamHeader :=
  (ext.filter fun x => x.call.state = DB_STREAM_READ_BEGIN).map fun x => x.call.hdr

/-- The bytes of the DATA calls delivered for stream `id`, concatenated in call
order. -/
def dataOf (id : Nat) (ext : List Event) : List Byte :=
  ((ext.filter fun x => x.call.hdr.id = id ∧ x.call.state = DB_STREAM_READ_DATA).map
    fun x => x.call.data).flatten

/-- The stored payload of a header row: nothing for size 0, else its chunks in
ascending chunk-id order. -/
def bytesOf (t : Tables) (row : StreamRow) : List Byte :=
  if row.size = 0 then [] else ((chunkRows t row.id).map fun d => d.data).flatten

/-- The store after writing an empty payload under `exHdr` into `exEmpty`. -/
def exWrittenEmpty : World :=
  { tables := { stream := [{ id := 1, descr := "a", type := 1, size := 0, timestamp := 5 }],
                streamdata := [] },
    committed := { stream := [{ id := 1, descr := "a", type := 1, size := 0, timestamp := 5 }],
                   streamdata := [] },
    autoCommit := false, nextStreamId := 2, nextDataId := 1, lastInsertId := 1,
    log := [.setAutoCommit false, .insertStream "a" 1 5, .selectLastInsertId, .prepareInsertData,
            .updateSize 0 1, .commit],
    calls := [], errors := [], infos := [] }

/-- The caller's header after `Get` fetched the rows `res` (none or one). -/
def gotHeader (h : StreamHeader) (res : List StreamRow) : StreamHeader :=
  match res with
  | [] => { h with id := 0, descr := none, size := 0, timestamp := 0 }
  | row :: _ => { h with id := row.id, descr := some row.descr, size := row.size,
                         timestamp := row.timestamp }

/-- The value `v` is within the bounds of a range operation: a bound applies
only when its value is above 0. -/
def Within (first : Nat) (inclusive_first : Bool) (last : Nat) (inclusive_last : Bool)
    (v : Nat) : Prop :=
  (0 < first → if inclusive_first = true then first ≤ v else first < v) ∧
  (0 < last → if inclusive_last = true then v ≤ last else v < last)

instance (first : Nat) (inclusive_first : Bool) (last : Nat) (inclusive_last : Bool) (v : Nat) :
    Decidable (Within first inclusive_first last inclusive_last v) := by
  unfold Within; infer_instance

/-- The store after `DeleteById(1, true, 1, true)` on `exWritten`. -/
def exDeleted : World :=
  { tables := { stream := [], streamdata := [] }, committed := { stream := [], streamdata := [] },
    autoCommit := true, nextStreamId := 2, nextDataId := 2, lastInsertId := 1,
    log := [.setAutoCommit false, .insertStream "a" 1 5, .selectLastInsertId, .prepareInsertData,
            .insertData 1 [1, 2, 3], .updateSize 3 1, .commit, .setAutoCommit true, .lockWrite,
            .deleteStreams [{ column := "id", op := .ge, value := 1 },
                            { column := "id", op := .le, value := 1 }], .unlock],
    calls := [], errors := [], infos := [] }

/-- A relation between the world before and the world after that composes and
holds across log output and reader calls. -/
structure Stable (R : World → World → Prop) : Prop where
  refl : ∀ w, R w w
  trans : ∀ w1 w2 w3, R w1 w2 → R w2 w3 → R w1 w3
  log : ∀ (e : Engine) (t : Nat) (msg : String) (w : World), R w (WriteToLog e t msg w)
  call : ∀ (w : World) (ev : Event), R w { w with calls := w.calls ++ [ev] }

/-- The relation holds between the world before and after the computation,
whatever the outcome. -/
def Inv {α : Type} (R : World → World → Prop) (m : M α) : Prop := ∀ w, R w (m w).2

/-- The tables are as before. -/
def TablesKept (w w2 : World) : Prop := w2.tables = w.tables

/-- The statements sent in between all satisfy `p`. -/
def Issues (p : Stmt → Prop) (w w2 : World) : Prop :=
  ∃ lg, w2.log = w.log ++ lg ∧ ∀ s ∈ lg, p s

/-- The effect of a statement alone (its `run`) keeps the relation, and so does
recording the statement. -/
def StmtOk (R : World → World → Prop) {α : Type} (s : Stmt) (run : World → α × World) : Prop :=
  ∀ w, R w { w with log := w.log ++ [s] } ∧ R w (run w).2

/-- Recording the statement `s` as sent keeps the relation. -/
def Logs (R : World → World → Prop) (s : Stmt) : Prop :=
  ∀ w, R w { w with log := w.log ++ [s] }

/-- The implicit commit of `LOCK TABLES` and `UNLOCK TABLES` keeps the relation. -/
def Commits (R : World → World → Prop) : Prop :=
  ∀ w, R w { w with committed := w.tables }

/-- The statements a scan sends. -/
def IsReadStmt : Stmt → Prop
  | .lockRead => True
  | .unlock => True
  | .selectStreams _ _ _ _ => True
  | .selectDataIds _ => True
  | .selectData _ => True
  | _ => False

/-- The statements `Delete` may send for its arguments. -/
def IsDeleteStmt (column : Option String) (first : Nat) (inclusive_first : Bool) (last : Nat)
    (inclusive_last : Bool) (reset_id : Bool) (s : Stmt) : Prop :=
  s = .setAutoCommit true ∨ s = .lockWrite ∨ s = .unlock ∨
  (∃ col, column = some col ∧
    s = .deleteStreams (deleteWhere col first inclusive_first last inclusive_last)) ∨
  (reset_id = true ∧ first = 0 ∧ last = 0 ∧
    (s = .alterAutoIncrement STREAM_TABLE 1 ∨ s = .alterAutoIncrement STREAMDATA_TABLE 1))

/-- A chunk query of `ReadData`: the chunk ids of a stream, or the data of one
chunk. -/
def IsChunkQuery : Stmt → Prop
  | .selectDataIds _ => True
  | .selectData _ => True
  | _ => False

/-- Statement lists made of complete batches: each batch is the READ lock, the
header query, chunk queries, and the unlock. -/
inductive LockPairs : List Stmt → Prop where
  | nil : LockPairs []
  | batch (col : String) (lo up : Bound) (lim : Option Nat) (qs rest : List Stmt) :
      (∀ q ∈ qs, IsChunkQuery q) → LockPairs rest →
      LockPairs (.lockRead :: .selectStreams col lo up lim :: (qs ++ .unlock :: rest))

/-- The computation never ends the program. -/
def NoAbort {α : Type} (m : M α) : Prop := ∀ w, (m w).1 ≠ .abort

/-- What construction steps other than allocation keep: the parameters of the
server, the number of engine objects, and the calls recorded before; the calls
added are not `close`. -/
def EnvKept (s s2 : Env) : Prop :=
  s2.accepts = s.accepts ∧ s2.schemas = s.schemas ∧ s2.listsTables = s.listsTables ∧
  s2.cdbcMajor = s.cdbcMajor ∧ s2.objects = s.objects ∧
  ∃ ops, s2.ops = s.ops ++ ops ∧ ∀ p ∈ ops, p.1 ≠ .close

/-- The step keeps the environment (`EnvKept`), does not end the program, and
when it returns normally every call it made succeeded. -/
def StepI {α : Type} (m : I α) : Prop :=
  ∀ s, (m s).1 ≠ .abort ∧ EnvKept s (m s).2 ∧
    ((∃ a, (m s).1 = .ret a) → ∀ p ∈ (m s).2.ops.drop s.ops.length, p.2 = false)

/-- A function with its own `TRY`/`CATCH`: it always returns, keeps the
environment (`EnvKept`), and when the value it returns is good every call it
made succeeded. -/
def TriesI {α : Type} (good : α → Bool) (m : I α) : Prop :=
  ∀ s, (∃ a, (m s).1 = .ret a) ∧ EnvKept s (m s).2 ∧
    ∀ a, (m s).1 = .ret a → good a = true → ∀ p ∈ (m s).2.ops.drop s.ops.length, p.2 = false

/-- A server that accepts every connection and has the one schema `test`, with
no table in it. -/
def exServer : Env :=
  { accepts := fun _ _ _ => true, cdbcMajor := 1, cdbcMinor := 0, schemas := some ["test"],
    listsTables := true, tables := [], schema := "", ops := [], infos := [], errors := [],
    objects := 0 }

/-- Statements that are not a lock statement. -/
def NotLock : Stmt → Prop
  | .lockRead => False
  | .lockWrite => False
  | _ => True

/-- Statements that are not a WRITE lock. -/
def NotLockWrite : Stmt → Prop
  | .lockWrite => False
  | _ => True

/-- Statements that are not a READ lock. -/
def NotLockRead : Stmt → Prop
  | .lockRead => False
  | _ => True

/-- The text of the lock statements (`SqlLock::Lock`). -/
def lockSql : Stmt → Option String
  | .lockRead =>
    some ("LOCK TABLES " ++ STREAM_TABLE ++ " READ LOCAL, " ++ STREAMDATA_TABLE ++ " READ LOCAL")
  | .lockWrite => some ("LOCK TABLES " ++ STREAM_TABLE ++ " WRITE, " ++ STREAMDATA_TABLE ++ " WRITE")
  | _ => none

/-- The statements sent by a computation started in `w`. -/
def issued {α : Type} (m : M α) (w : World) : List Stmt := (m w).2.log.drop w.log.length

/-- Both AUTO_INCREMENT counters are as before. -/
def CountersKept (w w2 : World) : Prop :=
  w2.nextStreamId = w.nextStreamId ∧ w2.nextDataId = w.nextDataId

/-- Neither AUTO_INCREMENT counter is lower than before. -/
def CountersGrow (w w2 : World) : Prop :=
  w.nextStreamId ≤ w2.nextStreamId ∧ w.nextDataId ≤ w2.nextDataId

/-- An `ALTER TABLE .. AUTO_INCREMENT` statement. -/
def IsAlter : Stmt → Prop
  | .alterAutoIncrement _ _ => True
  | _ => False

/-- The backend fails the statement sent eleventh: for a scan started in
`exWritten` (seven statements sent so far) that is the fourth statement of the
scan, the chunk query `SELECT data FROM streamdata WHERE id=1`. -/
def exFaultAtData : Faults := fun n => n == 10

/-- A store of `n` streams of size 0 with the ids 1 to `n`, all with the
timestamp `t`. -/
def exSameTime (t n : Nat) : World :=
  { exEmpty with
    tables := { stream := (List.range n).map fun i =>
                  { id := i + 1, descr := "", type := 0, size := 0, timestamp := t },
                streamdata := [] }
    nextStreamId := n + 1 }

/-- The lower bounds of the header queries among the statements, in the order
the queries were sent. -/
def headerBounds (lg : List Stmt) : List Bound :=
  lg.filterMap fun s =>
    match s with
    | .selectStreams _ lo _ _ => some lo
    | _ => none

/-- The ids of the last rows of the full batches of `limit` rows into which the
rows `sel` split: the ids at the positions `limit - 1`, `2 * limit - 1`, and so
on. -/
def cursorIds (limit : Nat) (sel : List StreamRow) : List Nat :=
  (List.range (sel.length / limit)).map fun k =>
    ((sel[limit * k + (limit - 1)]?).map fun r => r.id).getD 0

/-- Whether the current schema holds a table of that name (the test of
`CREATE TABLE IF NOT EXISTS`). -/
def Env.hasTable (s : Env) (table : String) : Bool :=
  s.tables.any fun t => t.1 == s.schema && t.2.1 == table

/-- Started in a state satisfying `P`, the step ends in a state satisfying `Q`
when it returns, and in a state satisfying `E` when it throws or ends the
program. -/
def HoareI {α : Type} (P : Env → Prop) (m : I α) (Q E : Env → Prop) : Prop :=
  ∀ s, P s → ((∃ a, (m s).1 = .ret a) → Q (m s).2) ∧ ((∀ a, (m s).1 ≠ .ret a) → E (m s).2)

/-- The connector calls `InitDatabase` may make for database `db`. -/
def InitAllowed (db : String) (op : InitOp) : Prop :=
  op = .getMetaData ∨ op = .getSchemas ∨ op = .setSchema db ∨
  op = .getTables db STREAM_TABLE ∨ op = .getTables db STREAMDATA_TABLE ∨
  op = .createTable STREAM_TABLE streamTableSql ∨
  op = .createTable STREAMDATA_TABLE streamdataTableSql

/-- A statement sent through `execute` during construction. -/
def IsCreate : InitOp → Prop
  | .createTable _ _ => True
  | _ => False

/-- Schema `db` holds both tables, `stream` and `streamdata`. -/
def HasBoth (db : String) (tables : List (String × String × String)) : Prop :=
  (∃ t ∈ tables, t.1 = db ∧ t.2.1 = STREAM_TABLE) ∧
  (∃ t ∈ tables, t.1 = db ∧ t.2.1 = STREAMDATA_TABLE)

/-- What `InitDatabase db` started in `s0` leaves, whatever its outcome: the
tables of `s0` followed by at most the two tables of the engine created in
`db`; only calls of `InitAllowed`; and when `db` held both tables, no statement
sent and the tables as they were. -/
def InitPost (db : String) (s0 s : Env) : Prop :=
  (∃ added, s.tables = s0.tables ++ added ∧
    ∀ t ∈ added, t = (db, STREAM_TABLE, streamTableSql) ∨
      t = (db, STREAMDATA_TABLE, streamdataTableSql)) ∧
  (∃ ops, s.ops = s0.ops ++ ops ∧ (∀ p ∈ ops, InitAllowed db p.1) ∧
    (HasBoth db s0.tables → ∀ p ∈ ops, ¬ IsCreate p.1)) ∧
  (HasBoth db s0.tables → s.tables = s0.tables)

/-- The state of `InitDatabase` before the schema is set: no table touched,
only metadata calls made. -/
def InitEarly (db : String) (s0 s : Env) : Prop :=
  s.tables = s0.tables ∧
  ∃ ops, s.ops = s0.ops ++ ops ∧
    ∀ p ∈ ops, p.1 = .getMetaData ∨ p.1 = .getSchemas ∨ p.1 = .setSchema db

/-- The state of `InitDatabase` once the schema is set. -/
def InitLate (db : String) (s0 s : Env) : Prop := s.schema = db ∧ InitPost db s0 s

/-- The backend fails the commit and the rollback of a `Write` into `exEmpty`
(the statements sent seventh and eighth). -/
def exFaultCommitRollback : Faults := fun n => n == 6 || n == 7

/-- The backend fails the fourth connector call: for `CreateDBStream` on a
database the server does not have, that is the `close()` after the failed
`InitDatabase`. -/
def exFaultAtClose : Faults := fun n => n == 3

/-! ## Control-flow lemmas -/

theorem bind_apply {α β : Type} (m : M α) (k : α → M β) (w : World) :
    (m >>= k) w = match m w with
      | (.ret a, w1) => k a w1
      | (.throw e, w1) => (.throw e, w1)
      | (.abort, w1) => (.abort, w1) := rfl

theorem pure_apply {α : Type} (a : α) (w : World) : (pure a : M α) w = (.ret a, w) := rfl

theorem bind_ret_iff {α β : Type} (m : M α) (k : α → M β) (w w2 : World) (b : β) :
    (m >>= k) w = (.ret b, w2) ↔ ∃ a w1, m w = (.ret a, w1) ∧ k a w1 = (.ret b, w2) := by
  rw [bind_apply]
  rcases h : m w with ⟨r, w1⟩
  cases r with
  | ret a =>
    constructor
    · intro hk; exact ⟨a, w1, rfl, hk⟩
    · rintro ⟨a1, w3, heq, hk⟩
      simp only [Prod.mk.injEq, Outcome.ret.injEq] at heq
      obtain ⟨rfl, rfl⟩ := heq
      exact hk
  | throw e => simp
  | abort => simp

theorem backend_ret_iff {α : Type} (f : Faults) (s : Stmt) (run : World → α × World)
    (w w2 : World) (a : α) :
    backend f s run w = (.ret a, w2) ↔
      f w.log.length = false ∧ a = (run { w with log := w.log ++ [s] }).1 ∧
        w2 = (run { w with log := w.log ++ [s] }).2 := by
  unfold backend
  by_cases h : f w.log.length = true
  · simp [h]
  · simp [h]
    constructor
    · rintro ⟨h1, h2⟩; exact ⟨h1.symm, h2.symm⟩
    · rintro ⟨h1, h2⟩; exact ⟨h1.symm, h2.symm⟩

/-! ## Chunk lists: lemmas -/

theorem ChunkShape.ChunkShape_nil : ChunkShape [] := by
  simp [ChunkShape]

theorem ChunkShape.ChunkShape_single (c : List Byte) (h0 : 0 < c.length) (h1 : c.length ≤ BUF_SIZE) :
    ChunkShape [c] := by
  simp [ChunkShape, h0, h1]

theorem ChunkShape.ChunkShape_cons (c : List Byte) (cs : List (List Byte)) (hc : c.length = BUF_SIZE)
    (h : ChunkShape cs) : ChunkShape (c :: cs) := by
  obtain ⟨h1, h2⟩ := h
  refine ⟨?_, ?_⟩
  · intro x hx
    rcases List.mem_cons.mp hx with rfl | hx
    · rw [hc]; simp [BUF_SIZE]
    · exact h1 x hx
  · intro x hx
    cases cs with
    | nil => simp at hx
    | cons d ds =>
      rw [List.dropLast_cons₂] at hx
      rcases List.mem_cons.mp hx with rfl | hx
      · exact hc
      · exact h2 x hx

theorem ChunkShape.ChunkShape_length_eq : ∀ (cs : List (List Byte)), ChunkShape cs →
    cs.length = (cs.flatten.length + (BUF_SIZE - 1)) / BUF_SIZE
  | [], _ => by simp [BUF_SIZE]
  | [c], h => by
    have := h.1 c (by simp)
    simp only [List.flatten, List.append_nil, List.length_singleton]
    have hB : BUF_SIZE = 65535 := rfl
    rw [hB] at this ⊢
    omega
  | c :: d :: ds, h => by
    have hc : c.length = BUF_SIZE := h.2 c (by simp)
    have hrest : ChunkShape (d :: ds) := by
      refine ⟨fun x hx => h.1 x (List.mem_cons_of_mem _ hx), fun x hx => h.2 x ?_⟩
      rw [List.dropLast_cons₂]
      exact List.mem_cons_of_mem _ hx
    have ih := ChunkShape.ChunkShape_length_eq (d :: ds) hrest
    have hj : (c :: d :: ds).flatten.length = BUF_SIZE + (d :: ds).flatten.length := by
      simp [List.flatten, hc]
    rw [hj, List.length_cons, ih]
    have hB : BUF_SIZE = 65535 := rfl
    rw [hB]
    omega

@[simp] theorem settle_tables (w : World) : (settle w).tables = w.tables := by
  unfold settle; split <;> rfl
@[simp] theorem settle_nextStreamId (w : World) : (settle w).nextStreamId = w.nextStreamId := by
  unfold settle; split <;> rfl
@[simp] theorem settle_nextDataId (w : World) : (settle w).nextDataId = w.nextDataId := by
  unfold settle; split <;> rfl
@[simp] theorem settle_lastInsertId (w : World) : (settle w).lastInsertId = w.lastInsertId := by
  unfold settle; split <;> rfl
@[simp] theorem settle_autoCommit (w : World) : (settle w).autoCommit = w.autoCommit := by
  unfold settle; split <;> rfl
@[simp] theorem settle_calls (w : World) : (settle w).calls = w.calls := by
  unfold settle; split <;> rfl
@[simp] theorem settle_log (w : World) : (settle w).log = w.log := by
  unfold settle; split <;> rfl
@[simp] theorem settle_errors (w : World) : (settle w).errors = w.errors := by
  unfold settle; split <;> rfl
@[simp] theorem settle_infos (w : World) : (settle w).infos = w.infos := by
  unfold settle; split <;> rfl
theorem settle_committed (w : World) (h : w.autoCommit = false) :
    (settle w).committed = w.committed := by
  unfold settle; simp [h]

theorem read_bad (s : IStream) (n : Nat) (h : s.eofbit = true ∨ s.failbit = true) :
    s.read n = ([], { s with failbit := true }) := by
  unfold IStream.read
  rcases h with h | h <;> simp [h]

theorem read_full (s : IStream) (n : Nat) (he : s.eofbit = false) (hf : s.failbit = false)
    (h : n ≤ s.buf.length) : s.read n = (s.buf.take n, { s with buf := s.buf.drop n }) := by
  unfold IStream.read
  simp [he, hf, h]

theorem read_short (s : IStream) (n : Nat) (he : s.eofbit = false) (hf : s.failbit = false)
    (h : s.buf.length < n) :
    s.read n = (s.buf, { buf := [], eofbit := true, failbit := true }) := by
  unfold IStream.read
  simp [he, hf, Nat.not_le.mpr h]

theorem writeLoop_failed (f : Faults) (m fuel : Nat) (s : IStream) (tot : Nat)
    (h : s.failbit = true) : writeLoop f m fuel s tot = pure tot := by
  cases fuel with
  | zero => rfl
  | succ k => unfold writeLoop; simp [IStream.ok, h]

theorem writeLoop_skip (f : Faults) (m fuel : Nat) (s : IStream) (tot : Nat)
    (h : s.failbit = false) (h0 : (s.read BUF_SIZE).1 = []) :
    writeLoop f m (fuel + 1) s tot =
      writeLoop f m fuel (s.read BUF_SIZE).2 ((tot + 0) % 2 ^ 64) := by
  rw [writeLoop]
  simp [IStream.ok, h, h0]

theorem writeLoop_block (f : Faults) (m fuel : Nat) (s : IStream) (tot : Nat)
    (h : s.failbit = false) (h0 : 0 < (s.read BUF_SIZE).1.length) :
    writeLoop f m (fuel + 1) s tot =
      (execInsertData f m (s.read BUF_SIZE).1 >>= fun _ =>
        writeLoop f m fuel (s.read BUF_SIZE).2 ((tot + (s.read BUF_SIZE).1.length) % 2 ^ 64)) := by
  rw [writeLoop]
  simp only [IStream.ok, h, Bool.not_false, ↓reduceIte, gt_iff_lt, h0]

theorem Appended.Appended_refl (m : Nat) (w : World) : Appended m [] w w := by
  simp [Appended, dataRows]

theorem Appended.Appended_step (f : Faults) (m : Nat) (c : List Byte) (cs : List (List Byte))
    (w w1 w2 : World) (a : Unit) (h1 : execInsertData f m c w = (.ret a, w1))
    (h2 : Appended m cs w1 w2) : Appended m (c :: cs) w w2 := by
  simp only [execInsertData, backend_ret_iff] at h1
  obtain ⟨_, _, rfl⟩ := h1
  obtain ⟨a1, a2, a3, a4, a5, a6⟩ := h2
  simp only [settle_tables, settle_nextDataId, settle_nextStreamId, settle_autoCommit,
    settle_calls] at a1 a2 a3 a4 a5 a6
  refine ⟨a1, ?_, a3, ?_, a5, a6⟩
  · rw [a2]; simp [dataRows]
  · rw [a4]; simp; omega

theorem writeLoop_ret (f : Faults) (m : Nat) :
    ∀ (fuel : Nat) (s : IStream) (tot : Nat) (w w2 : World) (r : Nat),
      s.need ≤ fuel → tot < 2 ^ 64 → writeLoop f m fuel s tot w = (.ret r, w2) →
      ∃ cs, cs.flatten = s.avail ∧ ChunkShape cs ∧ r = (tot + s.avail.length) % 2 ^ 64 ∧
        Appended m cs w w2 := by
  intro fuel
  induction fuel with
  | zero =>
    intro s tot w w2 r hn ht h
    have hf : s.failbit = true := by
      unfold IStream.need at hn
      by_contra hc
      simp only [Bool.not_eq_true] at hc
      simp only [hc, Bool.false_eq_true, ↓reduceIte] at hn
      split at hn <;> omega
    rw [writeLoop_failed f m 0 s tot hf] at h
    simp only [pure_apply, Prod.mk.injEq, Outcome.ret.injEq] at h
    obtain ⟨rfl, rfl⟩ := h
    refine ⟨[], ?_, ChunkShape.ChunkShape_nil, ?_, Appended.Appended_refl m _⟩
    · simp [IStream.avail, hf]
    · simp only [IStream.avail, hf, Bool.or_true, ↓reduceIte, List.length_nil, Nat.add_zero]
      exact (Nat.mod_eq_of_lt ht).symm
  | succ fuel ih =>
    intro s tot w w2 r hn ht h
    have hpos : (0 : Nat) < 2 ^ 64 := by norm_num
    by_cases hf : s.failbit = true
    · rw [writeLoop_failed f m _ s tot hf] at h
      simp only [pure_apply, Prod.mk.injEq, Outcome.ret.injEq] at h
      obtain ⟨rfl, rfl⟩ := h
      refine ⟨[], ?_, ChunkShape.ChunkShape_nil, ?_, Appended.Appended_refl m _⟩
      · simp [IStream.avail, hf]
      · simp only [IStream.avail, hf, Bool.or_true, ↓reduceIte, List.length_nil, Nat.add_zero]
        exact (Nat.mod_eq_of_lt ht).symm
    · simp only [Bool.not_eq_true] at hf
      by_cases he : s.eofbit = true
      · have hr := read_bad s BUF_SIZE (Or.inl he)
        rw [writeLoop_skip f m fuel s tot hf (by rw [hr]), hr,
          writeLoop_failed f m fuel _ _ rfl] at h
        simp only [pure_apply, Prod.mk.injEq, Outcome.ret.injEq] at h
        obtain ⟨rfl, rfl⟩ := h
        refine ⟨[], ?_, ChunkShape.ChunkShape_nil, ?_, Appended.Appended_refl m _⟩
        · simp [IStream.avail, he]
        · simp [IStream.avail, he]
      · simp only [Bool.not_eq_true] at he
        have hav : s.avail = s.buf := by simp [IStream.avail, he, hf]
        have hneed : s.buf.length + 2 ≤ fuel + 1 := by
          simpa [IStream.need, he, hf] using hn
        have hB : BUF_SIZE = 65535 := rfl
        by_cases hfull : BUF_SIZE ≤ s.buf.length
        · have hr := read_full s BUF_SIZE he hf hfull
          have hlen : (s.buf.take BUF_SIZE).length = BUF_SIZE := by
            rw [List.length_take]; exact Nat.min_eq_left hfull
          rw [writeLoop_block f m fuel s tot hf (by rw [hr, hlen, hB]; norm_num), hr,
            bind_ret_iff] at h
          obtain ⟨a, w1, hi, h⟩ := h
          obtain ⟨cs, h1, h2, h3, h4⟩ := ih { s with buf := s.buf.drop BUF_SIZE } _ w1 w2 r
            (by simp [IStream.need, he, hf, List.length_drop]; omega) (Nat.mod_lt _ hpos) h
          have hav1 : ({ s with buf := s.buf.drop BUF_SIZE } : IStream).avail =
              s.buf.drop BUF_SIZE := by simp [IStream.avail, he, hf]
          rw [hav1] at h1 h3
          refine ⟨s.buf.take BUF_SIZE :: cs, ?_, ChunkShape.ChunkShape_cons _ _ hlen h2, ?_,
            Appended.Appended_step f m _ cs w w1 w2 a hi h4⟩
          · rw [hav, List.flatten, h1, List.take_append_drop]
          · have e1 : tot + BUF_SIZE + (s.buf.length - BUF_SIZE) = tot + s.buf.length := by
              omega
            rw [h3, hav, List.length_drop, hlen, Nat.mod_add_mod, e1]
        · have hlt : s.buf.length < BUF_SIZE := Nat.not_le.mp hfull
          have hr := read_short s BUF_SIZE he hf hlt
          by_cases hemp : s.buf = []
          · rw [writeLoop_skip f m fuel s tot hf (by rw [hr]; exact hemp), hr,
              writeLoop_failed f m fuel _ _ rfl] at h
            simp only [pure_apply, Prod.mk.injEq, Outcome.ret.injEq] at h
            obtain ⟨rfl, rfl⟩ := h
            refine ⟨[], ?_, ChunkShape.ChunkShape_nil, ?_, Appended.Appended_refl m _⟩
            · rw [hav, hemp]; rfl
            · rw [hav, hemp]; rfl
          · have hlen : 0 < s.buf.length := List.length_pos.mpr hemp
            rw [writeLoop_block f m fuel s tot hf (by rw [hr]; exact hlen), hr, bind_ret_iff] at h
            obtain ⟨a, w1, hi, h⟩ := h
            rw [writeLoop_failed f m fuel _ _ rfl] at h
            simp only [pure_apply, Prod.mk.injEq, Outcome.ret.injEq] at h
            obtain ⟨rfl, rfl⟩ := h
            refine ⟨[s.buf], ?_, ChunkShape.ChunkShape_single _ hlen (Nat.le_of_lt hlt), ?_,
              Appended.Appended_step f m _ [] w w1 w1 a hi (Appended.Appended_refl m _)⟩
            · rw [hav]; simp
            · rw [hav]

theorem setAutoCommit_ret (f : Faults) (b : Bool) (w w2 : World) (a : Unit)
    (h : setAutoCommit f b w = (.ret a, w2)) : Same w w2 ∧ w2.autoCommit = b := by
  simp only [setAutoCommit, backend_ret_iff] at h
  obtain ⟨_, _, rfl⟩ := h
  simp [Same]

theorem execInsertStream_ret (f : Faults) (d : String) (t ts : Nat) (w w2 : World) (a : Unit)
    (h : execInsertStream f d t ts w = (.ret a, w2)) :
    w2.tables.stream = w.tables.stream ++
        [{ id := w.nextStreamId, descr := d, type := t, size := 0, timestamp := ts }] ∧
      w2.tables.streamdata = w.tables.streamdata ∧ w2.nextStreamId = w.nextStreamId + 1 ∧
      w2.nextDataId = w.nextDataId ∧ w2.lastInsertId = w.nextStreamId ∧
      w2.calls = w.calls ∧ w2.autoCommit = w.autoCommit := by
  simp only [execInsertStream, backend_ret_iff] at h
  obtain ⟨_, _, rfl⟩ := h
  simp

theorem queryLastInsertId_ret (f : Faults) (w w2 : World) (a : Nat)
    (h : queryLastInsertId f w = (.ret a, w2)) :
    a = w.lastInsertId ∧ Same w w2 ∧ w2.autoCommit = w.autoCommit := by
  simp only [queryLastInsertId, backend_ret_iff] at h
  obtain ⟨_, rfl, rfl⟩ := h
  simp [Same]

theorem prepareInsertData_ret (f : Faults) (w w2 : World) (a : Unit)
    (h : prepareInsertData f w = (.ret a, w2)) : Same w w2 ∧ w2.autoCommit = w.autoCommit := by
  simp only [prepareInsertData, backend_ret_iff] at h
  obtain ⟨_, _, rfl⟩ := h
  simp [Same]

theorem execUpdateSize_ret (f : Faults) (size id : Nat) (w w2 : World) (a : Unit)
    (h : execUpdateSize f size id w = (.ret a, w2)) :
    w2.tables.stream = (w.tables.stream.map fun r =>
        if r.id = id then { r with size := size } else r) ∧
      w2.tables.streamdata = w.tables.streamdata ∧ w2.nextStreamId = w.nextStreamId ∧
      w2.nextDataId = w.nextDataId ∧ w2.calls = w.calls := by
  simp only [execUpdateSize, backend_ret_iff] at h
  obtain ⟨_, _, rfl⟩ := h
  simp

theorem commit_ret (f : Faults) (w w2 : World) (a : Unit) (h : commit f w = (.ret a, w2)) :
    Same w w2 ∧ w2.committed = w2.tables := by
  simp only [commit, backend_ret_iff] at h
  obtain ⟨_, _, rfl⟩ := h
  simp [Same]

theorem need_le (s : IStream) : s.need ≤ s.buf.length + 2 := by
  unfold IStream.need
  split
  · omega
  · split <;> omega

theorem WriteBody_ret (f : Faults) (hdr : StreamHeader) (src : IStream) (w w2 : World)
    (mid : Nat) (hwf : Wf w) (h : WriteBody f (some hdr) src w = (.ret mid, w2)) :
    ∃ cs, cs.flatten = src.avail ∧ ChunkShape cs ∧ mid = w.nextStreamId ∧
      w2.tables.stream = w.tables.stream ++ [writtenRow w.nextStreamId hdr src.avail.length] ∧
      w2.tables.streamdata = w.tables.streamdata ++ dataRows w.nextStreamId w.nextDataId cs ∧
      w2.nextStreamId = w.nextStreamId + 1 ∧ w2.nextDataId = w.nextDataId + cs.length ∧
      w2.calls = w.calls ∧ w2.committed = w2.tables := by
  simp only [WriteBody, bind_ret_iff, pure_apply, Prod.mk.injEq, Outcome.ret.injEq] at h
  obtain ⟨u1, w3, h3, u2, w4, h4, m1, w5, h5, u3, w6, h6, tot, w7, hloop, u4, w8, h8, u5, w9, h9,
    rfl, rfl⟩ := h
  obtain ⟨⟨b1, b2, b3, b4, b5⟩, _⟩ := setAutoCommit_ret f false w w3 u1 h3
  obtain ⟨c1, c2, c3, c4, c5, c6, _⟩ := execInsertStream_ret f _ _ _ w3 w4 u2 h4
  obtain ⟨rfl, ⟨d1, d2, d3, d4, d5⟩, _⟩ := queryLastInsertId_ret f w4 w5 m1 h5
  obtain ⟨⟨e1, e2, e3, e4, e5⟩, _⟩ := prepareInsertData_ret f w5 w6 u3 h6
  obtain ⟨cs, h1, h2, htot, a1, a2, a3, a4, _, a6⟩ :=
    writeLoop_ret f _ _ src 0 w6 w7 tot (need_le src) (by norm_num) hloop
  obtain ⟨g1, g2, g3, g4, g5⟩ := execUpdateSize_ret f _ _ w7 w8 u4 h8
  obtain ⟨⟨k1, k2, k3, k4, k5⟩, k6⟩ := commit_ret f w8 w9 u5 h9
  have hmid : w4.lastInsertId = w.nextStreamId := by rw [c5, b2]
  rw [hmid] at a2 g1
  refine ⟨cs, h1, h2, hmid, ?_, ?_, ?_, ?_, ?_, k6⟩
  · rw [k1, g1, a1, e1, d1, c1, b1, List.map_append]
    have hold : (w.tables.stream.map fun r =>
        if r.id = w.nextStreamId then { r with size := tot } else r) = w.tables.stream := by
      conv_rhs => rw [← List.map_id w.tables.stream]
      apply List.map_congr_left
      intro r hr
      have := (hwf.2.1 r hr).2
      simp [Nat.ne_of_lt this]
    rw [hold, htot, b2]
    simp [writtenRow]
  · rw [k1, g2, a2, e1, d1, c2, b1, e3, d3, c4, b3]
  · rw [k2, g3, a3, e2, d2, c3, b2]
  · rw [k3, g4, a4, e3, d3, c4, b3]
  · rw [k5, g5, a6, e5, d5, c6, b5]

theorem Write_ret (e : Engine) (f : Faults) (hdr : StreamHeader) (src : IStream) (w w2 : World)
    (res : Option StreamHeader) (hwf : Wf w)
    (h : Write e f (some hdr) src w = (.ret (true, res), w2)) :
    ∃ cs, cs.flatten = src.avail ∧ ChunkShape cs ∧
      res = some { hdr with id := w.nextStreamId } ∧
      w2.tables.stream = w.tables.stream ++ [writtenRow w.nextStreamId hdr src.avail.length] ∧
      w2.tables.streamdata = w.tables.streamdata ++ dataRows w.nextStreamId w.nextDataId cs ∧
      w2.nextStreamId = w.nextStreamId + 1 ∧ w2.nextDataId = w.nextDataId + cs.length ∧
      w2.calls = w.calls ∧ w2.committed = w2.tables := by
  unfold Write at h
  rcases hb : WriteBody f (some hdr) src w with ⟨r, w1⟩
  rw [hb] at h
  cases r with
  | ret mid =>
    simp only [Prod.mk.injEq, Outcome.ret.injEq, true_and, Option.map_some'] at h
    obtain ⟨rfl, rfl⟩ := h
    obtain ⟨cs, h1, h2, rfl, h4⟩ := WriteBody_ret f hdr src w w1 mid hwf hb
    exact ⟨cs, h1, h2, rfl, h4⟩
  | throw msg =>
    exfalso
    simp only [bind_ret_iff, rollback, backend_ret_iff, pure_apply, Prod.mk.injEq,
      Outcome.ret.injEq, Bool.false_eq_true, false_and, and_false, exists_false] at h
  | abort => simp at h

theorem dataRows_map_data (m : Nat) : ∀ (i : Nat) (cs : List (List Byte)),
    ((dataRows m i cs).map fun d => d.data) = cs
  | _, [] => rfl
  | i, c :: cs => by simp [dataRows, dataRows_map_data m (i + 1) cs]

theorem dataRows_masterid (m : Nat) : ∀ (i : Nat) (cs : List (List Byte)),
    ∀ d ∈ dataRows m i cs, d.masterid = m ∧ i ≤ d.id
  | _, [], d, hd => by simp [dataRows] at hd
  | i, c :: cs, d, hd => by
    simp only [dataRows, List.mem_cons] at hd
    rcases hd with rfl | hd
    · simp
    · have := dataRows_masterid m (i + 1) cs d hd
      exact ⟨this.1, by omega⟩

theorem dataRows_length (m : Nat) : ∀ (i : Nat) (cs : List (List Byte)),
    (dataRows m i cs).length = cs.length
  | _, [] => rfl
  | i, c :: cs => by simp [dataRows, dataRows_length m (i + 1) cs]

theorem dataRows_sorted (m : Nat) : ∀ (i : Nat) (cs : List (List Byte)),
    (dataRows m i cs).Sorted fun a b => a.id ≤ b.id
  | _, [] => List.sorted_nil
  | i, c :: cs => by
    simp only [dataRows, List.sorted_cons]
    refine ⟨fun d hd => ?_, dataRows_sorted m (i + 1) cs⟩
    have := (dataRows_masterid m (i + 1) cs d hd).2
    show i ≤ d.id
    omega

theorem chunkRows_written (w w2 : World) (cs : List (List Byte)) (hwf : Wf w)
    (h : w2.tables.streamdata = w.tables.streamdata ++ dataRows w.nextStreamId w.nextDataId cs) :
    chunkRows w2.tables w.nextStreamId = dataRows w.nextStreamId w.nextDataId cs := by
  unfold chunkRows
  rw [h, List.filter_append]
  have h1 : (w.tables.streamdata.filter fun d => d.masterid = w.nextStreamId) = [] := by
    rw [List.filter_eq_nil_iff]
    intro d hd
    have := (hwf.2.2.2.1 d hd).2
    simp [Nat.ne_of_lt this]
  have h2 : ((dataRows w.nextStreamId w.nextDataId cs).filter
      fun d => d.masterid = w.nextStreamId) = dataRows w.nextStreamId w.nextDataId cs := by
    rw [List.filter_eq_self]
    intro d hd
    simp [(dataRows_masterid _ _ _ d hd).1]
  rw [h1, h2, List.nil_append]
  exact (dataRows_sorted _ _ _).insertionSort_eq

theorem Write_holds (e : Engine) (f : Faults) (hdr : StreamHeader) (src : IStream) (w w2 : World)
    (res : Option StreamHeader) (hwf : Wf w) (hsz : src.avail.length < 2 ^ 64)
    (h : Write e f (some hdr) src w = (.ret (true, res), w2)) :
    res = some { hdr with id := w.nextStreamId } ∧ Holds w2.tables w.nextStreamId src.avail := by
  obtain ⟨cs, h1, h2, h3, h4, h5, h6, h7, h8, h9⟩ := Write_ret e f hdr src w w2 res hwf h
  refine ⟨h3, ?_, ?_, ?_⟩
  · rw [chunkRows_written w w2 cs hwf h5, dataRows_map_data, h1]
  · exact ⟨_, by rw [h4]; exact List.mem_append_right _ (List.mem_singleton_self _), rfl⟩
  · intro r hr hid
    rw [h4, List.mem_append, List.mem_singleton] at hr
    rcases hr with hr | rfl
    · exact absurd hid (Nat.ne_of_lt (hwf.2.1 r hr).2)
    · have hs : (writtenRow w.nextStreamId hdr src.avail.length).size = src.avail.length := by
        simp only [writtenRow]
        exact Nat.mod_eq_of_lt hsz
      refine ⟨hs, ?_⟩
      have hm : ((dataRows w.nextStreamId w.nextDataId cs).map fun d => d.data.length) =
          cs.map List.length := by
        conv_rhs => rw [← dataRows_map_data w.nextStreamId w.nextDataId cs, List.map_map]
        rfl
      rw [hs, chunkRows_written w w2 cs hwf h5, ← h1, List.length_flatten, hm]

theorem exWrite_eq : Write exEngine noFault (some exHdr) (StreamBuf [1, 2, 3]) exEmpty =
    (.ret (true, some { exHdr with id := 1 }), exWritten) := by
  rfl

theorem exWf : Wf exEmpty := by decide

/-- C2: after a successful `Write`, the chunk rows of the new stream id, in
ascending chunk-id order, concatenate to exactly the bytes the source yielded,
and the header row's size is that byte count (the sum of the chunk lengths),
whatever `hdr.size` says; the raw-buffer `Write` is the same operation on the
stream of the first `hdr.size` bytes of `data`. -/
theorem C2_write_stores_payload (e : Engine) (f : Faults) (hdr : StreamHeader) (src : IStream)
    (w w2 : World) (res : Option StreamHeader) (hwf : Wf w) (hsz : src.avail.length < 2 ^ 64)
    (h : Write e f (some hdr) src w = (.ret (true, res), w2)) :
    (∃ id, res = some { hdr with id := id } ∧ Holds w2.tables id src.avail) ∧
    ∀ data : List Byte,
      WriteBuf e f (some hdr) (some data) = Write e f (some hdr) (StreamBuf (data.take hdr.size)) ∧
      (StreamBuf (data.take hdr.size)).avail = data.take hdr.size := by
  obtain ⟨h1, h2⟩ := Write_holds e f hdr src w w2 res hwf hsz h
  exact ⟨⟨_, h1, h2⟩, fun data => ⟨rfl, rfl⟩⟩

theorem C2_write_stores_payload_witness :
    (∃ id, some { exHdr with id := 1 } = some { exHdr with id := id } ∧
      Holds exWritten.tables id (StreamBuf [1, 2, 3]).avail) ∧
    ∀ data : List Byte,
      WriteBuf exEngine noFault (some exHdr) (some data) =
        Write exEngine noFault (some exHdr) (StreamBuf (data.take exHdr.size)) ∧
      (StreamBuf (data.take exHdr.size)).avail = data.take exHdr.size :=
  C2_write_stores_payload exEngine noFault exHdr (StreamBuf [1, 2, 3]) exEmpty exWritten _
    (by decide) (by simp [StreamBuf, IStream.avail]) exWrite_eq

/-- C3: a successful `Write` of a payload of `L` bytes inserts exactly
`ceil(L / 65535)` chunk rows, all for the new stream: every chunk holds
between 1 and 65535 bytes and every chunk but the last holds exactly 65535
(so no row is inserted for a zero-length read). -/
theorem C3_write_chunk_rows (e : Engine) (f : Faults) (hdr : StreamHeader) (src : IStream)
    (w w2 : World) (res : Option StreamHeader) (hwf : Wf w)
    (h : Write e f (some hdr) src w = (.ret (true, res), w2)) :
    ∃ id, res = some { hdr with id := id } ∧
      w2.tables.streamdata = w.tables.streamdata ++ chunkRows w2.tables id ∧
      (chunkRows w2.tables id).length = (src.avail.length + 65534) / 65535 ∧
      (∀ d ∈ chunkRows w2.tables id, 1 ≤ d.data.length ∧ d.data.length ≤ 65535) ∧
      ∀ d ∈ (chunkRows w2.tables id).dropLast, d.data.length = 65535 := by
  obtain ⟨cs, h1, h2, h3, h4, h5, h6, h7, h8, h9⟩ := Write_ret e f hdr src w w2 res hwf h
  have hrows := chunkRows_written w w2 cs hwf h5
  refine ⟨_, h3, ?_, ?_, ?_, ?_⟩
  · rw [hrows, h5]
  · rw [hrows, dataRows_length, ← h1]
    exact h2.ChunkShape_length_eq
  · intro d hd
    rw [hrows] at hd
    have hm : d.data ∈ cs := by
      rw [← dataRows_map_data w.nextStreamId w.nextDataId cs]
      exact List.mem_map_of_mem _ hd
    exact h2.1 _ hm
  · intro d hd
    rw [hrows] at hd
    have hm : d.data ∈ cs.dropLast := by
      have he : cs.dropLast =
          ((dataRows w.nextStreamId w.nextDataId cs).dropLast.map fun d => d.data) := by
        rw [List.map_dropLast, dataRows_map_data]
      rw [he]
      exact List.mem_map_of_mem _ hd
    exact h2.2 _ hm

theorem C3_write_chunk_rows_witness :
    ∃ id, some { exHdr with id := 1 } = some { exHdr with id := id } ∧
      exWritten.tables.streamdata = exEmpty.tables.streamdata ++ chunkRows exWritten.tables id ∧
      (chunkRows exWritten.tables id).length =
        ((StreamBuf [1, 2, 3]).avail.length + 65534) / 65535 ∧
      (∀ d ∈ chunkRows exWritten.tables id, 1 ≤ d.data.length ∧ d.data.length ≤ 65535) ∧
      ∀ d ∈ (chunkRows exWritten.tables id).dropLast, d.data.length = 65535 :=
  C3_write_chunk_rows exEngine noFault exHdr (StreamBuf [1, 2, 3]) exEmpty exWritten _
    (by decide) exWrite_eq

theorem KeepsTxn.KeepsTxn_toThrowKeeps {α : Type} {m : M α} (h : KeepsTxn m) : ThrowKeeps m :=
  fun w r w2 ha hm => ⟨(h w r w2 ha hm).1, (h w r w2 ha hm).2.2⟩

theorem KeepsTxn.KeepsTxn_pure {α : Type} (a : α) : KeepsTxn (pure a : M α) := by
  intro w r w2 _ hm
  rw [pure_apply] at hm
  simp only [Prod.mk.injEq] at hm
  obtain ⟨rfl, rfl⟩ := hm
  simp [*]

theorem KeepsTxn.KeepsTxn_bind {α β : Type} {m : M α} {k : α → M β} (hm : KeepsTxn m)
    (hk : ∀ a, KeepsTxn (k a)) : KeepsTxn (m >>= k) := by
  intro w r w2 ha h
  rw [bind_apply] at h
  rcases hmw : m w with ⟨r1, w1⟩
  rw [hmw] at h
  obtain ⟨n1, k1, t1⟩ := hm w r1 w1 ha hmw
  cases r1 with
  | ret a =>
    obtain ⟨a1, c1⟩ := k1 a rfl
    obtain ⟨n2, k2, t2⟩ := hk a w1 r w2 a1 h
    refine ⟨n2, fun b hb => ?_, fun msg hmsg => ?_⟩
    · exact ⟨(k2 b hb).1, (k2 b hb).2.trans c1⟩
    · exact (t2 msg hmsg).trans c1
  | throw msg =>
    simp only [Prod.mk.injEq] at h
    obtain ⟨rfl, rfl⟩ := h
    refine ⟨by simp, fun b hb => by simp at hb, fun msg2 _ => t1 msg rfl⟩
  | abort => exact absurd rfl n1

theorem ThrowKeeps.ThrowKeeps_bind {α β : Type} {m : M α} {k : α → M β} (hm : KeepsTxn m)
    (hk : ∀ a, ThrowKeeps (k a)) : ThrowKeeps (m >>= k) := by
  intro w r w2 ha h
  rw [bind_apply] at h
  rcases hmw : m w with ⟨r1, w1⟩
  rw [hmw] at h
  obtain ⟨n1, k1, t1⟩ := hm w r1 w1 ha hmw
  cases r1 with
  | ret a =>
    obtain ⟨a1, c1⟩ := k1 a rfl
    obtain ⟨n2, t2⟩ := hk a w1 r w2 a1 h
    exact ⟨n2, fun msg hmsg => (t2 msg hmsg).trans c1⟩
  | throw msg =>
    simp only [Prod.mk.injEq] at h
    obtain ⟨rfl, rfl⟩ := h
    exact ⟨by simp, fun msg2 _ => t1 msg rfl⟩
  | abort => exact absurd rfl n1

theorem KeepsTxn.KeepsTxn_backend {α : Type} (f : Faults) (s : Stmt) (run : World → α × World)
    (hrun : ∀ w, w.autoCommit = false →
      (run w).2.autoCommit = false ∧ (run w).2.committed = w.committed) :
    KeepsTxn (backend f s run) := by
  intro w r w2 ha h
  unfold DbStream.backend at h
  by_cases hf : f w.log.length = true
  · simp only [hf, ↓reduceIte, Prod.mk.injEq] at h
    obtain ⟨rfl, rfl⟩ := h
    simp
  · simp only [hf, Bool.false_eq_true, ↓reduceIte, Prod.mk.injEq] at h
    obtain ⟨rfl, rfl⟩ := h
    have := hrun { w with log := w.log ++ [s] } ha
    refine ⟨by simp, fun a _ => this, fun msg hmsg => by simp at hmsg⟩

theorem settle_off (w : World) (h : w.autoCommit = false) : settle w = w := by
  unfold settle; simp [h]

theorem KeepsTxn.KeepsTxn_execInsertData (f : Faults) (m : Nat) (c : List Byte) :
    KeepsTxn (execInsertData f m c) := by
  apply KeepsTxn.KeepsTxn_backend
  intro w ha
  exact ⟨by simp [ha], settle_committed _ ha⟩

theorem KeepsTxn.KeepsTxn_writeLoop (f : Faults) (m : Nat) :
    ∀ (fuel : Nat) (s : IStream) (tot : Nat), KeepsTxn (writeLoop f m fuel s tot) := by
  intro fuel
  induction fuel with
  | zero => intro s tot; exact KeepsTxn.KeepsTxn_pure tot
  | succ fuel ih =>
    intro s tot
    by_cases hf : s.failbit = true
    · rw [writeLoop_failed f m _ s tot hf]
      exact KeepsTxn.KeepsTxn_pure tot
    · simp only [Bool.not_eq_true] at hf
      by_cases h0 : (s.read BUF_SIZE).1 = []
      · rw [writeLoop_skip f m fuel s tot hf h0]
        exact ih _ _
      · rw [writeLoop_block f m fuel s tot hf (List.length_pos.mpr h0)]
        exact KeepsTxn.KeepsTxn_bind (KeepsTxn.KeepsTxn_execInsertData f m _) fun _ => ih _ _

theorem WriteBody_throwKeeps (f : Faults) (h : StreamHeader) (src : IStream) :
    ThrowKeeps (do
      execInsertStream f (h.descr.getD "(null)") (h.type % 256) h.timestamp
      let master_id ← queryLastInsertId f
      prepareInsertData f
      let size_total ← writeLoop f master_id (src.buf.length + 2) src 0
      execUpdateSize f size_total master_id
      commit f
      pure master_id : M Nat) := by
  refine ThrowKeeps.ThrowKeeps_bind ?_ fun _ => ThrowKeeps.ThrowKeeps_bind ?_ fun mid => ThrowKeeps.ThrowKeeps_bind ?_ fun _ =>
    ThrowKeeps.ThrowKeeps_bind (KeepsTxn.KeepsTxn_writeLoop f mid _ src 0) fun tot => ThrowKeeps.ThrowKeeps_bind ?_ fun _ => ?_
  · apply KeepsTxn.KeepsTxn_backend
    intro w ha
    exact ⟨by simp [ha], settle_committed _ ha⟩
  · apply KeepsTxn.KeepsTxn_backend
    intro w ha
    exact ⟨ha, rfl⟩
  · apply KeepsTxn.KeepsTxn_backend
    intro w ha
    exact ⟨ha, rfl⟩
  · apply KeepsTxn.KeepsTxn_backend
    intro w ha
    exact ⟨by simp [ha], settle_committed _ ha⟩
  · intro w r w2 _ hm
    rw [bind_apply] at hm
    unfold DbStream.commit DbStream.backend at hm
    by_cases hf : f w.log.length = true
    · simp only [hf, ↓reduceIte, Prod.mk.injEq] at hm
      obtain ⟨rfl, rfl⟩ := hm
      simp
    · simp only [hf, Bool.false_eq_true, ↓reduceIte, pure_apply, Prod.mk.injEq] at hm
      obtain ⟨rfl, rfl⟩ := hm
      simp

theorem WriteBody_throw (f : Faults) (hdr : Option StreamHeader) (src : IStream) (w w2 : World)
    (r : Outcome Nat) (h : WriteBody f hdr src w = (r, w2)) :
    r ≠ .abort ∧ ∀ msg, r = .throw msg → w2.committed = w.committed := by
  cases hdr with
  | none =>
    simp only [WriteBody, THROW, Prod.mk.injEq] at h
    obtain ⟨rfl, rfl⟩ := h
    simp
  | some hd =>
    simp only [WriteBody] at h
    rw [bind_apply] at h
    unfold setAutoCommit DbStream.backend at h
    by_cases hf : f w.log.length = true
    · simp only [hf, ↓reduceIte, Prod.mk.injEq] at h
      obtain ⟨rfl, rfl⟩ := h
      simp
    · simp only [hf, Bool.false_eq_true, ↓reduceIte] at h
      have hk := WriteBody_throwKeeps f hd src _ r w2 (by simp) h
      refine ⟨hk.1, fun msg hmsg => ?_⟩
      rw [hk.2 msg hmsg, settle_off _ rfl]

theorem NoFaultIn.NoFaultIn_refl (f : Faults) (w : World) : NoFaultIn f w w :=
  ⟨Nat.le_refl _, fun _ h1 h2 => absurd h2 (Nat.not_lt.mpr h1)⟩

theorem NoFaultIn.NoFaultIn_trans {f : Faults} {w w1 w2 : World} (h1 : NoFaultIn f w w1)
    (h2 : NoFaultIn f w1 w2) : NoFaultIn f w w2 := by
  refine ⟨Nat.le_trans h1.1 h2.1, fun n hn1 hn2 => ?_⟩
  by_cases hlt : n < w1.log.length
  · exact h1.2 n hn1 hlt
  · exact h2.2 n (Nat.not_lt.mp hlt) hn2

theorem RetClean.RetClean_pure {α : Type} (f : Faults) (a : α) : RetClean f (pure a : M α) := by
  intro w b w2 h
  rw [pure_apply] at h
  simp only [Prod.mk.injEq] at h
  obtain ⟨_, rfl⟩ := h
  exact NoFaultIn.NoFaultIn_refl f _

theorem RetClean.RetClean_bind {α β : Type} {f : Faults} {m : M α} {k : α → M β} (hm : RetClean f m)
    (hk : ∀ a, RetClean f (k a)) : RetClean f (m >>= k) := by
  intro w b w2 h
  rw [bind_ret_iff] at h
  obtain ⟨a, w1, h1, h2⟩ := h
  exact (hm w a w1 h1).NoFaultIn_trans (hk a w1 b w2 h2)

theorem RetClean.RetClean_backend {α : Type} (f : Faults) (s : Stmt) (run : World → α × World)
    (hrun : ∀ w, (run w).2.log = w.log) : RetClean f (backend f s run) := by
  intro w a w2 h
  rw [backend_ret_iff] at h
  obtain ⟨hf, _, rfl⟩ := h
  rw [NoFaultIn, hrun]
  simp only [List.length_append, List.length_singleton]
  refine ⟨Nat.le_succ _, fun n h1 h2 => ?_⟩
  have : n = w.log.length := by omega
  rw [this]; exact hf

theorem RetClean.RetClean_writeLoop (f : Faults) (m : Nat) :
    ∀ (fuel : Nat) (s : IStream) (tot : Nat), RetClean f (writeLoop f m fuel s tot) := by
  intro fuel
  induction fuel with
  | zero => intro s tot; exact RetClean.RetClean_pure f tot
  | succ fuel ih =>
    intro s tot
    by_cases hf : s.failbit = true
    · rw [writeLoop_failed f m _ s tot hf]
      exact RetClean.RetClean_pure f tot
    · simp only [Bool.not_eq_true] at hf
      by_cases h0 : (s.read BUF_SIZE).1 = []
      · rw [writeLoop_skip f m fuel s tot hf h0]
        exact ih _ _
      · rw [writeLoop_block f m fuel s tot hf (List.length_pos.mpr h0)]
        exact RetClean.RetClean_bind (RetClean.RetClean_backend f _ _ fun w => by simp) fun _ => ih _ _

theorem RetClean.RetClean_WriteBody (f : Faults) (hdr : Option StreamHeader) (src : IStream) :
    RetClean f (WriteBody f hdr src) := by
  cases hdr with
  | none =>
    intro w a w2 h
    simp [DbStream.WriteBody, THROW] at h
  | some hd =>
    simp only [DbStream.WriteBody]
    refine RetClean.RetClean_bind (RetClean.RetClean_backend f _ _ fun w => by simp) fun _ =>
      RetClean.RetClean_bind (RetClean.RetClean_backend f _ _ fun w => by simp) fun _ =>
      RetClean.RetClean_bind (RetClean.RetClean_backend f _ _ fun w => by simp) fun _ =>
      RetClean.RetClean_bind (RetClean.RetClean_backend f _ _ fun w => by simp) fun _ =>
      RetClean.RetClean_bind (RetClean.RetClean_writeLoop f _ _ _ _) fun _ =>
      RetClean.RetClean_bind (RetClean.RetClean_backend f _ _ fun w => by simp) fun _ =>
      RetClean.RetClean_bind (RetClean.RetClean_backend f _ _ fun w => by simp) fun _ => RetClean.RetClean_pure f _

theorem WriteToLog_frame (e : Engine) (t : Nat) (msg : String) (w : World) :
    (WriteToLog e t msg w).tables = w.tables ∧ (WriteToLog e t msg w).committed = w.committed ∧
      (WriteToLog e t msg w).log = w.log ∧ (WriteToLog e t msg w).calls = w.calls := by
  unfold WriteToLog
  split
  · simp
  · split
    · simp
    · split <;> simp

/-- The ways a `Write` started with no uncommitted change ends: it returns true
and no statement it sent failed; or some step failed, the rollback went through,
and it returns false with the caller's header untouched and both tables as
before; or the rollback statement itself failed and its exception leaves
`Write`. -/
theorem Write_outcome (e : Engine) (f : Faults) (hdr : Option StreamHeader) (src : IStream)
    (w w2 : World) (r : Outcome WriteResult) (hclean : w.committed = w.tables)
    (h : Write e f hdr src w = (r, w2)) :
    (∃ res, r = .ret (true, res) ∧ NoFaultIn f w w2) ∨
    (r = .ret (false, hdr) ∧ w2.tables = w.tables) ∨
    (∃ msg lg, r = .throw msg ∧ w2.log = lg ++ [.rollback] ∧ f lg.length = true) := by
  unfold Write at h
  rcases hb : WriteBody f hdr src w with ⟨rb, w1⟩
  rw [hb] at h
  obtain ⟨hna, hthrow⟩ := WriteBody_throw f hdr src w w1 rb hb
  cases rb with
  | ret mid =>
    simp only [Prod.mk.injEq] at h
    obtain ⟨rfl, rfl⟩ := h
    exact Or.inl ⟨_, rfl, RetClean.RetClean_WriteBody f hdr src w mid _ hb⟩
  | throw msg =>
    have hc := hthrow msg rfl
    obtain ⟨l1, l2, l3, _⟩ := WriteToLog_frame e LOG_ERR msg w1
    change (rollback f >>= fun _ => pure (false, hdr)) (WriteToLog e LOG_ERR msg w1) = (r, w2) at h
    rw [bind_apply] at h
    unfold rollback backend at h
    by_cases hf : f (WriteToLog e LOG_ERR msg w1).log.length = true
    · simp only [hf, ↓reduceIte, Prod.mk.injEq] at h
      obtain ⟨rfl, rfl⟩ := h
      exact Or.inr (Or.inr ⟨_, _, rfl, rfl, hf⟩)
    · simp only [hf, Bool.false_eq_true, ↓reduceIte, pure_apply, Prod.mk.injEq] at h
      obtain ⟨rfl, rfl⟩ := h
      refine Or.inr (Or.inl ⟨rfl, ?_⟩)
      show (WriteToLog e LOG_ERR msg w1).committed = w.tables
      rw [l2, hc, hclean]
  | abort => exact absurd rfl hna

theorem exWriteFail_eq : Write exEngine exFault (some exHdr) (StreamBuf [1, 2, 3]) exEmpty =
    (.ret (false, some exHdr), exRolledBack) := by
  rfl

/-- C5: `Write` writes the caller's header id exactly when it succeeds: on
true the header differs from the caller's only in `id`, which is the id of the
one header row this call inserted and the `masterid` of every chunk row it
inserted; on false the header is the caller's, unchanged. -/
theorem C5_write_sets_id_iff_success (e : Engine) (f : Faults) (hdr : StreamHeader)
    (src : IStream) (w w2 : World) (b : Bool) (res : Option StreamHeader) (hwf : Wf w)
    (h : Write e f (some hdr) src w = (.ret (b, res), w2)) :
    (b = true ∧ ∃ id row new, res = some { hdr with id := id } ∧
      w2.tables.stream = w.tables.stream ++ [row] ∧ row.id = id ∧
      w2.tables.streamdata = w.tables.streamdata ++ new ∧ ∀ d ∈ new, d.masterid = id) ∨
    (b = false ∧ res = some hdr) := by
  cases b with
  | true =>
    obtain ⟨cs, _, _, h3, h4, h5, _⟩ := Write_ret e f hdr src w w2 res hwf h
    exact Or.inl ⟨rfl, _, _, _, h3, h4, rfl, h5, fun d hd => (dataRows_masterid _ _ _ d hd).1⟩
  | false =>
    refine Or.inr ⟨rfl, ?_⟩
    unfold Write at h
    rcases hb : WriteBody f (some hdr) src w with ⟨rb, w1⟩
    rw [hb] at h
    cases rb with
    | ret mid => simp at h
    | throw msg =>
      change (rollback f >>= fun _ => pure (false, some hdr)) (WriteToLog e LOG_ERR msg w1) =
        (.ret (false, res), w2) at h
      simp only [bind_ret_iff, pure_apply, Prod.mk.injEq, Outcome.ret.injEq, true_and] at h
      obtain ⟨_, _, _, h2, _⟩ := h
      exact h2.symm
    | abort => simp at h

theorem C5_write_sets_id_iff_success_witness :
    (true = true ∧ ∃ id row new, some { exHdr with id := 1 } = some { exHdr with id := id } ∧
      exWritten.tables.stream = exEmpty.tables.stream ++ [row] ∧ row.id = id ∧
      exWritten.tables.streamdata = exEmpty.tables.streamdata ++ new ∧
      ∀ d ∈ new, d.masterid = id) ∨
    (true = false ∧ some { exHdr with id := 1 } = some exHdr) :=
  C5_write_sets_id_iff_success exEngine noFault exHdr (StreamBuf [1, 2, 3]) exEmpty exWritten
    true _ (by decide) exWrite_eq

theorem Chain.Chain_nil : Chain [] true := Or.inl ⟨rfl, fun _ h => absurd h (List.not_mem_nil _)⟩

theorem Chain.Chain_cons {x : Event} {ext : List Event} {k : Bool} (hx : x.answer = true)
    (h : Chain ext k) : Chain (x :: ext) k := by
  rcases h with ⟨rfl, h⟩ | ⟨rfl, e1, c, rfl, h⟩
  · refine Or.inl ⟨rfl, fun y hy => ?_⟩
    rcases List.mem_cons.mp hy with rfl | hy
    · exact hx
    · exact h y hy
  · refine Or.inr ⟨rfl, x :: e1, c, rfl, fun y hy => ?_⟩
    rcases List.mem_cons.mp hy with rfl | hy
    · exact hx
    · exact h y hy

theorem Chain.Chain_append {e1 e2 : List Event} {k : Bool} (h1 : Chain e1 true) (h2 : Chain e2 k) :
    Chain (e1 ++ e2) k := by
  rcases h1 with ⟨_, h1⟩ | ⟨h, _⟩
  · induction e1 with
    | nil => exact h2
    | cons x xs ih =>
      exact Chain.Chain_cons (h1 x (List.mem_cons_self _ _))
        (ih fun y hy => h1 y (List.mem_cons_of_mem _ hy))
  · cases h

theorem Chain.Chain_stop (c : Call) : Chain [{ call := c, answer := false }] false :=
  Or.inr ⟨rfl, [], c, rfl, fun _ h => absurd h (List.not_mem_nil _)⟩

theorem readBlob_false (rd : Reader) (hdr : StreamHeader) (fuel : Nat) (blob : IStream) :
    readBlob rd hdr fuel blob false = pure false := by
  cases fuel with
  | zero => rfl
  | succ k => rw [readBlob]; simp

theorem readBlob_failed (rd : Reader) (hdr : StreamHeader) (fuel : Nat) (blob : IStream)
    (keep : Bool) (h : blob.failbit = true) : readBlob rd hdr fuel blob keep = pure keep := by
  cases fuel with
  | zero => rfl
  | succ k => rw [readBlob]; simp [IStream.ok, h]

theorem readBlob_skip (rd : Reader) (hdr : StreamHeader) (fuel : Nat) (blob : IStream)
    (h : blob.failbit = false) (h0 : (blob.read BUF_SIZE).1 = []) :
    readBlob rd hdr (fuel + 1) blob true = readBlob rd hdr fuel (blob.read BUF_SIZE).2 true := by
  rw [readBlob]
  simp [IStream.ok, h, h0]

theorem readBlob_block (rd : Reader) (hdr : StreamHeader) (fuel : Nat) (blob : IStream)
    (h : blob.failbit = false) (h0 : 0 < (blob.read BUF_SIZE).1.length) :
    readBlob rd hdr (fuel + 1) blob true =
      (OnRead rd hdr (blob.read BUF_SIZE).1 DB_STREAM_READ_DATA >>= fun keep1 =>
        readBlob rd hdr fuel (blob.read BUF_SIZE).2 keep1) := by
  rw [readBlob]
  simp only [IStream.ok, h, Bool.not_false, Bool.and_self, ↓reduceIte, gt_iff_lt, h0]

theorem World.World_deliver_nil (w : World) : w.deliver [] = w := by
  simp [World.deliver]

theorem World.World_deliver_deliver (w : World) (e1 e2 : List Event) :
    (w.deliver e1).deliver e2 = w.deliver (e1 ++ e2) := by
  simp [World.deliver, List.append_assoc]

theorem OnRead_data_bind {β : Type} (rd : Reader) (hdr : StreamHeader) (b : List Byte)
    (k : Bool → M β) (w : World) :
    (OnRead rd hdr b DB_STREAM_READ_DATA >>= k) w =
      k (rd w.calls (dataCall hdr b))
        (w.deliver [(dataEvent rd w.calls hdr b)]) := rfl

theorem DataRun.DataRun_nil (rd : Reader) (hdr : StreamHeader) : DataRun rd hdr [] [] true :=
  ⟨fun _ h => absurd h (List.not_mem_nil _), fun _ h => absurd h (List.not_mem_nil _),
    Chain.Chain_nil, fun _ => rfl⟩

theorem DataRun.DataRun_cons_true {rd : Reader} {hdr : StreamHeader} {b bytes : List Byte}
    {ext : List Event} {k : Bool} (hist : List Event) (hb0 : 0 < b.length)
    (hb1 : b.length ≤ BUF_SIZE)
    (ha : rd hist (dataCall hdr b) = true)
    (h : DataRun rd hdr bytes ext k) :
    DataRun rd hdr (b ++ bytes)
(dataEvent rd hist hdr b :: ext)
      k := by
  obtain ⟨h1, h2, h3, h4⟩ := h
  refine ⟨fun x hx => ?_, fun x hx => ?_, Chain.Chain_cons ha h3, fun hk => ?_⟩
  · rcases List.mem_cons.mp hx with rfl | hx
    · exact ⟨rfl, rfl, hb0, hb1⟩
    · exact h1 x hx
  · rcases List.mem_cons.mp hx with rfl | hx
    · exact ⟨hist, rfl⟩
    · exact h2 x hx
  · simp only [List.map_cons, List.flatten_cons, h4 hk]
    rfl

theorem DataRun.DataRun_stop {rd : Reader} {hdr : StreamHeader} {b : List Byte} (bytes : List Byte)
    (hist : List Event) (hb0 : 0 < b.length) (hb1 : b.length ≤ BUF_SIZE)
    (ha : rd hist (dataCall hdr b) = false) :
    DataRun rd hdr bytes
      [(dataEvent rd hist hdr b)]
      false := by
  refine ⟨fun x hx => ?_, fun x hx => ?_, ?_, fun hk => by cases hk⟩
  · rw [List.mem_singleton] at hx; subst hx; exact ⟨rfl, rfl, hb0, hb1⟩
  · rw [List.mem_singleton] at hx; subst hx; exact ⟨hist, rfl⟩
  · unfold dataEvent; rw [ha]; exact Chain.Chain_stop _

theorem readBlob_spec (rd : Reader) (hdr : StreamHeader) :
    ∀ (fuel : Nat) (blob : IStream) (w : World), blob.need ≤ fuel →
      ∃ k ext, readBlob rd hdr fuel blob true w = (.ret k, w.deliver ext) ∧
        DataRun rd hdr blob.avail ext k := by
  intro fuel
  induction fuel with
  | zero =>
    intro blob w hn
    have hf : blob.failbit = true := by
      unfold IStream.need at hn
      by_contra hc
      simp only [Bool.not_eq_true] at hc
      simp only [hc, Bool.false_eq_true, ↓reduceIte] at hn
      split at hn <;> omega
    refine ⟨true, [], ?_, ?_⟩
    · rw [readBlob_failed rd hdr 0 blob true hf, pure_apply, World.World_deliver_nil]
    · have : blob.avail = [] := by simp [IStream.avail, hf]
      rw [this]; exact DataRun.DataRun_nil rd hdr
  | succ fuel ih =>
    intro blob w hn
    by_cases hf : blob.failbit = true
    · refine ⟨true, [], ?_, ?_⟩
      · rw [readBlob_failed rd hdr _ blob true hf, pure_apply, World.World_deliver_nil]
      · have : blob.avail = [] := by simp [IStream.avail, hf]
        rw [this]; exact DataRun.DataRun_nil rd hdr
    · simp only [Bool.not_eq_true] at hf
      by_cases he : blob.eofbit = true
      · have hr := read_bad blob BUF_SIZE (Or.inl he)
        refine ⟨true, [], ?_, ?_⟩
        · rw [readBlob_skip rd hdr fuel blob hf (by rw [hr]), hr,
            readBlob_failed rd hdr fuel _ true rfl, pure_apply, World.World_deliver_nil]
        · have : blob.avail = [] := by simp [IStream.avail, he]
          rw [this]; exact DataRun.DataRun_nil rd hdr
      · simp only [Bool.not_eq_true] at he
        have hav : blob.avail = blob.buf := by simp [IStream.avail, he, hf]
        have hneed : blob.buf.length + 2 ≤ fuel + 1 := by
          simpa [IStream.need, he, hf] using hn
        have hB : BUF_SIZE = 65535 := rfl
        by_cases hfull : BUF_SIZE ≤ blob.buf.length
        · have hr := read_full blob BUF_SIZE he hf hfull
          have hlen : (blob.buf.take BUF_SIZE).length = BUF_SIZE := by
            rw [List.length_take]; exact Nat.min_eq_left hfull
          rw [readBlob_block rd hdr fuel blob hf (by rw [hr, hlen, hB]; norm_num),
            OnRead_data_bind, hav, hr]
          simp only []
          by_cases ha : rd w.calls (dataCall hdr (blob.buf.take BUF_SIZE)) = true
          · obtain ⟨k, ext, h1, h2⟩ := ih { blob with buf := blob.buf.drop BUF_SIZE }
              (w.deliver [(dataEvent rd w.calls hdr (blob.buf.take BUF_SIZE))])
              (by simp [IStream.need, he, hf, List.length_drop]; omega)
            have hav1 : ({ blob with buf := blob.buf.drop BUF_SIZE } : IStream).avail =
                blob.buf.drop BUF_SIZE := by simp [IStream.avail, he, hf]
            rw [hav1] at h2
            refine ⟨k, (dataEvent rd w.calls hdr (blob.buf.take BUF_SIZE)) :: ext, ?_, ?_⟩
            · rw [ha, h1, World.World_deliver_deliver]
              rfl
            · have := DataRun.DataRun_cons_true w.calls (by rw [hlen, hB]; norm_num)
                (Nat.le_of_eq hlen) ha h2
              rwa [List.take_append_drop] at this
          · simp only [Bool.not_eq_true] at ha
            refine ⟨false, [(dataEvent rd w.calls hdr (blob.buf.take BUF_SIZE))], ?_,
              DataRun.DataRun_stop _ w.calls (by rw [hlen, hB]; norm_num) (Nat.le_of_eq hlen) ha⟩
            rw [ha, readBlob_false, pure_apply]
        · have hlt : blob.buf.length < BUF_SIZE := Nat.not_le.mp hfull
          have hr := read_short blob BUF_SIZE he hf hlt
          by_cases hemp : blob.buf = []
          · refine ⟨true, [], ?_, ?_⟩
            · rw [readBlob_skip rd hdr fuel blob hf (by rw [hr]; exact hemp), hr,
                readBlob_failed rd hdr fuel _ true rfl, pure_apply, World.World_deliver_nil]
            · rw [hav, hemp]; exact DataRun.DataRun_nil rd hdr
          · have hlen : 0 < blob.buf.length := List.length_pos.mpr hemp
            rw [readBlob_block rd hdr fuel blob hf (by rw [hr]; exact hlen),
              OnRead_data_bind, hav, hr]
            simp only []
            by_cases ha : rd w.calls (dataCall hdr blob.buf) = true
            · refine ⟨true, [(dataEvent rd w.calls hdr blob.buf)], ?_, ?_⟩
              · rw [readBlob_failed rd hdr fuel _ _ rfl, pure_apply, ha]
              · have := DataRun.DataRun_cons_true w.calls hlen (Nat.le_of_lt hlt) ha
                  (DataRun.DataRun_nil rd hdr)
                rwa [List.append_nil] at this
            · simp only [Bool.not_eq_true] at ha
              refine ⟨false, [(dataEvent rd w.calls hdr blob.buf)], ?_,
                DataRun.DataRun_stop _ w.calls hlen (Nat.le_of_lt hlt) ha⟩
              rw [ha, readBlob_false, pure_apply]

theorem Reads.Reads_refl (w : World) : Reads w w [] :=
  ⟨rfl, (List.append_nil _).symm, [], (List.append_nil _).symm,
    fun _ h => absurd h (List.not_mem_nil _)⟩

theorem Reads.Reads_quiet_stmt (s : Stmt) (hs : ∀ m, s ≠ .selectDataIds m) (w w1 : World)
    (ht : w1.tables = w.tables) (hc : w1.calls = w.calls) (hl : w1.log = w.log ++ [s]) :
    Reads w w1 [] := by
  refine ⟨ht, by rw [hc, List.append_nil], [s], hl, fun m hm => ?_⟩
  rw [List.mem_singleton] at hm
  exact absurd hm.symm (hs m)

theorem Reads.Reads_trans {w w1 w2 : World} {e1 e2 : List Event} (h1 : Reads w w1 e1)
    (h2 : Reads w1 w2 e2) : Reads w w2 (e1 ++ e2) := by
  obtain ⟨a1, a2, lg1, a3, a4⟩ := h1
  obtain ⟨b1, b2, lg2, b3, b4⟩ := h2
  refine ⟨b1.trans a1, by rw [b2, a2, List.append_assoc], lg1 ++ lg2,
    by rw [b3, a3, List.append_assoc], fun m hm => ?_⟩
  rcases List.mem_append.mp hm with hm | hm
  · obtain ⟨x, hx, hx2⟩ := a4 m hm
    exact ⟨x, List.mem_append_left _ hx, hx2⟩
  · obtain ⟨x, hx, hx2⟩ := b4 m hm
    exact ⟨x, List.mem_append_right _ hx, hx2⟩

theorem Reads.Reads_deliver (w : World) (ext : List Event) : Reads w (w.deliver ext) ext :=
  ⟨rfl, rfl, [], (List.append_nil _).symm, fun _ h => absurd h (List.not_mem_nil _)⟩

theorem backend_noFault {α : Type} (s : Stmt) (run : World → α × World) (w : World) :
    backend noFault s run w =
      (.ret (run { w with log := w.log ++ [s] }).1, (run { w with log := w.log ++ [s] }).2) := rfl

theorem queryData_noFault (id : Nat) (w : World) :
    ∃ w1, queryData noFault id w =
        (.ret ((w.tables.streamdata.filter fun d => d.id = id).map fun d => d.data), w1) ∧
      Reads w w1 [] ∧ w1.calls = w.calls :=
  ⟨_, rfl, Reads.Reads_quiet_stmt (.selectData id) (fun _ h => by cases h) _ _ rfl rfl rfl, rfl⟩

theorem queryDataIds_noFault (m : Nat) (w : World) :
    ∃ w1, queryDataIds noFault m w = (.ret ((chunkRows w.tables m).map fun d => d.id), w1) ∧
      w1.tables = w.tables ∧ w1.calls = w.calls ∧ w1.log = w.log ++ [.selectDataIds m] :=
  ⟨_, rfl, rfl, rfl, rfl⟩

theorem readChunks_false (f : Faults) (rd : Reader) (hdr : StreamHeader) (ids : List Nat) :
    readChunks f rd hdr ids false = pure false := by
  cases ids with
  | nil => rfl
  | cons i rest => rw [readChunks]; simp

theorem DataRun.DataRun_of_false {rd : Reader} {hdr : StreamHeader} {b : List Byte} {ext : List Event}
    (b2 : List Byte) (h : DataRun rd hdr b ext false) : DataRun rd hdr b2 ext false :=
  ⟨h.1, h.2.1, h.2.2.1, fun hk => by cases hk⟩

theorem DataRun.DataRun_append {rd : Reader} {hdr : StreamHeader} {b1 b2 : List Byte}
    {e1 e2 : List Event} {k : Bool} (h1 : DataRun rd hdr b1 e1 true)
    (h2 : DataRun rd hdr b2 e2 k) : DataRun rd hdr (b1 ++ b2) (e1 ++ e2) k := by
  refine ⟨fun x hx => ?_, fun x hx => ?_, Chain.Chain_append h1.2.2.1 h2.2.2.1, fun hk => ?_⟩
  · rcases List.mem_append.mp hx with hx | hx
    · exact h1.1 x hx
    · exact h2.1 x hx
  · rcases List.mem_append.mp hx with hx | hx
    · exact h1.2.1 x hx
    · exact h2.2.1 x hx
  · rw [List.map_append, List.flatten_append, h1.2.2.2 rfl, h2.2.2.2 hk]

theorem readChunks_spec (rd : Reader) (hdr : StreamHeader) :
    ∀ (rows : List DataRow) (w : World),
      (∀ d ∈ rows, ∃ more, ((w.tables.streamdata.filter fun x => x.id = d.id).map
        fun x => x.data) = d.data :: more) →
      ∃ k ext w2, readChunks noFault rd hdr (rows.map fun d => d.id) true w = (.ret k, w2) ∧
        Reads w w2 ext ∧ DataRun rd hdr (rows.map fun d => d.data).flatten ext k := by
  intro rows
  induction rows with
  | nil =>
    intro w _
    exact ⟨true, [], w, rfl, Reads.Reads_refl w, DataRun.DataRun_nil rd hdr⟩
  | cons d rest ih =>
    intro w hrows
    obtain ⟨more, hq⟩ := hrows d (List.mem_cons_self _ _)
    obtain ⟨w1, hq1, hr1, hc1⟩ := queryData_noFault d.id w
    rw [hq] at hq1
    obtain ⟨k1, e1, hb1, hd1⟩ := readBlob_spec rd hdr (d.data.length + 2) (StreamBuf d.data) w1
      (need_le _)
    have hav : (StreamBuf d.data).avail = d.data := rfl
    rw [hav] at hd1
    have hstep : readChunks noFault rd hdr ((d :: rest).map fun d => d.id) true w =
        readChunks noFault rd hdr (rest.map fun d => d.id) k1 (w1.deliver e1) := by
      rw [List.map_cons, readChunks]
      simp only [↓reduceIte, bind_apply, hq1, hb1]
    rw [hstep]
    have hr2 : Reads w (w1.deliver e1) e1 := by
      have := hr1.Reads_trans (Reads.Reads_deliver w1 e1)
      rwa [List.nil_append] at this
    cases k1 with
    | false =>
      refine ⟨false, e1, w1.deliver e1, ?_, hr2, ?_⟩
      · rw [readChunks_false, pure_apply]
      · exact hd1.DataRun_of_false _
    | true =>
      obtain ⟨k, e2, w2, h2, hr3, hd2⟩ := ih (w1.deliver e1) (fun x hx => by
        have := hrows x (List.mem_cons_of_mem _ hx)
        rw [hr2.1]; exact this)
      refine ⟨k, e1 ++ e2, w2, h2, hr2.Reads_trans hr3, ?_⟩
      rw [List.map_cons, List.flatten_cons]
      exact hd1.DataRun_append hd2

theorem tryCatch_ret {α : Type} (e : Engine) (body rest : M α) (w w1 : World) (a : α)
    (h : body w = (.ret a, w1)) : tryCatch e body rest w = (.ret a, w1) := by
  unfold tryCatch; rw [h]

theorem ReadData_spec (e : Engine) (rd : Reader) (hdr : StreamHeader) (w : World)
    (hsz : hdr.size ≠ 0)
    (hrows : ∀ d ∈ chunkRows w.tables hdr.id, ∃ more,
      ((w.tables.streamdata.filter fun x => x.id = d.id).map fun x => x.data) = d.data :: more) :
    ∃ stopped g w2, ReadData e noFault rd hdr w = (.ret (true, stopped), w2) ∧
      Reads w w2 g ∧ StreamTrace rd w.tables hdr g stopped := by
  obtain ⟨w1, hq1, ht1, hc1, hl1⟩ := queryDataIds_noFault hdr.id w
  let a := rd w1.calls (beginCall hdr)
  let w2 := w1.deliver [{ call := beginCall hdr, answer := a }]
  have hbegin : OnRead rd hdr [] DB_STREAM_READ_BEGIN w1 = (.ret a, w2) := rfl
  have hend : ∀ w3, OnRead rd hdr [] DB_STREAM_READ_END w3 =
      (.ret (rd w3.calls (endCall hdr)),
        w3.deliver [{ call := endCall hdr, answer := rd w3.calls (endCall hdr) }]) :=
    fun _ => rfl
  have hr2 : Reads w w2 [{ call := beginCall hdr, answer := a }] := by
    refine ⟨ht1, ?_, [.selectDataIds hdr.id], hl1, fun m hm => ?_⟩
    · show w1.calls ++ _ = _
      rw [hc1]
    · rw [List.mem_singleton] at hm
      cases hm
      exact ⟨_, List.mem_singleton_self _, rfl, hsz⟩
  by_cases ha : a = true
  · obtain ⟨k, ext, w3, h3, hr3, hd3⟩ := readChunks_spec rd hdr (chunkRows w.tables hdr.id) w2
      (fun d hd => by rw [hr2.1]; exact hrows d hd)
    rw [← ha] at h3
    refine ⟨!k, [{ call := beginCall hdr, answer := a }] ++ ext ++
        [{ call := endCall hdr, answer := rd w3.calls (endCall hdr) }],
      w3.deliver [{ call := endCall hdr, answer := rd w3.calls (endCall hdr) }], ?_,
      (hr2.Reads_trans hr3).Reads_trans (Reads.Reads_deliver w3 _), ?_⟩
    · apply tryCatch_ret
      simp only [bind_apply, hq1, hbegin, h3, hend, pure_apply]
    · refine ⟨a, ext, rd w3.calls (endCall hdr), ?_, ⟨w1.calls, rfl⟩, ⟨w3.calls, rfl⟩, hd3.1,
        hd3.2.1, ?_, ?_⟩
      · simp
      · rw [Bool.not_not]
        exact Chain.Chain_cons ha hd3.2.2.1
      · intro hk
        have : k = true := by simpa using hk
        exact hd3.2.2.2 this
  · have ha2 : a = false := by simpa using ha
    refine ⟨true, [{ call := beginCall hdr, answer := a }] ++
        [{ call := endCall hdr, answer := rd w2.calls (endCall hdr) }],
      w2.deliver [{ call := endCall hdr, answer := rd w2.calls (endCall hdr) }], ?_,
      hr2.Reads_trans (Reads.Reads_deliver w2 _), ?_⟩
    · apply tryCatch_ret
      simp only [bind_apply, hq1, hbegin, ha2, readChunks_false, hend, pure_apply]
      rfl
    · refine ⟨a, [], rd w2.calls (endCall hdr), rfl, ⟨w1.calls, rfl⟩, ⟨w2.calls, rfl⟩,
        fun _ h => absurd h (List.not_mem_nil _),
        fun _ h => absurd h (List.not_mem_nil _), ?_, fun h => by cases h⟩
      rw [ha2]
      exact Chain.Chain_stop _

theorem mem_chunkRows {t : Tables} {m : Nat} {d : DataRow} (h : d ∈ chunkRows t m) :
    d ∈ t.streamdata ∧ d.masterid = m := by
  unfold chunkRows at h
  rw [List.mem_insertionSort, List.mem_filter] at h
  exact ⟨h.1, by simpa using h.2⟩

theorem getLast_cons_map {α β : Type} (f : α → β) (a : α) (l : List α) (x : β) :
    ((a :: l).getLast?.map f).getD x = (l.getLast?.map f).getD (f a) := by
  cases l with
  | nil => rfl
  | cons b l =>
    rw [List.getLast?_cons_cons]
    cases h : (b :: l).getLast? with
    | none => simp at h
    | some y => rfl

theorem logMsg_apply (e : Engine) (t : Nat) (msg : String) (w : World) :
    logMsg e t msg w = (.ret (), WriteToLog e t msg w) := rfl

theorem Reads.Reads_log (e : Engine) (t : Nat) (msg : String) (w : World) :
    Reads w (WriteToLog e t msg w) [] := by
  obtain ⟨h1, _, h3, h4⟩ := WriteToLog_frame e t msg w
  exact ⟨h1, by rw [h4, List.append_nil], [], by rw [h3, List.append_nil],
    fun _ h => absurd h (List.not_mem_nil _)⟩

theorem RowsTrace.RowsTrace_tables {rd : Reader} {t t2 : Tables} (ht : t2 = t) {rows : List StreamRow}
    {ext : List Event} {s : Bool} (h : RowsTrace rd t2 rows ext s) : RowsTrace rd t rows ext s := by
  subst ht; exact h

theorem readRows_spec (e : Engine) (rd : Reader) :
    ∀ (rows : List StreamRow) (hdr0 : StreamHeader) (w : World), ChunksFound w.tables →
      ∃ stopped hdrL w2 vis ext,
        readRows e noFault rd rows hdr0 w = (.ret (stopped, hdrL), w2) ∧ Reads w w2 ext ∧
        RowsTrace rd w.tables vis ext stopped ∧ vis <+: rows ∧
        (stopped = false → vis = rows ∧ hdrL = (rows.getLast?.map hdrOfRow).getD hdr0) := by
  intro rows
  induction rows with
  | nil =>
    intro hdr0 w _
    exact ⟨false, hdr0, w, [], [], rfl, Reads.Reads_refl w, RowsTrace.nil, List.prefix_refl _,
      fun _ => ⟨rfl, rfl⟩⟩
  | cons row rest ih =>
    intro hdr0 w hcf
    by_cases hz : row.size = 0
    · -- a row of size 0: BEGIN and END, answers ignored
      let w1 := WriteToLog e LOG_INFO (invalidStreamMsg (hdrOfRow row)) w
      let a := rd w1.calls (beginCall (hdrOfRow row))
      let w2 := w1.deliver [{ call := beginCall (hdrOfRow row), answer := a }]
      let a2 := rd w2.calls (endCall (hdrOfRow row))
      let w3 := w2.deliver [{ call := endCall (hdrOfRow row), answer := a2 }]
      have hstep : readRows e noFault rd (row :: rest) hdr0 w =
          readRows e noFault rd rest (hdrOfRow row) w3 := by
        rw [readRows]
        have : (hdrOfRow row).size = 0 := hz
        simp only [this, ↓reduceIte]
        rfl
      have hr : Reads w w3 ([{ call := beginCall (hdrOfRow row), answer := a }] ++
          [{ call := endCall (hdrOfRow row), answer := a2 }]) := by
        have := ((Reads.Reads_log e LOG_INFO (invalidStreamMsg (hdrOfRow row)) w).Reads_trans
          (Reads.Reads_deliver w1 [{ call := beginCall (hdrOfRow row), answer := a }])).Reads_trans
          (Reads.Reads_deliver w2 [{ call := endCall (hdrOfRow row), answer := a2 }])
        rwa [List.nil_append] at this
      obtain ⟨s, hdrL, w4, vis, ext, h4, hr4, ht4, hp4, hl4⟩ := ih (hdrOfRow row) w3
        (by rw [hr.1]; exact hcf)
      have hg : Group rd w.tables row ([{ call := beginCall (hdrOfRow row), answer := a }] ++
          [{ call := endCall (hdrOfRow row), answer := a2 }]) false := by
        unfold Group
        rw [if_pos hz]
        exact ⟨rfl, a, a2, rfl, ⟨_, rfl⟩, ⟨_, rfl⟩⟩
      refine ⟨s, hdrL, w4, row :: vis, _, hstep.trans h4 ▸ rfl, hr.Reads_trans hr4,
        RowsTrace.cons hg (ht4.RowsTrace_tables hr.1), List.prefix_cons_inj row |>.mpr hp4, fun hs => ?_⟩
      obtain ⟨hv, hh⟩ := hl4 hs
      exact ⟨by rw [hv], by rw [hh, getLast_cons_map]⟩
    · -- a row with data
      obtain ⟨stopped, g, w1, h1, hr1, ht1⟩ := ReadData_spec e rd (hdrOfRow row) w hz
        (fun d hd => hcf d (mem_chunkRows hd).1)
      have hg : Group rd w.tables row g stopped := by
        unfold Group
        rw [if_neg hz]
        exact ht1
      have hsz : ¬ (hdrOfRow row).size = 0 := hz
      cases stopped with
      | true =>
        refine ⟨true, hdrOfRow row, WriteToLog e LOG_INFO "ReadData stopped by caller" w1, [row],
          g, ?_, ?_, RowsTrace.stop hg, ?_, fun h => by cases h⟩
        · rw [readRows]
          simp only [hsz, ↓reduceIte, bind_apply, h1, Bool.not_true, Bool.false_eq_true,
            logMsg_apply, pure_apply]
        · have := hr1.Reads_trans (Reads.Reads_log e LOG_INFO "ReadData stopped by caller" w1)
          rwa [List.append_nil] at this
        · exact ⟨rest, rfl⟩
      | false =>
        obtain ⟨s, hdrL, w4, vis, ext, h4, hr4, ht4, hp4, hl4⟩ := ih (hdrOfRow row) w1
          (by rw [hr1.1]; exact hcf)
        refine ⟨s, hdrL, w4, row :: vis, g ++ ext, ?_, hr1.Reads_trans hr4,
          RowsTrace.cons hg (ht4.RowsTrace_tables hr1.1), List.prefix_cons_inj row |>.mpr hp4, fun hs => ?_⟩
        · rw [readRows]
          simp only [hsz, ↓reduceIte, bind_apply, h1, Bool.not_true, Bool.false_eq_true, h4]
        · obtain ⟨hv, hh⟩ := hl4 hs
          exact ⟨by rw [hv], by rw [hh, getLast_cons_map]⟩

theorem mem_selectRows_none {key : StreamRow → Nat} {lo up : Bound} {rows : List StreamRow}
    {r : StreamRow} : r ∈ selectRows key lo up none rows ↔
      r ∈ rows ∧ lowerOk lo (key r) = true ∧ upperOk up (key r) = true := by
  simp [selectRows, List.mem_insertionSort, List.mem_filter]

theorem selectRows_some (key : StreamRow → Nat) (lo up : Bound) (n : Nat)
    (rows : List StreamRow) :
    selectRows key lo up (some n) rows = (selectRows key lo up none rows).take n := rfl

theorem ascIds_selectRows (lo up : Bound) (rows : List StreamRow)
    (hnd : (rows.map fun r => r.id).Nodup) :
    AscIds (selectRows (fun r => r.id) lo up none rows) := by
  unfold AscIds selectRows
  simp only []
  haveI : IsTotal StreamRow (fun a b => a.id ≤ b.id) := ⟨fun a b => Nat.le_total a.id b.id⟩
  haveI : IsTrans StreamRow (fun a b => a.id ≤ b.id) := ⟨fun _ _ _ h1 h2 => Nat.le_trans h1 h2⟩
  have hs := List.sorted_insertionSort (fun a b : StreamRow => a.id ≤ b.id)
    (rows.filter fun r => lowerOk lo r.id && upperOk up r.id)
  have hp := List.perm_insertionSort (fun a b : StreamRow => a.id ≤ b.id)
    (rows.filter fun r => lowerOk lo r.id && upperOk up r.id)
  have hn1 : ((rows.filter fun r => lowerOk lo r.id && upperOk up r.id).map fun r => r.id).Nodup :=
    List.Nodup.sublist ((List.filter_sublist _).map _) hnd
  have hn2 : (((rows.filter fun r => lowerOk lo r.id && upperOk up r.id).insertionSort
      fun a b => a.id ≤ b.id).map fun r => r.id).Nodup :=
    ((hp.map _).nodup_iff).mpr hn1
  have hne : ((rows.filter fun r => lowerOk lo r.id && upperOk up r.id).insertionSort
      fun a b => a.id ≤ b.id).Pairwise fun a b => a.id ≠ b.id := by
    have := List.pairwise_map.mp hn2
    exact this
  exact (List.Pairwise.and hs hne).imp fun h => Nat.lt_of_le_of_ne h.1 h.2

theorem AscIds.AscIds_nodup {l : List StreamRow} (h : AscIds l) : l.Nodup :=
  List.Pairwise.imp (fun hab heq => by rw [heq] at hab; exact Nat.lt_irrefl _ hab) h

theorem AscIds.AscIds_eq_of_mem {l1 l2 : List StreamRow} (h1 : AscIds l1) (h2 : AscIds l2)
    (hm : ∀ r, r ∈ l1 ↔ r ∈ l2) : l1 = l2 := by
  haveI : IsAntisymm StreamRow (fun a b => a.id < b.id) :=
    ⟨fun a b hab hba => absurd hab (Nat.lt_asymm hba)⟩
  exact List.eq_of_perm_of_sorted ((List.perm_ext_iff_of_nodup h1.AscIds_nodup h2.AscIds_nodup).mpr hm) h1 h2

theorem AscIds.AscIds_le_getLast {l : List StreamRow} (h : AscIds l) (hne : l ≠ []) :
    ∀ r ∈ l, r.id ≤ (l.getLast hne).id := by
  intro r hr
  have hsplit := List.dropLast_append_getLast hne
  rw [← hsplit] at hr h
  rcases List.mem_append.mp hr with hr | hr
  · exact Nat.le_of_lt ((List.pairwise_append.mp h).2.2 r hr _ (List.mem_singleton_self _))
  · rw [List.mem_singleton] at hr; rw [hr]

theorem lowerOk_mono {lo : Bound} {c v : Nat} (h : lowerOk lo c = true) (hcv : c < v) :
    lowerOk lo v = true := by
  unfold lowerOk at h ⊢
  rcases lo with _ | ⟨b, x⟩
  · rfl
  · cases b <;> simp at h ⊢ <;> omega

/-- The cursor step: after a full batch of `n` rows, the rows selected with the
id of the last row of the batch as exclusive lower bound are exactly the rows
after the batch. -/
theorem selectRows_cursor (lo up : Bound) (rows : List StreamRow) (n : Nat)
    (hnd : (rows.map fun r => r.id).Nodup)
    (hne : (selectRows (fun r => r.id) lo up none rows).take n ≠ []) :
    selectRows (fun r => r.id) (some (false,
        (((selectRows (fun r => r.id) lo up none rows).take n).getLast hne).id)) up none rows =
      (selectRows (fun r => r.id) lo up none rows).drop n := by
  have hq := ascIds_selectRows lo up rows hnd
  have hsplit := List.take_append_drop n (selectRows (fun r => r.id) lo up none rows)
  have hq2 := hq
  unfold AscIds at hq2
  rw [← hsplit] at hq2
  obtain ⟨ht, hd, hcross⟩ := List.pairwise_append.mp hq2
  have hLmem : ((selectRows (fun r => r.id) lo up none rows).take n).getLast hne ∈
      selectRows (fun r => r.id) lo up none rows :=
    List.mem_of_mem_take (List.getLast_mem hne)
  have hLlo := (mem_selectRows_none.mp hLmem).2.1
  apply AscIds.AscIds_eq_of_mem (ascIds_selectRows _ up rows hnd) hd
  intro r
  rw [mem_selectRows_none]
  constructor
  · rintro ⟨hr, hlo, hup⟩
    have hgt : (((selectRows (fun r => r.id) lo up none rows).take n).getLast hne).id < r.id := by
      simpa [lowerOk] using hlo
    have hrQ : r ∈ selectRows (fun r => r.id) lo up none rows :=
      mem_selectRows_none.mpr ⟨hr, lowerOk_mono hLlo hgt, hup⟩
    rw [← hsplit] at hrQ
    rcases List.mem_append.mp hrQ with h | h
    · exact absurd (AscIds.AscIds_le_getLast ht hne r h) (Nat.not_le.mpr hgt)
    · exact h
  · intro hr
    have hrQ : r ∈ selectRows (fun r => r.id) lo up none rows := List.mem_of_mem_drop hr
    obtain ⟨h1, _, h3⟩ := mem_selectRows_none.mp hrQ
    refine ⟨h1, ?_, h3⟩
    have := hcross _ (List.getLast_mem hne) r hr
    simpa [lowerOk] using this

theorem withDtor_ret {α : Type} (dtor : M Unit) (body : M α) (w w1 w2 : World) (a : α) (u : Unit)
    (hb : body w = (.ret a, w1)) (hd : dtor w1 = (.ret u, w2)) :
    withDtor dtor body w = (.ret a, w2) := by
  unfold withDtor; rw [hb]; simp only []; rw [hd]

theorem lockRead_noFault (w : World) :
    ∃ w1, lockRead noFault w = (.ret (), w1) ∧ Reads w w1 [] :=
  ⟨_, rfl, Reads.Reads_quiet_stmt .lockRead (fun _ h => by cases h) _ _ rfl rfl rfl⟩

theorem unlock_noFault (w : World) :
    ∃ w1, unlock noFault w = (.ret (), w1) ∧ Reads w w1 [] :=
  ⟨_, rfl, Reads.Reads_quiet_stmt .unlock (fun _ h => by cases h) _ _ rfl rfl rfl⟩

theorem queryStreams_id_noFault (lo up : Bound) (lim : Option Nat) (w : World) :
    ∃ w1, queryStreams noFault "id" lo up lim w =
        (.ret (selectRows (fun r => r.id) lo up lim w.tables.stream), w1) ∧ Reads w w1 [] :=
  ⟨_, rfl, Reads.Reads_quiet_stmt (.selectStreams "id" lo up lim) (fun _ h => by cases h) _ _ rfl rfl
    rfl⟩

theorem readBatch_spec (e : Engine) (rd : Reader) (limit : Nat) (hlim : 0 < limit)
    (first : Nat) (inclusive_first : Bool) (last : Nat) (inclusive_last : Bool) (w : World)
    (hcf : ChunksFound w.tables) :
    ∃ next w2 vis ext stopped,
      readBatch e noFault rd "id" limit first inclusive_first last inclusive_last w =
        (.ret next, w2) ∧
      Reads w w2 ext ∧ RowsTrace rd w.tables vis ext stopped ∧
      vis <+: (selectRows (fun r => r.id) (boundOf first inclusive_first)
        (boundOf last inclusive_last) none w.tables.stream).take limit ∧
      (stopped = true → next = none) ∧
      (stopped = false →
        vis = (selectRows (fun r => r.id) (boundOf first inclusive_first)
          (boundOf last inclusive_last) none w.tables.stream).take limit ∧
        next = if vis.length < limit then none
          else some ((vis.getLast?.map hdrOfRow).getD hdrUninit).id) := by
  obtain ⟨wL, hL, hrL⟩ := lockRead_noFault w
  obtain ⟨wQ, hQ, hrQ⟩ := queryStreams_id_noFault (boundOf first inclusive_first)
    (boundOf last inclusive_last) (some limit) wL
  rw [hrL.1, selectRows_some] at hQ
  have hrwQ : Reads w wQ [] := by
    have := hrL.Reads_trans hrQ
    rwa [List.append_nil] at this
  obtain ⟨stopped, hdrL, wR, vis, ext, hR, hrR, htR, hpR, hlR⟩ :=
    readRows_spec e rd ((selectRows (fun r => r.id) (boundOf first inclusive_first)
      (boundOf last inclusive_last) none w.tables.stream).take limit) hdrUninit wQ
      (by rw [hrwQ.1]; exact hcf)
  obtain ⟨wU, hU, hrU⟩ := unlock_noFault wR
  have hreads : Reads w wU ext := by
    have := (hrwQ.Reads_trans hrR).Reads_trans hrU
    rwa [List.nil_append, List.append_nil] at this
  have hlim0 : limit ≠ 0 := Nat.pos_iff_ne_zero.mp hlim
  have hlimif : (if limit > 0 then some limit else none) = some limit := if_pos hlim
  cases stopped with
  | true =>
    refine ⟨none, wU, vis, ext, true, ?_, hreads, htR.RowsTrace_tables hrwQ.1, hpR, fun _ => rfl,
      fun h => by cases h⟩
    unfold readBatch
    simp only [bind_apply, hL]
    refine withDtor_ret _ _ _ wR _ _ () ?_ hU
    simp only [bind_apply, hlimif]
    rw [show (if first > 0 then some (inclusive_first, first) else none) =
      boundOf first inclusive_first from rfl,
      show (if last > 0 then some (inclusive_last, last) else none) =
      boundOf last inclusive_last from rfl, hQ]
    simp only [hR, Bool.true_or, ↓reduceIte, pure_apply]
  | false =>
    obtain ⟨hv, hh⟩ := hlR rfl
    by_cases hshort : vis.length < limit
    · refine ⟨none, wU, vis, ext, false, ?_, hreads, htR.RowsTrace_tables hrwQ.1, hpR,
        (fun h => by cases h), fun _ => ⟨hv, by rw [if_pos hshort]⟩⟩
      unfold readBatch
      simp only [bind_apply, hL]
      refine withDtor_ret _ _ _ wR _ _ () ?_ hU
      simp only [bind_apply, hlimif]
      rw [show (if first > 0 then some (inclusive_first, first) else none) =
        boundOf first inclusive_first from rfl,
        show (if last > 0 then some (inclusive_last, last) else none) =
        boundOf last inclusive_last from rfl, hQ]
      rw [hv] at hshort
      simp only [hR, hshort, decide_True, Bool.or_true, ↓reduceIte, pure_apply]
    · refine ⟨some hdrL.id, wU, vis, ext, false, ?_, hreads, htR.RowsTrace_tables hrwQ.1, hpR,
        (fun h => by cases h), fun _ => ⟨hv, by rw [if_neg hshort, hh, hv]⟩⟩
      unfold readBatch
      simp only [bind_apply, hL]
      refine withDtor_ret _ _ _ wR _ _ () ?_ hU
      simp only [bind_apply, hlimif]
      rw [show (if first > 0 then some (inclusive_first, first) else none) =
        boundOf first inclusive_first from rfl,
        show (if last > 0 then some (inclusive_last, last) else none) =
        boundOf last inclusive_last from rfl, hQ]
      rw [hv] at hshort
      simp only [hR, hshort, hlim0, decide_False, Bool.or_self, Bool.false_eq_true, ↓reduceIte,
        pure_apply]

theorem RowsTrace.RowsTrace_append {rd : Reader} {t : Tables} {v2 : List StreamRow} {e2 : List Event}
    {s : Bool} (h2 : RowsTrace rd t v2 e2 s) :
    ∀ {v1 : List StreamRow} {e1 : List Event}, RowsTrace rd t v1 e1 false →
      RowsTrace rd t (v1 ++ v2) (e1 ++ e2) s := by
  intro v1
  induction v1 with
  | nil =>
    intro e1 h1
    cases h1
    exact h2
  | cons row rest ih =>
    intro e1 h1
    cases h1 with
    | cons hg hrest =>
      rw [List.cons_append, List.append_assoc]
      exact RowsTrace.cons hg (ih hrest)

theorem boundOf_pos (v : Nat) (b : Bool) (h : 0 < v) : boundOf v b = some (b, v) := by
  unfold boundOf; exact if_pos h

theorem readLoop_none (e : Engine) (f : Faults) (rd : Reader) (column : String) (limit last : Nat)
    (inclusive_last : Bool) (fuel first : Nat) (inclusive_first : Bool) (w w1 : World)
    (h : readBatch e f rd column limit first inclusive_first last inclusive_last w =
      (.ret none, w1)) :
    readLoop e f rd column limit last inclusive_last (fuel + 1) first inclusive_first w =
      (.ret (some true), w1) := by
  rw [readLoop, bind_apply, h]
  rfl

theorem readLoop_some (e : Engine) (f : Faults) (rd : Reader) (column : String) (limit last : Nat)
    (inclusive_last : Bool) (fuel first : Nat) (inclusive_first : Bool) (w w1 : World) (c : Nat)
    (h : readBatch e f rd column limit first inclusive_first last inclusive_last w =
      (.ret (some c), w1)) :
    readLoop e f rd column limit last inclusive_last (fuel + 1) first inclusive_first w =
      readLoop e f rd column limit last inclusive_last fuel c false w1 := by
  rw [readLoop, bind_apply, h]

theorem readLoop_spec (e : Engine) (rd : Reader) (limit : Nat) (hlim : 0 < limit)
    (last : Nat) (inclusive_last : Bool) :
    ∀ (fuel first : Nat) (inclusive_first : Bool) (w : World), ChunksFound w.tables →
      (w.tables.stream.map fun r => r.id).Nodup → (∀ r ∈ w.tables.stream, 0 < r.id) →
      ∃ result w2 vis ext stopped,
        readLoop e noFault rd "id" limit last inclusive_last fuel first inclusive_first w =
          (.ret result, w2) ∧
        Reads w w2 ext ∧ RowsTrace rd w.tables vis ext stopped ∧
        vis <+: selectRows (fun r => r.id) (boundOf first inclusive_first)
          (boundOf last inclusive_last) none w.tables.stream ∧
        (stopped = true → result = some true) ∧
        (stopped = false →
          (selectRows (fun r => r.id) (boundOf first inclusive_first)
            (boundOf last inclusive_last) none w.tables.stream).length / limit < fuel →
          result = some true ∧
          vis = selectRows (fun r => r.id) (boundOf first inclusive_first)
            (boundOf last inclusive_last) none w.tables.stream) := by
  intro fuel
  induction fuel with
  | zero =>
    intro first inclusive_first w _ _ _
    exact ⟨none, w, [], [], false, rfl, Reads.Reads_refl w, RowsTrace.nil, List.nil_prefix,
      (fun h => by cases h), fun _ h => absurd h (Nat.not_lt_zero _)⟩
  | succ fuel ih =>
    intro first inclusive_first w hcf hnd hpos
    obtain ⟨next, w1, vis1, ext1, s1, hb, hr1, ht1, hp1, hs1, hn1⟩ :=
      readBatch_spec e rd limit hlim first inclusive_first last inclusive_last w hcf
    cases s1 with
    | true =>
      rw [hs1 rfl] at hb
      exact ⟨some true, w1, vis1, ext1, true, readLoop_none _ _ _ _ _ _ _ _ _ _ _ _ hb, hr1, ht1,
        hp1.trans (List.take_prefix _ _), fun _ => rfl, fun h => by cases h⟩
    | false =>
      obtain ⟨hv, hnext⟩ := hn1 rfl
      by_cases hshort : vis1.length < limit
      · rw [hnext, if_pos hshort] at hb
        have hall : vis1 = selectRows (fun r => r.id) (boundOf first inclusive_first)
            (boundOf last inclusive_last) none w.tables.stream := by
          have hl := congrArg List.length hv
          rw [List.length_take] at hl
          rw [hv]
          apply List.take_of_length_le
          omega
        exact ⟨some true, w1, vis1, ext1, false, readLoop_none _ _ _ _ _ _ _ _ _ _ _ _ hb, hr1,
          ht1, hp1.trans (List.take_prefix _ _), fun _ => rfl, fun _ _ => ⟨rfl, hall⟩⟩
      · have hne : vis1 ≠ [] := by
          intro h0
          rw [h0] at hshort
          exact hshort hlim
        have hc : ((vis1.getLast?.map hdrOfRow).getD hdrUninit).id = (vis1.getLast hne).id := by
          rw [List.getLast?_eq_getLast vis1 hne]
          rfl
        have hmem : vis1.getLast hne ∈ w.tables.stream := by
          have h2 : ∀ x ∈ vis1, x ∈ w.tables.stream := by
            intro x hx
            rw [hv] at hx
            exact (mem_selectRows_none.mp (List.mem_of_mem_take hx)).1
          exact h2 _ (List.getLast_mem hne)
        have hcpos : 0 < (vis1.getLast hne).id := hpos _ hmem
        rw [hnext, if_neg hshort, hc] at hb
        rw [readLoop_some _ _ _ _ _ _ _ _ _ _ _ _ _ hb]
        have hne2 : (selectRows (fun r => r.id) (boundOf first inclusive_first)
            (boundOf last inclusive_last) none w.tables.stream).take limit ≠ [] := by
          rw [← hv]; exact hne
        have hcur := selectRows_cursor (boundOf first inclusive_first)
          (boundOf last inclusive_last) w.tables.stream limit hnd hne2
        have hlast : (vis1.getLast hne).id =
            (((selectRows (fun r => r.id) (boundOf first inclusive_first)
              (boundOf last inclusive_last) none w.tables.stream).take limit).getLast hne2).id := by
          congr 1
          exact List.getLast_congr _ _ hv
        obtain ⟨result, w2, vis2, ext2, s2, h2, hr2, ht2, hp2, hs2, hn2⟩ :=
          ih (vis1.getLast hne).id false w1 (by rw [hr1.1]; exact hcf)
            (by rw [hr1.1]; exact hnd) (by rw [hr1.1]; exact hpos)
        rw [hr1.1, boundOf_pos _ _ hcpos, hlast, hcur] at hp2 hn2
        refine ⟨result, w2, vis1 ++ vis2, ext1 ++ ext2, s2, h2, hr1.Reads_trans hr2,
          RowsTrace.RowsTrace_append (ht2.RowsTrace_tables hr1.1) ht1, ?_, hs2, fun hs hfuel => ?_⟩
        · rw [hv]
          conv_rhs => rw [← List.take_append_drop limit (selectRows (fun r => r.id)
            (boundOf first inclusive_first) (boundOf last inclusive_last) none w.tables.stream)]
          exact (List.prefix_append_right_inj _).mpr hp2
        · have hlen : limit ≤ (selectRows (fun r => r.id) (boundOf first inclusive_first)
              (boundOf last inclusive_last) none w.tables.stream).length := by
            have hl := congrArg List.length hv
            rw [List.length_take] at hl
            omega
          have hf2 : ((selectRows (fun r => r.id) (boundOf first inclusive_first)
              (boundOf last inclusive_last) none w.tables.stream).drop limit).length / limit <
              fuel := by
            rw [Nat.div_lt_iff_lt_mul hlim] at hfuel ⊢
            rw [List.length_drop]
            rw [Nat.succ_mul] at hfuel
            omega
          obtain ⟨hres, hvis⟩ := hn2 hs hf2
          refine ⟨hres, ?_⟩
          rw [hvis, hv, List.take_append_drop]

theorem filter_id_eq_singleton : ∀ (l : List DataRow) (d : DataRow),
    (l.map fun x => x.id).Nodup → d ∈ l → (l.filter fun x => x.id = d.id) = [d]
  | [], _, _, h => absurd h (List.not_mem_nil _)
  | a :: l, d, hnd, h => by
    rw [List.map_cons, List.nodup_cons] at hnd
    rcases List.mem_cons.mp h with rfl | h
    · have : (l.filter fun x => x.id = d.id) = [] := by
        rw [List.filter_eq_nil_iff]
        intro x hx
        have : x.id ≠ d.id := fun he => hnd.1 (he ▸ List.mem_map_of_mem (fun x => x.id) hx)
        simp [this]
      simp [List.filter_cons, this]
    · have hne : a.id ≠ d.id := fun he => hnd.1 (he ▸ List.mem_map_of_mem (fun x => x.id) h)
      simp [List.filter_cons, hne, filter_id_eq_singleton l d hnd.2 h]

theorem Wf.Wf_chunksFound {w : World} (h : Wf w) : ChunksFound w.tables := by
  intro d hd
  exact ⟨[], by rw [filter_id_eq_singleton _ d h.2.2.2.2 hd]; rfl⟩

theorem ReadById_spec (rd : Reader) (lg : Bool) (fuel first : Nat) (inclusive_first : Bool)
    (last : Nat) (inclusive_last : Bool) (w : World) (hwf : Wf w) :
    ∃ result w2 vis ext stopped,
      ReadById { mReader := some rd, mLogger := lg } noFault fuel first inclusive_first last
        inclusive_last w = (.ret result, w2) ∧
      Reads w w2 ext ∧ RowsTrace rd w.tables vis ext stopped ∧
      vis <+: inRange first inclusive_first last inclusive_last w.tables ∧
      (stopped = true → result = some true) ∧
      (stopped = false →
        (inRange first inclusive_first last inclusive_last w.tables).length / 100 < fuel →
        result = some true ∧ vis = inRange first inclusive_first last inclusive_last w.tables) := by
  obtain ⟨result, w2, vis, ext, stopped, h1, h2⟩ :=
    readLoop_spec { mReader := some rd, mLogger := lg } rd STREAMS_PER_QUERY (by decide) last
      inclusive_last fuel first inclusive_first w hwf.Wf_chunksFound hwf.2.2.1
      (fun r hr => (hwf.2.1 r hr).1)
  exact ⟨result, w2, vis, ext, stopped, tryCatch_ret _ _ _ _ _ _ h1, h2⟩

theorem Group.Group_quiet {rd : Reader} {t : Tables} {row : StreamRow} {g : List Event}
    (h : Group rd t row g false) : Quiet g := by
  unfold Group at h
  split at h
  · rename_i hz
    obtain ⟨_, a, a2, rfl, _, _⟩ := h
    intro x hx hs
    simp only [List.mem_cons, List.mem_singleton, List.not_mem_nil, or_false] at hx
    rcases hx with rfl | rfl
    · rcases hs with hs | ⟨_, hs⟩
      · cases hs
      · exact absurd hz hs
    · rcases hs with hs | ⟨hs, _⟩
      · cases hs
      · cases hs
  · obtain ⟨a, datas, a2, rfl, _, _, _, _, hc, _⟩ := h
    rcases hc with ⟨_, hall⟩ | ⟨hk, _⟩
    · intro x hx hs
      rw [List.mem_append, List.mem_singleton] at hx
      rcases hx with hx | rfl
      · exact hall x hx
      · rcases hs with hs | ⟨hs, _⟩
        · cases hs
        · cases hs
    · cases hk

theorem Group.Group_stopped {rd : Reader} {t : Tables} {row : StreamRow} {g : List Event}
    (h : Group rd t row g true) :
    ∃ e1 c a2, g = e1 ++ [{ call := c, answer := false }, { call := endCall c.hdr, answer := a2 }] ∧
      Quiet e1 ∧ Stopping c := by
  unfold Group at h
  split at h
  · cases h.1
  · rename_i hz
    obtain ⟨a, datas, a2, rfl, _, _, hd, _, hc, _⟩ := h
    rcases hc with ⟨hk, _⟩ | ⟨_, e1, c, heq, hall⟩
    · cases hk
    · have hmem : ({ call := c, answer := false } : Event) ∈
          { call := beginCall (hdrOfRow row), answer := a } :: datas := by
        rw [heq]; exact List.mem_append_right _ (List.mem_singleton_self _)
      have hc : c.hdr = hdrOfRow row ∧ Stopping c := by
        rcases List.mem_cons.mp hmem with h1 | h1
        · have : c = beginCall (hdrOfRow row) := congrArg Event.call h1
          rw [this]
          exact ⟨rfl, Or.inr ⟨rfl, hz⟩⟩
        · obtain ⟨h2, h3, _⟩ := hd _ h1
          exact ⟨h2, Or.inl h3⟩
      refine ⟨e1, c, a2, ?_, fun x hx _ => hall x hx, hc.2⟩
      rw [heq, hc.1]
      simp

theorem Quiet.Quiet_append {e1 e2 : List Event} (h1 : Quiet e1) (h2 : Quiet e2) : Quiet (e1 ++ e2) := by
  intro x hx
  rcases List.mem_append.mp hx with hx | hx
  · exact h1 x hx
  · exact h2 x hx

/-- The shape of every scan trace: nothing stopped it, or it ends with the one
stopping call that was answered false followed by the END of the same stream. -/
theorem RowsTrace.RowsTrace_shape {rd : Reader} {t : Tables} {vis : List StreamRow} {ext : List Event}
    {s : Bool} (h : RowsTrace rd t vis ext s) :
    (s = false ∧ Quiet ext) ∨
    (s = true ∧ ∃ e1 c a2,
      ext = e1 ++ [{ call := c, answer := false }, { call := endCall c.hdr, answer := a2 }] ∧
      Quiet e1 ∧ Stopping c) := by
  induction h with
  | nil => exact Or.inl ⟨rfl, fun _ h => absurd h (List.not_mem_nil _)⟩
  | cons hg _ ih =>
    rcases ih with ⟨hs, hq⟩ | ⟨hs, e1, c, a2, heq, hq, hc⟩
    · exact Or.inl ⟨hs, hg.Group_quiet.Quiet_append hq⟩
    · refine Or.inr ⟨hs, _ ++ e1, c, a2, ?_, hg.Group_quiet.Quiet_append hq, hc⟩
      rw [heq, List.append_assoc]
  | stop hg => exact Or.inr ⟨rfl, hg.Group_stopped⟩

theorem split_two {α : Type} : ∀ (l p post : List α) (x y z : α),
    l ++ [x, y] = p ++ z :: post → z ∈ l ∨ (z = x ∧ post = [y]) ∨ (z = y ∧ post = [])
  | [], [], post, x, y, z, h => by
    simp only [List.nil_append, List.cons.injEq] at h
    exact Or.inr (Or.inl ⟨h.1.symm, h.2.symm⟩)
  | [], [a], post, x, y, z, h => by
    simp only [List.nil_append, List.cons_append, List.cons.injEq] at h
    exact Or.inr (Or.inr ⟨h.2.1.symm, h.2.2.symm⟩)
  | [], a :: b :: p, post, x, y, z, h => by
    simp at h
  | a :: l, [], post, x, y, z, h => by
    simp only [List.cons_append, List.nil_append, List.cons.injEq] at h
    exact Or.inl (h.1 ▸ List.mem_cons_self _ _)
  | a :: l, b :: p, post, x, y, z, h => by
    simp only [List.cons_append, List.cons.injEq] at h
    rcases split_two l p post x y z h.2 with h1 | h1
    · exact Or.inl (List.mem_cons_of_mem _ h1)
    · exact Or.inr h1

/-- What a scan does once a stopping call is answered false. -/
theorem scan_stop (rd : Reader) (lg : Bool) (fuel first : Nat) (inclusive_first : Bool)
    (last : Nat) (inclusive_last : Bool) (w : World) (hwf : Wf w) (pre post : List Event)
    (c : Call)
    (hcalls : (ReadById { mReader := some rd, mLogger := lg } noFault fuel first inclusive_first
      last inclusive_last w).2.calls = w.calls ++ pre ++ { call := c, answer := false } :: post)
    (hc : Stopping c) :
    (∃ a, post = [{ call := endCall c.hdr, answer := a }]) ∧
    (ReadById { mReader := some rd, mLogger := lg } noFault fuel first inclusive_first
      last inclusive_last w).1 = .ret (some true) := by
  obtain ⟨result, w2, vis, ext, stopped, h1, hr, ht, _, hs, _⟩ :=
    ReadById_spec rd lg fuel first inclusive_first last inclusive_last w hwf
  rw [h1] at hcalls ⊢
  simp only [] at hcalls ⊢
  rw [hr.2.1, List.append_assoc] at hcalls
  have hext := List.append_cancel_left hcalls
  rcases ht.RowsTrace_shape with ⟨_, hq⟩ | ⟨hst, e1, c2, a2, heq, hq, _⟩
  · have := hq { call := c, answer := false }
      (by rw [hext]; exact List.mem_append_right _ (List.mem_cons_self _ _)) hc
    cases this
  · rw [heq] at hext
    rcases split_two _ _ _ _ _ _ hext with hm | ⟨h2, h3⟩ | ⟨h2, _⟩
    · have := hq _ hm hc
      cases this
    · have hcc : c = c2 := congrArg Event.call h2
      rw [hs hst]
      exact ⟨⟨a2, by rw [h3, hcc]⟩, rfl⟩
    · exfalso
      have hcc : c = endCall c2.hdr := congrArg Event.call h2
      rw [hcc] at hc
      rcases hc with h | ⟨h, _⟩
      · cases h
      · cases h

/-- C7: in a scan without backend failure, when the reader answers false to a
DATA call, what follows that call is exactly one END call for the same stream
and nothing else, and `ReadById` returns true. -/
theorem C7_stop_on_data (rd : Reader) (lg : Bool) (fuel first : Nat) (inclusive_first : Bool)
    (last : Nat) (inclusive_last : Bool) (w : World) (hwf : Wf w) (pre post : List Event)
    (c : Call)
    (hcalls : (ReadById { mReader := some rd, mLogger := lg } noFault fuel first inclusive_first
      last inclusive_last w).2.calls = w.calls ++ pre ++ { call := c, answer := false } :: post)
    (hc : c.state = DB_STREAM_READ_DATA) :
    (∃ a, post = [{ call := endCall c.hdr, answer := a }]) ∧
    (ReadById { mReader := some rd, mLogger := lg } noFault fuel first inclusive_first
      last inclusive_last w).1 = .ret (some true) :=
  scan_stop rd lg fuel first inclusive_first last inclusive_last w hwf pre post c hcalls (Or.inl hc)

theorem C7_stop_on_data_witness :
    (∃ a, [({ call := endCall exHdr1, answer := true } : Event)] =
      [{ call := endCall (dataCall exHdr1 [1, 2, 3]).hdr, answer := a }]) ∧
    (ReadById { mReader := some exStopAtData, mLogger := true } noFault 1 0 true 0 true
      exWritten).1 = .ret (some true) :=
  C7_stop_on_data exStopAtData true 1 0 true 0 true exWritten (by decide)
    [{ call := beginCall exHdr1, answer := true }] [{ call := endCall exHdr1, answer := true }]
    (dataCall exHdr1 [1, 2, 3]) (by rfl) rfl

/-- C8 at a stream of size 0: with a reader that answers false to every call,
the scan over two streams of size 0 ignores the answer false to the BEGIN (and
END) of the first stream and goes on to visit the second one. -/
theorem C8_begin_stop_ignored_at_size_zero :
    ((ReadById { mReader := some exStopAlways, mLogger := true } noFault 1 0 true 0 true
      exTwoEmpty).2.calls.map fun x => (x.call.hdr.id, x.call.state, x.answer)) =
      [(1, DB_STREAM_READ_BEGIN, false), (1, DB_STREAM_READ_END, false),
       (2, DB_STREAM_READ_BEGIN, false), (2, DB_STREAM_READ_END, false)] := by
  decide

/-- Stopping at BEGIN of a stream with data: in a scan without backend
failure, when the reader answers false to the BEGIN call of a stream whose
stored size is not 0, what follows is exactly the END call of that stream (no
DATA, no later row), and `ReadById` returns true. -/
theorem stop_on_begin_with_data (rd : Reader) (lg : Bool) (fuel first : Nat)
    (inclusive_first : Bool) (last : Nat) (inclusive_last : Bool) (w : World) (hwf : Wf w)
    (pre post : List Event) (c : Call)
    (hcalls : (ReadById { mReader := some rd, mLogger := lg } noFault fuel first inclusive_first
      last inclusive_last w).2.calls = w.calls ++ pre ++ { call := c, answer := false } :: post)
    (hc : c.state = DB_STREAM_READ_BEGIN) (hsz : c.hdr.size ≠ 0) :
    (∃ a, post = [{ call := endCall c.hdr, answer := a }]) ∧
    (ReadById { mReader := some rd, mLogger := lg } noFault fuel first inclusive_first
      last inclusive_last w).1 = .ret (some true) :=
  scan_stop rd lg fuel first inclusive_first last inclusive_last w hwf pre post c hcalls
    (Or.inr ⟨hc, hsz⟩)

/-- C6 at the raw-buffer `Write`: a NULL header and a NULL data pointer each
make it throw (the checks are outside any `TRY`), with nothing logged and
nothing returned, while the sibling operations given a NULL argument (the
stream `Write`, `GetFirst`, `GetLast`, `LookupById`) log one error and return
false. -/
theorem C6_raw_write_null_throws :
    WriteBuf exEngine noFault none (some [1, 2, 3]) exEmpty =
      (.throw "StreamHeader* hdr is NULL", exEmpty) ∧
    WriteBuf exEngine noFault (some exHdr) none exEmpty = (.throw "data is NULL", exEmpty) ∧
    (Write exEngine noFault none (StreamBuf [1, 2, 3]) exEmpty).1 = .ret (false, none) ∧
    (Write exEngine noFault none (StreamBuf [1, 2, 3]) exEmpty).2.errors =
      ["StreamHeader* hdr is NULL"] ∧
    GetFirst exEngine noFault none exEmpty =
      (.ret (false, none), { exEmpty with errors := ["StreamHeader* hdr is NULL"] }) ∧
    GetLast exEngine noFault none exEmpty =
      (.ret (false, none), { exEmpty with errors := ["StreamHeader* hdr is NULL"] }) ∧
    LookupById exEngine noFault 1 none exEmpty =
      (.ret (false, none), { exEmpty with errors := ["bool* found is NULL"] }) := by
  refine ⟨rfl, rfl, rfl, rfl, rfl, rfl, rfl⟩

theorem begins_append (e1 e2 : List Event) : begins (e1 ++ e2) = begins e1 ++ begins e2 := by
  simp [begins, List.filter_append]

theorem Group.Group_answered {rd : Reader} {t : Tables} {row : StreamRow} {g : List Event} {s : Bool}
    (h : Group rd t row g s) : Answered rd g := by
  unfold Group at h
  split at h
  · obtain ⟨_, a, a2, rfl, h1, h2⟩ := h
    intro x hx
    simp only [List.mem_cons, List.mem_singleton, List.not_mem_nil, or_false] at hx
    rcases hx with rfl | rfl
    · exact h1
    · exact h2
  · obtain ⟨a, datas, a2, rfl, h1, h2, _, h4, _, _⟩ := h
    intro x hx
    rw [List.mem_append, List.mem_cons, List.mem_singleton] at hx
    rcases hx with (rfl | hx) | rfl
    · exact h1
    · exact h4 x hx
    · exact h2

theorem Group.Group_begins {rd : Reader} {t : Tables} {row : StreamRow} {g : List Event} {s : Bool}
    (h : Group rd t row g s) : begins g = [hdrOfRow row] := by
  unfold Group at h
  split at h
  · obtain ⟨_, a, a2, rfl, _, _⟩ := h
    rfl
  · obtain ⟨a, datas, a2, rfl, _, _, h3, _, _, _⟩ := h
    have hd : DbStream.begins datas = [] := by
      unfold DbStream.begins
      rw [List.map_eq_nil_iff, List.filter_eq_nil_iff]
      intro x hx
      rw [(h3 x hx).2.1]
      decide
    rw [begins_append]
    show hdrOfRow row :: DbStream.begins datas ++ _ = _
    rw [hd]
    rfl

theorem Group.Group_hdr_eq {rd : Reader} {t : Tables} {row : StreamRow} {g : List Event} {s : Bool}
    (h : Group rd t row g s) : ∀ x ∈ g, x.call.hdr = hdrOfRow row := by
  unfold Group at h
  split at h
  · obtain ⟨_, a, a2, rfl, _, _⟩ := h
    intro x hx
    simp only [List.mem_cons, List.mem_singleton, List.not_mem_nil, or_false] at hx
    rcases hx with rfl | rfl <;> rfl
  · obtain ⟨a, datas, a2, rfl, _, _, h3, _, _, _⟩ := h
    intro x hx
    rw [List.mem_append, List.mem_cons, List.mem_singleton] at hx
    rcases hx with (rfl | hx) | rfl
    · rfl
    · exact (h3 x hx).1
    · rfl

theorem RowsTrace.RowsTrace_answered {rd : Reader} {t : Tables} {vis : List StreamRow} {ext : List Event}
    {s : Bool} (h : RowsTrace rd t vis ext s) : Answered rd ext := by
  induction h with
  | nil => exact fun _ h => absurd h (List.not_mem_nil _)
  | cons hg _ ih =>
    intro x hx
    rcases List.mem_append.mp hx with hx | hx
    · exact hg.Group_answered x hx
    · exact ih x hx
  | stop hg => exact hg.Group_answered

theorem RowsTrace.RowsTrace_begins {rd : Reader} {t : Tables} {vis : List StreamRow} {ext : List Event}
    {s : Bool} (h : RowsTrace rd t vis ext s) : begins ext = vis.map hdrOfRow := by
  induction h with
  | nil => rfl
  | cons hg _ ih => rw [begins_append, hg.Group_begins, ih]; rfl
  | stop hg => rw [hg.Group_begins]; rfl

theorem RowsTrace.RowsTrace_hdr_mem {rd : Reader} {t : Tables} {vis : List StreamRow} {ext : List Event}
    {s : Bool} (h : RowsTrace rd t vis ext s) :
    ∀ x ∈ ext, ∃ row ∈ vis, x.call.hdr = hdrOfRow row := by
  induction h with
  | nil => exact fun _ h => absurd h (List.not_mem_nil _)
  | cons hg _ ih =>
    intro x hx
    rcases List.mem_append.mp hx with hx | hx
    · exact ⟨_, List.mem_cons_self _ _, hg.Group_hdr_eq x hx⟩
    · obtain ⟨row, hr, he⟩ := ih x hx
      exact ⟨row, List.mem_cons_of_mem _ hr, he⟩
  | stop hg => exact fun x hx => ⟨_, List.mem_singleton_self _, hg.Group_hdr_eq x hx⟩

theorem RowsTrace.RowsTrace_not_stopped {rd : Reader} (hrd : ∀ hist c, rd hist c = true) {t : Tables}
    {vis : List StreamRow} {ext : List Event} {s : Bool} (h : RowsTrace rd t vis ext s) :
    s = false := by
  rcases h.RowsTrace_shape with ⟨hs, _⟩ | ⟨_, e1, c, a2, heq, _, _⟩
  · exact hs
  · obtain ⟨hist, hh⟩ := h.RowsTrace_answered { call := c, answer := false }
      (by rw [heq]; exact List.mem_append_right _ (List.mem_cons_self _ _))
    rw [hrd] at hh
    cases hh

theorem lowerOk_boundOf (first : Nat) (incl : Bool) (v : Nat) :
    lowerOk (boundOf first incl) v = true ↔
      (0 < first → if incl = true then first ≤ v else first < v) := by
  unfold boundOf lowerOk
  by_cases h : first > 0
  · cases incl <;> simp [h]
  · simp [h]

theorem upperOk_boundOf (last : Nat) (incl : Bool) (v : Nat) :
    upperOk (boundOf last incl) v = true ↔
      (0 < last → if incl = true then v ≤ last else v < last) := by
  unfold boundOf upperOk
  by_cases h : last > 0
  · cases incl <;> simp [h]
  · simp [h]

theorem length_inRange_le (first : Nat) (incl : Bool) (last : Nat) (incl_last : Bool)
    (t : Tables) : (inRange first incl last incl_last t).length ≤ t.stream.length := by
  unfold inRange selectRows
  simp only [List.length_insertionSort]
  exact List.length_filter_le _ _

/-- A scan with a reader that never stops, on a well-formed store, with enough
batches allowed: it returns true and its trace is the trace of visiting exactly
the rows in range, in ascending id order. -/
theorem scan_full (rd : Reader) (hrd : ∀ hist c, rd hist c = true) (lg : Bool)
    (fuel first : Nat) (inclusive_first : Bool) (last : Nat) (inclusive_last : Bool) (w : World)
    (hwf : Wf w) (hfuel : w.tables.stream.length / 100 < fuel) :
    ∃ w2 ext,
      ReadById { mReader := some rd, mLogger := lg } noFault fuel first inclusive_first last
        inclusive_last w = (.ret (some true), w2) ∧
      Reads w w2 ext ∧
      RowsTrace rd w.tables (inRange first inclusive_first last inclusive_last w.tables) ext
        false := by
  obtain ⟨result, w2, vis, ext, stopped, h1, hr, ht, _, _, hn⟩ :=
    ReadById_spec rd lg fuel first inclusive_first last inclusive_last w hwf
  have hs := ht.RowsTrace_not_stopped hrd
  subst hs
  have hf : (inRange first inclusive_first last inclusive_last w.tables).length / 100 < fuel :=
    Nat.lt_of_le_of_lt (Nat.div_le_div_right (length_inRange_le _ _ _ _ _)) hfuel
  obtain ⟨hres, hvis⟩ := hn rfl hf
  subst hres
  rw [hvis] at ht
  exact ⟨w2, ext, h1, hr, ht⟩

/-- C10: with a reader that never stops, no backend failure and enough batches
allowed, `ReadById` returns true and the rows it visits (the headers of its
BEGIN calls, in call order) are exactly the header rows whose id is within the
bounds (a bound applies only when its value is above 0), in strictly ascending
id order, hence each once, whatever their number and sizes. -/
theorem C10_scan_visits_range (rd : Reader) (hrd : ∀ hist c, rd hist c = true) (lg : Bool)
    (fuel first : Nat) (inclusive_first : Bool) (last : Nat) (inclusive_last : Bool) (w : World)
    (hwf : Wf w) (hfuel : w.tables.stream.length / 100 < fuel) :
    (ReadById { mReader := some rd, mLogger := lg } noFault fuel first inclusive_first last
      inclusive_last w).1 = .ret (some true) ∧
    ∃ vis : List StreamRow,
      begins ((ReadById { mReader := some rd, mLogger := lg } noFault fuel first inclusive_first
        last inclusive_last w).2.calls.drop w.calls.length) = vis.map hdrOfRow ∧
      vis.Sorted (fun a b => a.id < b.id) ∧
      ∀ row, row ∈ vis ↔ row ∈ w.tables.stream ∧
        (0 < first → if inclusive_first = true then first ≤ row.id else first < row.id) ∧
        (0 < last → if inclusive_last = true then row.id ≤ last else row.id < last) := by
  obtain ⟨w2, ext, h1, hr, ht⟩ :=
    scan_full rd hrd lg fuel first inclusive_first last inclusive_last w hwf hfuel
  rw [h1]
  refine ⟨rfl, inRange first inclusive_first last inclusive_last w.tables, ?_, ?_, ?_⟩
  · simp only []
    rw [hr.2.1, List.drop_left]
    exact ht.RowsTrace_begins
  · exact ascIds_selectRows _ _ _ hwf.2.2.1
  · intro row
    unfold inRange
    rw [mem_selectRows_none, lowerOk_boundOf, upperOk_boundOf]

theorem dataRows_ids (m : Nat) : ∀ (i : Nat) (cs : List (List Byte)),
    ((dataRows m i cs).map fun d => d.id) = List.range' i cs.length
  | _, [] => rfl
  | i, c :: cs => by
    simp only [dataRows, List.map_cons, List.length_cons, List.range'_succ]
    rw [dataRows_ids m (i + 1) cs]

theorem Write_wf (e : Engine) (f : Faults) (hdr : StreamHeader) (src : IStream) (w w2 : World)
    (res : Option StreamHeader) (hwf : Wf w)
    (h : Write e f (some hdr) src w = (.ret (true, res), w2)) : Wf w2 := by
  obtain ⟨cs, _, _, _, h4, h5, h6, h7, _, _⟩ := Write_ret e f hdr src w w2 res hwf h
  obtain ⟨p0, p1, p2, p3, p4⟩ := hwf
  refine ⟨by omega, ?_, ?_, ?_, ?_⟩
  · intro r hr
    rw [h4, List.mem_append, List.mem_singleton] at hr
    rcases hr with hr | rfl
    · have := p1 r hr
      exact ⟨this.1, by omega⟩
    · exact ⟨p0, by rw [h6]; exact Nat.lt_succ_self _⟩
  · rw [h4, List.map_append, List.nodup_append]
    refine ⟨p2, List.nodup_singleton _, ?_⟩
    intro a ha hb
    rw [List.map_singleton, List.mem_singleton] at hb
    obtain ⟨r, hr, rfl⟩ := List.mem_map.mp ha
    have := (p1 r hr).2
    simp only [writtenRow] at hb
    omega
  · intro d hd
    rw [h5, List.mem_append] at hd
    rcases hd with hd | hd
    · have := p3 d hd
      exact ⟨by omega, by omega⟩
    · have h1 := (dataRows_masterid _ _ _ d hd).1
      have h2 : d.id ∈ List.range' w.nextDataId cs.length := by
        rw [← dataRows_ids w.nextStreamId]
        exact List.mem_map_of_mem (fun d => d.id) hd
      rw [List.mem_range'_1] at h2
      exact ⟨by omega, by omega⟩
  · rw [h5, List.map_append, List.nodup_append, dataRows_ids]
    refine ⟨p4, List.nodup_range' _ _, ?_⟩
    intro a ha hb
    obtain ⟨d, hd, rfl⟩ := List.mem_map.mp ha
    rw [List.mem_range'_1] at hb
    have := (p3 d hd).1
    omega

theorem dataOf_append (id : Nat) (e1 e2 : List Event) :
    dataOf id (e1 ++ e2) = dataOf id e1 ++ dataOf id e2 := by
  simp [dataOf, List.filter_append]

theorem Group.Group_dataOf {rd : Reader} {t : Tables} {row : StreamRow} {g : List Event}
    (h : Group rd t row g false) (id : Nat) :
    dataOf id g = if row.id = id then bytesOf t row else [] := by
  by_cases hid : row.id = id
  · rw [if_pos hid]
    unfold Group at h
    unfold bytesOf
    split at h
    · rename_i hz
      obtain ⟨_, a, a2, rfl, _, _⟩ := h
      rw [if_pos hz]
      simp [DbStream.dataOf, beginCall, endCall, DB_STREAM_READ_BEGIN, DB_STREAM_READ_END,
        DB_STREAM_READ_DATA]
    · rename_i hz
      obtain ⟨a, datas, a2, rfl, _, _, h3, _, _, h6⟩ := h
      rw [if_neg hz]
      have hd : DbStream.dataOf id datas = (datas.map fun x => x.call.data).flatten := by
        unfold DbStream.dataOf
        rw [List.filter_eq_self.mpr]
        intro x hx
        obtain ⟨h1, h2, _⟩ := h3 x hx
        simp [h1, h2, hdrOfRow, hid]
      rw [dataOf_append, ← List.singleton_append, dataOf_append, hd, h6 rfl]
      simp [DbStream.dataOf, beginCall, endCall, DB_STREAM_READ_BEGIN, DB_STREAM_READ_END,
        DB_STREAM_READ_DATA, hdrOfRow]
  · rw [if_neg hid]
    unfold DbStream.dataOf
    have : (g.filter fun x => x.call.hdr.id = id ∧ x.call.state = DB_STREAM_READ_DATA) = [] := by
      rw [List.filter_eq_nil_iff]
      intro x hx
      rw [h.Group_hdr_eq x hx]
      simp [hdrOfRow, hid]
    rw [this]
    rfl

theorem RowsTrace.RowsTrace_dataOf {rd : Reader} {t : Tables} {vis : List StreamRow} {ext : List Event}
    {s : Bool} (h : RowsTrace rd t vis ext s) (hs : s = false) (id : Nat) :
    dataOf id ext = ((vis.filter fun r => r.id = id).map (bytesOf t)).flatten := by
  induction h with
  | nil => rfl
  | cons hg _ ih =>
    rw [dataOf_append, hg.Group_dataOf id, ih hs, List.filter_cons]
    split <;> simp_all
  | stop _ => cases hs

theorem AscIds.AscIds_filter_id : ∀ {l : List StreamRow}, AscIds l → ∀ r ∈ l,
    (l.filter fun x => x.id = r.id) = [r]
  | [], _, _, h => absurd h (List.not_mem_nil _)
  | a :: l, hl, r, h => by
    have hl2 := List.pairwise_cons.mp hl
    rcases List.mem_cons.mp h with rfl | h
    · have : (l.filter fun x => x.id = r.id) = [] := by
        rw [List.filter_eq_nil_iff]
        intro x hx
        have := hl2.1 x hx
        simp only [decide_eq_true_eq]
        omega
      simp [List.filter_cons, this]
    · have hne : ¬ a.id = r.id := by
        have := hl2.1 r h
        omega
      simp [List.filter_cons, hne, AscIds.AscIds_filter_id hl2.2 r h]

theorem C10_scan_visits_range_witness :
    (ReadById { mReader := some fun _ _ => true, mLogger := true } noFault 1 2 false 0 true
      exTwoEmpty).1 = .ret (some true) ∧
    ∃ vis : List StreamRow,
      begins ((ReadById { mReader := some fun _ _ => true, mLogger := true } noFault 1 2 false
        0 true exTwoEmpty).2.calls.drop exTwoEmpty.calls.length) = vis.map hdrOfRow ∧
      vis.Sorted (fun a b => a.id < b.id) ∧
      ∀ row, row ∈ vis ↔ row ∈ exTwoEmpty.tables.stream ∧
        (0 < 2 → if false = true then 2 ≤ row.id else 2 < row.id) ∧
        (0 < 0 → if true = true then row.id ≤ 0 else row.id < 0) :=
  C10_scan_visits_range (fun _ _ => true) (fun _ _ => rfl) true 1 2 false 0 true exTwoEmpty
    (by decide) (by decide)

theorem mem_inRange {first : Nat} {incl : Bool} {last : Nat} {incl_last : Bool} {t : Tables}
    {r : StreamRow} : r ∈ inRange first incl last incl_last t ↔
      r ∈ t.stream ∧ (0 < first → if incl = true then first ≤ r.id else first < r.id) ∧
        (0 < last → if incl_last = true then r.id ≤ last else r.id < last) := by
  unfold inRange
  rw [mem_selectRows_none, lowerOk_boundOf, upperOk_boundOf]

theorem Wf.Wf_unique_id {w : World} (h : Wf w) {r1 r2 : StreamRow} (h1 : r1 ∈ w.tables.stream)
    (h2 : r2 ∈ w.tables.stream) (hid : r1.id = r2.id) : r1 = r2 :=
  List.inj_on_of_nodup_map h.2.2.1 h1 h2 hid

/-- The round trip of one payload through `Write` and a full scan. -/
theorem round_trip (rd : Reader) (hrd : ∀ hist c, rd hist c = true) (lg : Bool) (f : Faults)
    (hdr : StreamHeader) (payload : List Byte) (w w1 : World) (res : Option StreamHeader)
    (fuel : Nat) (hwf : Wf w) (hsz : payload.length < 2 ^ 64)
    (hw : Write { mReader := some rd, mLogger := lg } f (some hdr) (StreamBuf payload) w =
      (.ret (true, res), w1))
    (hfuel : w1.tables.stream.length / 100 < fuel) :
    res = some { hdr with id := w.nextStreamId } ∧
    ∃ w2 ext, ReadById { mReader := some rd, mLogger := lg } noFault fuel 0 true 0 true w1 =
        (.ret (some true), w2) ∧ w2.calls = w1.calls ++ ext ∧
      dataOf w.nextStreamId ext = payload ∧
      (∃ x ∈ ext, x.call.hdr.id = w.nextStreamId) ∧
      ∀ x ∈ ext, x.call.hdr.id = w.nextStreamId → x.call.hdr.size = payload.length := by
  obtain ⟨hres, hbytes, ⟨r, hr, hrid⟩, hsize⟩ :=
    Write_holds _ f hdr (StreamBuf payload) w w1 res hwf hsz hw
  have hav : (StreamBuf payload).avail = payload := rfl
  rw [hav] at hbytes hsize
  have hwf1 := Write_wf _ f hdr (StreamBuf payload) w w1 res hwf hw
  obtain ⟨w2, ext, h1, hreads, ht⟩ := scan_full rd hrd lg fuel 0 true 0 true w1 hwf1 hfuel
  have hrQ : r ∈ inRange 0 true 0 true w1.tables :=
    mem_inRange.mpr ⟨hr, fun h => absurd h (Nat.lt_irrefl 0), fun h => absurd h (Nat.lt_irrefl 0)⟩
  have hasc : AscIds (inRange 0 true 0 true w1.tables) := ascIds_selectRows _ _ _ hwf1.2.2.1
  refine ⟨hres, w2, ext, h1, hreads.2.1, ?_, ?_, ?_⟩
  · rw [ht.RowsTrace_dataOf rfl, ← hrid, hasc.AscIds_filter_id r hrQ]
    simp only [List.map_cons, List.map_nil, List.flatten_cons, List.flatten_nil, List.append_nil]
    unfold bytesOf
    split
    · rename_i hz
      have := (hsize r hr hrid).1
      rw [hz] at this
      exact (List.length_eq_zero.mp this.symm).symm
    · rw [hrid]; exact hbytes
  · have hb : hdrOfRow r ∈ begins ext := by
      rw [ht.RowsTrace_begins]; exact List.mem_map_of_mem _ hrQ
    unfold begins at hb
    obtain ⟨x, hx, hxe⟩ := List.mem_map.mp hb
    exact ⟨x, (List.mem_filter.mp hx).1, by rw [hxe]; exact hrid⟩
  · intro x hx hxid
    obtain ⟨row, hrow, he⟩ := ht.RowsTrace_hdr_mem x hx
    have hrow2 := (mem_inRange.mp hrow).1
    rw [he] at hxid ⊢
    exact (hsize row hrow2 hxid).1

/-- C1: a successful `Write` of a payload followed by `ReadById(0, true, 0,
true)` on the store it left (reader never stopping, no backend failure during
the scan, enough batches allowed) returns true, visits the new stream, and
delivers for it DATA calls whose blocks, concatenated in call order, are
exactly the payload; every call for the stream carries a header whose size is
the payload length, which is therefore the number of bytes delivered. -/
theorem C1_write_then_scan_round_trip (rd : Reader) (hrd : ∀ hist c, rd hist c = true)
    (lg : Bool) (f : Faults) (hdr : StreamHeader) (payload : List Byte) (w w1 : World)
    (res : Option StreamHeader) (fuel : Nat) (hwf : Wf w) (hsz : payload.length < 2 ^ 64)
    (hw : Write { mReader := some rd, mLogger := lg } f (some hdr) (StreamBuf payload) w =
      (.ret (true, res), w1))
    (hfuel : w1.tables.stream.length / 100 < fuel) :
    ∃ id, res = some { hdr with id := id } ∧
      (ReadById { mReader := some rd, mLogger := lg } noFault fuel 0 true 0 true w1).1 =
        .ret (some true) ∧
      dataOf id ((ReadById { mReader := some rd, mLogger := lg } noFault fuel 0 true 0 true
        w1).2.calls.drop w1.calls.length) = payload ∧
      (∃ x ∈ (ReadById { mReader := some rd, mLogger := lg } noFault fuel 0 true 0 true
        w1).2.calls.drop w1.calls.length, x.call.hdr.id = id) ∧
      ∀ x ∈ (ReadById { mReader := some rd, mLogger := lg } noFault fuel 0 true 0 true
        w1).2.calls.drop w1.calls.length, x.call.hdr.id = id →
          x.call.hdr.size = payload.length ∧
          x.call.hdr.size = (dataOf id ((ReadById { mReader := some rd, mLogger := lg } noFault
            fuel 0 true 0 true w1).2.calls.drop w1.calls.length)).length := by
  obtain ⟨hres, w2, ext, h1, hc, hd, hex, hsize⟩ :=
    round_trip rd hrd lg f hdr payload w w1 res fuel hwf hsz hw hfuel
  have e1 : (ReadById { mReader := some rd, mLogger := lg } noFault fuel 0 true 0 true w1).1 =
      .ret (some true) := by rw [h1]
  have e2 : (ReadById { mReader := some rd, mLogger := lg } noFault fuel 0 true 0 true
      w1).2.calls.drop w1.calls.length = ext := by
    rw [h1]
    show w2.calls.drop w1.calls.length = ext
    rw [hc, List.drop_left]
  rw [e2]
  exact ⟨_, hres, e1, hd, hex, fun x hx hid => ⟨hsize x hx hid, by rw [hd]; exact hsize x hx hid⟩⟩

theorem C1_write_then_scan_round_trip_witness :
    ∃ id, some { exHdr with id := 1 } = some { exHdr with id := id } ∧
      (ReadById { mReader := some fun _ _ => true, mLogger := true } noFault 1 0 true 0 true exWritten).1 = .ret (some true) ∧
      dataOf id ((ReadById { mReader := some fun _ _ => true, mLogger := true } noFault 1 0 true 0 true exWritten).2.calls.drop
        exWritten.calls.length) = [1, 2, 3] ∧
      (∃ x ∈ (ReadById { mReader := some fun _ _ => true, mLogger := true } noFault 1 0 true 0 true exWritten).2.calls.drop
        exWritten.calls.length, x.call.hdr.id = id) ∧
      ∀ x ∈ (ReadById { mReader := some fun _ _ => true, mLogger := true } noFault 1 0 true 0 true exWritten).2.calls.drop
        exWritten.calls.length, x.call.hdr.id = id →
          x.call.hdr.size = [1, 2, 3].length ∧
          x.call.hdr.size = (dataOf id ((ReadById { mReader := some fun _ _ => true, mLogger := true } noFault 1 0 true 0 true
            exWritten).2.calls.drop exWritten.calls.length)).length :=
  C1_write_then_scan_round_trip (fun _ _ => true) (fun _ _ => rfl) true noFault exHdr [1, 2, 3]
    exEmpty exWritten (some { exHdr with id := 1 }) 1 exWf (by simp) exWrite_eq (by decide)

theorem exWriteEmpty_eq :
    Write { mReader := some fun _ _ => true, mLogger := true } noFault (some exHdr)
      (StreamBuf []) exEmpty = (.ret (true, some { exHdr with id := 1 }), exWrittenEmpty) := by
  rfl

theorem RowsTrace.RowsTrace_split_aux {rd : Reader} {t : Tables} {row : StreamRow} {B : List StreamRow}
    {vis : List StreamRow} {ext : List Event} {s : Bool} (h : RowsTrace rd t vis ext s) :
    s = false → ∀ A, vis = A ++ row :: B →
      ∃ eA g eB, ext = eA ++ g ++ eB ∧ RowsTrace rd t A eA false ∧ Group rd t row g false ∧
        RowsTrace rd t B eB false := by
  induction h with
  | nil =>
    intro _ A hA
    cases A <;> simp at hA
  | cons hg hrest ih =>
    intro hs A hA
    subst hs
    cases A with
    | nil =>
      simp only [List.nil_append, List.cons.injEq] at hA
      obtain ⟨rfl, rfl⟩ := hA
      exact ⟨[], _, _, rfl, RowsTrace.nil, hg, hrest⟩
    | cons a A =>
      simp only [List.cons_append, List.cons.injEq] at hA
      obtain ⟨rfl, rfl⟩ := hA
      obtain ⟨eA, g, eB, rfl, h1, h2, h3⟩ := ih rfl A rfl
      exact ⟨_ ++ eA, g, eB, by simp [List.append_assoc], RowsTrace.cons hg h1, h2, h3⟩
  | stop _ =>
    intro hs
    cases hs

theorem RowsTrace.RowsTrace_split {rd : Reader} {t : Tables} {row : StreamRow} {A B : List StreamRow}
    {ext : List Event} (h : RowsTrace rd t (A ++ row :: B) ext false) :
    ∃ eA g eB, ext = eA ++ g ++ eB ∧ RowsTrace rd t A eA false ∧ Group rd t row g false ∧
      RowsTrace rd t B eB false :=
  h.RowsTrace_split_aux rfl A rfl

theorem ChunkShape.ChunkShape_eq_nil {cs : List (List Byte)} (h : ChunkShape cs) (h0 : cs.flatten = []) :
    cs = [] := by
  cases cs with
  | nil => rfl
  | cons c cs =>
    have := (h.1 c (List.mem_cons_self _ _)).1
    rw [List.flatten_cons, List.append_eq_nil] at h0
    rw [h0.1] at this
    exact absurd this (Nat.lt_irrefl 0)

/-- Writing an empty payload and scanning a range that holds the new id. -/
theorem zero_length (rd : Reader) (hrd : ∀ hist c, rd hist c = true) (lg : Bool) (f : Faults)
    (hdr : StreamHeader) (src : IStream) (w w1 : World) (res : Option StreamHeader)
    (fuel first : Nat) (inclusive_first : Bool) (last : Nat) (inclusive_last : Bool)
    (hwf : Wf w) (hempty : src.avail = [])
    (hw : Write { mReader := some rd, mLogger := lg } f (some hdr) src w =
      (.ret (true, res), w1))
    (hfuel : w1.tables.stream.length / 100 < fuel)
    (hlo : 0 < first →
      if inclusive_first = true then first ≤ w.nextStreamId else first < w.nextStreamId)
    (hup : 0 < last →
      if inclusive_last = true then w.nextStreamId ≤ last else w.nextStreamId < last) :
    res = some { hdr with id := w.nextStreamId } ∧
    (∃ row ∈ w1.tables.stream, row.id = w.nextStreamId ∧ row.size = 0) ∧
    (∀ d ∈ w1.tables.streamdata, d.masterid ≠ w.nextStreamId) ∧
    ∃ w2 ext lgs pre post h a a2,
      ReadById { mReader := some rd, mLogger := lg } noFault fuel first inclusive_first last
        inclusive_last w1 = (.ret (some true), w2) ∧
      w2.calls = w1.calls ++ ext ∧ w2.log = w1.log ++ lgs ∧
      h.id = w.nextStreamId ∧ h.size = 0 ∧
      ext = pre ++ [{ call := beginCall h, answer := a }, { call := endCall h, answer := a2 }] ++
        post ∧
      (∀ x ∈ pre ++ post, x.call.hdr.id ≠ w.nextStreamId) ∧
      Stmt.selectDataIds w.nextStreamId ∉ lgs := by
  obtain ⟨cs, c1, c2, hres, c4, c5, _⟩ := Write_ret _ f hdr src w w1 res hwf hw
  have hwf1 := Write_wf _ f hdr src w w1 res hwf hw
  rw [hempty] at c1 c4
  have hcs : cs = [] := c2.ChunkShape_eq_nil c1
  rw [hcs] at c5
  have hrow : writtenRow w.nextStreamId hdr ([] : List Byte).length ∈ w1.tables.stream := by
    rw [c4]; exact List.mem_append_right _ (List.mem_singleton_self _)
  have hrsz : (writtenRow w.nextStreamId hdr ([] : List Byte).length).size = 0 := by
    simp [writtenRow]
  refine ⟨hres, ⟨_, hrow, rfl, hrsz⟩, ?_, ?_⟩
  · intro d hd
    rw [c5] at hd
    simp only [dataRows, List.append_nil] at hd
    exact Nat.ne_of_lt (hwf.2.2.2.1 d hd).2
  · obtain ⟨w2, ext, h1, hreads, ht⟩ :=
      scan_full rd hrd lg fuel first inclusive_first last inclusive_last w1 hwf1 hfuel
    have hrQ : writtenRow w.nextStreamId hdr ([] : List Byte).length ∈
        inRange first inclusive_first last inclusive_last w1.tables :=
      mem_inRange.mpr ⟨hrow, hlo, hup⟩
    obtain ⟨A, B, hAB⟩ := List.append_of_mem hrQ
    have hasc : AscIds (inRange first inclusive_first last inclusive_last w1.tables) :=
      ascIds_selectRows _ _ _ hwf1.2.2.1
    rw [hAB] at ht hasc
    obtain ⟨eA, g, eB, hext, tA, hg, tB⟩ := ht.RowsTrace_split
    obtain ⟨_, hB, hcross⟩ := List.pairwise_append.mp hasc
    have hB2 := List.pairwise_cons.mp hB
    have hAid : ∀ x ∈ eA, x.call.hdr.id ≠ w.nextStreamId := by
      intro x hx
      obtain ⟨row, hr, he⟩ := tA.RowsTrace_hdr_mem x hx
      have := hcross row hr _ (List.mem_cons_self _ _)
      rw [he]
      exact Nat.ne_of_lt this
    have hBid : ∀ x ∈ eB, x.call.hdr.id ≠ w.nextStreamId := by
      intro x hx
      obtain ⟨row, hr, he⟩ := tB.RowsTrace_hdr_mem x hx
      have := hB2.1 row hr
      rw [he]
      exact Nat.ne_of_gt this
    have hgid := hg.Group_hdr_eq
    unfold Group at hg
    rw [if_pos hrsz] at hg
    obtain ⟨_, a, a2, hgeq, _, _⟩ := hg
    obtain ⟨lgs, hlog, hq⟩ := hreads.2.2
    refine ⟨w2, ext, lgs, eA, eB, hdrOfRow (writtenRow w.nextStreamId hdr ([] : List Byte).length),
      a, a2, h1, hreads.2.1, hlog, rfl, hrsz, by rw [hext, hgeq], ?_, ?_⟩
    · intro x hx
      rcases List.mem_append.mp hx with hx | hx
      · exact hAid x hx
      · exact hBid x hx
    · intro hmem
      obtain ⟨x, hx, hxid, hxsz⟩ := hq _ hmem
      rw [hext, List.mem_append, List.mem_append] at hx
      rcases hx with (hx | hx) | hx
      · exact hAid x hx hxid
      · rw [hgid x hx] at hxsz
        exact hxsz hrsz
      · exact hBid x hx hxid

/-- C9: a successful `Write` of a source that yields no byte leaves a header
row of size 0 for the new id and no chunk row for it; a scan of a range that
holds the id (reader never stopping, no backend failure, enough batches
allowed) returns true and calls the reader for that stream exactly twice:
BEGIN immediately followed by END, both with 0 bytes, and sends no chunk query
for that id. -/
theorem C9_zero_length_stream (rd : Reader) (hrd : ∀ hist c, rd hist c = true) (lg : Bool)
    (f : Faults) (hdr : StreamHeader) (src : IStream) (w w1 : World)
    (res : Option StreamHeader) (fuel first : Nat) (inclusive_first : Bool) (last : Nat)
    (inclusive_last : Bool) (hwf : Wf w) (hempty : src.avail = [])
    (hw : Write { mReader := some rd, mLogger := lg } f (some hdr) src w =
      (.ret (true, res), w1))
    (hfuel : w1.tables.stream.length / 100 < fuel)
    (hlo : 0 < first →
      if inclusive_first = true then first ≤ w.nextStreamId else first < w.nextStreamId)
    (hup : 0 < last →
      if inclusive_last = true then w.nextStreamId ≤ last else w.nextStreamId < last) :
    ∃ id, res = some { hdr with id := id } ∧
      (∃ row ∈ w1.tables.stream, row.id = id ∧ row.size = 0) ∧
      (∀ d ∈ w1.tables.streamdata, d.masterid ≠ id) ∧
      (ReadById { mReader := some rd, mLogger := lg } noFault fuel first inclusive_first last
        inclusive_last w1).1 = .ret (some true) ∧
      (∃ pre post h a a2, h.id = id ∧ h.size = 0 ∧
        (ReadById { mReader := some rd, mLogger := lg } noFault fuel first inclusive_first last
          inclusive_last w1).2.calls = w1.calls ++ pre ++
            [{ call := { hdr := h, data := [], state := DB_STREAM_READ_BEGIN }, answer := a },
             { call := { hdr := h, data := [], state := DB_STREAM_READ_END }, answer := a2 }] ++
            post ∧
        ∀ x ∈ pre ++ post, x.call.hdr.id ≠ id) ∧
      Stmt.selectDataIds id ∉ (ReadById { mReader := some rd, mLogger := lg } noFault fuel first
        inclusive_first last inclusive_last w1).2.log.drop w1.log.length := by
  obtain ⟨hres, hrow, hno, w2, ext, lgs, pre, post, h, a, a2, h1, hc, hl, hid, hsz, hext, hne,
    hq⟩ := zero_length rd hrd lg f hdr src w w1 res fuel first inclusive_first last
      inclusive_last hwf hempty hw hfuel hlo hup
  have e1 : (ReadById { mReader := some rd, mLogger := lg } noFault fuel first inclusive_first
      last inclusive_last w1).1 = .ret (some true) := by rw [h1]
  have e2 : (ReadById { mReader := some rd, mLogger := lg } noFault fuel first inclusive_first
      last inclusive_last w1).2 = w2 := by rw [h1]
  rw [e2]
  refine ⟨_, hres, hrow, hno, e1, ⟨pre, post, h, a, a2, hid, hsz, ?_, hne⟩, ?_⟩
  · rw [hc, hext]
    simp only [List.append_assoc]
    rfl
  · rw [hl, List.drop_left]
    exact hq

theorem C9_zero_length_stream_witness :
    ∃ id, some { exHdr with id := 1 } = some { exHdr with id := id } ∧
      (∃ row ∈ exWrittenEmpty.tables.stream, row.id = id ∧ row.size = 0) ∧
      (∀ d ∈ exWrittenEmpty.tables.streamdata, d.masterid ≠ id) ∧
      (ReadById { mReader := some fun _ _ => true, mLogger := true } noFault 1 0 true 0 true
        exWrittenEmpty).1 = .ret (some true) ∧
      (∃ pre post h a a2, h.id = id ∧ h.size = 0 ∧
        (ReadById { mReader := some fun _ _ => true, mLogger := true } noFault 1 0 true 0 true
          exWrittenEmpty).2.calls = exWrittenEmpty.calls ++ pre ++
            [{ call := { hdr := h, data := [], state := DB_STREAM_READ_BEGIN }, answer := a },
             { call := { hdr := h, data := [], state := DB_STREAM_READ_END }, answer := a2 }] ++
            post ∧
        ∀ x ∈ pre ++ post, x.call.hdr.id ≠ id) ∧
      Stmt.selectDataIds id ∉ (ReadById { mReader := some fun _ _ => true, mLogger := true }
        noFault 1 0 true 0 true exWrittenEmpty).2.log.drop exWrittenEmpty.log.length :=
  C9_zero_length_stream (fun _ _ => true) (fun _ _ => rfl) true noFault exHdr (StreamBuf [])
    exEmpty exWrittenEmpty (some { exHdr with id := 1 }) 1 0 true 0 true exWf rfl exWriteEmpty_eq
    (by decide) (fun h => absurd h (Nat.lt_irrefl 0)) (fun h => absurd h (Nat.lt_irrefl 0))

theorem RowsTrace.RowsTrace_nil_inv {rd : Reader} {t : Tables} {vis : List StreamRow}
    {ext : List Event} {s : Bool} (h : RowsTrace rd t vis ext s) (hv : vis = []) :
    ext = [] ∧ s = false := by
  cases h with
  | nil => exact ⟨rfl, rfl⟩
  | cons _ _ => cases hv
  | stop _ => cases hv

theorem RowsTrace.RowsTrace_stopped_ne_nil {rd : Reader} {t : Tables} {vis : List StreamRow}
    {ext : List Event} (h : RowsTrace rd t vis ext true) : vis ≠ [] := by
  intro hv
  cases (h.RowsTrace_nil_inv hv).2

theorem inRange_point (v : Nat) (hv : 0 < v) (w : World) (hwf : Wf w) :
    inRange v true v true w.tables = (w.tables.stream.filter fun r => r.id = v) ∧
    (w.tables.stream.filter fun r => r.id = v).length ≤ 1 := by
  have hasc : AscIds (w.tables.stream.filter fun r => r.id = v) := by
    have hp : (w.tables.stream.filter fun r => r.id = v).Pairwise fun a b => a.id ≠ b.id :=
      (List.pairwise_map.mp hwf.2.2.1).sublist (List.filter_sublist _)
    refine List.Pairwise.imp_of_mem ?_ hp
    intro a b ha hb hab
    have h1 := (List.mem_filter.mp ha).2
    have h2 := (List.mem_filter.mp hb).2
    simp only [decide_eq_true_eq] at h1 h2
    exact absurd (h1.trans h2.symm) hab
  constructor
  · refine AscIds.AscIds_eq_of_mem (ascIds_selectRows _ _ _ hwf.2.2.1) hasc fun r => ?_
    rw [mem_inRange, List.mem_filter]
    simp only [hv, true_implies, if_true, decide_eq_true_eq]
    constructor
    · rintro ⟨h1, h2, h3⟩; exact ⟨h1, by omega⟩
    · rintro ⟨h1, h2⟩; exact ⟨h1, by omega, by omega⟩
  · rcases hl : (w.tables.stream.filter fun r => r.id = v) with _ | ⟨a, _ | ⟨b, l⟩⟩
    · rw [hl]; exact Nat.zero_le _
    · rw [hl]; exact Nat.le_refl _
    · rw [hl] at hasc
      have hab := (List.pairwise_cons.mp hasc).1 b (List.mem_cons_self _ _)
      have ha : a ∈ (w.tables.stream.filter fun r => r.id = v) := by rw [hl]; simp
      have hb : b ∈ (w.tables.stream.filter fun r => r.id = v) := by rw [hl]; simp
      have h1 := (List.mem_filter.mp ha).2
      have h2 := (List.mem_filter.mp hb).2
      simp only [decide_eq_true_eq] at h1 h2
      omega

theorem inRange_open_point (v : Nat) (hv : 0 < v) (t : Tables) : inRange v false v false t = [] := by
  apply List.eq_nil_iff_forall_not_mem.mpr
  intro r hr
  rw [mem_inRange] at hr
  have h1 := hr.2.1 hv
  have h2 := hr.2.2 hv
  simp only [Bool.false_eq_true, if_false] at h1 h2
  omega

/-- C11 (amended): for every value `v` above 0 and every reader, on a
well-formed store without backend failure, `ReadById(v, true, v, true)` returns
true and visits exactly the header rows whose id is `v`, of which there is at
most one; `ReadById(v, false, v, false)` returns true and calls the reader not
at all. -/
theorem C11_equal_bounds (rd : Reader) (lg : Bool) (fuel v : Nat) (w : World) (hwf : Wf w)
    (hv : 0 < v) (hfuel : 0 < fuel) :
    (ReadById { mReader := some rd, mLogger := lg } noFault fuel v true v true w).1 =
      .ret (some true) ∧
    begins ((ReadById { mReader := some rd, mLogger := lg } noFault fuel v true v true
      w).2.calls.drop w.calls.length) =
      (w.tables.stream.filter fun r => r.id = v).map hdrOfRow ∧
    (w.tables.stream.filter fun r => r.id = v).length ≤ 1 ∧
    (ReadById { mReader := some rd, mLogger := lg } noFault fuel v false v false w).1 =
      .ret (some true) ∧
    (ReadById { mReader := some rd, mLogger := lg } noFault fuel v false v false w).2.calls =
      w.calls := by
  obtain ⟨hpt, hlen⟩ := inRange_point v hv w hwf
  obtain ⟨r1, w1, vis1, ext1, s1, h1, hr1, ht1, hp1, hs1, hn1⟩ :=
    ReadById_spec rd lg fuel v true v true w hwf
  obtain ⟨r2, w2, vis2, ext2, s2, h2, hr2, ht2, hp2, hs2, hn2⟩ :=
    ReadById_spec rd lg fuel v false v false w hwf
  rw [h1, h2]
  rw [hpt] at hp1 hn1
  rw [inRange_open_point v hv] at hp2 hn2
  have hvis2 : vis2 = [] := List.prefix_nil.mp hp2
  obtain ⟨hext2, hst2⟩ := ht2.RowsTrace_nil_inv hvis2
  have hfu : ∀ l : List StreamRow, l.length ≤ 1 → l.length / 100 < fuel := by
    intro l hl
    have : l.length / 100 = 0 := Nat.div_eq_of_lt (by omega)
    omega
  have hvis1 : vis1 = (w.tables.stream.filter fun r => r.id = v) ∧ r1 = some true := by
    cases s1 with
    | false =>
      obtain ⟨ha, hb⟩ := hn1 rfl (hfu _ hlen)
      exact ⟨hb, ha⟩
    | true =>
      refine ⟨?_, hs1 rfl⟩
      have hne := ht1.RowsTrace_stopped_ne_nil
      obtain ⟨t, ht⟩ := hp1
      have hl := congrArg List.length ht
      rw [List.length_append] at hl
      have hpos : 0 < vis1.length := List.length_pos.mpr hne
      have htl : t = [] := List.length_eq_zero.mp (by omega)
      rw [htl, List.append_nil] at ht
      exact ht
  refine ⟨by rw [hvis1.2], ?_, hlen, ?_, ?_⟩
  · simp only []
    rw [hr1.2.1, List.drop_left, ht1.RowsTrace_begins, hvis1.1]
  · subst hst2
    rw [(hn2 rfl (hfu [] (by simp))).1]
  · simp only []
    rw [hr2.2.1, hext2, List.append_nil]

theorem C11_equal_bounds_witness :
    (ReadById { mReader := some exStopAlways, mLogger := true } noFault 1 2 true 2 true
      exTwoEmpty).1 = .ret (some true) ∧
    begins ((ReadById { mReader := some exStopAlways, mLogger := true } noFault 1 2 true 2 true
      exTwoEmpty).2.calls.drop exTwoEmpty.calls.length) =
      (exTwoEmpty.tables.stream.filter fun r => r.id = 2).map hdrOfRow ∧
    (exTwoEmpty.tables.stream.filter fun r => r.id = 2).length ≤ 1 ∧
    (ReadById { mReader := some exStopAlways, mLogger := true } noFault 1 2 false 2 false
      exTwoEmpty).1 = .ret (some true) ∧
    (ReadById { mReader := some exStopAlways, mLogger := true } noFault 1 2 false 2 false
      exTwoEmpty).2.calls = exTwoEmpty.calls :=
  C11_equal_bounds exStopAlways true 1 2 exTwoEmpty (by decide) (by decide) (by decide)

/-- C11 (as stated, at the value 0): with `first == last == 0` no bound is put
into the query, so the scan with both bounds exclusive visits every row: on a
store with the rows 1 and 2 it delivers BEGIN for both. -/
theorem C11_zero_bounds_scan_everything :
    (begins (ReadById { mReader := some fun _ _ => true, mLogger := true } noFault 1 0 false 0
      false exTwoEmpty).2.calls).map (fun h => h.id) = [1, 2] ∧
    (begins (ReadById { mReader := some fun _ _ => true, mLogger := true } noFault 1 0 true 0
      true exTwoEmpty).2.calls).map (fun h => h.id) = [1, 2] := by
  decide

theorem queryStreams_key_noFault (col : String) (key : StreamRow → Nat) (hk : colKey col = some key)
    (lo up : Bound) (lim : Option Nat) (w : World) :
    ∃ w1, queryStreams noFault col lo up lim w =
        (.ret (selectRows key lo up lim w.tables.stream), w1) ∧ Reads w w1 [] := by
  unfold queryStreams
  rw [hk]
  exact ⟨_, rfl, Reads.Reads_quiet_stmt (.selectStreams col lo up lim) (fun _ h => by cases h) _ _
    rfl rfl rfl⟩

theorem withDtor_throw {α : Type} (dtor : M Unit) (body : M α) (w w1 w2 : World) (msg : String)
    (u : Unit) (hb : body w = (.throw msg, w1)) (hd : dtor w1 = (.ret u, w2)) :
    withDtor dtor body w = (.throw msg, w2) := by
  unfold withDtor; rw [hb]; simp only []; rw [hd]

theorem tryCatch_throw {α : Type} (e : Engine) (body rest : M α) (w w1 : World) (msg : String)
    (h : body w = (.throw msg, w1)) :
    tryCatch e body rest w = rest (WriteToLog e LOG_ERR msg w1) := by
  unfold tryCatch; rw [h]

theorem length_selectRows_le (key : StreamRow → Nat) (lo up : Bound) (n : Nat)
    (rows : List StreamRow) : (selectRows key lo up (some n) rows).length ≤ n := by
  rw [selectRows_some, List.length_take]
  exact Nat.min_le_left _ _

/-- One batch of `Read` on a column other than `id` and `timestamp`: the rows
are delivered; then the batch ends the scan when it was stopped or not full,
and throws otherwise. -/
theorem readBatch_other (e : Engine) (rd : Reader) (col : String) (key : StreamRow → Nat)
    (hk : colKey col = some key) (h1 : col ≠ "id") (h2 : col ≠ "timestamp")
    (first : Nat) (inclusive_first : Bool) (last : Nat) (inclusive_last : Bool) (w : World)
    (hcf : ChunksFound w.tables) :
    ∃ r w2 vis ext stopped,
      readBatch e noFault rd col STREAMS_PER_QUERY first inclusive_first last inclusive_last w =
        (r, w2) ∧
      Reads w w2 ext ∧ RowsTrace rd w.tables vis ext stopped ∧
      vis <+: selectRows key (boundOf first inclusive_first) (boundOf last inclusive_last)
        (some STREAMS_PER_QUERY) w.tables.stream ∧
      (stopped = false → vis = selectRows key (boundOf first inclusive_first)
        (boundOf last inclusive_last) (some STREAMS_PER_QUERY) w.tables.stream) ∧
      ((stopped = true ∨ vis.length < STREAMS_PER_QUERY) → r = .ret none) ∧
      ((stopped = false ∧ ¬ vis.length < STREAMS_PER_QUERY) → ∃ msg, r = .throw msg) := by
  obtain ⟨wL, hL, hrL⟩ := lockRead_noFault w
  obtain ⟨wQ, hQ, hrQ⟩ := queryStreams_key_noFault col key hk (boundOf first inclusive_first)
    (boundOf last inclusive_last) (some STREAMS_PER_QUERY) wL
  rw [hrL.1] at hQ
  have hrwQ : Reads w wQ [] := by
    have := hrL.Reads_trans hrQ
    rwa [List.append_nil] at this
  obtain ⟨stopped, hdrL, wR, vis, ext, hR, hrR, htR, hpR, hlR⟩ :=
    readRows_spec e rd (selectRows key (boundOf first inclusive_first)
      (boundOf last inclusive_last) (some STREAMS_PER_QUERY) w.tables.stream) hdrUninit wQ
      (by rw [hrwQ.1]; exact hcf)
  obtain ⟨wU, hU, hrU⟩ := unlock_noFault wR
  have hreads : Reads w wU ext := by
    have := (hrwQ.Reads_trans hrR).Reads_trans hrU
    rwa [List.nil_append, List.append_nil] at this
  have hlimif : (if STREAMS_PER_QUERY > 0 then some STREAMS_PER_QUERY else none) =
      some STREAMS_PER_QUERY := rfl
  have hbody : ∀ (r : Outcome (Option Nat)) (u : M (Option Nat)),
      u wR = (r, wR) → r ≠ .abort →
      (if stopped || decide (STREAMS_PER_QUERY = 0) ||
          decide ((selectRows key (boundOf first inclusive_first) (boundOf last inclusive_last)
            (some STREAMS_PER_QUERY) w.tables.stream).length < STREAMS_PER_QUERY)
        then (pure none : M (Option Nat))
        else if col = "id" then pure (some hdrL.id)
        else if col = "timestamp" then pure (some hdrL.timestamp)
        else THROW ("Invalid column='" ++ col ++ "'")) = u →
      readBatch e noFault rd col STREAMS_PER_QUERY first inclusive_first last inclusive_last w =
        (r, wU) := by
    intro r u hu hna hdef
    unfold readBatch
    simp only [bind_apply, hL]
    have hb : (do
        let res ← queryStreams noFault col (if first > 0 then some (inclusive_first, first) else none)
          (if last > 0 then some (inclusive_last, last) else none)
          (if STREAMS_PER_QUERY > 0 then some STREAMS_PER_QUERY else none)
        let r ← readRows e noFault rd res hdrUninit
        if r.1 || decide (STREAMS_PER_QUERY = 0) || decide (res.length < STREAMS_PER_QUERY)
          then (pure none : M (Option Nat))
        else if col = "id" then pure (some r.2.id)
        else if col = "timestamp" then pure (some r.2.timestamp)
        else THROW ("Invalid column='" ++ col ++ "'")) wL = (r, wR) := by
      simp only [bind_apply, hlimif]
      rw [show (if first > 0 then some (inclusive_first, first) else none) =
        boundOf first inclusive_first from rfl,
        show (if last > 0 then some (inclusive_last, last) else none) =
        boundOf last inclusive_last from rfl, hQ]
      simp only [hR]
      rw [hdef, hu]
    unfold withDtor
    rw [hb]
    cases r with
    | abort => exact absurd rfl hna
    | ret a => simp only []; rw [hU]
    | throw m => simp only []; rw [hU]
  cases stopped with
  | true =>
    refine ⟨.ret none, wU, vis, ext, true, ?_, hreads, htR.RowsTrace_tables hrwQ.1, hpR,
      (fun h => by cases h), (fun _ => rfl), (fun h => by cases h.1)⟩
    exact hbody (.ret none) (pure none : M (Option Nat)) rfl (fun h => by cases h) (by simp)
  | false =>
    obtain ⟨hv, _⟩ := hlR rfl
    by_cases hshort : vis.length < STREAMS_PER_QUERY
    · refine ⟨.ret none, wU, vis, ext, false, ?_, hreads, htR.RowsTrace_tables hrwQ.1, hpR,
        (fun _ => hv), (fun _ => rfl), (fun h => absurd hshort h.2)⟩
      rw [hv] at hshort
      exact hbody (.ret none) (pure none : M (Option Nat)) rfl (fun h => by cases h) (by simp [hshort])
    · refine ⟨.throw ("Invalid column='" ++ col ++ "'"), wU, vis, ext, false, ?_, hreads,
        htR.RowsTrace_tables hrwQ.1, hpR, (fun _ => hv),
        (fun h => by
          rcases h with h | h
          · cases h
          · exact absurd h hshort), (fun _ => ⟨_, rfl⟩)⟩
      rw [hv] at hshort
      refine hbody (.throw ("Invalid column='" ++ col ++ "'")) (THROW ("Invalid column='" ++ col ++ "'") : M (Option Nat)) rfl
        (fun h => by cases h) ?_
      have h0 : ¬ STREAMS_PER_QUERY = 0 := by decide
      simp [hshort, h0, h1, h2]
theorem readBatch_unknown_aux (e : Engine) (rd : Reader) (col : String) (hk : colKey col = none)
    (limit first : Nat) (inclusive_first : Bool) (last : Nat) (inclusive_last : Bool) (w : World) :
    (readBatch e noFault rd col limit first inclusive_first last inclusive_last w).1 =
        .throw "SQLException" ∧
      (readBatch e noFault rd col limit first inclusive_first last inclusive_last w).2.tables =
        w.tables ∧
      (readBatch e noFault rd col limit first inclusive_first last inclusive_last w).2.calls =
        w.calls := by
  unfold readBatch
  simp only [bind_apply, lockRead, backend, noFault, Bool.false_eq_true, if_false]
  unfold withDtor
  simp only [queryStreams, hk, bind_apply, backend, if_true, unlock, noFault,
    Bool.false_eq_true, if_false]
  exact ⟨trivial, trivial, trivial⟩

theorem readBatch_unknown (e : Engine) (rd : Reader) (col : String) (hk : colKey col = none)
    (limit first : Nat) (inclusive_first : Bool) (last : Nat) (inclusive_last : Bool) (w : World) :
    ∃ w2, readBatch e noFault rd col limit first inclusive_first last inclusive_last w =
        (.throw "SQLException", w2) ∧ w2.tables = w.tables ∧ w2.calls = w.calls := by
  obtain ⟨h1, h2, h3⟩ := readBatch_unknown_aux e rd col hk limit first inclusive_first last
    inclusive_last w
  exact ⟨_, Prod.ext h1 rfl, h2, h3⟩

/-- A scan on a column that is neither `id` nor `timestamp` (no backend failure,
well-formed store, at least one batch allowed) ends with its first batch and
leaves the tables alone. When the table has no column of that
name the header query fails: `Read` returns false and calls the reader not at
all. Otherwise the rows of the first batch (at most 100, ascending in that
column) are delivered to the reader as in any scan, up to a row at which the
reader stops; `Read` then returns false exactly when the batch was full and the
reader did not stop it, and true in every other case. -/
theorem Read_other_column_first_batch (rd : Reader) (lg : Bool) (fuel : Nat)
    (col : String) (first : Nat) (inclusive_first : Bool) (last : Nat) (inclusive_last : Bool)
    (w : World) (hwf : Wf w) (h1 : col ≠ "id") (h2 : col ≠ "timestamp") (hfuel : 0 < fuel) :
    ∃ b w2, Read { mReader := some rd, mLogger := lg } noFault fuel (some col) first
        inclusive_first last inclusive_last w = (.ret (some b), w2) ∧
      w2.tables = w.tables ∧
      (colKey col = none → b = false ∧ w2.calls = w.calls) ∧
      ∀ key, colKey col = some key →
        ∃ vis ext stopped, w2.calls = w.calls ++ ext ∧ RowsTrace rd w.tables vis ext stopped ∧
          begins ext = vis.map hdrOfRow ∧
          vis <+: selectRows key (boundOf first inclusive_first) (boundOf last inclusive_last)
            (some STREAMS_PER_QUERY) w.tables.stream ∧
          (stopped = false → vis = selectRows key (boundOf first inclusive_first)
            (boundOf last inclusive_last) (some STREAMS_PER_QUERY) w.tables.stream) ∧
          (b = false ↔ stopped = false ∧ (selectRows key (boundOf first inclusive_first)
            (boundOf last inclusive_last) (some STREAMS_PER_QUERY) w.tables.stream).length =
              STREAMS_PER_QUERY) := by
  obtain ⟨n, rfl⟩ : ∃ n, fuel = n + 1 := ⟨fuel - 1, by omega⟩
  cases hk : colKey col with
  | none =>
    obtain ⟨wB, hB, htB, hcB⟩ := readBatch_unknown { mReader := some rd, mLogger := lg } rd col hk
      STREAMS_PER_QUERY first inclusive_first last inclusive_last w
    have hloop : readLoop { mReader := some rd, mLogger := lg } noFault rd col STREAMS_PER_QUERY
        last inclusive_last (n + 1) first inclusive_first w = (.throw "SQLException", wB) := by
      rw [readLoop, bind_apply, hB]
    have hfr := WriteToLog_frame { mReader := some rd, mLogger := lg } LOG_ERR "SQLException" wB
    refine ⟨false, WriteToLog { mReader := some rd, mLogger := lg } LOG_ERR "SQLException" wB,
      ?_, by rw [hfr.1, htB], (fun _ => ⟨rfl, by rw [hfr.2.2.2, hcB]⟩), (fun key h => by cases h)⟩
    unfold Read
    simp only []
    rw [tryCatch_throw _ _ _ _ _ _ hloop]
    rfl
  | some key =>
    obtain ⟨r, wB, vis, ext, stopped, hB, hrB, htB, hpB, hvB, hret, hthr⟩ :=
      readBatch_other { mReader := some rd, mLogger := lg } rd col key hk h1 h2 first
        inclusive_first last inclusive_last w hwf.Wf_chunksFound
    have hlen := length_selectRows_le key (boundOf first inclusive_first)
      (boundOf last inclusive_last) STREAMS_PER_QUERY w.tables.stream
    by_cases hcase : stopped = true ∨ vis.length < STREAMS_PER_QUERY
    · have hr := hret hcase
      subst hr
      refine ⟨true, wB, ?_, hrB.1, (fun h => by cases h), fun key2 hk2 => ?_⟩
      · unfold Read
        simp only []
        exact tryCatch_ret _ _ _ _ _ _ (readLoop_none _ _ _ _ _ _ _ _ _ _ _ _ hB)
      · cases hk2
        refine ⟨vis, ext, stopped, hrB.2.1, htB, htB.RowsTrace_begins, hpB, hvB, ?_⟩
        constructor
        · intro h; cases h
        · rintro ⟨hs, hl⟩
          rcases hcase with hc | hc
          · rw [hs] at hc; cases hc
          · rw [hvB hs, hl] at hc
            exact absurd hc (Nat.lt_irrefl _)
    · have hs : stopped = false := by
        cases stopped with
        | false => rfl
        | true => exact absurd (Or.inl rfl) hcase
      have hnl : ¬ vis.length < STREAMS_PER_QUERY := fun h => hcase (Or.inr h)
      obtain ⟨msg, hr⟩ := hthr ⟨hs, hnl⟩
      subst hr
      have hloop : readLoop { mReader := some rd, mLogger := lg } noFault rd col
          STREAMS_PER_QUERY last inclusive_last (n + 1) first inclusive_first w =
          (.throw msg, wB) := by
        rw [readLoop, bind_apply, hB]
      have hfr := WriteToLog_frame { mReader := some rd, mLogger := lg } LOG_ERR msg wB
      refine ⟨false, WriteToLog { mReader := some rd, mLogger := lg } LOG_ERR msg wB, ?_,
        by rw [hfr.1, hrB.1], (fun h => by cases h), fun key2 hk2 => ?_⟩
      · unfold Read
        simp only []
        rw [tryCatch_throw _ _ _ _ _ _ hloop]
        rfl
      · cases hk2
        refine ⟨vis, ext, stopped, by rw [hfr.2.2.2, hrB.2.1], htB, htB.RowsTrace_begins, hpB, hvB,
          fun _ => ⟨hs, ?_⟩, fun _ => rfl⟩
        rw [hvB hs] at hnl
        omega

theorem Read_other_column_first_batch_example :
    ∃ b w2, Read { mReader := some exStopAlways, mLogger := true } noFault 1 (some "size") 0
        true 0 true exTwoEmpty = (.ret (some b), w2) ∧
      w2.tables = exTwoEmpty.tables ∧
      (colKey "size" = none → b = false ∧ w2.calls = exTwoEmpty.calls) ∧
      ∀ key, colKey "size" = some key →
        ∃ vis ext stopped, w2.calls = exTwoEmpty.calls ++ ext ∧
          RowsTrace exStopAlways exTwoEmpty.tables vis ext stopped ∧
          begins ext = vis.map hdrOfRow ∧
          vis <+: selectRows key (boundOf 0 true) (boundOf 0 true)
            (some STREAMS_PER_QUERY) exTwoEmpty.tables.stream ∧
          (stopped = false → vis = selectRows key (boundOf 0 true)
            (boundOf 0 true) (some STREAMS_PER_QUERY) exTwoEmpty.tables.stream) ∧
          (b = false ↔ stopped = false ∧ (selectRows key (boundOf 0 true)
            (boundOf 0 true) (some STREAMS_PER_QUERY) exTwoEmpty.tables.stream).length =
              STREAMS_PER_QUERY) :=
  Read_other_column_first_batch exStopAlways true 1 "size" 0 true 0 true exTwoEmpty
    (by decide) (by decide) (by decide) (by decide)

/-- C12 fails on column `size`: `Read` on a column that is neither `id` nor
`timestamp` does not fail at once.  On a store of two rows, with a reader that
never stops and no backend failure, `Read("size", 0, true, 0, true)` calls the
reader four times (BEGIN and END of both rows) and returns true: the check of the column (`THROW("Invalid column=..")`)
sits where the cursor is advanced after a full batch and is never reached. -/
theorem C12_size_column_scan_succeeds :
    (Read { mReader := some fun _ _ => true, mLogger := true } noFault 1 (some "size") 0 true 0
      true exTwoEmpty).1 = .ret (some true) ∧
    (Read { mReader := some fun _ _ => true, mLogger := true } noFault 1 (some "size") 0 true 0
      true exTwoEmpty).2.calls.length = 4 ∧
    ((Read { mReader := some fun _ _ => true, mLogger := true } noFault 1 (some "size") 0 true 0
      true exTwoEmpty).2.calls.map fun x => (x.call.hdr.id, x.call.state)) =
      [(1, DB_STREAM_READ_BEGIN), (1, DB_STREAM_READ_END),
       (2, DB_STREAM_READ_BEGIN), (2, DB_STREAM_READ_END)] := by
  refine ⟨by decide, by decide, by decide⟩

theorem Delete_noFault (e : Engine) (col : String) (first : Nat) (inclusive_first : Bool)
    (last : Nat) (inclusive_last : Bool) (reset_id : Bool) (w : World)
    (hv : whereValid (deleteWhere col first inclusive_first last inclusive_last) = true) :
    (Delete e noFault (some col) first inclusive_first last inclusive_last reset_id w).1 =
      .ret true ∧
    (Delete e noFault (some col) first inclusive_first last inclusive_last reset_id w).2.tables =
      deleteFrom (deleteWhere col first inclusive_first last inclusive_last) w.tables ∧
    (Delete e noFault (some col) first inclusive_first last inclusive_last reset_id w).2.calls =
      w.calls ∧
    (Delete e noFault (some col) first inclusive_first last inclusive_last reset_id w).2.log =
      w.log ++ [.setAutoCommit true, .lockWrite,
        .deleteStreams (deleteWhere col first inclusive_first last inclusive_last)] ++
      (if reset_id = true ∧ first = 0 ∧ last = 0 then
        [.alterAutoIncrement STREAM_TABLE 1, .alterAutoIncrement STREAMDATA_TABLE 1] else []) ++
      [.unlock] := by
  unfold Delete tryCatch
  simp only [bind_apply, setAutoCommit, lockWrite, backend, noFault, Bool.false_eq_true, if_false]
  unfold withDtor
  by_cases hc : reset_id = true ∧ first = 0 ∧ last = 0
  · obtain ⟨h1, h2, h3⟩ := hc
    subst h1 h2 h3
    simp [bind_apply, pure_apply, execDelete, hv, backend, noFault, unlock, settle,
      execAlterAutoIncrement, STREAM_TABLE, STREAMDATA_TABLE]
  · have hc2 : (reset_id && first == 0 && last == 0) = false := by
      cases reset_id <;> simp_all
    simp [bind_apply, pure_apply, execDelete, hv, backend, noFault, unlock, settle, hc, hc2]
theorem LookupById_noFault (e : Engine) (id : Nat) (b : Bool) (w : World) :
    (LookupById e noFault id (some b) w).1 =
      .ret (true, some (decide (∃ r ∈ w.tables.stream, r.id = id))) ∧
    (LookupById e noFault id (some b) w).2.tables = w.tables ∧
    (LookupById e noFault id (some b) w).2.calls = w.calls := by
  have key : ∀ l : List StreamRow, (l.take 1).length > 0 ↔ ∃ a, a ∈ l := by
    intro l
    cases l with
    | nil => simp
    | cons a l => simp
  have hd : decide (((w.tables.stream.filter fun r => r.id = id).take 1).length > 0) =
      decide (∃ r ∈ w.tables.stream, r.id = id) := by
    rw [decide_eq_decide, key]
    simp [List.mem_filter]
  unfold LookupById Lookup tryCatch
  simp only [bind_apply, lockRead, backend, noFault, Bool.false_eq_true, if_false]
  unfold withDtor
  simp only [bind_apply, pure_apply, queryExists, colKey, if_true, backend, noFault, unlock,
    Bool.false_eq_true, if_false]
  rw [hd]
  exact ⟨rfl, trivial, trivial⟩

theorem head_insertionSort_le {α : Type} (key : α → Nat) (l : List α) (a : α) (t : List α)
    (h : l.insertionSort (fun x y => key x ≤ key y) = a :: t) :
    a ∈ l ∧ ∀ x ∈ l, key a ≤ key x := by
  haveI : IsTotal α (fun x y => key x ≤ key y) := ⟨fun x y => Nat.le_total (key x) (key y)⟩
  haveI : IsTrans α (fun x y => key x ≤ key y) := ⟨fun _ _ _ h1 h2 => Nat.le_trans h1 h2⟩
  have hs := List.sorted_insertionSort (fun x y : α => key x ≤ key y) l
  have hp := List.perm_insertionSort (fun x y : α => key x ≤ key y) l
  rw [h] at hs hp
  refine ⟨hp.subset (List.mem_cons_self _ _), fun x hx => ?_⟩
  have hx2 : x ∈ a :: t := hp.symm.subset hx
  rcases List.mem_cons.mp hx2 with rfl | hx3
  · exact Nat.le_refl _
  · exact (List.pairwise_cons.mp hs).1 x hx3

theorem head_insertionSort_ge {α : Type} (key : α → Nat) (l : List α) (a : α) (t : List α)
    (h : l.insertionSort (fun x y => key y ≤ key x) = a :: t) :
    a ∈ l ∧ ∀ x ∈ l, key x ≤ key a := by
  haveI : IsTotal α (fun x y => key y ≤ key x) := ⟨fun x y => Nat.le_total (key y) (key x)⟩
  haveI : IsTrans α (fun x y => key y ≤ key x) := ⟨fun _ _ _ h1 h2 => Nat.le_trans h2 h1⟩
  have hs := List.sorted_insertionSort (fun x y : α => key y ≤ key x) l
  have hp := List.perm_insertionSort (fun x y : α => key y ≤ key x) l
  rw [h] at hs hp
  refine ⟨hp.subset (List.mem_cons_self _ _), fun x hx => ?_⟩
  have hx2 : x ∈ a :: t := hp.symm.subset hx
  rcases List.mem_cons.mp hx2 with rfl | hx3
  · exact Nat.le_refl _
  · exact (List.pairwise_cons.mp hs).1 x hx3

theorem insertionSort_eq_nil {α : Type} (r : α → α → Prop) [DecidableRel r] (l : List α)
    (h : l.insertionSort r = []) : l = [] :=
  List.Perm.eq_nil (h ▸ (List.perm_insertionSort r l).symm)

theorem GetFirst_noFault (e : Engine) (h : StreamHeader) (w : World) :
    (GetFirst e noFault (some h) w).1 = .ret (true, some (gotHeader h
        ((w.tables.stream.insertionSort fun a b => a.id ≤ b.id).take 1))) ∧
      (GetFirst e noFault (some h) w).2.tables = w.tables ∧
      (GetFirst e noFault (some h) w).2.calls = w.calls := by
  unfold GetFirst Get tryCatch
  simp only [bind_apply, lockRead, backend, noFault, Bool.false_eq_true, if_false]
  unfold withDtor
  simp only [bind_apply, pure_apply, queryBoundary, if_true, backend, noFault, unlock,
    Bool.false_eq_true, if_false]
  generalize (List.take 1 (List.insertionSort (fun a b => a.id ≤ b.id) w.tables.stream)) = res
  cases res <;> exact ⟨rfl, rfl, rfl⟩

theorem GetLast_noFault (e : Engine) (h : StreamHeader) (w : World) :
    (GetLast e noFault (some h) w).1 = .ret (true, some (gotHeader h
        ((w.tables.stream.insertionSort fun a b => b.id ≤ a.id).take 1))) ∧
      (GetLast e noFault (some h) w).2.tables = w.tables ∧
      (GetLast e noFault (some h) w).2.calls = w.calls := by
  unfold GetLast Get tryCatch
  simp only [bind_apply, lockRead, backend, noFault, Bool.false_eq_true, if_false]
  unfold withDtor
  have hne : ¬ ("DESC" = "ASC") := by decide
  simp only [bind_apply, pure_apply, queryBoundary, hne, if_true, if_false, backend, noFault,
    unlock, Bool.false_eq_true]
  generalize (List.take 1 (List.insertionSort (fun a b => b.id ≤ a.id) w.tables.stream)) = res
  cases res <;> exact ⟨rfl, rfl, rfl⟩
theorem withDtor_ret_iff {α : Type} (dtor : M Unit) (body : M α) (w w2 : World) (a : α) :
    withDtor dtor body w = (.ret a, w2) ↔
      ∃ w1 u, body w = (.ret a, w1) ∧ dtor w1 = (.ret u, w2) := by
  unfold withDtor
  rcases hb : body w with ⟨r, w1⟩
  cases r with
  | abort => simp
  | throw m =>
    simp only []
    rcases hd : dtor w1 with ⟨r2, w3⟩
    cases r2 <;> simp
  | ret a1 =>
    simp only []
    rcases hd : dtor w1 with ⟨r2, w3⟩
    cases r2 with
    | ret u =>
      constructor
      · intro h
        simp only [Prod.mk.injEq, Outcome.ret.injEq] at h
        obtain ⟨rfl, rfl⟩ := h
        exact ⟨w1, u, rfl, hd⟩
      · rintro ⟨w4, u2, h1, h2⟩
        simp only [Prod.mk.injEq, Outcome.ret.injEq] at h1
        obtain ⟨rfl, rfl⟩ := h1
        rw [hd] at h2
        simp only [Prod.mk.injEq, Outcome.ret.injEq] at h2
        rw [h2.2]
    | throw m =>
      constructor
      · intro h; simp at h
      · rintro ⟨w4, u2, h1, h2⟩
        simp only [Prod.mk.injEq, Outcome.ret.injEq] at h1
        obtain ⟨rfl, rfl⟩ := h1
        rw [hd] at h2
        simp at h2
    | abort =>
      constructor
      · intro h; simp at h
      · rintro ⟨w4, u2, h1, h2⟩
        simp only [Prod.mk.injEq, Outcome.ret.injEq] at h1
        obtain ⟨rfl, rfl⟩ := h1
        rw [hd] at h2
        simp at h2

theorem tryCatch_ret_inv {α : Type} (e : Engine) (body rest : M α) (w w2 : World) (a : α)
    (h : tryCatch e body rest w = (.ret a, w2)) :
    body w = (.ret a, w2) ∨
      ∃ msg w1, body w = (.throw msg, w1) ∧ rest (WriteToLog e LOG_ERR msg w1) = (.ret a, w2) := by
  unfold tryCatch at h
  rcases hb : body w with ⟨r, w1⟩
  rw [hb] at h
  cases r with
  | ret a1 => exact Or.inl h
  | throw m => exact Or.inr ⟨m, w1, rfl, h⟩
  | abort => simp at h

theorem Delete_ret (e : Engine) (f : Faults) (col : String) (first : Nat) (inclusive_first : Bool)
    (last : Nat) (inclusive_last : Bool) (reset_id : Bool) (w w2 : World)
    (h : Delete e f (some col) first inclusive_first last inclusive_last reset_id w =
      (.ret true, w2)) :
    whereValid (deleteWhere col first inclusive_first last inclusive_last) = true ∧
    w2.tables = deleteFrom (deleteWhere col first inclusive_first last inclusive_last) w.tables ∧
    w2.calls = w.calls ∧
    w2.log = w.log ++ [.setAutoCommit true, .lockWrite,
        .deleteStreams (deleteWhere col first inclusive_first last inclusive_last)] ++
      (if reset_id = true ∧ first = 0 ∧ last = 0 then
        [.alterAutoIncrement STREAM_TABLE 1, .alterAutoIncrement STREAMDATA_TABLE 1] else []) ++
      [.unlock] := by
  unfold Delete at h
  rcases tryCatch_ret_inv _ _ _ _ _ _ h with hb | ⟨msg, w1, _, hr⟩
  swap
  · simp [pure_apply] at hr
  simp only [bind_ret_iff] at hb
  obtain ⟨_, wA, hA, _, wB, hB, hW⟩ := hb
  rw [withDtor_ret_iff] at hW
  obtain ⟨wD, _, hD, hU⟩ := hW
  simp only [setAutoCommit, backend_ret_iff] at hA
  simp only [lockWrite, backend_ret_iff] at hB
  simp only [unlock, backend_ret_iff] at hU
  obtain ⟨_, _, rfl⟩ := hA
  obtain ⟨_, _, rfl⟩ := hB
  obtain ⟨_, _, rfl⟩ := hU
  rw [bind_ret_iff] at hD
  obtain ⟨_, wE, hE, hR⟩ := hD
  by_cases hv : whereValid (deleteWhere col first inclusive_first last inclusive_last) = true
  swap
  · simp [execDelete, hv, backend_ret_iff] at hE
  refine ⟨hv, ?_⟩
  simp only [execDelete, hv, if_true, backend_ret_iff] at hE
  obtain ⟨_, _, rfl⟩ := hE
  by_cases hc : reset_id = true ∧ first = 0 ∧ last = 0
  · have hc2 : (reset_id && first == 0 && last == 0) = true := by
      obtain ⟨h1, h2, h3⟩ := hc
      subst h1 h2 h3
      rfl
    rw [hc2] at hR
    simp only [if_true, bind_ret_iff] at hR
    obtain ⟨_, wF, hF, _, wG, hG, hP⟩ := hR
    simp only [execAlterAutoIncrement, STREAM_TABLE, STREAMDATA_TABLE, if_true,
      backend_ret_iff] at hF
    have hne : ¬ ("streamdata" = "stream") := by decide
    simp only [execAlterAutoIncrement, STREAM_TABLE, STREAMDATA_TABLE, hne, if_true, if_false,
      backend_ret_iff] at hG
    obtain ⟨_, _, rfl⟩ := hF
    obtain ⟨_, _, rfl⟩ := hG
    simp only [pure_apply, Prod.mk.injEq, Outcome.ret.injEq, true_and] at hP
    subst hP
    simp [settle, hc, STREAM_TABLE, STREAMDATA_TABLE]
  · have hc2 : (reset_id && first == 0 && last == 0) = false := by
      cases reset_id <;> simp_all
    rw [hc2] at hR
    simp only [Bool.false_eq_true, if_false, pure_apply, Prod.mk.injEq, Outcome.ret.injEq,
      true_and] at hR
    subst hR
    simp [settle, hc]

theorem whereHolds_readWhere (col : String) (key : StreamRow → Nat) (hk : colKey col = some key)
    (first : Nat) (inclusive_first : Bool) (last : Nat) (inclusive_last : Bool) (r : StreamRow) :
    whereHolds (readWhere col first inclusive_first last inclusive_last) r = true ↔
      Within first inclusive_first last inclusive_last (key r) := by
  unfold readWhere Within whereHolds
  by_cases h1 : first > 0 <;> by_cases h2 : last > 0 <;>
    cases inclusive_first <;> cases inclusive_last <;>
    simp [h1, h2, Cond.holds, hk, moreOp, lessOp]

theorem deleteWhere_id (first : Nat) (inclusive_first : Bool) (last : Nat)
    (inclusive_last : Bool) :
    deleteWhere "id" first inclusive_first last inclusive_last =
      readWhere "id" first inclusive_first last inclusive_last := rfl

theorem deleteWhere_one_bound (col : String) (first : Nat) (inclusive_first : Bool) (last : Nat)
    (inclusive_last : Bool) (h : first = 0 ∨ last = 0) :
    deleteWhere col first inclusive_first last inclusive_last =
      readWhere col first inclusive_first last inclusive_last := by
  unfold deleteWhere readWhere
  have : ¬ (first > 0 ∧ last > 0) := by omega
  rw [if_neg this, if_neg this]

theorem whereValid_id (first : Nat) (inclusive_first : Bool) (last : Nat)
    (inclusive_last : Bool) :
    whereValid (deleteWhere "id" first inclusive_first last inclusive_last) = true := by
  unfold deleteWhere whereValid
  by_cases h1 : first > 0 <;> by_cases h2 : last > 0 <;> simp [h1, h2, colKey]

theorem mem_deleteFrom_stream (cs : List Cond) (t : Tables) (r : StreamRow) :
    r ∈ (deleteFrom cs t).stream ↔ r ∈ t.stream ∧ whereHolds cs r = false := by
  unfold deleteFrom
  simp [List.mem_filter]

theorem mem_deleteFrom_data (cs : List Cond) (t : Tables) (d : DataRow) :
    d ∈ (deleteFrom cs t).streamdata ↔
      d ∈ t.streamdata ∧ ∀ r ∈ t.stream, whereHolds cs r = true → r.id ≠ d.masterid := by
  unfold deleteFrom
  simp [List.mem_filter]

theorem exDelete_eq : DeleteById exEngine noFault 1 true 1 true exWritten =
    (.ret true, exDeleted) := by
  rfl

/-- C13: after a `DeleteById` that returned true and whose range holds the id
of a stream, no chunk row with that `masterid` and no header row with that id
is left, `LookupById` on that id (no backend failure) returns true with
`*found == false`, and the statements the delete issued are exactly: autocommit
on, the WRITE lock, one `DELETE` on the header table, the unlock. -/
theorem C13_delete_cascades (e : Engine) (f : Faults) (first : Nat) (inclusive_first : Bool)
    (last : Nat) (inclusive_last : Bool) (id : Nat) (b : Bool) (w w2 : World)
    (hdel : DeleteById e f first inclusive_first last inclusive_last w = (.ret true, w2))
    (hin : Within first inclusive_first last inclusive_last id)
    (hex : ∃ r ∈ w.tables.stream, r.id = id) :
    (∀ d ∈ w2.tables.streamdata, d.masterid ≠ id) ∧
    (∀ r ∈ w2.tables.stream, r.id ≠ id) ∧
    (LookupById e noFault id (some b) w2).1 = .ret (true, some false) ∧
    w2.log = w.log ++ [.setAutoCommit true, .lockWrite,
      .deleteStreams (deleteWhere "id" first inclusive_first last inclusive_last), .unlock] := by
  obtain ⟨_, ht, _, hl⟩ := Delete_ret e f "id" first inclusive_first last inclusive_last false
    w w2 hdel
  have hgone : ∀ r : StreamRow, r.id = id →
      whereHolds (deleteWhere "id" first inclusive_first last inclusive_last) r = true := by
    intro r hr
    rw [deleteWhere_id, whereHolds_readWhere "id" (fun r => r.id) rfl, hr]
    exact hin
  have hs : ∀ r ∈ w2.tables.stream, r.id ≠ id := by
    intro r hr hid
    rw [ht, mem_deleteFrom_stream] at hr
    rw [hgone r hid] at hr
    cases hr.2
  refine ⟨?_, hs, ?_, ?_⟩
  · intro d hd hm
    rw [ht, mem_deleteFrom_data] at hd
    obtain ⟨r, hr, hid⟩ := hex
    exact hd.2 r hr (hgone r hid) (hid.trans hm.symm)
  · rw [(LookupById_noFault e id b w2).1]
    have : ¬ ∃ r ∈ w2.tables.stream, r.id = id := fun ⟨r, hr, hid⟩ => hs r hr hid
    simp [this]
  · rw [hl]
    simp

theorem C13_delete_cascades_witness :
    (∀ d ∈ exDeleted.tables.streamdata, d.masterid ≠ 1) ∧
    (∀ r ∈ exDeleted.tables.stream, r.id ≠ 1) ∧
    (LookupById exEngine noFault 1 (some true) exDeleted).1 = .ret (true, some false) ∧
    exDeleted.log = exWritten.log ++ [.setAutoCommit true, .lockWrite,
      .deleteStreams (deleteWhere "id" 1 true 1 true), .unlock] :=
  C13_delete_cascades exEngine noFault 1 true 1 true 1 true exWritten exDeleted exDelete_eq
    (by decide) (by decide)

/-- C14: with both bounds given, `Delete` puts its upper bound on column `id`
whatever the column passed, while `Read` puts both bounds on that column. For
column `timestamp` and `first == last == 5`, on a store whose rows 1 and 2 have
the timestamps 5 and 6: the clause of `Delete` is `timestamp >= 5 AND id <= 5`
and removes both rows; the scan with the same arguments selects row 1 only. -/
theorem C14_delete_upper_bound_on_id :
    deleteWhere "timestamp" 5 true 5 true =
      [{ column := "timestamp", op := .ge, value := 5 }, { column := "id", op := .le, value := 5 }] ∧
    readWhere "timestamp" 5 true 5 true =
      [{ column := "timestamp", op := .ge, value := 5 },
       { column := "timestamp", op := .le, value := 5 }] ∧
    (Delete exEngine noFault (some "timestamp") 5 true 5 true false exTwoEmpty).1 = .ret true ∧
    (Delete exEngine noFault (some "timestamp") 5 true 5 true false exTwoEmpty).2.tables.stream =
      [] ∧
    (Read exEngine noFault 1 (some "timestamp") 5 true 5 true exTwoEmpty).1 = .ret (some true) ∧
    (begins (Read exEngine noFault 1 (some "timestamp") 5 true 5 true exTwoEmpty).2.calls).map
      (fun h => h.id) = [1] := by
  decide

/-- Where `Delete` and `Read` build the same clause: on column `id`, and on
every column when at most one bound is given. -/
theorem deleteWhere_eq_readWhere (col : String) (first : Nat) (inclusive_first : Bool)
    (last : Nat) (inclusive_last : Bool) (h : col = "id" ∨ first = 0 ∨ last = 0) :
    deleteWhere col first inclusive_first last inclusive_last =
      readWhere col first inclusive_first last inclusive_last := by
  rcases h with rfl | h
  · rfl
  · exact deleteWhere_one_bound col first inclusive_first last inclusive_last h

/-- The clause of `readWhere` selects the rows the header query of the first
batch of `Read` selects. -/
theorem readWhere_selects (col : String) (key : StreamRow → Nat) (hk : colKey col = some key)
    (first : Nat) (inclusive_first : Bool) (last : Nat) (inclusive_last : Bool)
    (rows : List StreamRow) (r : StreamRow) :
    r ∈ selectRows key (boundOf first inclusive_first) (boundOf last inclusive_last) none rows ↔
      r ∈ rows ∧ whereHolds (readWhere col first inclusive_first last inclusive_last) r = true := by
  rw [mem_selectRows_none, lowerOk_boundOf, upperOk_boundOf, whereHolds_readWhere col key hk]
  rfl

theorem Stable.Stable_tablesKept : Stable TablesKept where
  refl _ := rfl
  trans _ _ _ h1 h2 := h2.trans h1
  log e t msg w := (WriteToLog_frame e t msg w).1
  call _ _ := rfl

theorem Stable.Stable_issues (p : Stmt → Prop) : Stable (Issues p) where
  refl w := ⟨[], (List.append_nil _).symm, fun _ h => absurd h (List.not_mem_nil _)⟩
  trans w1 w2 w3 h1 h2 := by
    obtain ⟨l1, e1, p1⟩ := h1
    obtain ⟨l2, e2, p2⟩ := h2
    refine ⟨l1 ++ l2, by rw [e2, e1, List.append_assoc], fun s hs => ?_⟩
    rcases List.mem_append.mp hs with h | h
    · exact p1 s h
    · exact p2 s h
  log e t msg w := ⟨[], by rw [(WriteToLog_frame e t msg w).2.2.1, List.append_nil],
    fun _ h => absurd h (List.not_mem_nil _)⟩
  call w _ := ⟨[], (List.append_nil _).symm, fun _ h => absurd h (List.not_mem_nil _)⟩

theorem Inv.Inv_pure {α : Type} {R : World → World → Prop} (hR : Stable R) (a : α) :
    Inv R (pure a : M α) := fun w => hR.refl w

theorem Inv.Inv_THROW {α : Type} {R : World → World → Prop} (hR : Stable R) (msg : String) :
    Inv R (THROW msg : M α) := fun w => hR.refl w

theorem Inv.Inv_bind {α β : Type} {R : World → World → Prop} (hR : Stable R) {m : M α}
    {k : α → M β} (hm : Inv R m) (hk : ∀ a, Inv R (k a)) : Inv R (m >>= k) := by
  intro w
  rw [bind_apply]
  have h1 := hm w
  rcases hmw : m w with ⟨r, w1⟩
  rw [hmw] at h1
  cases r with
  | ret a => exact hR.trans _ _ _ h1 (hk a w1)
  | throw e => exact h1
  | abort => exact h1

theorem Inv.Inv_tryCatch {α : Type} {R : World → World → Prop} (hR : Stable R) (e : Engine)
    {body rest : M α} (hb : Inv R body) (hr : Inv R rest) : Inv R (tryCatch e body rest) := by
  intro w
  unfold tryCatch
  have h1 := hb w
  rcases hbw : body w with ⟨r, w1⟩
  rw [hbw] at h1
  cases r with
  | ret a => exact h1
  | throw msg =>
    exact hR.trans _ _ _ h1 (hR.trans _ _ _ (hR.log e LOG_ERR msg w1) (hr _))
  | abort => exact h1

theorem Inv.Inv_withDtor {α : Type} {R : World → World → Prop} (hR : Stable R) {dtor : M Unit}
    {body : M α} (hd : Inv R dtor) (hb : Inv R body) : Inv R (withDtor dtor body) := by
  intro w
  unfold withDtor
  have h1 := hb w
  rcases hbw : body w with ⟨r, w1⟩
  rw [hbw] at h1
  have h2 := hd w1
  cases r with
  | abort => exact h1
  | ret a =>
    simp only []
    rcases hdw : dtor w1 with ⟨r2, w2⟩
    rw [hdw] at h2
    cases r2 <;> exact hR.trans _ _ _ h1 h2
  | throw msg =>
    simp only []
    rcases hdw : dtor w1 with ⟨r2, w2⟩
    rw [hdw] at h2
    cases r2 <;> exact hR.trans _ _ _ h1 h2

theorem Inv.Inv_backend {α : Type} {R : World → World → Prop} (hR : Stable R) (f : Faults)
    {s : Stmt} {run : World → α × World} (hs : StmtOk R s run) : Inv R (backend f s run) := by
  intro w
  unfold backend
  by_cases h : f w.log.length = true
  · simp only [h, if_true]
    exact (hs w).1
  · simp only [h, if_false]
    exact hR.trans _ _ _ (hs w).1 (hs _).2

theorem Inv.Inv_OnRead {R : World → World → Prop} (hR : Stable R) (rd : Reader)
    (hdr : StreamHeader) (data : List Byte) (state : Nat) : Inv R (OnRead rd hdr data state) :=
  fun w => hR.call w _

theorem Inv.Inv_logMsg {R : World → World → Prop} (hR : Stable R) (e : Engine) (t : Nat)
    (msg : String) : Inv R (logMsg e t msg) := fun w => hR.log e t msg w

theorem Inv.Inv_readBlob {R : World → World → Prop} (hR : Stable R) (rd : Reader)
    (hdr : StreamHeader) : ∀ (fuel : Nat) (blob : IStream) (k : Bool),
    Inv R (readBlob rd hdr fuel blob k)
  | 0, _, _ => Inv.Inv_pure hR _
  | fuel + 1, blob, k => by
    rw [readBlob]
    split
    · simp only []
      split
      · exact Inv.Inv_bind hR (Inv.Inv_OnRead hR _ _ _ _)
          fun a => Inv.Inv_readBlob hR rd hdr fuel _ a
      · exact Inv.Inv_readBlob hR rd hdr fuel _ k
    · exact Inv.Inv_pure hR _

theorem Inv.Inv_readChunks {R : World → World → Prop} (hR : Stable R) (f : Faults) (rd : Reader)
    (hdr : StreamHeader) (hq : ∀ id, StmtOk R (.selectData id) fun w =>
      (((w.tables.streamdata.filter fun d => d.id = id).map fun d => d.data), w)) :
    ∀ (ids : List Nat) (k : Bool), Inv R (readChunks f rd hdr ids k)
  | [], _ => Inv.Inv_pure hR _
  | id :: rest, k => by
    rw [readChunks]
    split
    · refine Inv.Inv_bind hR (Inv.Inv_backend hR f (hq id)) fun res => ?_
      cases res with
      | nil => exact Inv.Inv_THROW hR _
      | cons blob _ =>
        exact Inv.Inv_bind hR (Inv.Inv_readBlob hR rd hdr _ _ _)
          fun a => Inv.Inv_readChunks hR f rd hdr hq rest a
    · exact Inv.Inv_pure hR _

theorem StmtOk.StmtOk_query {R : World → World → Prop} (hR : Stable R) {α : Type} {s : Stmt}
    (hs : Logs R s) (q : World → α) : StmtOk R s fun w => (q w, w) :=
  fun w => ⟨hs w, hR.refl w⟩

theorem StmtOk.StmtOk_commit {R : World → World → Prop} {s : Stmt} (hs : Logs R s)
    (hc : Commits R) : StmtOk R s fun w => ((), { w with committed := w.tables }) :=
  fun w => ⟨hs w, hc w⟩

theorem Inv.Inv_lockRead {R : World → World → Prop} (hR : Stable R) (f : Faults)
    (hs : Logs R .lockRead) (hc : Commits R) : Inv R (lockRead f) :=
  Inv.Inv_backend hR f (StmtOk.StmtOk_commit hs hc)

theorem Inv.Inv_unlock {R : World → World → Prop} (hR : Stable R) (f : Faults)
    (hs : Logs R .unlock) (hc : Commits R) : Inv R (unlock f) :=
  Inv.Inv_backend hR f (StmtOk.StmtOk_commit hs hc)

theorem Inv.Inv_ReadData {R : World → World → Prop} (hR : Stable R) (e : Engine) (f : Faults)
    (rd : Reader) (hdr : StreamHeader) (h1 : ∀ m, Logs R (.selectDataIds m))
    (h2 : ∀ id, Logs R (.selectData id)) : Inv R (ReadData e f rd hdr) := by
  unfold ReadData
  refine Inv.Inv_tryCatch hR e ?_ (Inv.Inv_pure hR _)
  refine Inv.Inv_bind hR (Inv.Inv_backend hR f (StmtOk.StmtOk_query hR (h1 _) _)) fun res => ?_
  refine Inv.Inv_bind hR (Inv.Inv_OnRead hR _ _ _ _) fun k => ?_
  refine Inv.Inv_bind hR (Inv.Inv_readChunks hR f rd hdr
    (fun id => StmtOk.StmtOk_query hR (h2 id) _) res k) fun k2 => ?_
  exact Inv.Inv_bind hR (Inv.Inv_OnRead hR _ _ _ _) fun _ => Inv.Inv_pure hR _

theorem Inv.Inv_readRows {R : World → World → Prop} (hR : Stable R) (e : Engine) (f : Faults)
    (rd : Reader) (h1 : ∀ m, Logs R (.selectDataIds m)) (h2 : ∀ id, Logs R (.selectData id)) :
    ∀ (rows : List StreamRow) (hdr : StreamHeader), Inv R (readRows e f rd rows hdr)
  | [], _ => Inv.Inv_pure hR _
  | row :: rest, _ => by
    rw [readRows]
    simp only []
    split
    · refine Inv.Inv_bind hR (Inv.Inv_logMsg hR _ _ _) fun _ => ?_
      refine Inv.Inv_bind hR (Inv.Inv_OnRead hR _ _ _ _) fun _ => ?_
      exact Inv.Inv_bind hR (Inv.Inv_OnRead hR _ _ _ _) fun _ =>
        Inv.Inv_readRows hR e f rd h1 h2 rest _
    · refine Inv.Inv_bind hR (Inv.Inv_ReadData hR e f rd _ h1 h2) fun r => ?_
      split
      · exact Inv.Inv_THROW hR _
      · split
        · exact Inv.Inv_bind hR (Inv.Inv_logMsg hR _ _ _) fun _ => Inv.Inv_pure hR _
        · exact Inv.Inv_readRows hR e f rd h1 h2 rest _

theorem Inv.Inv_queryStreams {R : World → World → Prop} (hR : Stable R) (f : Faults)
    (col : String) (lo up : Bound) (lim : Option Nat) (hs : Logs R (.selectStreams col lo up lim)) :
    Inv R (queryStreams f col lo up lim) := by
  unfold queryStreams
  split
  · exact Inv.Inv_backend hR _ (StmtOk.StmtOk_query hR hs _)
  · exact Inv.Inv_backend hR _ (StmtOk.StmtOk_query hR hs _)

/-- The part of a batch of `Read` that runs while the lock object lives. -/
theorem Inv.Inv_batchBody {R : World → World → Prop} (hR : Stable R) (e : Engine) (f : Faults)
    (rd : Reader) (col : String) (limit : Nat) (lo up : Bound) (lim : Option Nat)
    (h0 : Logs R (.selectStreams col lo up lim))
    (h1 : ∀ m, Logs R (.selectDataIds m)) (h2 : ∀ id, Logs R (.selectData id)) :
    Inv R (do
      let res ← queryStreams f col lo up lim
      let r ← readRows e f rd res hdrUninit
      if r.1 || limit = 0 || res.length < limit then (pure none : M (Option Nat))
      else if col = "id" then pure (some r.2.id)
      else if col = "timestamp" then pure (some r.2.timestamp)
      else THROW ("Invalid column='" ++ col ++ "'")) := by
  refine Inv.Inv_bind hR (Inv.Inv_queryStreams hR f col lo up lim h0) fun res => ?_
  refine Inv.Inv_bind hR (Inv.Inv_readRows hR e f rd h1 h2 res _) fun r => ?_
  split
  · exact Inv.Inv_pure hR _
  · split
    · exact Inv.Inv_pure hR _
    · split
      · exact Inv.Inv_pure hR _
      · exact Inv.Inv_THROW hR _

theorem Inv.Inv_readBatch {R : World → World → Prop} (hR : Stable R) (hc : Commits R)
    (hl : ∀ s, IsReadStmt s → Logs R s) (e : Engine) (f : Faults)
    (rd : Reader) (col : String) (limit first : Nat) (inclusive_first : Bool) (last : Nat)
    (inclusive_last : Bool) :
    Inv R (readBatch e f rd col limit first inclusive_first last inclusive_last) := by
  unfold readBatch
  refine Inv.Inv_bind hR (Inv.Inv_lockRead hR f (hl _ trivial) hc) fun _ => ?_
  exact Inv.Inv_withDtor hR (Inv.Inv_unlock hR f (hl _ trivial) hc)
    (Inv.Inv_batchBody hR e f rd col limit _ _ _ (hl _ trivial) (fun _ => hl _ trivial)
      (fun _ => hl _ trivial))

theorem Inv.Inv_readLoop {R : World → World → Prop} (hR : Stable R) (hc : Commits R)
    (hl : ∀ s, IsReadStmt s → Logs R s) (e : Engine) (f : Faults)
    (rd : Reader) (col : String) (limit last : Nat) (inclusive_last : Bool) :
    ∀ (fuel first : Nat) (inclusive_first : Bool),
      Inv R (readLoop e f rd col limit last inclusive_last fuel first inclusive_first)
  | 0, _, _ => Inv.Inv_pure hR _
  | fuel + 1, first, inclusive_first => by
    rw [readLoop]
    refine Inv.Inv_bind hR (Inv.Inv_readBatch hR hc hl e f rd col limit first inclusive_first last
      inclusive_last) fun next => ?_
    cases next with
    | none => exact Inv.Inv_pure hR _
    | some c => exact Inv.Inv_readLoop hR hc hl e f rd col limit last inclusive_last fuel c false

theorem Inv.Inv_Read {R : World → World → Prop} (hR : Stable R) (hc : Commits R)
    (hl : ∀ s, IsReadStmt s → Logs R s) (e : Engine) (f : Faults) (fuel : Nat)
    (column : Option String) (first : Nat) (inclusive_first : Bool) (last : Nat)
    (inclusive_last : Bool) :
    Inv R (Read e f fuel column first inclusive_first last inclusive_last) := by
  unfold Read
  refine Inv.Inv_tryCatch hR e ?_ (Inv.Inv_pure hR _)
  split
  · exact Inv.Inv_THROW hR _
  · exact Inv.Inv_THROW hR _
  · exact Inv.Inv_readLoop hR hc hl e f _ _ _ _ _ _ _ _

theorem Inv.Inv_Get {R : World → World → Prop} (hR : Stable R) (hc : Commits R)
    (h1 : Logs R .lockRead) (h2 : Logs R .unlock) (h3 : ∀ ord, Logs R (.selectBoundary ord))
    (e : Engine) (f : Faults) (hdr : Option StreamHeader) (order : Option String) :
    Inv R (Get e f hdr order) := by
  unfold Get
  refine Inv.Inv_tryCatch hR e ?_ (Inv.Inv_pure hR _)
  split
  · exact Inv.Inv_THROW hR _
  · exact Inv.Inv_THROW hR _
  · refine Inv.Inv_bind hR (Inv.Inv_lockRead hR f h1 hc) fun _ => ?_
    refine Inv.Inv_withDtor hR (Inv.Inv_unlock hR f h2 hc) ?_
    refine Inv.Inv_bind hR ?_ fun res => ?_
    · unfold queryBoundary
      split
      · exact Inv.Inv_backend hR _ (StmtOk.StmtOk_query hR (h3 _) _)
      · split
        · exact Inv.Inv_backend hR _ (StmtOk.StmtOk_query hR (h3 _) _)
        · exact Inv.Inv_backend hR _ (StmtOk.StmtOk_query hR (h3 _) _)
    · cases res <;> exact Inv.Inv_pure hR _

theorem Inv.Inv_Lookup {R : World → World → Prop} (hR : Stable R) (hc : Commits R)
    (h1 : Logs R .lockRead) (h2 : Logs R .unlock) (h3 : ∀ c v, Logs R (.selectExists c v))
    (e : Engine) (f : Faults) (column : Option String) (val : Nat) (found : Option Bool) :
    Inv R (Lookup e f column val found) := by
  unfold Lookup
  refine Inv.Inv_tryCatch hR e ?_ (Inv.Inv_pure hR _)
  split
  · exact Inv.Inv_THROW hR _
  · exact Inv.Inv_THROW hR _
  · refine Inv.Inv_bind hR (Inv.Inv_lockRead hR f h1 hc) fun _ => ?_
    refine Inv.Inv_withDtor hR (Inv.Inv_unlock hR f h2 hc) ?_
    refine Inv.Inv_bind hR ?_ fun n => Inv.Inv_pure hR _
    unfold queryExists
    split
    · exact Inv.Inv_backend hR _ (StmtOk.StmtOk_query hR (h3 _ _) _)
    · exact Inv.Inv_backend hR _ (StmtOk.StmtOk_query hR (h3 _ _) _)

theorem Inv.Inv_logLines {R : World → World → Prop} (hR : Stable R) (e : Engine) (t : Nat) :
    ∀ lines : List String, Inv R (logLines e t lines)
  | [] => Inv.Inv_pure hR _
  | l :: rest => by
    rw [logLines]
    exact Inv.Inv_bind hR (Inv.Inv_logMsg hR _ _ _) fun _ => Inv.Inv_logLines hR e t rest

theorem Inv.Inv_describeTables {R : World → World → Prop} (hR : Stable R)
    (h : ∀ t, Logs R (.describe t)) (e : Engine) (f : Faults)
    (layout : String → List (String × String)) :
    ∀ tables : List String, Inv R (describeTables e f layout tables)
  | [] => Inv.Inv_pure hR _
  | t :: rest => by
    rw [describeTables]
    refine Inv.Inv_bind hR (Inv.Inv_backend hR f (StmtOk.StmtOk_query hR (h t) _)) fun res => ?_
    split
    · refine Inv.Inv_bind hR (Inv.Inv_logMsg hR _ _ _) fun _ => ?_
      refine Inv.Inv_bind hR (Inv.Inv_logMsg hR _ _ _) fun _ => ?_
      refine Inv.Inv_bind hR (Inv.Inv_logMsg hR _ _ _) fun _ => ?_
      refine Inv.Inv_bind hR (Inv.Inv_logMsg hR _ _ _) fun _ => ?_
      refine Inv.Inv_bind hR (Inv.Inv_logLines hR _ _ _) fun _ => ?_
      exact Inv.Inv_bind hR (Inv.Inv_logMsg hR _ _ _) fun _ =>
        Inv.Inv_describeTables hR h e f layout rest
    · exact Inv.Inv_bind hR (Inv.Inv_logMsg hR _ _ _) fun _ =>
        Inv.Inv_describeTables hR h e f layout rest

theorem Inv.Inv_Describe {R : World → World → Prop} (hR : Stable R)
    (h : ∀ t, Logs R (.describe t)) (e : Engine) (f : Faults)
    (layout : String → List (String × String)) : Inv R (Describe e f layout) := by
  unfold Describe
  refine Inv.Inv_tryCatch hR e ?_ (Inv.Inv_pure hR _)
  exact Inv.Inv_bind hR (Inv.Inv_describeTables hR h e f layout _) fun _ => Inv.Inv_pure hR _

/-- C19: `ReadById`, `LookupById`, `GetFirst`, `GetLast` and `Describe` leave
the rows of `stream` and `streamdata` as they were: for every engine, reader,
argument, store, number of batches allowed and pattern of backend failures, and
so for every outcome (true, false, cancelled, or the program ended by a failing
unlock), the tables after the call are the tables before it. -/
theorem C19_reads_change_no_row (e : Engine) (f : Faults) (w : World) :
    (∀ (fuel first : Nat) (inclusive_first : Bool) (last : Nat) (inclusive_last : Bool),
      (ReadById e f fuel first inclusive_first last inclusive_last w).2.tables = w.tables) ∧
    (∀ (id : Nat) (found : Option Bool), (LookupById e f id found w).2.tables = w.tables) ∧
    (∀ hdr : Option StreamHeader, (GetFirst e f hdr w).2.tables = w.tables) ∧
    (∀ hdr : Option StreamHeader, (GetLast e f hdr w).2.tables = w.tables) ∧
    (∀ layout : String → List (String × String), (Describe e f layout w).2.tables = w.tables) := by
  have hR := Stable.Stable_tablesKept
  have hc : Commits TablesKept := fun _ => rfl
  have hl : ∀ s, Logs TablesKept s := fun _ _ => rfl
  exact ⟨fun fuel first i1 last i2 => Inv.Inv_Read hR hc (fun s _ => hl s) e f fuel _ first i1 last i2 w,
    fun id found => Inv.Inv_Lookup hR hc (hl _) (hl _) (fun _ _ => hl _) e f _ id found w,
    fun hdr => Inv.Inv_Get hR hc (hl _) (hl _) (fun _ => hl _) e f hdr _ w,
    fun hdr => Inv.Inv_Get hR hc (hl _) (hl _) (fun _ => hl _) e f hdr _ w,
    fun layout => Inv.Inv_Describe hR (fun _ => hl _) e f layout w⟩

theorem Issues.Issues_stmtOk {p : Stmt → Prop} {α : Type} {s : Stmt} {run : World → α × World}
    (hp : p s) (hrun : ∀ w, (run w).2.log = w.log) : StmtOk (Issues p) s run :=
  fun w => ⟨⟨[s], rfl, fun x hx => by rw [List.mem_singleton] at hx; rw [hx]; exact hp⟩,
    ⟨[], by rw [hrun, List.append_nil], fun _ h => absurd h (List.not_mem_nil _)⟩⟩

theorem Issues.Issues_logs {p : Stmt → Prop} {s : Stmt} (hp : p s) : Logs (Issues p) s :=
  fun _ => ⟨[s], rfl, fun x hx => by rw [List.mem_singleton] at hx; rw [hx]; exact hp⟩

theorem Issues.Issues_commits (p : Stmt → Prop) : Commits (Issues p) :=
  fun _ => ⟨[], (List.append_nil _).symm, fun _ h => absurd h (List.not_mem_nil _)⟩

theorem Issues.Issues_drop {p : Stmt → Prop} {w w2 : World} (h : Issues p w w2) :
    ∀ s ∈ w2.log.drop w.log.length, p s := by
  obtain ⟨lg, hl, hp⟩ := h
  rw [hl, List.drop_left]
  exact hp

theorem Inv.Inv_Delete (e : Engine) (f : Faults) (column : Option String) (first : Nat)
    (inclusive_first : Bool) (last : Nat) (inclusive_last : Bool) (reset_id : Bool) :
    Inv (Issues (IsDeleteStmt column first inclusive_first last inclusive_last reset_id))
      (Delete e f column first inclusive_first last inclusive_last reset_id) := by
  have hR := Stable.Stable_issues
    (IsDeleteStmt column first inclusive_first last inclusive_last reset_id)
  unfold Delete
  refine Inv.Inv_tryCatch hR e ?_ (Inv.Inv_pure hR _)
  cases column with
  | none => exact Inv.Inv_THROW hR _
  | some col =>
    simp only []
    refine Inv.Inv_bind hR (Inv.Inv_backend hR f (Issues.Issues_stmtOk (Or.inl rfl)
      (fun w => settle_log _))) fun _ => ?_
    refine Inv.Inv_bind hR (Inv.Inv_backend hR f (Issues.Issues_stmtOk (Or.inr (Or.inl rfl))
      (fun w => rfl))) fun _ => ?_
    refine Inv.Inv_withDtor hR (Inv.Inv_backend hR f (Issues.Issues_stmtOk
      (Or.inr (Or.inr (Or.inl rfl))) (fun w => rfl))) ?_
    have hdel : IsDeleteStmt (some col) first inclusive_first last inclusive_last reset_id
        (.deleteStreams (deleteWhere col first inclusive_first last inclusive_last)) :=
      Or.inr (Or.inr (Or.inr (Or.inl ⟨col, rfl, rfl⟩)))
    refine Inv.Inv_bind hR ?_ fun _ => ?_
    · unfold execDelete
      split
      · exact Inv.Inv_backend hR f (Issues.Issues_stmtOk hdel (fun w => settle_log _))
      · exact Inv.Inv_backend hR _ (Issues.Issues_stmtOk hdel (fun w => rfl))
    · split
      · rename_i hc
        have hc3 : reset_id = true ∧ first = 0 ∧ last = 0 := by
          have hc4 : (reset_id = true ∧ first = 0) ∧ last = 0 := by
            simpa [Bool.and_eq_true] using hc
          exact ⟨hc4.1.1, hc4.1.2, hc4.2⟩
        have ha : ∀ t, t = STREAM_TABLE ∨ t = STREAMDATA_TABLE →
            Inv (Issues (IsDeleteStmt (some col) first inclusive_first last inclusive_last
              reset_id)) (execAlterAutoIncrement f t 1) := by
          intro t ht
          have hp : IsDeleteStmt (some col) first inclusive_first last inclusive_last reset_id
              (.alterAutoIncrement t 1) := by
            refine Or.inr (Or.inr (Or.inr (Or.inr ⟨hc3.1, hc3.2.1, hc3.2.2, ?_⟩)))
            rcases ht with rfl | rfl
            · exact Or.inl rfl
            · exact Or.inr rfl
          unfold execAlterAutoIncrement
          split
          · exact Inv.Inv_backend hR f (Issues.Issues_stmtOk hp (fun w => rfl))
          · split
            · exact Inv.Inv_backend hR f (Issues.Issues_stmtOk hp (fun w => rfl))
            · exact Inv.Inv_backend hR _ (Issues.Issues_stmtOk hp (fun w => rfl))
        exact Inv.Inv_bind hR (ha _ (Or.inl rfl)) fun _ =>
          Inv.Inv_bind hR (ha _ (Or.inr rfl)) fun _ => Inv.Inv_pure hR _
      · exact Inv.Inv_pure hR _

theorem gotHeader_nil (h : StreamHeader) :
    (gotHeader h []).id = 0 ∧ (gotHeader h []).descr = none ∧ (gotHeader h []).size = 0 ∧
      (gotHeader h []).timestamp = 0 := ⟨rfl, rfl, rfl, rfl⟩

theorem take_one_insertionSort {α : Type} (r : α → α → Prop) [DecidableRel r] (l : List α) :
    (l = [] ∧ (l.insertionSort r).take 1 = []) ∨
      ∃ a t, l.insertionSort r = a :: t ∧ (l.insertionSort r).take 1 = [a] := by
  rcases hs : l.insertionSort r with _ | ⟨a, t⟩
  · exact Or.inl ⟨insertionSort_eq_nil r l hs, rfl⟩
  · exact Or.inr ⟨a, t, rfl, rfl⟩

theorem DeleteAll_noFault (e : Engine) (w : World) :
    (DeleteAll e noFault w).1 = .ret true ∧ (DeleteAll e noFault w).2.tables.stream = [] := by
  obtain ⟨h1, h2, _⟩ := Delete_noFault e "id" 0 true 0 true false w rfl
  refine ⟨h1, ?_⟩
  show (Delete e noFault (some "id") 0 true 0 true false w).2.tables.stream = []
  rw [h2]
  have hw : deleteWhere "id" 0 true 0 true = [] := rfl
  rw [hw]
  simp [deleteFrom, whereHolds]

/-- C16: without backend failure, `GetFirst` (`GetLast`) with a non-null header
returns true; when the header table has rows it sets `id`, `descr`, `size` and
`timestamp` of the header to those of a row whose id is the smallest (largest)
in the table; when the table is empty it sets `id = 0`, `descr = NULL`,
`size = 0`, `timestamp = 0`. `DeleteAll` returns true and leaves the header
table empty, so that `GetFirst` and `GetLast` after it report id 0. -/
theorem C16_boundary_lookup (e : Engine) (h : StreamHeader) (w : World) :
    (∃ h1, (GetFirst e noFault (some h) w).1 = .ret (true, some h1) ∧
      (w.tables.stream = [] →
        h1.id = 0 ∧ h1.descr = none ∧ h1.size = 0 ∧ h1.timestamp = 0) ∧
      (w.tables.stream ≠ [] → ∃ row ∈ w.tables.stream,
        (∀ r ∈ w.tables.stream, row.id ≤ r.id) ∧ h1.id = row.id ∧ h1.descr = some row.descr ∧
          h1.size = row.size ∧ h1.timestamp = row.timestamp)) ∧
    (∃ h2, (GetLast e noFault (some h) w).1 = .ret (true, some h2) ∧
      (w.tables.stream = [] →
        h2.id = 0 ∧ h2.descr = none ∧ h2.size = 0 ∧ h2.timestamp = 0) ∧
      (w.tables.stream ≠ [] → ∃ row ∈ w.tables.stream,
        (∀ r ∈ w.tables.stream, r.id ≤ row.id) ∧ h2.id = row.id ∧ h2.descr = some row.descr ∧
          h2.size = row.size ∧ h2.timestamp = row.timestamp)) ∧
    (DeleteAll e noFault w).1 = .ret true ∧
    (DeleteAll e noFault w).2.tables.stream = [] ∧
    (∃ h3, (GetFirst e noFault (some h) (DeleteAll e noFault w).2).1 = .ret (true, some h3) ∧
      h3.id = 0) ∧
    ∃ h4, (GetLast e noFault (some h) (DeleteAll e noFault w).2).1 = .ret (true, some h4) ∧
      h4.id = 0 := by
  have hfirst : ∀ w : World, ∃ h1, (GetFirst e noFault (some h) w).1 = .ret (true, some h1) ∧
      (w.tables.stream = [] →
        h1.id = 0 ∧ h1.descr = none ∧ h1.size = 0 ∧ h1.timestamp = 0) ∧
      (w.tables.stream ≠ [] → ∃ row ∈ w.tables.stream,
        (∀ r ∈ w.tables.stream, row.id ≤ r.id) ∧ h1.id = row.id ∧ h1.descr = some row.descr ∧
          h1.size = row.size ∧ h1.timestamp = row.timestamp) := by
    intro w
    refine ⟨_, (GetFirst_noFault e h w).1, ?_, ?_⟩
    · intro he
      rw [he]
      exact gotHeader_nil h
    · intro hne
      rcases take_one_insertionSort (fun a b : StreamRow => a.id ≤ b.id) w.tables.stream with
        ⟨he, _⟩ | ⟨a, t, hs, ht⟩
      · exact absurd he hne
      · rw [ht]
        obtain ⟨hm, hmin⟩ := head_insertionSort_le (fun r : StreamRow => r.id) _ a t hs
        exact ⟨a, hm, hmin, rfl, rfl, rfl, rfl⟩
  have hlast : ∀ w : World, ∃ h2, (GetLast e noFault (some h) w).1 = .ret (true, some h2) ∧
      (w.tables.stream = [] →
        h2.id = 0 ∧ h2.descr = none ∧ h2.size = 0 ∧ h2.timestamp = 0) ∧
      (w.tables.stream ≠ [] → ∃ row ∈ w.tables.stream,
        (∀ r ∈ w.tables.stream, r.id ≤ row.id) ∧ h2.id = row.id ∧ h2.descr = some row.descr ∧
          h2.size = row.size ∧ h2.timestamp = row.timestamp) := by
    intro w
    refine ⟨_, (GetLast_noFault e h w).1, ?_, ?_⟩
    · intro he
      rw [he]
      exact gotHeader_nil h
    · intro hne
      rcases take_one_insertionSort (fun a b : StreamRow => b.id ≤ a.id) w.tables.stream with
        ⟨he, _⟩ | ⟨a, t, hs, ht⟩
      · exact absurd he hne
      · rw [ht]
        obtain ⟨hm, hmax⟩ := head_insertionSort_ge (fun r : StreamRow => r.id) _ a t hs
        exact ⟨a, hm, hmax, rfl, rfl, rfl, rfl⟩
  obtain ⟨hd1, hd2⟩ := DeleteAll_noFault e w
  obtain ⟨h3, h31, h32, _⟩ := hfirst (DeleteAll e noFault w).2
  obtain ⟨h4, h41, h42, _⟩ := hlast (DeleteAll e noFault w).2
  exact ⟨hfirst w, hlast w, hd1, hd2, ⟨h3, h31, (h32 hd2).1⟩, ⟨h4, h41, (h42 hd2).1⟩⟩

/-- After a `DeleteById` that returned true no header row with an id of its
range is left, and `LookupById` does not find such an id. -/
theorem DeleteById_gone (e : Engine) (f : Faults) (first : Nat) (inclusive_first : Bool)
    (last : Nat) (inclusive_last : Bool) (id : Nat) (b : Bool) (w w2 : World)
    (hdel : DeleteById e f first inclusive_first last inclusive_last w = (.ret true, w2))
    (hin : Within first inclusive_first last inclusive_last id) :
    (∀ r ∈ w2.tables.stream, r.id ≠ id) ∧
    (LookupById e noFault id (some b) w2).1 = .ret (true, some false) := by
  obtain ⟨_, ht, _, _⟩ := Delete_ret e f "id" first inclusive_first last inclusive_last false
    w w2 hdel
  have hs : ∀ r ∈ w2.tables.stream, r.id ≠ id := by
    intro r hr hid
    rw [ht, mem_deleteFrom_stream, deleteWhere_id] at hr
    have : whereHolds (readWhere "id" first inclusive_first last inclusive_last) r = true := by
      rw [whereHolds_readWhere "id" (fun r => r.id) rfl, hid]
      exact hin
    rw [this] at hr
    cases hr.2
  refine ⟨hs, ?_⟩
  rw [(LookupById_noFault e id b w2).1]
  have : ¬ ∃ r ∈ w2.tables.stream, r.id = id := fun ⟨r, hr, hid⟩ => hs r hr hid
  simp [this]

/-- C17: without backend failure, `LookupById` with a non-null `found` returns
true and sets `*found` to whether a header row with that id exists (so a missing
id gives true with `*found == false`). After a `Write` that returned true,
`*found` is true for the id written into the header; after a `DeleteById` that
returned true and whose range holds that id, `*found` is false. -/
theorem C17_lookup_by_id (e : Engine) (b : Bool) :
    (∀ (id : Nat) (w : World),
      (LookupById e noFault id (some b) w).1 =
        .ret (true, some (decide (∃ r ∈ w.tables.stream, r.id = id)))) ∧
    ∀ (f : Faults) (hdr : StreamHeader) (src : IStream) (w w1 : World)
      (res : Option StreamHeader), Wf w →
      Write e f (some hdr) src w = (.ret (true, res), w1) →
      ∃ id, res = some { hdr with id := id } ∧
        (LookupById e noFault id (some b) w1).1 = .ret (true, some true) ∧
        ∀ (f2 : Faults) (first : Nat) (inclusive_first : Bool) (last : Nat)
          (inclusive_last : Bool) (w2 : World),
          Within first inclusive_first last inclusive_last id →
          DeleteById e f2 first inclusive_first last inclusive_last w1 = (.ret true, w2) →
          (LookupById e noFault id (some b) w2).1 = .ret (true, some false) := by
  refine ⟨fun id w => (LookupById_noFault e id b w).1, ?_⟩
  intro f hdr src w w1 res hwf hw
  obtain ⟨cs, _, _, h3, h4, _⟩ := Write_ret e f hdr src w w1 res hwf hw
  have hex : ∃ r ∈ w1.tables.stream, r.id = w.nextStreamId :=
    ⟨_, by rw [h4]; exact List.mem_append_right _ (List.mem_singleton_self _), rfl⟩
  refine ⟨w.nextStreamId, h3, ?_, ?_⟩
  · rw [(LookupById_noFault e _ b w1).1]
    simp [hex]
  · intro f2 first i1 last i2 w2 hin hdel
    exact (DeleteById_gone e f2 first i1 last i2 w.nextStreamId b w1 w2 hdel hin).2

theorem C17_lookup_by_id_witness :
    (LookupById exEngine noFault 1 (some false) exWritten).1 = .ret (true, some true) ∧
    (LookupById exEngine noFault 1 (some true) exDeleted).1 = .ret (true, some false) ∧
    (LookupById exEngine noFault 7 (some true) exWritten).1 = .ret (true, some false) := by
  obtain ⟨h1, h2⟩ := C17_lookup_by_id exEngine true
  obtain ⟨h3, _⟩ := C17_lookup_by_id exEngine false
  obtain ⟨id, hid, _, hdel⟩ := h2 noFault exHdr (StreamBuf [1, 2, 3]) exEmpty exWritten _ exWf
    exWrite_eq
  have hid1 : id = 1 := by
    have := congrArg (fun o : Option StreamHeader => o.map fun x => x.id) hid
    simpa using this.symm
  subst hid1
  refine ⟨?_, hdel noFault 1 true 1 true exDeleted (by decide) exDelete_eq, ?_⟩
  · rw [h3]; decide
  · rw [h1]; decide

theorem NoAbort.NoAbort_pure {α : Type} (a : α) : NoAbort (pure a : M α) :=
  fun _ h => by cases h

theorem NoAbort.NoAbort_THROW {α : Type} (msg : String) : NoAbort (THROW msg : M α) :=
  fun _ h => by cases h

theorem NoAbort.NoAbort_bind {α β : Type} {m : M α} {k : α → M β} (hm : NoAbort m)
    (hk : ∀ a, NoAbort (k a)) : NoAbort (m >>= k) := by
  intro w
  rw [bind_apply]
  have h1 := hm w
  rcases hmw : m w with ⟨r, w1⟩
  rw [hmw] at h1
  cases r with
  | ret a => exact hk a w1
  | throw e => exact fun h => by cases h
  | abort => exact absurd rfl h1

theorem NoAbort.NoAbort_tryCatch {α : Type} (e : Engine) {body rest : M α} (hb : NoAbort body)
    (hr : NoAbort rest) : NoAbort (tryCatch e body rest) := by
  intro w
  unfold tryCatch
  have h1 := hb w
  rcases hbw : body w with ⟨r, w1⟩
  rw [hbw] at h1
  cases r with
  | ret a => exact fun h => by cases h
  | throw msg => exact hr _
  | abort => exact absurd rfl h1

theorem NoAbort.NoAbort_backend {α : Type} (f : Faults) (s : Stmt) (run : World → α × World) :
    NoAbort (backend f s run) := by
  intro w
  unfold backend
  split <;> exact fun h => by cases h

theorem NoAbort.NoAbort_OnRead (rd : Reader) (hdr : StreamHeader) (data : List Byte)
    (state : Nat) : NoAbort (OnRead rd hdr data state) := fun _ h => by cases h

theorem NoAbort.NoAbort_logMsg (e : Engine) (t : Nat) (msg : String) :
    NoAbort (logMsg e t msg) := fun _ h => by cases h

theorem NoAbort.NoAbort_readBlob (rd : Reader) (hdr : StreamHeader) :
    ∀ (fuel : Nat) (blob : IStream) (k : Bool), NoAbort (readBlob rd hdr fuel blob k)
  | 0, _, _ => NoAbort.NoAbort_pure _
  | fuel + 1, blob, k => by
    rw [readBlob]
    split
    · simp only []
      split
      · exact NoAbort.NoAbort_bind (NoAbort.NoAbort_OnRead _ _ _ _)
          fun a => NoAbort.NoAbort_readBlob rd hdr fuel _ a
      · exact NoAbort.NoAbort_readBlob rd hdr fuel _ k
    · exact NoAbort.NoAbort_pure _

theorem NoAbort.NoAbort_readChunks (f : Faults) (rd : Reader) (hdr : StreamHeader) :
    ∀ (ids : List Nat) (k : Bool), NoAbort (readChunks f rd hdr ids k)
  | [], _ => NoAbort.NoAbort_pure _
  | id :: rest, k => by
    rw [readChunks]
    split
    · refine NoAbort.NoAbort_bind (NoAbort.NoAbort_backend _ _ _) fun res => ?_
      cases res with
      | nil => exact NoAbort.NoAbort_THROW _
      | cons blob _ =>
        exact NoAbort.NoAbort_bind (NoAbort.NoAbort_readBlob rd hdr _ _ _)
          fun a => NoAbort.NoAbort_readChunks f rd hdr rest a
    · exact NoAbort.NoAbort_pure _

theorem NoAbort.NoAbort_ReadData (e : Engine) (f : Faults) (rd : Reader) (hdr : StreamHeader) :
    NoAbort (ReadData e f rd hdr) := by
  unfold ReadData
  refine NoAbort.NoAbort_tryCatch e ?_ (NoAbort.NoAbort_pure _)
  refine NoAbort.NoAbort_bind (NoAbort.NoAbort_backend _ _ _) fun res => ?_
  refine NoAbort.NoAbort_bind (NoAbort.NoAbort_OnRead _ _ _ _) fun k => ?_
  refine NoAbort.NoAbort_bind (NoAbort.NoAbort_readChunks f rd hdr res k) fun k2 => ?_
  exact NoAbort.NoAbort_bind (NoAbort.NoAbort_OnRead _ _ _ _) fun _ => NoAbort.NoAbort_pure _

theorem NoAbort.NoAbort_readRows (e : Engine) (f : Faults) (rd : Reader) :
    ∀ (rows : List StreamRow) (hdr : StreamHeader), NoAbort (readRows e f rd rows hdr)
  | [], _ => NoAbort.NoAbort_pure _
  | row :: rest, _ => by
    rw [readRows]
    simp only []
    split
    · refine NoAbort.NoAbort_bind (NoAbort.NoAbort_logMsg _ _ _) fun _ => ?_
      refine NoAbort.NoAbort_bind (NoAbort.NoAbort_OnRead _ _ _ _) fun _ => ?_
      exact NoAbort.NoAbort_bind (NoAbort.NoAbort_OnRead _ _ _ _) fun _ =>
        NoAbort.NoAbort_readRows e f rd rest _
    · refine NoAbort.NoAbort_bind (NoAbort.NoAbort_ReadData e f rd _) fun r => ?_
      split
      · exact NoAbort.NoAbort_THROW _
      · split
        · exact NoAbort.NoAbort_bind (NoAbort.NoAbort_logMsg _ _ _) fun _ =>
            NoAbort.NoAbort_pure _
        · exact NoAbort.NoAbort_readRows e f rd rest _

theorem queryStreams_log (f : Faults) (col : String) (lo up : Bound) (lim : Option Nat)
    (w : World) :
    (queryStreams f col lo up lim w).2.log = w.log ++ [.selectStreams col lo up lim] ∧
      (queryStreams f col lo up lim w).1 ≠ .abort := by
  unfold queryStreams
  cases colKey col with
  | none => simp [backend]
  | some key =>
    simp only []
    unfold backend
    split <;> simp

/-- What the part of a batch under the lock sends: the header query, then chunk
queries only; it never ends the program. -/
theorem batchBody_log (e : Engine) (f : Faults) (rd : Reader) (col : String) (limit : Nat)
    (lo up : Bound) (lim : Option Nat) (w : World) :
    ∃ qs, ((do
      let res ← queryStreams f col lo up lim
      let r ← readRows e f rd res hdrUninit
      if r.1 || limit = 0 || res.length < limit then (pure none : M (Option Nat))
      else if col = "id" then pure (some r.2.id)
      else if col = "timestamp" then pure (some r.2.timestamp)
      else THROW ("Invalid column='" ++ col ++ "'")) w).2.log =
        w.log ++ .selectStreams col lo up lim :: qs ∧ (∀ q ∈ qs, IsChunkQuery q) ∧
      ((do
      let res ← queryStreams f col lo up lim
      let r ← readRows e f rd res hdrUninit
      if r.1 || limit = 0 || res.length < limit then (pure none : M (Option Nat))
      else if col = "id" then pure (some r.2.id)
      else if col = "timestamp" then pure (some r.2.timestamp)
      else THROW ("Invalid column='" ++ col ++ "'")) w).1 ≠ .abort := by
  have hR := Stable.Stable_issues IsChunkQuery
  obtain ⟨hq, hqa⟩ := queryStreams_log f col lo up lim w
  rw [bind_apply]
  rcases hqw : queryStreams f col lo up lim w with ⟨r, w1⟩
  rw [hqw] at hq hqa
  cases r with
  | abort => exact absurd rfl hqa
  | throw msg =>
    exact ⟨[], hq, fun _ h => absurd h (List.not_mem_nil _), fun h => by cases h⟩
  | ret res =>
    simp only []
    have hk : Inv (Issues IsChunkQuery) (do
        let r ← readRows e f rd res hdrUninit
        if r.1 || limit = 0 || res.length < limit then (pure none : M (Option Nat))
        else if col = "id" then pure (some r.2.id)
        else if col = "timestamp" then pure (some r.2.timestamp)
        else THROW ("Invalid column='" ++ col ++ "'")) := by
      refine Inv.Inv_bind hR (Inv.Inv_readRows hR e f rd (fun _ => Issues.Issues_logs trivial)
        (fun _ => Issues.Issues_logs trivial) res _) fun r => ?_
      split
      · exact Inv.Inv_pure hR _
      · split
        · exact Inv.Inv_pure hR _
        · split
          · exact Inv.Inv_pure hR _
          · exact Inv.Inv_THROW hR _
    have hna : NoAbort (do
        let r ← readRows e f rd res hdrUninit
        if r.1 || limit = 0 || res.length < limit then (pure none : M (Option Nat))
        else if col = "id" then pure (some r.2.id)
        else if col = "timestamp" then pure (some r.2.timestamp)
        else THROW ("Invalid column='" ++ col ++ "'")) := by
      refine NoAbort.NoAbort_bind (NoAbort.NoAbort_readRows e f rd res _) fun r => ?_
      split
      · exact NoAbort.NoAbort_pure _
      · split
        · exact NoAbort.NoAbort_pure _
        · split
          · exact NoAbort.NoAbort_pure _
          · exact NoAbort.NoAbort_THROW _
    obtain ⟨qs, hl, hp⟩ := hk w1
    refine ⟨qs, ?_, hp, hna w1⟩
    rw [hl]
    show w1.log ++ qs = _
    have : w1.log = w.log ++ [.selectStreams col lo up lim] := hq
    rw [this, List.append_assoc]
    rfl

theorem withDtor_unlock_log {α : Type} (f : Faults) (body : M α) (w : World)
    (hna : (body w).1 ≠ .abort) :
    (withDtor (unlock f) body w).2.log = (body w).2.log ++ [.unlock] := by
  have hlog : ∀ w1 : World, (unlock f w1).2.log = w1.log ++ [.unlock] := by
    intro w1
    unfold unlock backend
    split <;> rfl
  unfold withDtor
  rcases hb : body w with ⟨r, w1⟩
  rw [hb] at hna
  have h2 := hlog w1
  cases r with
  | abort => exact absurd rfl hna
  | ret a =>
    simp only []
    rcases hu : unlock f w1 with ⟨r2, w2⟩
    rw [hu] at h2
    cases r2 <;> exact h2
  | throw m =>
    simp only []
    rcases hu : unlock f w1 with ⟨r2, w2⟩
    rw [hu] at h2
    cases r2 <;> exact h2

/-- The statements of one batch: the lock alone when its acquisition fails,
else lock, header query, chunk queries, unlock. -/
theorem readBatch_log (e : Engine) (f : Faults) (rd : Reader) (col : String) (limit first : Nat)
    (inclusive_first : Bool) (last : Nat) (inclusive_last : Bool) (w : World) :
    (f w.log.length = true ∧
      (readBatch e f rd col limit first inclusive_first last inclusive_last w).2.log =
        w.log ++ [.lockRead] ∧
      ∃ msg, (readBatch e f rd col limit first inclusive_first last inclusive_last w).1 =
        .throw msg) ∨
    ∃ lo up lim qs, (∀ q ∈ qs, IsChunkQuery q) ∧
      (readBatch e f rd col limit first inclusive_first last inclusive_last w).2.log =
        w.log ++ (.lockRead :: .selectStreams col lo up lim :: (qs ++ [.unlock])) := by
  unfold readBatch
  rw [bind_apply]
  by_cases hf : f w.log.length = true
  · left
    simp [lockRead, backend, hf]
  · right
    have hf2 : f w.log.length = false := by simpa using hf
    simp only [lockRead, backend, hf2, Bool.false_eq_true, if_false]
    obtain ⟨qs, hl, hp, hna⟩ := batchBody_log e f rd col limit
      (if first > 0 then some (inclusive_first, first) else none)
      (if last > 0 then some (inclusive_last, last) else none)
      (if limit > 0 then some limit else none)
      { w with log := w.log ++ [.lockRead], committed := w.tables }
    refine ⟨(if first > 0 then some (inclusive_first, first) else none),
      (if last > 0 then some (inclusive_last, last) else none),
      (if limit > 0 then some limit else none), qs, hp, ?_⟩
    rw [withDtor_unlock_log f _ _ hna, hl]
    simp

theorem LockPairs.LockPairs_one (col : String) (lo up : Bound) (lim : Option Nat)
    (qs : List Stmt) (hq : ∀ q ∈ qs, IsChunkQuery q) :
    LockPairs (.lockRead :: .selectStreams col lo up lim :: (qs ++ [.unlock])) :=
  LockPairs.batch col lo up lim qs [] hq LockPairs.nil

theorem LockPairs.LockPairs_cons (col : String) (lo up : Bound) (lim : Option Nat)
    (qs rest : List Stmt) (hq : ∀ q ∈ qs, IsChunkQuery q) (hr : LockPairs rest) :
    LockPairs ((.lockRead :: .selectStreams col lo up lim :: (qs ++ [.unlock])) ++ rest) := by
  have := LockPairs.batch col lo up lim qs rest hq hr
  simpa using this

/-- The statements of the batch loop: complete batches, followed by a lone
lock statement only when that lock acquisition failed and ended the loop. -/
theorem readLoop_log (e : Engine) (f : Faults) (rd : Reader) (col : String) (limit last : Nat)
    (inclusive_last : Bool) :
    ∀ (fuel first : Nat) (inclusive_first : Bool) (w : World),
      ∃ lg, (readLoop e f rd col limit last inclusive_last fuel first inclusive_first w).2.log =
          w.log ++ lg ∧
        (LockPairs lg ∨ ∃ lg0, lg = lg0 ++ [.lockRead] ∧ LockPairs lg0 ∧
          f (w.log.length + lg0.length) = true ∧
          ∃ msg, (readLoop e f rd col limit last inclusive_last fuel first inclusive_first w).1 =
            .throw msg)
  | 0, _, _, w => ⟨[], (List.append_nil _).symm, Or.inl LockPairs.nil⟩
  | fuel + 1, first, inclusive_first, w => by
    rw [readLoop, bind_apply]
    rcases readBatch_log e f rd col limit first inclusive_first last inclusive_last w with
      ⟨hf, hl, msg, hm⟩ | ⟨lo, up, lim, qs, hq, hl⟩
    · rcases hb : readBatch e f rd col limit first inclusive_first last inclusive_last w with
        ⟨r, w1⟩
      rw [hb] at hl hm
      simp only [] at hm
      subst hm
      exact ⟨[.lockRead], hl, Or.inr ⟨[], rfl, LockPairs.nil, hf, msg, rfl⟩⟩
    · rcases hb : readBatch e f rd col limit first inclusive_first last inclusive_last w with
        ⟨r, w1⟩
      rw [hb] at hl
      have hl1 : w1.log = w.log ++ (.lockRead :: .selectStreams col lo up lim ::
          (qs ++ [.unlock])) := hl
      cases r with
      | throw m => exact ⟨_, hl1, Or.inl (LockPairs.LockPairs_one col lo up lim qs hq)⟩
      | abort => exact ⟨_, hl1, Or.inl (LockPairs.LockPairs_one col lo up lim qs hq)⟩
      | ret next =>
        cases next with
        | none => exact ⟨_, hl1, Or.inl (LockPairs.LockPairs_one col lo up lim qs hq)⟩
        | some c =>
          simp only []
          obtain ⟨lg2, h2, hp2⟩ := readLoop_log e f rd col limit last inclusive_last fuel c false w1
          refine ⟨(.lockRead :: .selectStreams col lo up lim :: (qs ++ [.unlock])) ++ lg2, ?_, ?_⟩
          · rw [h2, hl1, List.append_assoc]
          · rcases hp2 with hp | ⟨lg0, h0, hp0, hf0, hm0⟩
            · exact Or.inl (LockPairs.LockPairs_cons col lo up lim qs lg2 hq hp)
            · refine Or.inr ⟨(.lockRead :: .selectStreams col lo up lim :: (qs ++ [.unlock])) ++
                lg0, by rw [h0, List.append_assoc],
                LockPairs.LockPairs_cons col lo up lim qs lg0 hq hp0, ?_, hm0⟩
              have hlen : w1.log.length = w.log.length +
                  (Stmt.lockRead :: Stmt.selectStreams col lo up lim ::
                    (qs ++ [Stmt.unlock])).length := by
                rw [hl1, List.length_append]
              rw [List.length_append, ← Nat.add_assoc, ← hlen]
              exact hf0

/-- C20: the statements one `ReadById` sends, for every engine, store,
arguments, number of batches allowed and pattern of backend failures (so also
when the scan is cancelled, fails, or a failing unlock ends the program): they
are a sequence of complete batches, each being the READ lock, then the header
query, then chunk queries only, then the unlock; the only exception is a last
lone lock statement whose acquisition failed, after which nothing is sent and
`ReadById` returns false. So locks and unlocks alternate, every query lies
between a lock and its unlock, and no lock that was acquired is left without
its unlock. -/
theorem C20_lock_unlock_alternate (e : Engine) (f : Faults) (fuel first : Nat)
    (inclusive_first : Bool) (last : Nat) (inclusive_last : Bool) (w : World) :
    ∃ lg, (ReadById e f fuel first inclusive_first last inclusive_last w).2.log = w.log ++ lg ∧
      (LockPairs lg ∨ ∃ lg0, lg = lg0 ++ [.lockRead] ∧ LockPairs lg0 ∧
        f (w.log.length + lg0.length) = true ∧
        (ReadById e f fuel first inclusive_first last inclusive_last w).1 =
          .ret (some false)) := by
  unfold ReadById Read
  cases hr : e.mReader with
  | none =>
    refine ⟨[], ?_, Or.inl LockPairs.nil⟩
    simp only [tryCatch, THROW, pure_apply]
    rw [(WriteToLog_frame _ _ _ _).2.2.1, List.append_nil]
  | some rd =>
    simp only []
    obtain ⟨lg, hl, hp⟩ := readLoop_log e f rd "id" STREAMS_PER_QUERY last inclusive_last fuel
      first inclusive_first w
    unfold tryCatch
    rcases hb : readLoop e f rd "id" STREAMS_PER_QUERY last inclusive_last fuel first
      inclusive_first w with ⟨r, w1⟩
    rw [hb] at hl hp
    cases r with
    | ret a =>
      refine ⟨lg, hl, ?_⟩
      rcases hp with hp | ⟨lg0, _, _, _, msg, hm⟩
      · exact Or.inl hp
      · cases hm
    | abort =>
      refine ⟨lg, hl, ?_⟩
      rcases hp with hp | ⟨lg0, _, _, _, msg, hm⟩
      · exact Or.inl hp
      · cases hm
    | throw m =>
      refine ⟨lg, ?_, ?_⟩
      · simp only [pure_apply]
        rw [(WriteToLog_frame _ _ _ _).2.2.1]
        exact hl
      · rcases hp with hp | ⟨lg0, h0, hp0, hf0, _⟩
        · exact Or.inl hp
        · exact Or.inr ⟨lg0, h0, hp0, hf0, rfl⟩

theorem bindI_apply {α β : Type} (m : I α) (k : α → I β) (s : Env) :
    (m >>= k) s = match m s with
      | (.ret a, s1) => k a s1
      | (.throw e, s1) => (.throw e, s1)
      | (.abort, s1) => (.abort, s1) := rfl

theorem pureI_apply {α : Type} (a : α) (s : Env) : (pure a : I α) s = (.ret a, s) := rfl

theorem EnvKept.EnvKept_refl (s : Env) : EnvKept s s :=
  ⟨rfl, rfl, rfl, rfl, rfl, [], (List.append_nil _).symm, fun _ h => absurd h (List.not_mem_nil _)⟩

theorem EnvKept.EnvKept_trans {s1 s2 s3 : Env} (h1 : EnvKept s1 s2) (h2 : EnvKept s2 s3) :
    EnvKept s1 s3 := by
  obtain ⟨a1, b1, c1, d1, e1, o1, p1, q1⟩ := h1
  obtain ⟨a2, b2, c2, d2, e2, o2, p2, q2⟩ := h2
  refine ⟨a2.trans a1, b2.trans b1, c2.trans c1, d2.trans d1, e2.trans e1, o1 ++ o2,
    by rw [p2, p1, List.append_assoc], fun p hp => ?_⟩
  rcases List.mem_append.mp hp with h | h
  · exact q1 p h
  · exact q2 p h

theorem EnvKept.EnvKept_log (logger : Bool) (t : Nat) (msg : String) (s : Env) :
    EnvKept s (s.writeToLog logger t msg) := by
  unfold Env.writeToLog
  split
  · exact EnvKept.EnvKept_refl s
  · split
    · exact ⟨rfl, rfl, rfl, rfl, rfl, [], (List.append_nil _).symm,
        fun _ h => absurd h (List.not_mem_nil _)⟩
    · split
      · exact ⟨rfl, rfl, rfl, rfl, rfl, [], (List.append_nil _).symm,
          fun _ h => absurd h (List.not_mem_nil _)⟩
      · exact EnvKept.EnvKept_refl s

theorem writeToLog_ops (logger : Bool) (t : Nat) (msg : String) (s : Env) :
    (s.writeToLog logger t msg).ops = s.ops := by
  unfold Env.writeToLog
  split
  · rfl
  · split
    · rfl
    · split <;> rfl

theorem writeToLog_objects (logger : Bool) (t : Nat) (msg : String) (s : Env) :
    (s.writeToLog logger t msg).objects = s.objects := by
  unfold Env.writeToLog
  split
  · rfl
  · split
    · rfl
    · split <;> rfl

theorem ops_drop_trans {s1 s2 s3 : Env} (h1 : EnvKept s1 s2) (h2 : EnvKept s2 s3)
    (p1 : ∀ p ∈ s2.ops.drop s1.ops.length, p.2 = false)
    (p2 : ∀ p ∈ s3.ops.drop s2.ops.length, p.2 = false) :
    ∀ p ∈ s3.ops.drop s1.ops.length, p.2 = false := by
  obtain ⟨_, _, _, _, _, o1, e1, _⟩ := h1
  obtain ⟨_, _, _, _, _, o2, e2, _⟩ := h2
  rw [e1, List.drop_left] at p1
  rw [e2, List.drop_left] at p2
  rw [e2, e1, List.append_assoc, List.drop_left]
  intro p hp
  rcases List.mem_append.mp hp with h | h
  · exact p1 p h
  · exact p2 p h

theorem StepI.StepI_pure {α : Type} (a : α) : StepI (pure a : I α) := by
  intro s
  refine ⟨(fun h => by cases h), EnvKept.EnvKept_refl s, fun _ p hp => ?_⟩
  rw [pureI_apply, List.drop_length] at hp
  exact absurd hp (List.not_mem_nil _)

theorem StepI.StepI_throw {α : Type} (mk : Env → String) :
    StepI (fun s => (.throw (mk s), s) : I α) := by
  intro s
  refine ⟨(fun h => by cases h), EnvKept.EnvKept_refl s, fun h => ?_⟩
  obtain ⟨a, ha⟩ := h
  cases ha

theorem StepI.StepI_throwI {α : Type} (msg : String) : StepI (throwI msg : I α) :=
  StepI.StepI_throw fun _ => msg

theorem StepI.StepI_logI (logger : Bool) (t : Nat) (msg : String) :
    StepI (logI logger t msg) := by
  intro s
  refine ⟨(fun h => by cases h), EnvKept.EnvKept_log logger t msg s, fun _ p hp => ?_⟩
  have : (logI logger t msg s).2.ops = s.ops := writeToLog_ops logger t msg s
  rw [this, List.drop_length] at hp
  exact absurd hp (List.not_mem_nil _)

theorem StepI.StepI_bind {α β : Type} {m : I α} {k : α → I β} (hm : StepI m)
    (hk : ∀ a, StepI (k a)) : StepI (m >>= k) := by
  intro s
  rw [bindI_apply]
  obtain ⟨h1, h2, h3⟩ := hm s
  rcases hms : m s with ⟨r, s1⟩
  rw [hms] at h1 h2 h3
  cases r with
  | abort => exact absurd rfl h1
  | throw e =>
    refine ⟨(fun h => by cases h), h2, fun h => ?_⟩
    obtain ⟨a, ha⟩ := h
    cases ha
  | ret a =>
    obtain ⟨k1, k2, k3⟩ := hk a s1
    exact ⟨k1, h2.EnvKept_trans k2, fun h => ops_drop_trans h2 k2 (h3 ⟨a, rfl⟩) (k3 h)⟩

theorem StepI.StepI_callI {α : Type} (f : Faults) (op : InitOp) (hop : op ≠ .close)
    (ok : Env → Bool) (run : Env → α × Env)
    (hrun : ∀ s, (run s).2.accepts = s.accepts ∧ (run s).2.schemas = s.schemas ∧
      (run s).2.listsTables = s.listsTables ∧ (run s).2.cdbcMajor = s.cdbcMajor ∧
      (run s).2.objects = s.objects ∧ (run s).2.ops = s.ops) :
    StepI (callI f op ok run) := by
  intro s
  unfold callI
  have hmem : ∀ (b : Bool) (p : InitOp × Bool), p ∈ [(op, b)] → p.1 ≠ .close := by
    intro b p hp
    rw [List.mem_singleton] at hp
    rw [hp]
    exact hop
  by_cases h : (f s.ops.length || !ok s) = true
  · simp only [h, if_true]
    refine ⟨(fun h => by cases h), ⟨rfl, rfl, rfl, rfl, rfl, [(op, true)], rfl, hmem true⟩,
      fun h => ?_⟩
    obtain ⟨a, ha⟩ := h
    cases ha
  · have hf : (f s.ops.length || !ok s) = false := by simpa using h
    simp only [hf, Bool.false_eq_true, if_false]
    obtain ⟨r1, r2, r3, r4, r5, r6⟩ := hrun { s with ops := s.ops ++ [(op, false)] }
    refine ⟨(fun h => by cases h), ⟨r1, r2, r3, r4, r5, [(op, false)], r6, hmem false⟩,
      fun _ p hp => ?_⟩
    rw [r6, List.drop_left, List.mem_singleton] at hp
    rw [hp]

/-- A `TRY`/`CATCH` whose handler is followed by `return false`. -/
theorem StepI.StepI_tryCatch_true (logger : Bool) {body : I Bool} (hb : StepI body) :
    ∀ s, (∃ b, (tryCatchI logger body (pure false) s).1 = .ret b) ∧
      EnvKept s (tryCatchI logger body (pure false) s).2 ∧
      ((tryCatchI logger body (pure false) s).1 = .ret true →
        body s = (.ret true, (tryCatchI logger body (pure false) s).2) ∧
        ∀ p ∈ (tryCatchI logger body (pure false) s).2.ops.drop s.ops.length, p.2 = false) := by
  intro s
  unfold tryCatchI
  obtain ⟨h1, h2, h3⟩ := hb s
  rcases hbs : body s with ⟨r, s1⟩
  rw [hbs] at h1 h2 h3
  cases r with
  | abort => exact absurd rfl h1
  | ret a =>
    refine ⟨⟨a, rfl⟩, h2, fun h => ?_⟩
    simp only [Outcome.ret.injEq] at h
    subst h
    exact ⟨rfl, h3 ⟨true, rfl⟩⟩
  | throw msg =>
    refine ⟨⟨false, rfl⟩, h2.EnvKept_trans (EnvKept.EnvKept_log logger LOG_ERR msg s1),
      fun h => ?_⟩
    simp [pureI_apply] at h

theorem TriesI.TriesI_tryCatchI {α : Type} (good : α → Bool) (logger : Bool) {body : I α}
    (x : α) (hx : good x = false) (hb : StepI body) :
    TriesI good (tryCatchI logger body (pure x)) := by
  intro s
  unfold tryCatchI
  obtain ⟨h1, h2, h3⟩ := hb s
  rcases hbs : body s with ⟨r, s1⟩
  rw [hbs] at h1 h2 h3
  cases r with
  | abort => exact absurd rfl h1
  | ret a => exact ⟨⟨a, rfl⟩, h2, fun _ _ _ => h3 ⟨a, rfl⟩⟩
  | throw msg =>
    refine ⟨⟨x, rfl⟩, h2.EnvKept_trans (EnvKept.EnvKept_log logger LOG_ERR msg s1),
      fun a ha hg => ?_⟩
    simp only [pureI_apply, Outcome.ret.injEq] at ha
    subst ha
    rw [hx] at hg
    cases hg

/-- A step that runs a function with its own `TRY`/`CATCH` and throws when the
value it returned is not good. -/
theorem StepI.StepI_bind_tries {α β : Type} (good : α → Bool) {m : I α} {k : α → I β}
    (hm : TriesI good m) (hk : ∀ a, good a = true → StepI (k a))
    (hbad : ∀ a, good a = false → ∀ s, ∃ msg, k a s = (.throw msg, s)) : StepI (m >>= k) := by
  intro s
  rw [bindI_apply]
  obtain ⟨⟨a, ha⟩, h2, h3⟩ := hm s
  rcases hms : m s with ⟨r, s1⟩
  rw [hms] at ha h2 h3
  simp only [] at ha
  subst ha
  simp only []
  cases hg : good a with
  | false =>
    obtain ⟨msg, hk2⟩ := hbad a hg s1
    rw [hk2]
    refine ⟨(fun h => by cases h), h2, fun h => ?_⟩
    obtain ⟨b, hb⟩ := h
    cases hb
  | true =>
    obtain ⟨k1, k2, k3⟩ := hk a hg s1
    exact ⟨k1, h2.EnvKept_trans k2, fun h => ops_drop_trans h2 k2 (h3 a rfl hg) (k3 h)⟩

theorem StepI.StepI_LookupTable_body (f : Faults) (table : String) :
    StepI (do
      let res ← (fun s => callI f (.getTables s.schema table) (fun _ => true)
        (fun s1 => ((if s1.listsTables then
            some ((s1.tables.filter fun t => t.1 = s1.schema ∧ t.2.1 = table).map fun t => t.2.1)
          else none), s1)) s : I (Option (List String)))
      match res with
      | none => (fun s => (.throw ("getTables failed for db='" ++ s.schema ++ "', table='" ++
          table ++ "'"), s) : I (Bool × Bool))
      | some names => pure (true, names.any fun n => n == table)) := by
  refine StepI.StepI_bind ?_ fun res => ?_
  · intro s
    exact StepI.StepI_callI f (.getTables s.schema table) (fun h => by cases h) _ _
      (fun _ => ⟨rfl, rfl, rfl, rfl, rfl, rfl⟩) s
  · cases res with
    | none => exact StepI.StepI_throw _
    | some names => exact StepI.StepI_pure _

theorem TriesI.TriesI_LookupTable (logger : Bool) (f : Faults) (table : String) (found : Bool) :
    TriesI (fun r => r.1) (LookupTable logger f table found) :=
  TriesI.TriesI_tryCatchI (fun r => r.1) logger (false, found) rfl
    (StepI.StepI_LookupTable_body f table)

theorem StepI.StepI_createTable (f : Faults) (table sql : String) :
    StepI (createTable f table sql) := by
  unfold createTable
  refine StepI.StepI_callI f _ (fun h => by cases h) _ _ fun s => ?_
  simp only []
  split <;> exact ⟨rfl, rfl, rfl, rfl, rfl, rfl⟩

theorem TriesI.TriesI_initTable (logger : Bool) (f : Faults) (table sql : String) :
    TriesI (fun b => b) (initTable logger f table sql) := by
  unfold initTable
  refine TriesI.TriesI_tryCatchI (fun b => b) logger false rfl ?_
  refine StepI.StepI_bind_tries (fun r => r.1) (TriesI.TriesI_LookupTable logger f table false)
    (fun r hr => ?_) (fun r hr s => ?_)
  · simp only [hr, Bool.not_true, Bool.false_eq_true, if_false]
    split
    · exact StepI.StepI_bind (StepI.StepI_logI _ _ _) fun _ => StepI.StepI_pure _
    · refine StepI.StepI_bind (StepI.StepI_logI _ _ _) fun _ => ?_
      refine StepI.StepI_bind (StepI.StepI_logI _ _ _) fun _ => ?_
      refine StepI.StepI_bind (StepI.StepI_createTable f table sql) fun _ => ?_
      exact StepI.StepI_bind (StepI.StepI_logI _ _ _) fun _ => StepI.StepI_pure _
  · simp only [] at hr
    simp only [hr, Bool.not_false, if_true]
    exact ⟨_, rfl⟩

theorem TriesI.TriesI_InitDatabase (logger : Bool) (f : Faults) (database : String) :
    TriesI (fun b => b) (InitDatabase logger f database) := by
  unfold InitDatabase
  refine TriesI.TriesI_tryCatchI (fun b => b) logger false rfl ?_
  refine StepI.StepI_bind (StepI.StepI_callI f _ (fun h => by cases h) _ _
    (fun _ => ⟨rfl, rfl, rfl, rfl, rfl, rfl⟩)) fun major => ?_
  refine StepI.StepI_bind (StepI.StepI_logI _ _ _) fun _ => ?_
  split
  · exact StepI.StepI_throwI _
  · refine StepI.StepI_bind ?_ fun minor => ?_
    · intro s
      refine ⟨(fun h => by cases h), EnvKept.EnvKept_refl s, fun _ p hp => ?_⟩
      simp only [List.drop_length] at hp
      exact absurd hp (List.not_mem_nil _)
    · refine StepI.StepI_bind (StepI.StepI_logI _ _ _) fun _ => ?_
      refine StepI.StepI_bind (StepI.StepI_callI f _ (fun h => by cases h) _ _
        (fun _ => ⟨rfl, rfl, rfl, rfl, rfl, rfl⟩)) fun res => ?_
      cases res with
      | none => exact StepI.StepI_throwI _
      | some names =>
        simp only []
        split
        · exact StepI.StepI_throwI _
        · refine StepI.StepI_bind (StepI.StepI_callI f _ (fun h => by cases h) _ _
            (fun _ => ⟨rfl, rfl, rfl, rfl, rfl, rfl⟩)) fun _ => ?_
          refine StepI.StepI_bind_tries (fun b => b)
            (TriesI.TriesI_initTable logger f STREAM_TABLE streamTableSql)
            (fun a ha => ?_) (fun a ha s => ?_)
          · simp only [] at ha
            simp only [ha, Bool.not_true, Bool.false_eq_true, if_false]
            refine StepI.StepI_bind_tries (fun b => b)
              (TriesI.TriesI_initTable logger f STREAMDATA_TABLE streamdataTableSql)
              (fun b hb => ?_) (fun b hb s => ?_)
            · simp only [] at hb
              simp only [hb, Bool.not_true, Bool.false_eq_true, if_false]
              exact StepI.StepI_pure _
            · simp only [] at hb
              simp only [hb, Bool.not_false, if_true]
              exact ⟨_, rfl⟩
          · simp only [] at ha
            simp only [ha, Bool.not_false, if_true]
            exact ⟨_, rfl⟩

theorem bindI_ret_iff {α β : Type} (m : I α) (k : α → I β) (s s2 : Env) (b : β) :
    (m >>= k) s = (.ret b, s2) ↔ ∃ a s1, m s = (.ret a, s1) ∧ k a s1 = (.ret b, s2) := by
  rw [bindI_apply]
  rcases h : m s with ⟨r, s1⟩
  cases r with
  | ret a =>
    constructor
    · intro hk; exact ⟨a, s1, rfl, hk⟩
    · rintro ⟨a1, s3, heq, hk⟩
      simp only [Prod.mk.injEq, Outcome.ret.injEq] at heq
      obtain ⟨rfl, rfl⟩ := heq
      exact hk
  | throw e => simp
  | abort => simp

theorem callI_ret_iff {α : Type} (f : Faults) (op : InitOp) (ok : Env → Bool)
    (run : Env → α × Env) (s s2 : Env) (a : α) :
    callI f op ok run s = (.ret a, s2) ↔
      f s.ops.length = false ∧ ok s = true ∧
        a = (run { s with ops := s.ops ++ [(op, false)] }).1 ∧
        s2 = (run { s with ops := s.ops ++ [(op, false)] }).2 := by
  unfold callI
  by_cases h : (f s.ops.length || !ok s) = true
  · simp only [h, if_true]
    constructor
    · intro h2; cases h2
    · rintro ⟨h1, h2, _⟩
      rw [h1, h2] at h
      cases h
  · have hf : (f s.ops.length || !ok s) = false := by simpa using h
    simp only [hf, Bool.false_eq_true, if_false]
    have hf2 : f s.ops.length = false ∧ ok s = true := by
      cases h1 : f s.ops.length <;> cases h2 : ok s <;> simp_all
    constructor
    · intro h2
      simp only [Prod.mk.injEq, Outcome.ret.injEq] at h2
      exact ⟨hf2.1, hf2.2, h2.1.symm, h2.2.symm⟩
    · rintro ⟨_, _, h3, h4⟩
      rw [h3, h4]

theorem tryCatchI_ret_inv {α : Type} (logger : Bool) (body rest : I α) (s s2 : Env) (a : α)
    (h : tryCatchI logger body rest s = (.ret a, s2)) :
    body s = (.ret a, s2) ∨
      ∃ msg s1, body s = (.throw msg, s1) ∧
        rest (s1.writeToLog logger LOG_ERR msg) = (.ret a, s2) := by
  unfold tryCatchI at h
  rcases hb : body s with ⟨r, s1⟩
  rw [hb] at h
  cases r with
  | ret a1 => exact Or.inl h
  | throw m => exact Or.inr ⟨m, s1, rfl, h⟩
  | abort => simp at h

@[simp] theorem writeToLog_schemas (logger : Bool) (t : Nat) (msg : String) (s : Env) :
    (s.writeToLog logger t msg).schemas = s.schemas := (EnvKept.EnvKept_log logger t msg s).2.1

@[simp] theorem writeToLog_listsTables (logger : Bool) (t : Nat) (msg : String) (s : Env) :
    (s.writeToLog logger t msg).listsTables = s.listsTables :=
  (EnvKept.EnvKept_log logger t msg s).2.2.1

theorem LookupTable_true_inv (logger : Bool) (f : Faults) (table : String) (found b : Bool)
    (s s2 : Env) (h : LookupTable logger f table found s = (.ret (true, b), s2)) :
    s.listsTables = true := by
  unfold LookupTable at h
  rcases tryCatchI_ret_inv _ _ _ _ _ _ h with hb | ⟨msg, s1, _, hr⟩
  swap
  · simp [pureI_apply] at hr
  rw [bindI_ret_iff] at hb
  obtain ⟨res, s1, hc, hm⟩ := hb
  rw [callI_ret_iff] at hc
  obtain ⟨_, _, hres, _⟩ := hc
  simp only [] at hres
  cases hl : s.listsTables with
  | true => rfl
  | false =>
    rw [hl] at hres
    simp only [Bool.false_eq_true, if_false] at hres
    subst hres
    simp at hm

theorem initTable_true_inv (logger : Bool) (f : Faults) (table sql : String) (s s2 : Env)
    (h : initTable logger f table sql s = (.ret true, s2)) : s.listsTables = true := by
  unfold initTable at h
  rcases tryCatchI_ret_inv _ _ _ _ _ _ h with hb | ⟨msg, s1, _, hr⟩
  swap
  · simp [pureI_apply] at hr
  rw [bindI_ret_iff] at hb
  obtain ⟨r, s1, hl, hk⟩ := hb
  rcases r with ⟨r1, r2⟩
  cases r1 with
  | true => exact LookupTable_true_inv logger f table false r2 s s1 hl
  | false => simp [throwI] at hk

theorem InitDatabase_true_inv (logger : Bool) (f : Faults) (database : String) (s s2 : Env)
    (h : InitDatabase logger f database s = (.ret true, s2)) :
    (∃ names, s.schemas = some names ∧ database ∈ names) ∧ s.listsTables = true := by
  unfold InitDatabase at h
  rcases tryCatchI_ret_inv _ _ _ _ _ _ h with hb | ⟨msg, s1, _, hr⟩
  swap
  · simp [pureI_apply] at hr
  rw [bindI_ret_iff] at hb
  obtain ⟨major, s1, hc1, hb⟩ := hb
  rw [callI_ret_iff] at hc1
  obtain ⟨_, _, _, hs1⟩ := hc1
  rw [bindI_ret_iff] at hb
  obtain ⟨_, s1b, hlog1, hb⟩ := hb
  have hs1b : s1b = s1.writeToLog logger LOG_INFO
      ("MySqlStream: CDBC (API) major version = " ++ toString major) := by
    simp only [logI, Prod.mk.injEq, Outcome.ret.injEq, true_and] at hlog1
    exact hlog1.symm
  by_cases hmaj : major ≤ 0
  · simp [hmaj, throwI] at hb
  simp only [hmaj, if_false] at hb
  rw [bindI_ret_iff] at hb
  obtain ⟨minor, s1c, hmin, hb⟩ := hb
  have hs1c : s1c = s1b := by
    simp only [Prod.mk.injEq, Outcome.ret.injEq] at hmin
    exact hmin.2.symm
  rw [bindI_ret_iff] at hb
  obtain ⟨_, s1d, hlog2, hb⟩ := hb
  have hs1d : s1d = s1c.writeToLog logger LOG_INFO
      ("MySqlStream: CDBC (API) minor version = " ++ toString minor) := by
    simp only [logI, Prod.mk.injEq, Outcome.ret.injEq, true_and] at hlog2
    exact hlog2.symm
  rw [bindI_ret_iff] at hb
  obtain ⟨res, s2a, hc2, hb⟩ := hb
  rw [callI_ret_iff] at hc2
  obtain ⟨_, _, hres, hs2a⟩ := hc2
  have hsch : res = s.schemas := by
    rw [hres, hs1d, hs1c, hs1b, hs1]
    simp
  have hlt : s2a.listsTables = s.listsTables := by
    rw [hs2a, hs1d, hs1c, hs1b, hs1]
    simp
  cases res with
  | none => simp [throwI] at hb
  | some names =>
    simp only [] at hb
    by_cases hany : (names.any fun n => n == database) = true
    swap
    · simp [hany, throwI] at hb
    simp only [hany, Bool.not_true, Bool.false_eq_true, if_false] at hb
    refine ⟨⟨names, hsch.symm, ?_⟩, ?_⟩
    · obtain ⟨n, hn, he⟩ := List.any_eq_true.mp hany
      have : n = database := by simpa using he
      rw [← this]
      exact hn
    · rw [bindI_ret_iff] at hb
      obtain ⟨_, s3, hc3, hb⟩ := hb
      rw [callI_ret_iff] at hc3
      obtain ⟨_, _, _, hs3⟩ := hc3
      rw [bindI_ret_iff] at hb
      obtain ⟨a, s4, hi, hb⟩ := hb
      cases a with
      | false => simp [throwI] at hb
      | true =>
        have := initTable_true_inv logger f STREAM_TABLE streamTableSql s3 s4 hi
        rw [hs3] at this
        simp only [] at this
        rw [hlt] at this
        exact this

/-- The four ways the constructor ends: the connection failed; everything
succeeded; `InitDatabase` failed and `close()` threw (`mCon` stays set);
`InitDatabase` failed and the connection was closed and reset. -/
theorem construct_spec (f : Faults) (host user passwd database : String)
    (reader : Option Reader) (logger : Bool) (s : Env) :
    ∃ obj s2 newops, MySqlStream.construct f host user passwd database reader logger s =
        (.ret obj, s2) ∧ s2.objects = s.objects ∧ s2.ops = s.ops ++ newops ∧
      ((obj.mCon = false ∧ (f s.ops.length = true ∨ s.accepts host user passwd = false)) ∨
       (obj.mCon = true ∧ f s.ops.length = false ∧ s.accepts host user passwd = true ∧
          (∀ p ∈ newops, p.2 = false) ∧
          (∃ names, s.schemas = some names ∧ database ∈ names) ∧ s.listsTables = true) ∨
       (obj.mCon = true ∧ f s.ops.length = false ∧ s.accepts host user passwd = true ∧
          (InitOp.connect host user passwd, false) ∈ newops ∧ (InitOp.close, true) ∈ newops) ∨
       (obj.mCon = false ∧ f s.ops.length = false ∧ s.accepts host user passwd = true ∧
          (InitOp.close, true) ∉ newops)) := by
  unfold MySqlStream.construct
  simp only []
  by_cases hthrew : (f s.ops.length || !s.accepts host user passwd) = true
  · have hc : callI f (.connect host user passwd) (fun s => s.accepts host user passwd)
        (fun s => ((), s)) s = (.throw "SQLException",
          { s with ops := s.ops ++ [(.connect host user passwd, true)] }) := by
      unfold callI
      simp only [hthrew, if_true]
    rw [hc]
    refine ⟨_, _, [(.connect host user passwd, true)], rfl, ?_, ?_, Or.inl ⟨rfl, ?_⟩⟩
    · rw [writeToLog_objects]
    · rw [writeToLog_ops]
    · cases h1 : f s.ops.length <;> cases h2 : s.accepts host user passwd <;> simp_all
  · have hf : (f s.ops.length || !s.accepts host user passwd) = false := by simpa using hthrew
    have hf2 : f s.ops.length = false ∧ s.accepts host user passwd = true := by
      cases h1 : f s.ops.length <;> cases h2 : s.accepts host user passwd <;> simp_all
    have hc : callI f (.connect host user passwd) (fun s => s.accepts host user passwd)
        (fun s => ((), s)) s = (.ret (),
          { s with ops := s.ops ++ [(.connect host user passwd, false)] }) := by
      unfold callI
      simp only [hf, Bool.false_eq_true, if_false]
    rw [hc]
    simp only []
    obtain ⟨⟨b, hb⟩, hk, hok⟩ := TriesI.TriesI_InitDatabase logger f database
      { s with ops := s.ops ++ [(.connect host user passwd, false)] }
    rcases hI : InitDatabase logger f database
      { s with ops := s.ops ++ [(.connect host user passwd, false)] } with ⟨r, s2⟩
    rw [hI] at hb hk hok
    simp only [] at hb
    subst hb
    obtain ⟨_, _, _, _, hobj, ops2, hops2, hnc⟩ := hk
    have hops : s2.ops = s.ops ++ ((.connect host user passwd, false) :: ops2) := by
      rw [hops2]
      simp
    cases b with
    | true =>
      simp only []
      obtain ⟨hF1, hF2⟩ := InitDatabase_true_inv logger f database _ s2 hI
      refine ⟨_, s2, (.connect host user passwd, false) :: ops2, rfl, hobj, hops,
        Or.inr (Or.inl ⟨rfl, hf2.1, hf2.2, ?_, hF1, hF2⟩)⟩
      intro p hp
      rcases List.mem_cons.mp hp with rfl | hp2
      · rfl
      · have := hok true rfl rfl
        rw [hops2, List.drop_left] at this
        exact this p hp2
    | false =>
      simp only []
      by_cases hcl : f s2.ops.length = true
      · have hc2 : callI f .close (fun _ => true) (fun s => ((), s)) s2 =
            (.throw "SQLException", { s2 with ops := s2.ops ++ [(.close, true)] }) := by
          unfold callI
          simp [hcl]
        rw [hc2]
        refine ⟨_, _, (.connect host user passwd, false) :: ops2 ++ [(.close, true)], rfl, ?_, ?_,
          Or.inr (Or.inr (Or.inl ⟨rfl, hf2.1, hf2.2, ?_, ?_⟩))⟩
        · rw [writeToLog_objects]
          exact hobj
        · rw [writeToLog_ops]
          show s2.ops ++ [(InitOp.close, true)] = _
          rw [hops]
          simp
        · simp
        · simp
      · have hcl2 : f s2.ops.length = false := by simpa using hcl
        have hc2 : callI f .close (fun _ => true) (fun s => ((), s)) s2 =
            (.ret (), { s2 with ops := s2.ops ++ [(.close, false)] }) := by
          unfold callI
          simp [hcl2]
        rw [hc2]
        refine ⟨_, _, (.connect host user passwd, false) :: ops2 ++ [(.close, false)], rfl, hobj,
          ?_, Or.inr (Or.inr (Or.inr ⟨rfl, hf2.1, hf2.2, ?_⟩))⟩
        · show s2.ops ++ [(InitOp.close, false)] = _
          rw [hops]
          simp
        · intro hm
          rcases List.mem_append.mp hm with h | h
          · rcases List.mem_cons.mp h with h | h
            · cases h
            · exact hnc _ h rfl
          · rw [List.mem_singleton] at h
            cases h

/-- The outcomes of `CreateDBStream`: it always returns, and what it returns is NULL or an
engine for which `IsValid()` is true. When it returns NULL the engine object it
had allocated is deleted again; when it returns an engine exactly that one
object stays allocated. It returns NULL whenever the connection attempt fails.
It returns an engine only when the connection succeeded and either every call
succeeded, with the database among the schemas and both table checks
answered, or the `close()` after a failed `InitDatabase` threw; so, `close()`
not throwing, it returns NULL whenever the database is not among the schemas,
a table check returns no result set, or any call of the construction (the
table checks and creations among them) throws. -/
theorem CreateDBStream_outcomes (f : Faults) (host user passwd database : String)
    (reader : Option Reader) (logger : Bool) (s : Env) :
    ∃ o s2, CreateDBStream f host user passwd database reader logger s = (.ret o, s2) ∧
      (∀ obj, o = some obj → obj.IsValid = true ∧ s2.objects = s.objects + 1) ∧
      (o = none → s2.objects = s.objects) ∧
      ((f s.ops.length = true ∨ s.accepts host user passwd = false) → o = none) ∧
      (∀ obj, o = some obj →
        ((InitOp.connect host user passwd, false) ∈ s2.ops.drop s.ops.length ∧
          (InitOp.close, true) ∈ s2.ops.drop s.ops.length) ∨
        ((∀ p ∈ s2.ops.drop s.ops.length, p.2 = false) ∧ s.accepts host user passwd = true ∧
          (∃ names, s.schemas = some names ∧ database ∈ names) ∧ s.listsTables = true)) ∧
      ((InitOp.close, true) ∉ s2.ops.drop s.ops.length →
        ((∀ names, s.schemas = some names → database ∉ names) ∨ s.listsTables = false ∨
          ∃ p ∈ s2.ops.drop s.ops.length, p.2 = true) → o = none) := by
  obtain ⟨obj, s2, newops, hc, hobj, hops, hcases⟩ :=
    construct_spec f host user passwd database reader logger { s with objects := s.objects + 1 }
  have hcreate : MySqlStream.Create f host user passwd database reader logger s =
      (.ret obj, s2) := hc
  have hops2 : s2.ops = s.ops ++ newops := hops
  have hobj2 : s2.objects = s.objects + 1 := hobj
  have hdrop : s2.ops.drop s.ops.length = newops := by rw [hops2, List.drop_left]
  unfold CreateDBStream
  rw [bindI_apply, hcreate]
  simp only []
  cases hm : obj.mCon with
  | false =>
    have hv : obj.IsValid = false := hm
    refine ⟨none, { s2 with objects := s2.objects - 1 }, ?_, (fun _ h => by cases h), ?_,
      (fun _ => rfl), (fun _ h => by cases h), (fun _ _ => rfl)⟩
    · simp only [hv, Bool.not_false, if_true]
      rfl
    · intro _
      show s2.objects - 1 = s.objects
      rw [hobj2]
      rfl
  | true =>
    have hv : obj.IsValid = true := hm
    refine ⟨some obj, s2, ?_, ?_, (fun h => by cases h), ?_, ?_, ?_⟩
    · simp only [hv, Bool.not_true, Bool.false_eq_true, if_false]
      rfl
    · intro o2 h2
      cases h2
      exact ⟨hv, hobj2⟩
    · intro hfail
      rcases hcases with ⟨h1, _⟩ | ⟨_, h2, h3, _⟩ | ⟨_, h2, h3, _⟩ | ⟨h1, _⟩
      · rw [hm] at h1; cases h1
      · rcases hfail with h | h
        · rw [h2] at h; cases h
        · rw [h3] at h; cases h
      · rcases hfail with h | h
        · rw [h2] at h; cases h
        · rw [h3] at h; cases h
      · rw [hm] at h1; cases h1
    · intro o2 _
      rw [hdrop]
      rcases hcases with ⟨h1, _⟩ | ⟨_, _, h3, h4, h5, h6⟩ | ⟨_, _, _, h4, h5⟩ | ⟨h1, _⟩
      · rw [hm] at h1; cases h1
      · exact Or.inr ⟨h4, h3, h5, h6⟩
      · exact Or.inl ⟨h4, h5⟩
      · rw [hm] at h1; cases h1
    · intro hnc hfail
      rw [hdrop] at hnc hfail
      rcases hcases with ⟨h1, _⟩ | ⟨_, _, _, h4, ⟨names, hn1, hn2⟩, h6⟩ | ⟨_, _, _, _, h5⟩ |
        ⟨h1, _⟩
      · rw [hm] at h1; cases h1
      · rcases hfail with h | h | ⟨p, hp, hp2⟩
        · exact absurd hn2 (h names hn1)
        · rw [h6] at h; cases h
        · rw [h4 p hp] at hp2; cases hp2
      · exact absurd h5 hnc
      · rw [hm] at h1; cases h1

theorem CreateDBStream_outcomes_example :
    (CreateDBStream noFault "host" "user" "passwd" "nodb" none true exServer).1 = .ret none ∧
    (CreateDBStream noFault "host" "user" "passwd" "nodb" none true exServer).2.objects = 0 := by
  obtain ⟨o, s2, heq, _, hnone, _, _, hfail⟩ :=
    CreateDBStream_outcomes noFault "host" "user" "passwd" "nodb" none true exServer
  have hs2 : s2 = (CreateDBStream noFault "host" "user" "passwd" "nodb" none true exServer).2 := by
    rw [heq]
  have ho : o = none := by
    refine hfail ?_ (Or.inl ?_)
    · rw [hs2]
      decide
    · intro names hn
      have : names = ["test"] := by
        have h2 : exServer.schemas = some ["test"] := rfl
        rw [h2] at hn
        exact (Option.some.inj hn).symm
      rw [this]
      decide
  subst ho
  rw [heq]
  exact ⟨rfl, hnone rfl⟩

/-- On a server with the schema `test` and no failure `CreateDBStream` returns an
engine and leaves both tables created. -/
theorem exServer_create :
    ((CreateDBStream noFault "host" "user" "passwd" "test" none true exServer).1 matches
      .ret (some _)) ∧
    (CreateDBStream noFault "host" "user" "passwd" "test" none true exServer).2.tables.map
      (fun t => (t.1, t.2.1)) = [("test", "stream"), ("test", "streamdata")] := by
  constructor
  · rfl
  · decide

theorem Get_ret_type (e : Engine) (f : Faults) (h : StreamHeader) (order : Option String)
    (w w2 : World) (b : Bool) (o : Option StreamHeader)
    (hg : Get e f (some h) order w = (.ret (b, o), w2)) :
    ∃ h2, o = some h2 ∧ h2.type = h.type := by
  unfold Get at hg
  rcases tryCatch_ret_inv _ _ _ _ _ _ hg with hb | ⟨msg, w1, _, hr⟩
  swap
  · simp only [pure_apply, Prod.mk.injEq, Outcome.ret.injEq] at hr
    exact ⟨h, hr.1.2.symm, rfl⟩
  cases order with
  | none => simp [THROW] at hb
  | some ord =>
    simp only [bind_ret_iff] at hb
    obtain ⟨_, wA, _, hW⟩ := hb
    rw [withDtor_ret_iff] at hW
    obtain ⟨wD, _, hD, _⟩ := hW
    rw [bind_ret_iff] at hD
    obtain ⟨res, wE, _, hR⟩ := hD
    cases res with
    | nil =>
      simp only [pure_apply, Prod.mk.injEq, Outcome.ret.injEq] at hR
      exact ⟨_, hR.1.2.symm, rfl⟩
    | cons row rest =>
      simp only [pure_apply, Prod.mk.injEq, Outcome.ret.injEq] at hR
      exact ⟨_, hR.1.2.symm, rfl⟩

/-- C29: whenever `GetFirst` or `GetLast` returns (true or false, for every
store and pattern of backend failures), the caller's header afterwards has the
`type` it had before. On a store whose only row has type 1, `GetFirst` and
`GetLast` with a header of type 9 return true and leave type 9, with the id,
description, size and timestamp of that row. -/
theorem C29_get_keeps_type (e : Engine) (f : Faults) (h : StreamHeader) (w : World) :
    (∀ b o w2, GetFirst e f (some h) w = (.ret (b, o), w2) →
      ∃ h2, o = some h2 ∧ h2.type = h.type) ∧
    (∀ b o w2, GetLast e f (some h) w = (.ret (b, o), w2) →
      ∃ h2, o = some h2 ∧ h2.type = h.type) ∧
    (GetFirst exEngine noFault (some { exHdr with type := 9 }) exWritten).1 =
      .ret (true, some { id := 1, descr := some "a", type := 9, timestamp := 5, size := 3 }) ∧
    (GetLast exEngine noFault (some { exHdr with type := 9 }) exWritten).1 =
      .ret (true, some { id := 1, descr := some "a", type := 9, timestamp := 5, size := 3 }) :=
  ⟨fun b o w2 hg => Get_ret_type e f h _ w w2 b o hg,
    fun b o w2 hg => Get_ret_type e f h _ w w2 b o hg, by decide, by decide⟩

theorem Inv.Inv_writeLoop {R : World → World → Prop} (hR : Stable R) (f : Faults)
    (master_id : Nat) (hdata : ∀ d, Inv R (execInsertData f master_id d)) :
    ∀ (fuel : Nat) (s : IStream) (size_total : Nat),
      Inv R (writeLoop f master_id fuel s size_total)
  | 0, _, _ => Inv.Inv_pure hR _
  | fuel + 1, s, size_total => by
    rw [writeLoop]
    split
    · simp only []
      split
      · exact Inv.Inv_bind hR (hdata _) fun _ => Inv.Inv_writeLoop hR f master_id hdata fuel _ _
      · exact Inv.Inv_writeLoop hR f master_id hdata fuel _ _
    · exact Inv.Inv_pure hR _

theorem Inv.Inv_WriteBody {R : World → World → Prop} (hR : Stable R) (f : Faults)
    (hsac : Inv R (setAutoCommit f false))
    (hins : ∀ d t ts, Inv R (execInsertStream f d t ts))
    (hlast : Inv R (queryLastInsertId f)) (hprep : Inv R (prepareInsertData f))
    (hdata : ∀ m d, Inv R (execInsertData f m d))
    (hupd : ∀ n m, Inv R (execUpdateSize f n m)) (hcommit : Inv R (commit f))
    (hdr : Option StreamHeader) (src : IStream) : Inv R (WriteBody f hdr src) := by
  unfold WriteBody
  cases hdr with
  | none => exact Inv.Inv_THROW hR _
  | some h =>
    simp only []
    refine Inv.Inv_bind hR hsac fun _ => ?_
    refine Inv.Inv_bind hR (hins _ _ _) fun _ => ?_
    refine Inv.Inv_bind hR hlast fun m => ?_
    refine Inv.Inv_bind hR hprep fun _ => ?_
    refine Inv.Inv_bind hR (Inv.Inv_writeLoop hR f m (hdata m) _ _ _) fun n => ?_
    refine Inv.Inv_bind hR (hupd _ _) fun _ => ?_
    exact Inv.Inv_bind hR hcommit fun _ => Inv.Inv_pure hR _

theorem Inv.Inv_Write {R : World → World → Prop} (hR : Stable R) (e : Engine) (f : Faults)
    (hsac : Inv R (setAutoCommit f false))
    (hins : ∀ d t ts, Inv R (execInsertStream f d t ts))
    (hlast : Inv R (queryLastInsertId f)) (hprep : Inv R (prepareInsertData f))
    (hdata : ∀ m d, Inv R (execInsertData f m d))
    (hupd : ∀ n m, Inv R (execUpdateSize f n m)) (hcommit : Inv R (commit f))
    (hroll : Inv R (rollback f))
    (hdr : Option StreamHeader) (src : IStream) : Inv R (Write e f hdr src) := by
  intro w
  unfold Write
  have hb := Inv.Inv_WriteBody hR f hsac hins hlast hprep hdata hupd hcommit hdr src w
  rcases hwb : WriteBody f hdr src w with ⟨r, w1⟩
  rw [hwb] at hb
  cases r with
  | ret a => exact hb
  | abort => exact hb
  | throw msg =>
    simp only []
    have h2 : Inv R (do rollback f; pure (false, hdr) : M WriteResult) :=
      Inv.Inv_bind hR hroll fun _ => Inv.Inv_pure hR _
    exact hR.trans _ _ _ hb (hR.trans _ _ _ (hR.log e LOG_ERR msg w1) (h2 _))

theorem Inv.Inv_WriteBuf {R : World → World → Prop} (hR : Stable R) (e : Engine) (f : Faults)
    (hsac : Inv R (setAutoCommit f false))
    (hins : ∀ d t ts, Inv R (execInsertStream f d t ts))
    (hlast : Inv R (queryLastInsertId f)) (hprep : Inv R (prepareInsertData f))
    (hdata : ∀ m d, Inv R (execInsertData f m d))
    (hupd : ∀ n m, Inv R (execUpdateSize f n m)) (hcommit : Inv R (commit f))
    (hroll : Inv R (rollback f))
    (hdr : Option StreamHeader) (data : Option (List Byte)) : Inv R (WriteBuf e f hdr data) := by
  unfold WriteBuf
  cases hdr with
  | none => exact Inv.Inv_THROW hR _
  | some h =>
    cases data with
    | none => exact Inv.Inv_THROW hR _
    | some d => exact Inv.Inv_Write hR e f hsac hins hlast hprep hdata hupd hcommit hroll _ _

/-- `Delete` without the counter reset, from its statements. -/
theorem Inv.Inv_Delete_plain {R : World → World → Prop} (hR : Stable R) (e : Engine)
    (f : Faults) (hsac : Inv R (setAutoCommit f true)) (hlw : Inv R (lockWrite f))
    (hul : Inv R (unlock f)) (hdel : ∀ cs, Inv R (execDelete f cs))
    (column : Option String) (first : Nat) (inclusive_first : Bool) (last : Nat)
    (inclusive_last : Bool) :
    Inv R (Delete e f column first inclusive_first last inclusive_last false) := by
  unfold Delete
  refine Inv.Inv_tryCatch hR e ?_ (Inv.Inv_pure hR _)
  cases column with
  | none => exact Inv.Inv_THROW hR _
  | some col =>
    simp only []
    refine Inv.Inv_bind hR hsac fun _ => ?_
    refine Inv.Inv_bind hR hlw fun _ => ?_
    refine Inv.Inv_withDtor hR hul ?_
    refine Inv.Inv_bind hR (hdel _) fun _ => ?_
    simp only [Bool.false_and, Bool.false_eq_true, if_false]
    exact Inv.Inv_pure hR _

/-- A backend call whose statement satisfies `p` sends only statements
satisfying `p`. -/
theorem Issues.Issues_backend {p : Stmt → Prop} {α : Type} (f : Faults) {s : Stmt}
    {run : World → α × World} (hp : p s) (hrun : ∀ w, (run w).2.log = w.log) :
    Inv (Issues p) (backend f s run) :=
  Inv.Inv_backend (Stable.Stable_issues p) f (Issues.Issues_stmtOk hp hrun)

theorem Issues.Issues_Write (p : Stmt → Prop)
    (hp : ∀ s, NotLock s → p s) (e : Engine) (f : Faults) (hdr : Option StreamHeader)
    (src : IStream) : Inv (Issues p) (Write e f hdr src) := by
  refine Inv.Inv_Write (Stable.Stable_issues p) e f ?_ ?_ ?_ ?_ ?_ ?_ ?_ ?_ hdr src
  · exact Issues.Issues_backend f (hp _ trivial) fun w => settle_log _
  · intro d t ts
    exact Issues.Issues_backend f (hp _ trivial) fun w => settle_log _
  · exact Issues.Issues_backend f (hp _ trivial) fun w => rfl
  · exact Issues.Issues_backend f (hp _ trivial) fun w => rfl
  · intro m d
    exact Issues.Issues_backend f (hp _ trivial) fun w => settle_log _
  · intro n m
    exact Issues.Issues_backend f (hp _ trivial) fun w => settle_log _
  · exact Issues.Issues_backend f (hp _ trivial) fun w => rfl
  · exact Issues.Issues_backend f (hp _ trivial) fun w => rfl

theorem Issues.Issues_WriteBuf (p : Stmt → Prop)
    (hp : ∀ s, NotLock s → p s) (e : Engine) (f : Faults) (hdr : Option StreamHeader)
    (data : Option (List Byte)) : Inv (Issues p) (WriteBuf e f hdr data) := by
  refine Inv.Inv_WriteBuf (Stable.Stable_issues p) e f ?_ ?_ ?_ ?_ ?_ ?_ ?_ ?_ hdr data
  · exact Issues.Issues_backend f (hp _ trivial) fun w => settle_log _
  · intro d t ts
    exact Issues.Issues_backend f (hp _ trivial) fun w => settle_log _
  · exact Issues.Issues_backend f (hp _ trivial) fun w => rfl
  · exact Issues.Issues_backend f (hp _ trivial) fun w => rfl
  · intro m d
    exact Issues.Issues_backend f (hp _ trivial) fun w => settle_log _
  · intro n m
    exact Issues.Issues_backend f (hp _ trivial) fun w => settle_log _
  · exact Issues.Issues_backend f (hp _ trivial) fun w => rfl
  · exact Issues.Issues_backend f (hp _ trivial) fun w => rfl

theorem tryCatch_pure_log {α : Type} (e : Engine) (body : M α) (x : α) (w : World) :
    (tryCatch e body (pure x) w).2.log = (body w).2.log := by
  unfold tryCatch
  rcases body w with ⟨r, w1⟩
  cases r with
  | ret a => rfl
  | abort => rfl
  | throw msg => exact (WriteToLog_frame e LOG_ERR msg w1).2.2.1

theorem backend_bind_log {α β : Type} (f : Faults) (s : Stmt) (run : World → α × World)
    (k : α → M β) (w : World) :
    ((backend f s run >>= k) w).2.log =
      if f w.log.length = true then w.log ++ [s]
      else (k (run { w with log := w.log ++ [s] }).1 (run { w with log := w.log ++ [s] }).2).2.log := by
  rw [bind_apply]
  unfold backend
  by_cases h : f w.log.length = true
  · simp only [h, if_true]
  · have h2 : f w.log.length = false := by simpa using h
    simp only [h2, Bool.false_eq_true, if_false]

theorem issued_of_log {α : Type} (m : M α) (w : World) (lg : List Stmt)
    (h : (m w).2.log = w.log ++ lg) : issued m w = lg := by
  unfold issued
  rw [h, List.drop_left]

theorem mem_issued {p : Stmt → Prop} {α : Type} {m : M α} (h : Inv (Issues p) m) (w : World) :
    ∀ s ∈ issued m w, p s := (h w).Issues_drop

theorem queryExists_log (f : Faults) (col : String) (val : Nat) (w : World) :
    (queryExists f col val w).2.log = w.log ++ [.selectExists col val] ∧
      (queryExists f col val w).1 ≠ .abort := by
  unfold queryExists
  cases colKey col with
  | none => simp [backend]
  | some key =>
    simp only []
    unfold backend
    split <;> simp

theorem queryBoundary_log (f : Faults) (ord : String) (w : World) :
    (queryBoundary f ord w).2.log = w.log ++ [.selectBoundary ord] ∧
      (queryBoundary f ord w).1 ≠ .abort := by
  unfold queryBoundary
  split
  · unfold backend
    split <;> simp
  · split
    · unfold backend
      split <;> simp
    · simp [backend]

/-- The statements of `Lookup`: none for a NULL argument, the READ lock alone
when its acquisition fails, else lock, probe, unlock. -/
theorem Lookup_issued (e : Engine) (f : Faults) (column : Option String) (val : Nat)
    (found : Option Bool) (w : World) :
    issued (Lookup e f column val found) w = [] ∨
    (issued (Lookup e f column val found) w = [.lockRead] ∧ f w.log.length = true) ∨
    ∃ col, issued (Lookup e f column val found) w =
      [.lockRead, .selectExists col val, .unlock] ∧ f w.log.length = false := by
  unfold Lookup
  cases column with
  | none =>
    left
    apply issued_of_log
    rw [tryCatch_pure_log]
    simp [THROW]
  | some col =>
    cases found with
    | none =>
      left
      apply issued_of_log
      rw [tryCatch_pure_log]
      simp [THROW]
    | some b =>
      right
      simp only []
      by_cases h : f w.log.length = true
      · left
        refine ⟨?_, h⟩
        apply issued_of_log
        rw [tryCatch_pure_log]
        unfold lockRead
        rw [backend_bind_log, if_pos h]
      · right
        refine ⟨col, ?_, by simpa using h⟩
        apply issued_of_log
        rw [tryCatch_pure_log]
        unfold lockRead
        rw [backend_bind_log, if_neg h]
        simp only []
        obtain ⟨hq, hqa⟩ := queryExists_log f col val
          { w with log := w.log ++ [.lockRead], committed := w.tables }
        rw [withDtor_unlock_log]
        · rw [bind_apply]
          rcases hr : queryExists f col val
            { w with log := w.log ++ [.lockRead], committed := w.tables } with ⟨r, w1⟩
          rw [hr] at hq
          cases r with
          | ret a => simp only [pure_apply]; rw [hq]; simp
          | throw m => simp only []; rw [hq]; simp
          | abort => simp only []; rw [hq]; simp
        · rw [bind_apply]
          rcases hr : queryExists f col val
            { w with log := w.log ++ [.lockRead], committed := w.tables } with ⟨r, w1⟩
          rw [hr] at hqa
          cases r with
          | ret a => exact fun h => by cases h
          | throw m => exact fun h => by cases h
          | abort => exact absurd rfl hqa

/-- The statements of `Get`: none for a NULL argument, the READ lock alone when
its acquisition fails, else lock, query, unlock. -/
theorem Get_issued (e : Engine) (f : Faults) (hdr : Option StreamHeader)
    (order : Option String) (w : World) :
    issued (Get e f hdr order) w = [] ∨
    (issued (Get e f hdr order) w = [.lockRead] ∧ f w.log.length = true) ∨
    ∃ ord, issued (Get e f hdr order) w = [.lockRead, .selectBoundary ord, .unlock] ∧
      f w.log.length = false := by
  unfold Get
  cases hdr with
  | none =>
    left
    apply issued_of_log
    rw [tryCatch_pure_log]
    simp [THROW]
  | some h0 =>
    cases order with
    | none =>
      left
      apply issued_of_log
      rw [tryCatch_pure_log]
      simp [THROW]
    | some ord =>
      right
      simp only []
      by_cases h : f w.log.length = true
      · left
        refine ⟨?_, h⟩
        apply issued_of_log
        rw [tryCatch_pure_log]
        unfold lockRead
        rw [backend_bind_log, if_pos h]
      · right
        refine ⟨ord, ?_, by simpa using h⟩
        apply issued_of_log
        rw [tryCatch_pure_log]
        unfold lockRead
        rw [backend_bind_log, if_neg h]
        simp only []
        obtain ⟨hq, hqa⟩ := queryBoundary_log f ord
          { w with log := w.log ++ [.lockRead], committed := w.tables }
        rw [withDtor_unlock_log]
        · rw [bind_apply]
          rcases hr : queryBoundary f ord
            { w with log := w.log ++ [.lockRead], committed := w.tables } with ⟨r, w1⟩
          rw [hr] at hq
          cases r with
          | ret a =>
            simp only []
            cases a <;> (simp only [pure_apply]; rw [hq]; simp)
          | throw m => simp only []; rw [hq]; simp
          | abort => simp only []; rw [hq]; simp
        · rw [bind_apply]
          rcases hr : queryBoundary f ord
            { w with log := w.log ++ [.lockRead], committed := w.tables } with ⟨r, w1⟩
          rw [hr] at hqa
          cases r with
          | ret a =>
            simp only []
            cases a <;> exact fun h => by cases h
          | throw m => exact fun h => by cases h
          | abort => exact absurd rfl hqa

theorem LockPairs.LockPairs_head {lg : List Stmt} (h : LockPairs lg) :
    lg = [] ∨ ∃ t, lg = .lockRead :: t := by
  cases h with
  | nil => exact Or.inl rfl
  | batch col lo up lim qs rest _ _ => exact Or.inr ⟨_, rfl⟩

/-- The statements of `Read` begin with the READ lock. -/
theorem Read_issued_head (e : Engine) (f : Faults) (fuel : Nat) (column : Option String)
    (first : Nat) (inclusive_first : Bool) (last : Nat) (inclusive_last : Bool) (w : World) :
    issued (Read e f fuel column first inclusive_first last inclusive_last) w = [] ∨
    ∃ t, issued (Read e f fuel column first inclusive_first last inclusive_last) w =
      .lockRead :: t := by
  unfold Read
  cases hr : e.mReader with
  | none =>
    left
    apply issued_of_log
    rw [tryCatch_pure_log]
    simp [THROW]
  | some rd =>
    cases column with
    | none =>
      left
      apply issued_of_log
      rw [tryCatch_pure_log]
      simp [THROW]
    | some col =>
      simp only []
      obtain ⟨lg, hl, hp⟩ := readLoop_log e f rd col STREAMS_PER_QUERY last inclusive_last fuel
        first inclusive_first w
      have hi : issued (tryCatch e (readLoop e f rd col STREAMS_PER_QUERY last inclusive_last fuel
          first inclusive_first) (pure (some false))) w = lg := by
        apply issued_of_log
        rw [tryCatch_pure_log]
        exact hl
      rw [hi]
      rcases hp with hp | ⟨lg0, h0, hp0, _⟩
      · exact hp.LockPairs_head
      · rcases hp0.LockPairs_head with h | ⟨t, ht⟩
        · right
          exact ⟨[], by rw [h0, h]; rfl⟩
        · right
          exact ⟨t ++ [.lockRead], by rw [h0, ht]; rfl⟩

theorem backend_bind_shape {α β : Type} (f : Faults) (s : Stmt) (run : World → α × World)
    (k : α → M β) (P : List Stmt → Prop) (hrun : ∀ w, (run w).2.log = w.log)
    (hk : ∀ a w1, ∃ t, (k a w1).2.log = w1.log ++ t ∧ P t) (w : World) :
    (((backend f s run >>= k) w).2.log = w.log ++ [s] ∧ f w.log.length = true) ∨
    ∃ t, ((backend f s run >>= k) w).2.log = w.log ++ s :: t ∧ P t ∧ f w.log.length = false := by
  rw [backend_bind_log]
  by_cases h : f w.log.length = true
  · left
    rw [if_pos h]
    exact ⟨rfl, h⟩
  · right
    rw [if_neg h]
    obtain ⟨t, ht, hp⟩ := hk (run { w with log := w.log ++ [s] }).1
      (run { w with log := w.log ++ [s] }).2
    refine ⟨t, ?_, hp, by simpa using h⟩
    rw [ht, hrun]
    simp

/-- The statements of `Delete`: none for a NULL column; else autocommit first,
and everything after it follows the WRITE lock. -/
theorem Delete_issued_head (e : Engine) (f : Faults) (column : Option String) (first : Nat)
    (inclusive_first : Bool) (last : Nat) (inclusive_last : Bool) (reset_id : Bool) (w : World) :
    (column = none ∧
      issued (Delete e f column first inclusive_first last inclusive_last reset_id) w = []) ∨
    issued (Delete e f column first inclusive_first last inclusive_last reset_id) w =
      [.setAutoCommit true] ∨
    ∃ t, issued (Delete e f column first inclusive_first last inclusive_last reset_id) w =
      .setAutoCommit true :: .lockWrite :: t := by
  unfold Delete
  cases column with
  | none =>
    left
    refine ⟨rfl, ?_⟩
    apply issued_of_log
    rw [tryCatch_pure_log]
    simp [THROW]
  | some col =>
    right
    simp only []
    have hR := Stable.Stable_issues fun _ : Stmt => True
    have halter : ∀ t, Inv (Issues fun _ : Stmt => True) (execAlterAutoIncrement f t 1) := by
      intro t
      unfold execAlterAutoIncrement
      split
      · exact Issues.Issues_backend f trivial fun w => rfl
      · split
        · exact Issues.Issues_backend f trivial fun w => rfl
        · exact Issues.Issues_backend _ trivial fun w => rfl
    have hdel : Inv (Issues fun _ : Stmt => True)
        (execDelete f (deleteWhere col first inclusive_first last inclusive_last)) := by
      unfold execDelete
      split
      · exact Issues.Issues_backend f trivial fun w => settle_log _
      · exact Issues.Issues_backend _ trivial fun w => rfl
    have hrest : Inv (Issues fun _ : Stmt => True) (withDtor (unlock f) do
          execDelete f (deleteWhere col first inclusive_first last inclusive_last)
          if reset_id && first == 0 && last == 0 then do
            execAlterAutoIncrement f STREAM_TABLE 1
            execAlterAutoIncrement f STREAMDATA_TABLE 1
            pure true
          else pure true) := by
      refine Inv.Inv_withDtor hR (Issues.Issues_backend f trivial fun w => rfl) ?_
      refine Inv.Inv_bind hR hdel fun _ => ?_
      split
      · exact Inv.Inv_bind hR (halter _) fun _ => Inv.Inv_bind hR (halter _) fun _ =>
          Inv.Inv_pure hR _
      · exact Inv.Inv_pure hR _
    have hinner : ∀ (a : Unit) (w1 : World), ∃ t, ((do
        lockWrite f
        withDtor (unlock f) do
          execDelete f (deleteWhere col first inclusive_first last inclusive_last)
          if reset_id && first == 0 && last == 0 then do
            execAlterAutoIncrement f STREAM_TABLE 1
            execAlterAutoIncrement f STREAMDATA_TABLE 1
            pure true
          else pure true : M Bool) w1).2.log = w1.log ++ t ∧ ∃ t2, t = .lockWrite :: t2 := by
      intro _ w1
      unfold lockWrite
      rcases backend_bind_shape f .lockWrite
        (fun w => ((), { w with committed := w.tables })) _ (fun _ => True) (fun _ => rfl)
        (fun _ w2 => by
          obtain ⟨lg, hl, _⟩ := hrest w2
          exact ⟨lg, hl, trivial⟩) w1 with ⟨h1, _⟩ | ⟨t, h1, _, _⟩
      · exact ⟨_, h1, [], rfl⟩
      · exact ⟨_, h1, t, rfl⟩
    unfold setAutoCommit
    rcases backend_bind_shape f (.setAutoCommit true)
      (fun w => ((), settle { w with autoCommit := true })) _
      (fun t => ∃ t2, t = .lockWrite :: t2)
      (fun _ => settle_log _) hinner w with ⟨h1, _⟩ | ⟨t, h1, ⟨t2, ht2⟩, _⟩
    · left
      apply issued_of_log
      rw [tryCatch_pure_log]
      exact h1
    · right
      refine ⟨t2, ?_⟩
      apply issued_of_log
      rw [tryCatch_pure_log, h1, ht2]

theorem IsReadStmt_notLockWrite {s : Stmt} (h : IsReadStmt s) : NotLockWrite s := by
  cases s <;> trivial

theorem IsDeleteStmt_notLockRead {column : Option String} {first : Nat} {inclusive_first : Bool}
    {last : Nat} {inclusive_last : Bool} {reset_id : Bool} {s : Stmt}
    (h : IsDeleteStmt column first inclusive_first last inclusive_last reset_id s) :
    NotLockRead s := by
  rcases h with h | h | h | ⟨_, _, h⟩ | ⟨_, _, _, h | h⟩ <;> rw [h] <;> trivial

theorem Read_notLockWrite (e : Engine) (f : Faults) (fuel : Nat) (column : Option String)
    (first : Nat) (inclusive_first : Bool) (last : Nat) (inclusive_last : Bool) (w : World) :
    ∀ s ∈ issued (Read e f fuel column first inclusive_first last inclusive_last) w,
      NotLockWrite s :=
  mem_issued (Inv.Inv_Read (Stable.Stable_issues _) (Issues.Issues_commits _)
    (fun _ hs => Issues.Issues_logs (IsReadStmt_notLockWrite hs)) e f fuel column first
    inclusive_first last inclusive_last) w

theorem Lookup_notLockWrite (e : Engine) (f : Faults) (column : Option String) (val : Nat)
    (found : Option Bool) (w : World) :
    ∀ s ∈ issued (Lookup e f column val found) w, NotLockWrite s := by
  intro s hs
  rcases Lookup_issued e f column val found w with h | ⟨h, _⟩ | ⟨col, h, _⟩ <;> rw [h] at hs
  · cases hs
  · rw [List.mem_singleton.mp hs]
    trivial
  · simp only [List.mem_cons, List.mem_singleton, List.not_mem_nil, or_false] at hs
    rcases hs with h | h | h <;> rw [h] <;> trivial

theorem Lookup_issued_head (e : Engine) (f : Faults) (column : Option String) (val : Nat)
    (found : Option Bool) (w : World) :
    issued (Lookup e f column val found) w = [] ∨
    ∃ t, issued (Lookup e f column val found) w = .lockRead :: t := by
  rcases Lookup_issued e f column val found w with h | ⟨h, _⟩ | ⟨col, h, _⟩
  · exact Or.inl h
  · exact Or.inr ⟨_, h⟩
  · exact Or.inr ⟨_, h⟩

theorem Get_notLockWrite (e : Engine) (f : Faults) (hdr : Option StreamHeader)
    (order : Option String) (w : World) :
    ∀ s ∈ issued (Get e f hdr order) w, NotLockWrite s := by
  intro s hs
  rcases Get_issued e f hdr order w with h | ⟨h, _⟩ | ⟨ord, h, _⟩ <;> rw [h] at hs
  · cases hs
  · rw [List.mem_singleton.mp hs]
    trivial
  · simp only [List.mem_cons, List.mem_singleton, List.not_mem_nil, or_false] at hs
    rcases hs with h | h | h <;> rw [h] <;> trivial

theorem Get_issued_head (e : Engine) (f : Faults) (hdr : Option StreamHeader)
    (order : Option String) (w : World) :
    issued (Get e f hdr order) w = [] ∨ ∃ t, issued (Get e f hdr order) w = .lockRead :: t := by
  rcases Get_issued e f hdr order w with h | ⟨h, _⟩ | ⟨ord, h, _⟩
  · exact Or.inl h
  · exact Or.inr ⟨_, h⟩
  · exact Or.inr ⟨_, h⟩

theorem Delete_notLockRead (e : Engine) (f : Faults) (column : Option String) (first : Nat)
    (inclusive_first : Bool) (last : Nat) (inclusive_last : Bool) (reset_id : Bool) (w : World) :
    ∀ s ∈ issued (Delete e f column first inclusive_first last inclusive_last reset_id) w,
      NotLockRead s := fun s hs =>
  IsDeleteStmt_notLockRead
    (mem_issued (Inv.Inv_Delete e f column first inclusive_first last inclusive_last reset_id) w
      s hs)

theorem Delete_some_issued_head (e : Engine) (f : Faults) (col : String) (first : Nat)
    (inclusive_first : Bool) (last : Nat) (inclusive_last : Bool) (reset_id : Bool) (w : World) :
    issued (Delete e f (some col) first inclusive_first last inclusive_last reset_id) w =
      [.setAutoCommit true] ∨
    ∃ t, issued (Delete e f (some col) first inclusive_first last inclusive_last reset_id) w =
      .setAutoCommit true :: .lockWrite :: t := by
  rcases Delete_issued_head e f (some col) first inclusive_first last inclusive_last reset_id w
    with ⟨h, _⟩ | h
  · cases h
  · exact h

/-- C21: `Write` in both variants sends no lock statement.  `ReadById`,
`LookupById`, `GetFirst` and `GetLast` send no WRITE lock, and whatever they
send starts with the READ lock, so the lock precedes every query.  `DeleteById`
and `DeleteAll` send no READ lock, and after the autocommit statement the WRITE
lock is the first thing they send, so it precedes the DELETE.  Both lock
statements name the tables `stream` and `streamdata` together, and no other
statement is a lock statement.  All of this holds for every outcome of the
backend. -/
theorem C21_lock_mode_by_operation (e : Engine) (f : Faults) (w : World) :
    (∀ hdr src, ∀ s ∈ issued (Write e f hdr src) w, NotLock s) ∧
    (∀ hdr data, ∀ s ∈ issued (WriteBuf e f hdr data) w, NotLock s) ∧
    (∀ fuel a ia b ib,
      (∀ s ∈ issued (ReadById e f fuel a ia b ib) w, NotLockWrite s) ∧
      (issued (ReadById e f fuel a ia b ib) w = [] ∨
        ∃ t, issued (ReadById e f fuel a ia b ib) w = .lockRead :: t)) ∧
    (∀ id found,
      (∀ s ∈ issued (LookupById e f id found) w, NotLockWrite s) ∧
      (issued (LookupById e f id found) w = [] ∨
        ∃ t, issued (LookupById e f id found) w = .lockRead :: t)) ∧
    (∀ hdr,
      (∀ s ∈ issued (GetFirst e f hdr) w, NotLockWrite s) ∧
      (issued (GetFirst e f hdr) w = [] ∨ ∃ t, issued (GetFirst e f hdr) w = .lockRead :: t)) ∧
    (∀ hdr,
      (∀ s ∈ issued (GetLast e f hdr) w, NotLockWrite s) ∧
      (issued (GetLast e f hdr) w = [] ∨ ∃ t, issued (GetLast e f hdr) w = .lockRead :: t)) ∧
    (∀ a ia b ib,
      (∀ s ∈ issued (DeleteById e f a ia b ib) w, NotLockRead s) ∧
      (issued (DeleteById e f a ia b ib) w = [.setAutoCommit true] ∨
        ∃ t, issued (DeleteById e f a ia b ib) w = .setAutoCommit true :: .lockWrite :: t)) ∧
    ((∀ s ∈ issued (DeleteAll e f) w, NotLockRead s) ∧
      (issued (DeleteAll e f) w = [.setAutoCommit true] ∨
        ∃ t, issued (DeleteAll e f) w = .setAutoCommit true :: .lockWrite :: t)) ∧
    lockSql .lockRead = some "LOCK TABLES stream READ LOCAL, streamdata READ LOCAL" ∧
    lockSql .lockWrite = some "LOCK TABLES stream WRITE, streamdata WRITE" ∧
    (∀ s, lockSql s = none ↔ NotLock s) := by
  refine ⟨fun hdr src => mem_issued (Issues.Issues_Write _ (fun _ h => h) e f hdr src) w,
    fun hdr data => mem_issued (Issues.Issues_WriteBuf _ (fun _ h => h) e f hdr data) w,
    fun fuel a ia b ib => ⟨Read_notLockWrite e f fuel _ a ia b ib w,
      Read_issued_head e f fuel _ a ia b ib w⟩,
    fun id found => ⟨Lookup_notLockWrite e f _ id found w, Lookup_issued_head e f _ id found w⟩,
    fun hdr => ⟨Get_notLockWrite e f hdr _ w, Get_issued_head e f hdr _ w⟩,
    fun hdr => ⟨Get_notLockWrite e f hdr _ w, Get_issued_head e f hdr _ w⟩,
    fun a ia b ib => ⟨Delete_notLockRead e f _ a ia b ib false w,
      Delete_some_issued_head e f "id" a ia b ib false w⟩,
    ⟨Delete_notLockRead e f _ 0 true 0 true false w,
      Delete_some_issued_head e f "id" 0 true 0 true false w⟩, by decide, by decide, ?_⟩
  intro s
  cases s <;> simp [lockSql, NotLock]

theorem WriteToLog_counters (e : Engine) (t : Nat) (msg : String) (w : World) :
    (WriteToLog e t msg w).nextStreamId = w.nextStreamId ∧
      (WriteToLog e t msg w).nextDataId = w.nextDataId := by
  unfold WriteToLog
  split
  · simp
  · split
    · simp
    · split <;> simp

theorem settle_counters (w : World) :
    (settle w).nextStreamId = w.nextStreamId ∧ (settle w).nextDataId = w.nextDataId := by
  unfold settle
  split <;> simp

theorem Stable.Stable_countersKept : Stable CountersKept where
  refl _ := ⟨rfl, rfl⟩
  trans _ _ _ h1 h2 := ⟨h2.1.trans h1.1, h2.2.trans h1.2⟩
  log e t msg w := WriteToLog_counters e t msg w
  call _ _ := ⟨rfl, rfl⟩

theorem Stable.Stable_countersGrow : Stable CountersGrow where
  refl _ := ⟨le_refl _, le_refl _⟩
  trans _ _ _ h1 h2 := ⟨le_trans h1.1 h2.1, le_trans h1.2 h2.2⟩
  log e t msg w := ⟨le_of_eq (WriteToLog_counters e t msg w).1.symm,
    le_of_eq (WriteToLog_counters e t msg w).2.symm⟩
  call _ _ := ⟨le_refl _, le_refl _⟩

theorem CountersKept.CountersKept_Delete (e : Engine) (f : Faults) (column : Option String)
    (first : Nat) (inclusive_first : Bool) (last : Nat) (inclusive_last : Bool) :
    Inv CountersKept (Delete e f column first inclusive_first last inclusive_last false) := by
  have hR := Stable.Stable_countersKept
  refine Inv.Inv_Delete_plain hR e f ?_ ?_ ?_ ?_ column first inclusive_first last inclusive_last
  · exact Inv.Inv_backend hR f fun w => ⟨⟨rfl, rfl⟩, settle_counters _⟩
  · exact Inv.Inv_backend hR f fun w => ⟨⟨rfl, rfl⟩, ⟨rfl, rfl⟩⟩
  · exact Inv.Inv_backend hR f fun w => ⟨⟨rfl, rfl⟩, ⟨rfl, rfl⟩⟩
  · intro cs
    unfold execDelete
    split
    · exact Inv.Inv_backend hR f fun w => ⟨⟨rfl, rfl⟩, settle_counters _⟩
    · exact Inv.Inv_backend hR _ fun w => ⟨⟨rfl, rfl⟩, ⟨rfl, rfl⟩⟩

theorem CountersGrow.CountersGrow_Write (e : Engine) (f : Faults) (hdr : Option StreamHeader)
    (src : IStream) : Inv CountersGrow (Write e f hdr src) := by
  have hR := Stable.Stable_countersGrow
  have hs : ∀ w w2 : World, CountersGrow w w2 → CountersGrow w (settle w2) := fun w w2 h =>
    ⟨le_trans h.1 (le_of_eq (settle_counters w2).1.symm),
      le_trans h.2 (le_of_eq (settle_counters w2).2.symm)⟩
  refine Inv.Inv_Write hR e f ?_ ?_ ?_ ?_ ?_ ?_ ?_ ?_ hdr src
  · exact Inv.Inv_backend hR f fun w => ⟨hR.refl _, hs _ _ ⟨le_refl _, le_refl _⟩⟩
  · intro d t ts
    exact Inv.Inv_backend hR f fun w =>
      ⟨hR.refl _, hs _ _ ⟨Nat.le_add_right _ 1, le_refl _⟩⟩
  · exact Inv.Inv_backend hR f fun w => ⟨hR.refl _, hR.refl _⟩
  · exact Inv.Inv_backend hR f fun w => ⟨hR.refl _, hR.refl _⟩
  · intro m d
    exact Inv.Inv_backend hR f fun w =>
      ⟨hR.refl _, hs _ _ ⟨le_refl _, Nat.le_add_right _ 1⟩⟩
  · intro n m
    exact Inv.Inv_backend hR f fun w => ⟨hR.refl _, hs _ _ ⟨le_refl _, le_refl _⟩⟩
  · exact Inv.Inv_backend hR f fun w => ⟨hR.refl _, hR.refl _⟩
  · exact Inv.Inv_backend hR f fun w => ⟨hR.refl _, hR.refl _⟩

theorem CountersGrow.CountersGrow_WriteBuf (e : Engine) (f : Faults) (hdr : Option StreamHeader)
    (data : Option (List Byte)) : Inv CountersGrow (WriteBuf e f hdr data) := by
  unfold WriteBuf
  cases hdr with
  | none => exact Inv.Inv_THROW Stable.Stable_countersGrow _
  | some h =>
    cases data with
    | none => exact Inv.Inv_THROW Stable.Stable_countersGrow _
    | some d => exact CountersGrow.CountersGrow_Write e f _ _

theorem Wf.Wf_deleteFrom {w w2 : World} (cs : List Cond) (hwf : Wf w)
    (ht : w2.tables = deleteFrom cs w.tables) (hc : CountersKept w w2) : Wf w2 := by
  obtain ⟨h1, h2, h3, h4, h5⟩ := hwf
  obtain ⟨c1, c2⟩ := hc
  refine ⟨by rw [c1]; exact h1, ?_, ?_, ?_, ?_⟩
  · intro r hr
    rw [ht, mem_deleteFrom_stream] at hr
    rw [c1]
    exact h2 r hr.1
  · rw [ht]
    exact h3.sublist ((List.filter_sublist _).map _)
  · intro d hd
    rw [ht, mem_deleteFrom_data] at hd
    rw [c1, c2]
    exact h4 d hd.1
  · rw [ht]
    exact h5.sublist ((List.filter_sublist _).map _)

theorem IsDeleteStmt_not_alter {column : Option String} {first : Nat} {inclusive_first : Bool}
    {last : Nat} {inclusive_last : Bool} {s : Stmt}
    (h : IsDeleteStmt column first inclusive_first last inclusive_last false s) : ¬ IsAlter s := by
  rcases h with h | h | h | ⟨_, _, h⟩ | ⟨h, _⟩
  · rw [h]; exact id
  · rw [h]; exact id
  · rw [h]; exact id
  · rw [h]; exact id
  · cases h

theorem Delete_plain_next_write (e : Engine) (f : Faults) (first : Nat) (inclusive_first : Bool)
    (last : Nat) (inclusive_last : Bool) (w w1 : World) (hwf : Wf w)
    (hd : Delete e f (some "id") first inclusive_first last inclusive_last false w =
      (.ret true, w1))
    (e2 : Engine) (f2 : Faults) (hdr : StreamHeader) (src : IStream)
    (res : Option StreamHeader) (w2 : World)
    (hw : Write e2 f2 (some hdr) src w1 = (.ret (true, res), w2)) :
    res = some { hdr with id := w.nextStreamId } ∧ ∀ r ∈ w.tables.stream, r.id < w.nextStreamId := by
  have hk := CountersKept.CountersKept_Delete e f (some "id") first inclusive_first last
    inclusive_last w
  rw [hd] at hk
  obtain ⟨_, ht, _⟩ := Delete_ret e f "id" first inclusive_first last inclusive_last false w w1 hd
  have hwf1 : Wf w1 := hwf.Wf_deleteFrom _ ht hk
  obtain ⟨cs, _, _, hres, _⟩ := Write_ret e2 f2 hdr src w1 w2 res hwf1 hw
  rw [hk.1] at hres
  exact ⟨hres, fun r hr => (hwf.2.1 r hr).2⟩

/-- C28: `DeleteById` and `DeleteAll` call `Delete` with `reset_id = false`:
for every outcome they leave both AUTO_INCREMENT counters as they were and send
no `ALTER TABLE` statement.  The reading operations and `Describe` leave the
counters as they were too, and `Write` in both variants never lowers them.  So
when `DeleteAll` (or `DeleteById`) returned true in a well-formed store, the
next `Write` that returns true is given the id the counter had before the
delete, which is above the id of every row the table held.  Example: after
`DeleteAll` on the store that holds stream 1, the next stream gets id 2. -/
theorem C28_no_counter_reset (e : Engine) (f : Faults) (w : World) :
    (DeleteAll e f = Delete e f (some "id") 0 true 0 true false) ∧
    (∀ a ia b ib, DeleteById e f a ia b ib = Delete e f (some "id") a ia b ib false) ∧
    (∀ a ia b ib, CountersKept w (DeleteById e f a ia b ib w).2 ∧
      ∀ s ∈ issued (DeleteById e f a ia b ib) w, ¬ IsAlter s) ∧
    (CountersKept w (DeleteAll e f w).2 ∧ ∀ s ∈ issued (DeleteAll e f) w, ¬ IsAlter s) ∧
    (∀ fuel a ia b ib, CountersKept w (ReadById e f fuel a ia b ib w).2) ∧
    (∀ id found, CountersKept w (LookupById e f id found w).2) ∧
    (∀ hdr, CountersKept w (GetFirst e f hdr w).2) ∧
    (∀ hdr, CountersKept w (GetLast e f hdr w).2) ∧
    (∀ layout, CountersKept w (Describe e f layout w).2) ∧
    (∀ hdr src, CountersGrow w (Write e f hdr src w).2) ∧
    (∀ hdr data, CountersGrow w (WriteBuf e f hdr data w).2) ∧
    (Wf w → ∀ w1, DeleteAll e f w = (.ret true, w1) →
      ∀ e2 f2 hdr src res w2, Write e2 f2 (some hdr) src w1 = (.ret (true, res), w2) →
        res = some { hdr with id := w.nextStreamId } ∧
        ∀ r ∈ w.tables.stream, r.id < w.nextStreamId) ∧
    (Wf w → ∀ a ia b ib w1, DeleteById e f a ia b ib w = (.ret true, w1) →
      ∀ e2 f2 hdr src res w2, Write e2 f2 (some hdr) src w1 = (.ret (true, res), w2) →
        res = some { hdr with id := w.nextStreamId } ∧
        ∀ r ∈ w.tables.stream, r.id < w.nextStreamId) ∧
    Wf exWritten ∧ (DeleteAll exEngine noFault exWritten).1 = .ret true ∧
    (Write exEngine noFault (some exHdr) (StreamBuf [1, 2, 3])
      (DeleteAll exEngine noFault exWritten).2).1 = .ret (true, some { exHdr with id := 2 }) := by
  have hR := Stable.Stable_countersKept
  have hc : Commits CountersKept := fun _ => ⟨rfl, rfl⟩
  have hl : ∀ s, Logs CountersKept s := fun _ _ => ⟨rfl, rfl⟩
  refine ⟨rfl, fun _ _ _ _ => rfl, fun a ia b ib => ⟨?_, ?_⟩, ⟨?_, ?_⟩,
    fun fuel a ia b ib => Inv.Inv_Read hR hc (fun s _ => hl s) e f fuel _ a ia b ib w,
    fun id found => Inv.Inv_Lookup hR hc (hl _) (hl _) (fun _ _ => hl _) e f _ id found w,
    fun hdr => Inv.Inv_Get hR hc (hl _) (hl _) (fun _ => hl _) e f hdr _ w,
    fun hdr => Inv.Inv_Get hR hc (hl _) (hl _) (fun _ => hl _) e f hdr _ w,
    fun layout => Inv.Inv_Describe hR (fun _ => hl _) e f layout w,
    fun hdr src => CountersGrow.CountersGrow_Write e f hdr src w,
    fun hdr data => CountersGrow.CountersGrow_WriteBuf e f hdr data w, ?_, ?_, by decide, rfl, rfl⟩
  · exact CountersKept.CountersKept_Delete e f _ a ia b ib w
  · exact fun s hs => IsDeleteStmt_not_alter
      (mem_issued (Inv.Inv_Delete e f (some "id") a ia b ib false) w s hs)
  · exact CountersKept.CountersKept_Delete e f _ 0 true 0 true w
  · exact fun s hs => IsDeleteStmt_not_alter
      (mem_issued (Inv.Inv_Delete e f (some "id") 0 true 0 true false) w s hs)
  · intro hwf w1 hd e2 f2 hdr src res w2 hw
    exact Delete_plain_next_write e f 0 true 0 true w w1 hwf hd e2 f2 hdr src res w2 hw
  · intro hwf a ia b ib w1 hd e2 f2 hdr src res w2 hw
    exact Delete_plain_next_write e f a ia b ib w w1 hwf hd e2 f2 hdr src res w2 hw

theorem whereHolds_deleteWhere_id (first : Nat) (inclusive_first : Bool) (last : Nat)
    (inclusive_last : Bool) (t : Tables) (r : StreamRow) (hr : r ∈ t.stream) :
    whereHolds (deleteWhere "id" first inclusive_first last inclusive_last) r = true ↔
      r ∈ inRange first inclusive_first last inclusive_last t := by
  rw [deleteWhere_id, whereHolds_readWhere "id" (fun r => r.id) rfl, mem_inRange]
  unfold Within
  exact ⟨fun h => ⟨hr, h⟩, fun h => h.2⟩

theorem deleteFrom_id_stream (first : Nat) (inclusive_first : Bool) (last : Nat)
    (inclusive_last : Bool) (t : Tables) :
    (deleteFrom (deleteWhere "id" first inclusive_first last inclusive_last) t).stream =
      t.stream.filter fun r => decide (r ∉ inRange first inclusive_first last inclusive_last t) := by
  unfold deleteFrom
  simp only []
  apply List.filter_congr
  intro r hr
  have h := whereHolds_deleteWhere_id first inclusive_first last inclusive_last t r hr
  by_cases hw : whereHolds (deleteWhere "id" first inclusive_first last inclusive_last) r = true
  · simp [hw, h.mp hw]
  · have hn : r ∉ inRange first inclusive_first last inclusive_last t := fun hm => hw (h.mpr hm)
    simp [hw, hn]

theorem deleteFrom_id_streamdata (first : Nat) (inclusive_first : Bool) (last : Nat)
    (inclusive_last : Bool) (t : Tables) :
    (deleteFrom (deleteWhere "id" first inclusive_first last inclusive_last) t).streamdata =
      t.streamdata.filter fun d =>
        decide (∀ r ∈ inRange first inclusive_first last inclusive_last t, r.id ≠ d.masterid) := by
  unfold deleteFrom
  simp only []
  apply List.filter_congr
  intro d _
  rw [Bool.eq_iff_iff]
  simp only [Bool.not_eq_true', List.any_eq_false, Bool.and_eq_true, beq_iff_eq, not_and,
    decide_eq_true_eq, ne_eq]
  constructor
  · intro h r hr
    exact h r (mem_inRange.mp hr).1
      ((whereHolds_deleteWhere_id first inclusive_first last inclusive_last t r
        (mem_inRange.mp hr).1).mpr hr)
  · intro h r hr hw
    exact h r ((whereHolds_deleteWhere_id first inclusive_first last inclusive_last t r hr).mp hw)

theorem DeleteById_zero_bounds (e : Engine) (f : Faults) (inclusive_first inclusive_last : Bool) :
    DeleteById e f 0 inclusive_first 0 inclusive_last = DeleteAll e f := by
  unfold DeleteById DeleteAll Delete
  have h : deleteWhere "id" 0 inclusive_first 0 inclusive_last = deleteWhere "id" 0 true 0 true := by
    simp [deleteWhere]
  simp only [h]

/-- C26: on a well-formed store, let `vis` be the rows `ReadById(first,
incFirst, last, incLast)` visits (reader never stopping, no backend failure,
enough batches): the header rows whose id is within the bounds, a bound
applying only when its value is above 0.  A `DeleteById` with the same
arguments that returns true leaves exactly the header rows not in `vis`, in
their order and unchanged, and exactly the chunk rows whose `masterid` is not
the id of a row in `vis`.  With both values 0, `DeleteById` is `DeleteAll`
whatever the flags are, and leaves no header row. -/
theorem C26_delete_read_agree (e : Engine) (f : Faults) (rd : Reader)
    (hrd : ∀ hist c, rd hist c = true) (lg : Bool) (fuel first : Nat) (inclusive_first : Bool)
    (last : Nat) (inclusive_last : Bool) (w w2 : World) (hwf : Wf w)
    (hfuel : w.tables.stream.length / 100 < fuel)
    (hdel : DeleteById e f first inclusive_first last inclusive_last w = (.ret true, w2)) :
    (∃ vis : List StreamRow,
      (ReadById { mReader := some rd, mLogger := lg } noFault fuel first inclusive_first last
        inclusive_last w).1 = .ret (some true) ∧
      begins ((ReadById { mReader := some rd, mLogger := lg } noFault fuel first inclusive_first
        last inclusive_last w).2.calls.drop w.calls.length) = vis.map hdrOfRow ∧
      (∀ r, r ∈ vis ↔
        r ∈ w.tables.stream ∧ Within first inclusive_first last inclusive_last r.id) ∧
      w2.tables.stream = w.tables.stream.filter (fun r => decide (r ∉ vis)) ∧
      w2.tables.streamdata =
        w.tables.streamdata.filter (fun d => decide (∀ r ∈ vis, r.id ≠ d.masterid))) ∧
    (∀ i1 i2, DeleteById e f 0 i1 0 i2 = DeleteAll e f) ∧
    (∀ w3, DeleteAll e f w = (.ret true, w3) → w3.tables.stream = []) := by
  obtain ⟨w1, ext, h1, hr, ht⟩ :=
    scan_full rd hrd lg fuel first inclusive_first last inclusive_last w hwf hfuel
  obtain ⟨_, htab, _, _⟩ := Delete_ret e f "id" first inclusive_first last inclusive_last false
    w w2 hdel
  refine ⟨⟨inRange first inclusive_first last inclusive_last w.tables, ?_, ?_, ?_, ?_, ?_⟩,
    fun i1 i2 => DeleteById_zero_bounds e f i1 i2, ?_⟩
  · rw [h1]
  · rw [h1]
    simp only []
    rw [hr.2.1, List.drop_left]
    exact ht.RowsTrace_begins
  · intro r
    rw [mem_inRange]
    rfl
  · rw [htab]
    exact deleteFrom_id_stream first inclusive_first last inclusive_last w.tables
  · rw [htab]
    exact deleteFrom_id_streamdata first inclusive_first last inclusive_last w.tables
  · intro w3 h3
    obtain ⟨_, htab3, _, _⟩ := Delete_ret e f "id" 0 true 0 true false w w3 h3
    rw [htab3]
    have hw : deleteWhere "id" 0 true 0 true = [] := rfl
    rw [hw]
    simp [deleteFrom, whereHolds]

theorem C26_delete_read_agree_witness :
    (∃ vis : List StreamRow,
      (ReadById { mReader := some fun _ _ => true, mLogger := true } noFault 1 1 true 1 true
        exWritten).1 = .ret (some true) ∧
      begins ((ReadById { mReader := some fun _ _ => true, mLogger := true } noFault 1 1 true
        1 true exWritten).2.calls.drop exWritten.calls.length) = vis.map hdrOfRow ∧
      (∀ r, r ∈ vis ↔ r ∈ exWritten.tables.stream ∧ Within 1 true 1 true r.id) ∧
      exDeleted.tables.stream = exWritten.tables.stream.filter (fun r => decide (r ∉ vis)) ∧
      exDeleted.tables.streamdata =
        exWritten.tables.streamdata.filter (fun d => decide (∀ r ∈ vis, r.id ≠ d.masterid))) ∧
    (∀ i1 i2, DeleteById exEngine noFault 0 i1 0 i2 = DeleteAll exEngine noFault) ∧
    (∀ w3, DeleteAll exEngine noFault exWritten = (.ret true, w3) → w3.tables.stream = []) :=
  C26_delete_read_agree exEngine noFault (fun _ _ => true) (fun _ _ => rfl) true 1 1 true 1 true
    exWritten exDeleted (by decide) (by decide) exDelete_eq

/-- C27 fails when a chunk query throws in the middle of a stream.  Scanning
the store that holds stream 1 (three bytes in one chunk) with a reader that
never stops, while the backend fails the query for that chunk: `ReadById` sends
the READ lock, the header query, the chunk-id query, the failing chunk query
and the unlock, logs the exception and "ReadData failed", and returns false;
the only call the reader received is the BEGIN of stream 1, and no END follows
it. -/
theorem C27_begin_without_end_on_failure :
    (ReadById exEngine exFaultAtData 1 0 true 0 true exWritten).1 = .ret (some false) ∧
    (ReadById exEngine exFaultAtData 1 0 true 0 true exWritten).2.calls =
      [{ call := beginCall exHdr1, answer := true }] ∧
    (∀ x ∈ (ReadById exEngine exFaultAtData 1 0 true 0 true exWritten).2.calls,
      x.call.state ≠ DB_STREAM_READ_END) ∧
    issued (ReadById exEngine exFaultAtData 1 0 true 0 true) exWritten =
      [.lockRead, .selectStreams "id" none none (some 100), .selectDataIds 1, .selectData 1,
       .unlock] ∧
    (ReadById exEngine exFaultAtData 1 0 true 0 true exWritten).2.errors =
      ["SQLException", "ReadData failed"] := by
  refine ⟨by decide, by decide, by decide, by decide, by rfl⟩

/-- One batch of `Read` on column `timestamp` with a reader that never stops
and no backend failure: the rows the query selects are visited, and the batch
ends the scan when it is not full, else hands on the timestamp of its last
row. -/
theorem readBatch_timestamp (e : Engine) (rd : Reader) (hrd : ∀ hist c, rd hist c = true)
    (first : Nat) (inclusive_first : Bool) (last : Nat) (inclusive_last : Bool) (w : World)
    (hcf : ChunksFound w.tables) :
    ∃ w2 ext,
      readBatch e noFault rd "timestamp" STREAMS_PER_QUERY first inclusive_first last
        inclusive_last w =
        (.ret (if (selectRows (fun r => r.timestamp) (boundOf first inclusive_first)
            (boundOf last inclusive_last) (some STREAMS_PER_QUERY) w.tables.stream).length <
              STREAMS_PER_QUERY then none
          else some (((selectRows (fun r => r.timestamp) (boundOf first inclusive_first)
            (boundOf last inclusive_last) (some STREAMS_PER_QUERY)
              w.tables.stream).getLast?.map hdrOfRow).getD hdrUninit).timestamp), w2) ∧
      Reads w w2 ext ∧
      RowsTrace rd w.tables (selectRows (fun r => r.timestamp) (boundOf first inclusive_first)
        (boundOf last inclusive_last) (some STREAMS_PER_QUERY) w.tables.stream) ext false := by
  obtain ⟨wL, hL, hrL⟩ := lockRead_noFault w
  obtain ⟨wQ, hQ, hrQ⟩ := queryStreams_key_noFault "timestamp" (fun r => r.timestamp) rfl
    (boundOf first inclusive_first) (boundOf last inclusive_last) (some STREAMS_PER_QUERY) wL
  rw [hrL.1] at hQ
  have hrwQ : Reads w wQ [] := by
    have := hrL.Reads_trans hrQ
    rwa [List.append_nil] at this
  obtain ⟨stopped, hdrL, wR, vis, ext, hR, hrR, htR, hpR, hlR⟩ :=
    readRows_spec e rd (selectRows (fun r => r.timestamp) (boundOf first inclusive_first)
      (boundOf last inclusive_last) (some STREAMS_PER_QUERY) w.tables.stream) hdrUninit wQ
      (by rw [hrwQ.1]; exact hcf)
  have hs := htR.RowsTrace_not_stopped hrd
  subst hs
  obtain ⟨hv, hh⟩ := hlR rfl
  subst hv
  obtain ⟨wU, hU, hrU⟩ := unlock_noFault wR
  have hreads : Reads w wU ext := by
    have := (hrwQ.Reads_trans hrR).Reads_trans hrU
    rwa [List.nil_append, List.append_nil] at this
  have hlimif : (if STREAMS_PER_QUERY > 0 then some STREAMS_PER_QUERY else none) =
      some STREAMS_PER_QUERY := rfl
  refine ⟨wU, ext, ?_, hreads, htR.RowsTrace_tables hrwQ.1⟩
  unfold readBatch
  simp only [bind_apply, hL]
  refine withDtor_ret _ _ _ wR _ _ () ?_ hU
  simp only [bind_apply, hlimif]
  rw [show (if first > 0 then some (inclusive_first, first) else none) =
    boundOf first inclusive_first from rfl,
    show (if last > 0 then some (inclusive_last, last) else none) =
    boundOf last inclusive_last from rfl, hQ]
  simp only [hR, bind_apply]
  by_cases hshort : (selectRows (fun r => r.timestamp) (boundOf first inclusive_first)
      (boundOf last inclusive_last) (some STREAMS_PER_QUERY) w.tables.stream).length <
        STREAMS_PER_QUERY
  · simp only [hshort, decide_True, Bool.or_true, ↓reduceIte, pure_apply]
  · have h0 : STREAMS_PER_QUERY ≠ 0 := by decide
    have hid : ("timestamp" = "id") = False := by decide
    simp only [hshort, h0, hid, decide_False, Bool.or_self, Bool.false_eq_true, ↓reduceIte,
      pure_apply, hh]

/-- When every row has the same timestamp, ordering by timestamp keeps the
rows as they are stored. -/
theorem selectRows_ties (t : Nat) (rows : List StreamRow) (hts : ∀ r ∈ rows, r.timestamp = t)
    (lim : Nat) :
    selectRows (fun r => r.timestamp) none none (some lim) rows = rows.take lim := by
  rw [selectRows_some]
  unfold selectRows
  simp only [lowerOk, upperOk, Bool.and_self, List.filter_true]
  rw [List.Sorted.insertionSort_eq]
  exact List.pairwise_of_forall_mem_list fun a ha b hb => by
    show a.timestamp ≤ b.timestamp
    rw [hts a ha, hts b hb]

theorem selectRows_above_ties (t : Nat) (ht : 0 < t) (rows : List StreamRow)
    (hts : ∀ r ∈ rows, r.timestamp = t) (lim : Option Nat) :
    selectRows (fun r => r.timestamp) (boundOf t false) none lim rows = [] := by
  have hf : (rows.filter fun r => lowerOk (boundOf t false) r.timestamp &&
      upperOk none r.timestamp) = [] := by
    rw [List.filter_eq_nil_iff]
    intro r hr
    rw [hts r hr]
    simp [boundOf, lowerOk, ht]
  unfold selectRows
  simp only [hf]
  cases lim <;> simp

/-- A scan by timestamp over rows that all carry the timestamp `t > 0`, more
than a full batch of them: the first batch visits the first 100 rows, the second
asks for timestamps above `t`, finds none and ends the scan with true. -/
theorem timestamp_ties_skipped (rd : Reader) (hrd : ∀ hist c, rd hist c = true) (lg : Bool)
    (t : Nat) (ht : 0 < t) (w : World) (hcf : ChunksFound w.tables)
    (hts : ∀ r ∈ w.tables.stream, r.timestamp = t)
    (hn : STREAMS_PER_QUERY ≤ w.tables.stream.length) (fuel : Nat) :
    (Read { mReader := some rd, mLogger := lg } noFault (fuel + 2) (some "timestamp") 0 true 0
      true w).1 = .ret (some true) ∧
    begins ((Read { mReader := some rd, mLogger := lg } noFault (fuel + 2) (some "timestamp") 0
      true 0 true w).2.calls.drop w.calls.length) =
        (w.tables.stream.take STREAMS_PER_QUERY).map hdrOfRow := by
  obtain ⟨w1, ext1, hb1, hr1, ht1⟩ := readBatch_timestamp { mReader := some rd, mLogger := lg }
    rd hrd 0 true 0 true w hcf
  have hsel : selectRows (fun r => r.timestamp) (boundOf 0 true) (boundOf 0 true)
      (some STREAMS_PER_QUERY) w.tables.stream = w.tables.stream.take STREAMS_PER_QUERY :=
    selectRows_ties t _ hts _
  rw [hsel] at hb1 ht1
  have hlen : (w.tables.stream.take STREAMS_PER_QUERY).length = STREAMS_PER_QUERY := by
    rw [List.length_take]
    exact Nat.min_eq_left hn
  have hlast : (((w.tables.stream.take STREAMS_PER_QUERY).getLast?.map hdrOfRow).getD
      hdrUninit).timestamp = t := by
    rcases hg : (w.tables.stream.take STREAMS_PER_QUERY).getLast? with _ | r
    · rw [List.getLast?_eq_none_iff] at hg
      rw [hg] at hlen
      cases hlen
    · obtain ⟨ys, hys⟩ := List.getLast?_eq_some_iff.mp hg
      have hm : r ∈ w.tables.stream :=
        List.mem_of_mem_take (by rw [hys]; exact List.mem_append_right _ (List.mem_singleton_self r))
      exact hts r hm
  rw [hlen, if_neg (lt_irrefl _), hlast] at hb1
  obtain ⟨w2, ext2, hb2, hr2, ht2⟩ := readBatch_timestamp { mReader := some rd, mLogger := lg }
    rd hrd t false 0 true w1 (by rw [hr1.1]; exact hcf)
  have hsel2 : selectRows (fun r => r.timestamp) (boundOf t false) (boundOf 0 true)
      (some STREAMS_PER_QUERY) w1.tables.stream = [] := by
    rw [hr1.1]
    exact selectRows_above_ties t ht _ hts _
  rw [hsel2] at hb2 ht2
  have hext2 : ext2 = [] := (ht2.RowsTrace_nil_inv rfl).1
  have hloop : readLoop { mReader := some rd, mLogger := lg } noFault rd "timestamp"
      STREAMS_PER_QUERY 0 true (fuel + 2) 0 true w = (.ret (some true), w2) := by
    rw [readLoop_some _ _ _ _ _ _ _ _ _ _ _ _ _ hb1]
    exact readLoop_none _ _ _ _ _ _ _ _ _ _ _ _ hb2
  have hread : Read { mReader := some rd, mLogger := lg } noFault (fuel + 2) (some "timestamp") 0
      true 0 true w = (.ret (some true), w2) := by
    unfold Read
    exact tryCatch_ret _ _ _ _ _ _ hloop
  rw [hread]
  refine ⟨rfl, ?_⟩
  simp only []
  rw [hr2.2.1, hr1.2.1, hext2, List.append_nil, List.drop_left]
  exact ht1.RowsTrace_begins

/-- A scan by timestamp over rows that all carry the timestamp 0, at least a
full batch of them: every batch hands on the lower bound 0, which means no
bound, so the next batch is the same again; the loop does not end within any
number of batches, and visits the first 100 rows once per batch. -/
theorem timestamp_zero_loops (rd : Reader) (hrd : ∀ hist c, rd hist c = true) (lg : Bool)
    (ts : Tables) (hcf : ChunksFound ts) (hts : ∀ r ∈ ts.stream, r.timestamp = 0)
    (hn : STREAMS_PER_QUERY ≤ ts.stream.length) :
    ∀ (fuel : Nat) (incl : Bool) (w : World), w.tables = ts →
      ∃ w2 ext,
        readLoop { mReader := some rd, mLogger := lg } noFault rd "timestamp" STREAMS_PER_QUERY 0
          true fuel 0 incl w = (.ret none, w2) ∧
        w2.calls = w.calls ++ ext ∧ (begins ext).length = fuel * STREAMS_PER_QUERY
  | 0, incl, w, _ => ⟨w, [], rfl, (List.append_nil _).symm, by simp [begins]⟩
  | fuel + 1, incl, w, hw => by
    obtain ⟨w1, ext1, hb1, hr1, ht1⟩ := readBatch_timestamp { mReader := some rd, mLogger := lg }
      rd hrd 0 incl 0 true w (by rw [hw]; exact hcf)
    have hb0 : boundOf 0 incl = none := rfl
    have hsel : selectRows (fun r => r.timestamp) (boundOf 0 incl) (boundOf 0 true)
        (some STREAMS_PER_QUERY) w.tables.stream = w.tables.stream.take STREAMS_PER_QUERY := by
      rw [hb0]
      exact selectRows_ties 0 _ (by rw [hw]; exact hts) _
    rw [hsel] at hb1 ht1
    have hlen : (w.tables.stream.take STREAMS_PER_QUERY).length = STREAMS_PER_QUERY := by
      rw [List.length_take, hw]
      exact Nat.min_eq_left hn
    have hlast : (((w.tables.stream.take STREAMS_PER_QUERY).getLast?.map hdrOfRow).getD
        hdrUninit).timestamp = 0 := by
      rcases hg : (w.tables.stream.take STREAMS_PER_QUERY).getLast? with _ | r
      · rfl
      · obtain ⟨ys, hys⟩ := List.getLast?_eq_some_iff.mp hg
        have hm : r ∈ w.tables.stream :=
          List.mem_of_mem_take
            (by rw [hys]; exact List.mem_append_right _ (List.mem_singleton_self r))
        rw [hw] at hm
        exact hts r hm
    rw [hlen, if_neg (lt_irrefl _), hlast] at hb1
    obtain ⟨w2, ext2, ih1, ih2, ih3⟩ := timestamp_zero_loops rd hrd lg ts hcf hts hn fuel false w1
      (by rw [hr1.1]; exact hw)
    refine ⟨w2, ext1 ++ ext2, ?_, ?_, ?_⟩
    · rw [readLoop_some _ _ _ _ _ _ _ _ _ _ _ _ _ hb1]
      exact ih1
    · rw [ih2, hr1.2.1, List.append_assoc]
    · rw [begins_append, List.length_append, ih3, ht1.RowsTrace_begins, List.length_map, hlen]
      ring

theorem exSameTime_timestamp (t n : Nat) : ∀ r ∈ (exSameTime t n).tables.stream, r.timestamp = t := by
  intro r hr
  simp only [exSameTime, List.mem_map] at hr
  obtain ⟨i, _, rfl⟩ := hr
  rfl

theorem exSameTime_length (t n : Nat) : (exSameTime t n).tables.stream.length = n := by
  simp [exSameTime]

theorem exSameTime_chunks (t n : Nat) : ChunksFound (exSameTime t n).tables :=
  fun _ hd => absurd hd (List.not_mem_nil _)

theorem Read_timestamp_zero (rd : Reader) (hrd : ∀ hist c, rd hist c = true) (lg : Bool)
    (w : World) (hcf : ChunksFound w.tables) (hts : ∀ r ∈ w.tables.stream, r.timestamp = 0)
    (hn : STREAMS_PER_QUERY ≤ w.tables.stream.length) (fuel : Nat) :
    (Read { mReader := some rd, mLogger := lg } noFault fuel (some "timestamp") 0 true 0 true
      w).1 = .ret none ∧
    (begins ((Read { mReader := some rd, mLogger := lg } noFault fuel (some "timestamp") 0 true 0
      true w).2.calls.drop w.calls.length)).length = fuel * STREAMS_PER_QUERY := by
  obtain ⟨w2, ext, h1, h2, h3⟩ := timestamp_zero_loops rd hrd lg w.tables hcf hts hn fuel true w rfl
  have hread : Read { mReader := some rd, mLogger := lg } noFault fuel (some "timestamp") 0
      true 0 true w = (.ret none, w2) := by
    unfold Read
    exact tryCatch_ret _ _ _ _ _ _ h1
  rw [hread]
  refine ⟨rfl, ?_⟩
  simp only []
  rw [h2, List.drop_left]
  exact h3

/-- C25 fails for rows that share a timestamp.  Take a store in which every
header row has the timestamp `t` and there are more than 100 rows, a reader
that never stops, no backend failure and no bounds, so that every row is in
range.  When `t > 0`, `Read` by `timestamp` returns true after visiting only
the first 100 rows: the second batch asks for timestamps above `t` and finds
none, so the other rows are never visited.  When `t = 0`, the lower bound 0
handed to the next batch means no bound: every batch visits the same first 100
rows again and the loop does not end within any number of batches. -/
theorem C25_timestamp_scan_skips_or_loops (rd : Reader) (hrd : ∀ hist c, rd hist c = true)
    (lg : Bool) (t : Nat) (w : World) (hcf : ChunksFound w.tables)
    (hts : ∀ r ∈ w.tables.stream, r.timestamp = t)
    (hn : STREAMS_PER_QUERY < w.tables.stream.length) :
    (0 < t → ∀ fuel,
      (Read { mReader := some rd, mLogger := lg } noFault (fuel + 2) (some "timestamp") 0 true 0
        true w).1 = .ret (some true) ∧
      begins ((Read { mReader := some rd, mLogger := lg } noFault (fuel + 2) (some "timestamp") 0
        true 0 true w).2.calls.drop w.calls.length) =
          (w.tables.stream.take STREAMS_PER_QUERY).map hdrOfRow ∧
      (begins ((Read { mReader := some rd, mLogger := lg } noFault (fuel + 2) (some "timestamp") 0
        true 0 true w).2.calls.drop w.calls.length)).length < w.tables.stream.length) ∧
    (t = 0 → ∀ fuel,
      (Read { mReader := some rd, mLogger := lg } noFault fuel (some "timestamp") 0 true 0 true
        w).1 = .ret none ∧
      (begins ((Read { mReader := some rd, mLogger := lg } noFault fuel (some "timestamp") 0 true
        0 true w).2.calls.drop w.calls.length)).length = fuel * STREAMS_PER_QUERY) := by
  refine ⟨fun ht fuel => ?_, fun ht fuel => ?_⟩
  · obtain ⟨h1, h2⟩ := timestamp_ties_skipped rd hrd lg t ht w hcf hts (le_of_lt hn) fuel
    refine ⟨h1, h2, ?_⟩
    rw [h2, List.length_map, List.length_take, Nat.min_eq_left (le_of_lt hn)]
    exact hn
  · subst ht
    exact Read_timestamp_zero rd hrd lg w hcf hts (le_of_lt hn) fuel

theorem C25_timestamp_scan_skips_or_loops_witness :
    (0 < 5 → ∀ fuel,
      (Read { mReader := some fun _ _ => true, mLogger := false } noFault (fuel + 2)
        (some "timestamp") 0 true 0 true (exSameTime 5 101)).1 = .ret (some true) ∧
      begins ((Read { mReader := some fun _ _ => true, mLogger := false } noFault (fuel + 2)
        (some "timestamp") 0 true 0 true (exSameTime 5 101)).2.calls.drop
          (exSameTime 5 101).calls.length) =
          ((exSameTime 5 101).tables.stream.take STREAMS_PER_QUERY).map hdrOfRow ∧
      (begins ((Read { mReader := some fun _ _ => true, mLogger := false } noFault (fuel + 2)
        (some "timestamp") 0 true 0 true (exSameTime 5 101)).2.calls.drop
          (exSameTime 5 101).calls.length)).length < (exSameTime 5 101).tables.stream.length) ∧
    (5 = 0 → ∀ fuel,
      (Read { mReader := some fun _ _ => true, mLogger := false } noFault fuel (some "timestamp")
        0 true 0 true (exSameTime 5 101)).1 = .ret none ∧
      (begins ((Read { mReader := some fun _ _ => true, mLogger := false } noFault fuel
        (some "timestamp") 0 true 0 true (exSameTime 5 101)).2.calls.drop
          (exSameTime 5 101).calls.length)).length = fuel * STREAMS_PER_QUERY) :=
  C25_timestamp_scan_skips_or_loops (fun _ _ => true) (fun _ _ => rfl) false 5 (exSameTime 5 101)
    (exSameTime_chunks 5 101) (exSameTime_timestamp 5 101)
    (by rw [exSameTime_length]; decide)

/-- The scan by timestamp over 100 rows of timestamp 0 does not end: whatever
the number of batches allowed, it is used up. -/
theorem exSameTime_zero_never_ends (fuel : Nat) :
    (Read { mReader := some fun _ _ => true, mLogger := false } noFault fuel (some "timestamp") 0
      true 0 true (exSameTime 0 100)).1 = .ret none :=
  (Read_timestamp_zero (fun _ _ => true) (fun _ _ => rfl) false (exSameTime 0 100)
    (exSameTime_chunks 0 100) (exSameTime_timestamp 0 100)
    (by rw [exSameTime_length]; decide) fuel).1

theorem headerBounds_chunk : ∀ (qs : List Stmt), (∀ q ∈ qs, IsChunkQuery q) → headerBounds qs = []
  | [], _ => rfl
  | q :: qs, h => by
    have hq := h q (List.mem_cons_self _ _)
    have ht := headerBounds_chunk qs fun x hx => h x (List.mem_cons_of_mem _ hx)
    unfold headerBounds at ht ⊢
    cases q <;> first | exact absurd hq id | (simp only [List.filterMap_cons]; exact ht)

theorem headerBounds_batch (col : String) (lo up : Bound) (lim : Option Nat) (qs : List Stmt)
    (hq : ∀ q ∈ qs, IsChunkQuery q) :
    headerBounds (.lockRead :: .selectStreams col lo up lim :: (qs ++ [.unlock])) = [lo] := by
  have h := headerBounds_chunk qs hq
  unfold headerBounds at h ⊢
  simp only [List.filterMap_cons, List.filterMap_append, h, List.filterMap_nil, List.nil_append]

/-- The statements of one batch whose lock is acquired, with the bounds of its
header query. -/
theorem readBatch_bounds (e : Engine) (f : Faults) (rd : Reader) (col : String)
    (limit first : Nat) (inclusive_first : Bool) (last : Nat) (inclusive_last : Bool) (w : World)
    (hf : f w.log.length = false) :
    ∃ qs, (∀ q ∈ qs, IsChunkQuery q) ∧
      (readBatch e f rd col limit first inclusive_first last inclusive_last w).2.log =
        w.log ++ (.lockRead :: .selectStreams col
          (if first > 0 then some (inclusive_first, first) else none)
          (if last > 0 then some (inclusive_last, last) else none)
          (if limit > 0 then some limit else none) :: (qs ++ [.unlock])) := by
  unfold readBatch
  rw [bind_apply]
  simp only [lockRead, backend, hf, Bool.false_eq_true, if_false]
  obtain ⟨qs, hl, hp, hna⟩ := batchBody_log e f rd col limit
    (if first > 0 then some (inclusive_first, first) else none)
    (if last > 0 then some (inclusive_last, last) else none)
    (if limit > 0 then some limit else none)
    { w with log := w.log ++ [.lockRead], committed := w.tables }
  refine ⟨qs, hp, ?_⟩
  rw [withDtor_unlock_log f _ _ hna, hl]
  simp

theorem cursorIds_short (limit : Nat) (sel : List StreamRow) (h : sel.length < limit) :
    cursorIds limit sel = [] := by
  unfold cursorIds
  rw [Nat.div_eq_of_lt h]
  rfl

theorem cursorIds_full (limit : Nat) (hlim : 0 < limit) (sel : List StreamRow)
    (h : limit ≤ sel.length) :
    cursorIds limit sel =
      (((sel.take limit).getLast?).map fun r => r.id).getD 0 :: cursorIds limit (sel.drop limit) := by
  unfold cursorIds
  have hd : sel.length / limit = (sel.drop limit).length / limit + 1 := by
    rw [List.length_drop]
    have := Nat.sub_add_cancel h
    conv_lhs => rw [← this]
    exact Nat.add_div_right _ hlim
  rw [hd, List.range_succ_eq_map, List.map_cons, List.map_map]
  congr 1
  · rw [List.getLast?_eq_getElem?, List.length_take, Nat.min_eq_left h, Nat.mul_zero,
      Nat.zero_add, List.getElem?_take_of_lt (Nat.sub_lt hlim Nat.one_pos)]
  · apply List.map_congr_left
    intro k _
    simp only [Function.comp, List.getElem?_drop]
    congr 3
    rw [Nat.succ_eq_add_one, Nat.mul_add, Nat.mul_one]
    omega

theorem headerBounds_append (a b : List Stmt) :
    headerBounds (a ++ b) = headerBounds a ++ headerBounds b := by
  unfold headerBounds
  exact List.filterMap_append _ _ _

/-- The header queries of an uncancelled scan by id without backend failure,
given enough batches: the first carries the caller's lower bound, each later
one the id of the last row of the full batch before it, exclusive. -/
theorem readLoop_bounds (e : Engine) (rd : Reader) (hrd : ∀ hist c, rd hist c = true)
    (limit : Nat) (hlim : 0 < limit) (last : Nat) (inclusive_last : Bool) :
    ∀ (fuel first : Nat) (inclusive_first : Bool) (w : World), ChunksFound w.tables →
      (w.tables.stream.map fun r => r.id).Nodup → (∀ r ∈ w.tables.stream, 0 < r.id) →
      (selectRows (fun r => r.id) (boundOf first inclusive_first)
        (boundOf last inclusive_last) none w.tables.stream).length / limit < fuel →
      ∃ w2 lg,
        readLoop e noFault rd "id" limit last inclusive_last fuel first inclusive_first w =
          (.ret (some true), w2) ∧
        w2.log = w.log ++ lg ∧
        headerBounds lg = boundOf first inclusive_first ::
          (cursorIds limit (selectRows (fun r => r.id) (boundOf first inclusive_first)
            (boundOf last inclusive_last) none w.tables.stream)).map fun c => some (false, c) := by
  intro fuel
  induction fuel with
  | zero =>
    intro first inclusive_first w _ _ _ h
    exact absurd h (Nat.not_lt_zero _)
  | succ fuel ih =>
    intro first inclusive_first w hcf hnd hpos hfuel
    obtain ⟨next, w1, vis1, ext1, s1, hb, hr1, ht1, hp1, hs1, hn1⟩ :=
      readBatch_spec e rd limit hlim first inclusive_first last inclusive_last w hcf
    have hs := ht1.RowsTrace_not_stopped hrd
    subst hs
    obtain ⟨hv, hnext⟩ := hn1 rfl
    obtain ⟨qs, hq, hlog⟩ := readBatch_bounds e noFault rd "id" limit first inclusive_first last
      inclusive_last w rfl
    rw [hb] at hlog
    have hlog1 : w1.log = w.log ++ (.lockRead :: .selectStreams "id"
        (boundOf first inclusive_first) (boundOf last inclusive_last)
        (if limit > 0 then some limit else none) :: (qs ++ [.unlock])) := hlog
    have hhb := headerBounds_batch "id" (boundOf first inclusive_first)
      (boundOf last inclusive_last) (if limit > 0 then some limit else none) qs hq
    by_cases hshort : vis1.length < limit
    · rw [hnext, if_pos hshort] at hb
      have hlen : (selectRows (fun r => r.id) (boundOf first inclusive_first)
          (boundOf last inclusive_last) none w.tables.stream).length < limit := by
        have hl := congrArg List.length hv
        rw [List.length_take] at hl
        omega
      refine ⟨w1, _, readLoop_none _ _ _ _ _ _ _ _ _ _ _ _ hb, hlog1, ?_⟩
      rw [hhb, cursorIds_short limit _ hlen]
      rfl
    · have hne : vis1 ≠ [] := by
        intro h0
        rw [h0] at hshort
        exact hshort hlim
      have hc : ((vis1.getLast?.map hdrOfRow).getD hdrUninit).id = (vis1.getLast hne).id := by
        rw [List.getLast?_eq_getLast vis1 hne]
        rfl
      have hmem : vis1.getLast hne ∈ w.tables.stream := by
        have h2 : ∀ x ∈ vis1, x ∈ w.tables.stream := by
          intro x hx
          rw [hv] at hx
          exact (mem_selectRows_none.mp (List.mem_of_mem_take hx)).1
        exact h2 _ (List.getLast_mem hne)
      have hcpos : 0 < (vis1.getLast hne).id := hpos _ hmem
      rw [hnext, if_neg hshort, hc] at hb
      have hne2 : (selectRows (fun r => r.id) (boundOf first inclusive_first)
          (boundOf last inclusive_last) none w.tables.stream).take limit ≠ [] := by
        rw [← hv]; exact hne
      have hcur := selectRows_cursor (boundOf first inclusive_first)
        (boundOf last inclusive_last) w.tables.stream limit hnd hne2
      have hlast : (vis1.getLast hne).id =
          (((selectRows (fun r => r.id) (boundOf first inclusive_first)
            (boundOf last inclusive_last) none w.tables.stream).take limit).getLast hne2).id := by
        congr 1
        exact List.getLast_congr _ _ hv
      have hlen : limit ≤ (selectRows (fun r => r.id) (boundOf first inclusive_first)
          (boundOf last inclusive_last) none w.tables.stream).length := by
        have hl := congrArg List.length hv
        rw [List.length_take] at hl
        omega
      have hf2 : ((selectRows (fun r => r.id) (boundOf first inclusive_first)
          (boundOf last inclusive_last) none w.tables.stream).drop limit).length / limit <
          fuel := by
        rw [Nat.div_lt_iff_lt_mul hlim] at hfuel ⊢
        rw [List.length_drop]
        rw [Nat.succ_mul] at hfuel
        omega
      have hsel2 : selectRows (fun r => r.id) (boundOf (vis1.getLast hne).id false)
          (boundOf last inclusive_last) none w1.tables.stream =
          (selectRows (fun r => r.id) (boundOf first inclusive_first)
            (boundOf last inclusive_last) none w.tables.stream).drop limit := by
        rw [hr1.1, boundOf_pos _ _ hcpos, hlast, hcur]
      obtain ⟨w2, lg2, h2, hl2, hb2⟩ :=
        ih (vis1.getLast hne).id false w1 (by rw [hr1.1]; exact hcf)
          (by rw [hr1.1]; exact hnd) (by rw [hr1.1]; exact hpos) (by rw [hsel2]; exact hf2)
      rw [hsel2] at hb2
      refine ⟨w2, (.lockRead :: .selectStreams "id" (boundOf first inclusive_first)
        (boundOf last inclusive_last) (if limit > 0 then some limit else none) ::
        (qs ++ [.unlock])) ++ lg2, ?_, ?_, ?_⟩
      · rw [readLoop_some _ _ _ _ _ _ _ _ _ _ _ _ _ hb]
        exact h2
      · rw [hl2, hlog1, List.append_assoc]
      · rw [headerBounds_append, hhb, hb2, cursorIds_full limit hlim _ hlen, boundOf_pos _ _ hcpos]
        have hg : ((selectRows (fun r => r.id) (boundOf first inclusive_first)
            (boundOf last inclusive_last) none w.tables.stream).take limit).getLast? =
            some (vis1.getLast hne) := by
          rw [← hv]
          exact List.getLast?_eq_getLast vis1 hne
        rw [hg]
        rfl

theorem cursorIds_get (limit : Nat) (hlim : 0 < limit) (sel : List StreamRow) (k : Nat)
    (hk : k < sel.length / limit) :
    ∃ h : limit * k + (limit - 1) < sel.length,
      (cursorIds limit sel)[k]? = some (sel.get ⟨limit * k + (limit - 1), h⟩).id := by
  have hi : limit * k + (limit - 1) < sel.length := by
    have h1 : (k + 1) * limit ≤ sel.length := (Nat.le_div_iff_mul_le hlim).mp hk
    have h2 : limit * k + (limit - 1) < (k + 1) * limit := by
      rw [Nat.succ_mul, Nat.mul_comm]
      omega
    omega
  refine ⟨hi, ?_⟩
  unfold cursorIds
  rw [List.getElem?_map, List.getElem?_range hk]
  simp only [Option.map_some', List.getElem?_eq_getElem hi, Option.getD_some]
  rfl

theorem cursorIds_sorted (limit : Nat) (hlim : 0 < limit) (sel : List StreamRow)
    (hs : AscIds sel) : (cursorIds limit sel).Sorted fun a b => a < b := by
  unfold cursorIds
  rw [List.Sorted, List.pairwise_map]
  refine (List.pairwise_lt_range _).imp_of_mem ?_
  intro a b ha hb hab
  rw [List.mem_range] at ha hb
  have h1 : (a + 1) * limit ≤ sel.length := (Nat.le_div_iff_mul_le hlim).mp ha
  have h2 : (b + 1) * limit ≤ sel.length := (Nat.le_div_iff_mul_le hlim).mp hb
  have h3 : limit * a + (limit - 1) < limit * b + (limit - 1) :=
    Nat.add_lt_add_right (Nat.mul_lt_mul_of_pos_left hab hlim) _
  have h4 : limit * b + (limit - 1) < sel.length := by
    have : limit * b + (limit - 1) < (b + 1) * limit := by
      rw [Nat.succ_mul, Nat.mul_comm]
      omega
    omega
  have h5 : limit * a + (limit - 1) < sel.length := lt_trans h3 h4
  rw [List.getElem?_eq_getElem h5, List.getElem?_eq_getElem h4]
  exact List.pairwise_iff_getElem.mp hs _ _ h5 h4 h3

/-- C24: on a well-formed store, with a reader that never stops, no backend
failure and `n` header rows within the bounds, `ReadById` allowed more than
`n / 100` batches returns true, and the header queries it sent are `n / 100 + 1`
in number: the first with the caller's lower bound, the one after the `k`-th
full batch with the id of the last row of that batch (the row at position
`100 * k + 99` of the rows in range, in ascending id order) as exclusive lower
bound; these ids increase strictly.  In particular a first batch of fewer than
100 rows is the only one. -/
theorem C24_header_query_count (rd : Reader) (hrd : ∀ hist c, rd hist c = true) (lg : Bool)
    (fuel first : Nat) (inclusive_first : Bool) (last : Nat) (inclusive_last : Bool) (w : World)
    (hwf : Wf w)
    (hfuel : (inRange first inclusive_first last inclusive_last w.tables).length / 100 < fuel) :
    (ReadById { mReader := some rd, mLogger := lg } noFault fuel first inclusive_first last
      inclusive_last w).1 = .ret (some true) ∧
    headerBounds (issued (ReadById { mReader := some rd, mLogger := lg } noFault fuel first
      inclusive_first last inclusive_last) w) =
      boundOf first inclusive_first ::
        (cursorIds 100 (inRange first inclusive_first last inclusive_last w.tables)).map
          (fun c => some (false, c)) ∧
    (headerBounds (issued (ReadById { mReader := some rd, mLogger := lg } noFault fuel first
      inclusive_first last inclusive_last) w)).length =
      (inRange first inclusive_first last inclusive_last w.tables).length / 100 + 1 ∧
    (cursorIds 100 (inRange first inclusive_first last inclusive_last w.tables)).Sorted
      (fun a b => a < b) ∧
    (∀ k, k < (inRange first inclusive_first last inclusive_last w.tables).length / 100 →
      ∃ h : 100 * k + 99 < (inRange first inclusive_first last inclusive_last w.tables).length,
        (cursorIds 100 (inRange first inclusive_first last inclusive_last w.tables))[k]? =
          some ((inRange first inclusive_first last inclusive_last w.tables).get
            ⟨100 * k + 99, h⟩).id) ∧
    ((inRange first inclusive_first last inclusive_last w.tables).length < 100 →
      headerBounds (issued (ReadById { mReader := some rd, mLogger := lg } noFault fuel first
        inclusive_first last inclusive_last) w) = [boundOf first inclusive_first]) := by
  obtain ⟨w2, lg2, h1, h2, h3⟩ := readLoop_bounds { mReader := some rd, mLogger := lg } rd hrd
    STREAMS_PER_QUERY (by decide) last inclusive_last fuel first inclusive_first w
    hwf.Wf_chunksFound hwf.2.2.1 (fun r hr => (hwf.2.1 r hr).1) hfuel
  have hread : ReadById { mReader := some rd, mLogger := lg } noFault fuel first inclusive_first
      last inclusive_last w = (.ret (some true), w2) := by
    unfold ReadById Read
    exact tryCatch_ret _ _ _ _ _ _ h1
  have hiss : issued (ReadById { mReader := some rd, mLogger := lg } noFault fuel first
      inclusive_first last inclusive_last) w = lg2 := by
    apply issued_of_log
    rw [hread]
    exact h2
  have hb : headerBounds lg2 = boundOf first inclusive_first ::
      (cursorIds 100 (inRange first inclusive_first last inclusive_last w.tables)).map
        (fun c => some (false, c)) := h3
  rw [hiss, hread]
  refine ⟨rfl, hb, ?_, ?_, ?_, ?_⟩
  · rw [hb, List.length_cons, List.length_map]
    unfold cursorIds
    rw [List.length_map, List.length_range]
  · exact cursorIds_sorted 100 (by decide) _ (ascIds_selectRows _ _ _ hwf.2.2.1)
  · intro k hk
    exact cursorIds_get 100 (by decide) _ k hk
  · intro hlt
    rw [hb, cursorIds_short 100 _ hlt]
    rfl

theorem C24_header_query_count_witness :
    (ReadById { mReader := some fun _ _ => true, mLogger := true } noFault 1 0 true 0 true
      exTwoEmpty).1 = .ret (some true) ∧
    headerBounds (issued (ReadById { mReader := some fun _ _ => true, mLogger := true } noFault 1
      0 true 0 true) exTwoEmpty) =
      boundOf 0 true ::
        (cursorIds 100 (inRange 0 true 0 true exTwoEmpty.tables)).map (fun c => some (false, c)) ∧
    (headerBounds (issued (ReadById { mReader := some fun _ _ => true, mLogger := true } noFault 1
      0 true 0 true) exTwoEmpty)).length =
      (inRange 0 true 0 true exTwoEmpty.tables).length / 100 + 1 ∧
    (cursorIds 100 (inRange 0 true 0 true exTwoEmpty.tables)).Sorted (fun a b => a < b) ∧
    (∀ k, k < (inRange 0 true 0 true exTwoEmpty.tables).length / 100 →
      ∃ h : 100 * k + 99 < (inRange 0 true 0 true exTwoEmpty.tables).length,
        (cursorIds 100 (inRange 0 true 0 true exTwoEmpty.tables))[k]? =
          some ((inRange 0 true 0 true exTwoEmpty.tables).get ⟨100 * k + 99, h⟩).id) ∧
    ((inRange 0 true 0 true exTwoEmpty.tables).length < 100 →
      headerBounds (issued (ReadById { mReader := some fun _ _ => true, mLogger := true } noFault 1
        0 true 0 true) exTwoEmpty) = [boundOf 0 true]) :=
  C24_header_query_count (fun _ _ => true) (fun _ _ => rfl) true 1 0 true 0 true exTwoEmpty
    (by decide) (by decide)

theorem writeToLog_tables (logger : Bool) (t : Nat) (msg : String) (s : Env) :
    (s.writeToLog logger t msg).tables = s.tables := by
  unfold Env.writeToLog
  split
  · rfl
  · split
    · rfl
    · split <;> rfl

theorem writeToLog_schema (logger : Bool) (t : Nat) (msg : String) (s : Env) :
    (s.writeToLog logger t msg).schema = s.schema := by
  unfold Env.writeToLog
  split
  · rfl
  · split
    · rfl
    · split <;> rfl

theorem found_eq_hasTable (s : Env) (table : String) :
    (((s.tables.filter fun t => t.1 = s.schema ∧ t.2.1 = table).map fun t => t.2.1).any
      fun n => n == table) = s.hasTable table := by
  unfold Env.hasTable
  rw [Bool.eq_iff_iff]
  simp only [List.any_eq_true, List.mem_map, List.mem_filter, decide_eq_true_eq, beq_iff_eq,
    Bool.and_eq_true]
  constructor
  · rintro ⟨n, ⟨t, ⟨ht, h1, h2⟩, rfl⟩, _⟩
    exact ⟨t, ht, h1, h2⟩
  · rintro ⟨t, ht, h1, h2⟩
    exact ⟨t.2.1, ⟨t, ⟨ht, h1, h2⟩, rfl⟩, h2⟩

/-- The lookup when `getTables` succeeds: one call, the answer is whether the
schema holds the table. -/
theorem LookupTable_ok (logger : Bool) (f : Faults) (table : String) (found : Bool) (s : Env)
    (h1 : f s.ops.length = false) (h2 : s.listsTables = true) :
    LookupTable logger f table found s =
      (.ret (true, s.hasTable table),
        { s with ops := s.ops ++ [(.getTables s.schema table, false)] }) := by
  unfold LookupTable tryCatchI
  simp only [bindI_apply, callI, h1, h2, Bool.false_or, Bool.not_true, Bool.false_eq_true,
    if_false, if_true, pureI_apply]
  rw [← found_eq_hasTable]

/-- The lookup when `getTables` throws or returns NULL: false, one call, no
table touched. -/
theorem LookupTable_failed (logger : Bool) (f : Faults) (table : String) (found : Bool) (s : Env)
    (h : f s.ops.length = true ∨ s.listsTables = false) :
    (LookupTable logger f table found s).1 = .ret (false, found) ∧
    (LookupTable logger f table found s).2.tables = s.tables ∧
    (LookupTable logger f table found s).2.schema = s.schema ∧
    ∃ b, (LookupTable logger f table found s).2.ops =
      s.ops ++ [(.getTables s.schema table, b)] := by
  unfold LookupTable tryCatchI
  by_cases h1 : f s.ops.length = true
  · simp only [bindI_apply, callI, h1, Bool.true_or, if_true, pureI_apply, writeToLog_tables,
      writeToLog_schema, writeToLog_ops]
    exact ⟨trivial, trivial, trivial, true, rfl⟩
  · have h1f : f s.ops.length = false := by simpa using h1
    have h2 : s.listsTables = false := by
      rcases h with h | h
      · exact absurd h h1
      · exact h
    simp only [bindI_apply, callI, h1f, h2, Bool.false_or, Bool.not_true, Bool.false_eq_true,
      if_false, pureI_apply, writeToLog_tables, writeToLog_schema, writeToLog_ops]
    exact ⟨trivial, trivial, trivial, false, rfl⟩

theorem logI_apply (logger : Bool) (t : Nat) (msg : String) (s : Env) :
    logI logger t msg s = (.ret (), s.writeToLog logger t msg) := rfl

/-- `initTable` when the lookup succeeds and finds the table: nothing but the
lookup call is made, and the result is true. -/
theorem initTable_exists (logger : Bool) (f : Faults) (table sql : String) (s : Env)
    (h1 : f s.ops.length = false) (h2 : s.listsTables = true) (h3 : s.hasTable table = true) :
    (initTable logger f table sql s).1 = .ret true ∧
    (initTable logger f table sql s).2.tables = s.tables ∧
    (initTable logger f table sql s).2.schema = s.schema ∧
    (initTable logger f table sql s).2.ops = s.ops ++ [(.getTables s.schema table, false)] := by
  unfold initTable tryCatchI
  simp only [bindI_apply, LookupTable_ok logger f table false s h1 h2, h3, Bool.not_true,
    Bool.false_eq_true, if_false, if_true, logI_apply, pureI_apply, writeToLog_tables,
    writeToLog_schema, writeToLog_ops]
  exact ⟨trivial, trivial, trivial, trivial⟩

/-- `initTable` when the lookup fails: false, no table touched, no statement. -/
theorem initTable_lookup_failed (logger : Bool) (f : Faults) (table sql : String) (s : Env)
    (h : f s.ops.length = true ∨ s.listsTables = false) :
    (initTable logger f table sql s).1 = .ret false ∧
    (initTable logger f table sql s).2.tables = s.tables ∧
    (initTable logger f table sql s).2.schema = s.schema ∧
    ∃ b, (initTable logger f table sql s).2.ops = s.ops ++ [(.getTables s.schema table, b)] := by
  obtain ⟨l1, l2, l3, b, l4⟩ := LookupTable_failed logger f table false s h
  rcases hl : LookupTable logger f table false s with ⟨r, s1⟩
  rw [hl] at l1 l2 l3 l4
  simp only [] at l1 l2 l3 l4
  subst l1
  unfold initTable tryCatchI
  simp only [bindI_apply, hl, Bool.not_false, if_true, throwI, pureI_apply, writeToLog_tables,
    writeToLog_schema, writeToLog_ops]
  exact ⟨trivial, l2, l3, b, l4⟩

/-- `initTable` when the lookup succeeds and does not find the table: the
CREATE statement is sent; when it succeeds the table is added and the result is
true, when it throws nothing changes and the result is false. -/
theorem initTable_absent (logger : Bool) (f : Faults) (table sql : String) (s : Env)
    (h1 : f s.ops.length = false) (h2 : s.listsTables = true) (h3 : s.hasTable table = false) :
    (initTable logger f table sql s).2.schema = s.schema ∧
    (initTable logger f table sql s).2.ops =
      s.ops ++ [(.getTables s.schema table, false),
                (.createTable table sql, f (s.ops.length + 1))] ∧
    (f (s.ops.length + 1) = true →
      (initTable logger f table sql s).1 = .ret false ∧
      (initTable logger f table sql s).2.tables = s.tables) ∧
    (f (s.ops.length + 1) = false →
      (initTable logger f table sql s).1 = .ret true ∧
      (initTable logger f table sql s).2.tables = s.tables ++ [(s.schema, table, sql)]) := by
  have h3b : (s.tables.any fun t => t.1 == s.schema && t.2.1 == table) = false := h3
  unfold initTable tryCatchI
  by_cases hf : f (s.ops.length + 1) = true
  · simp only [bindI_apply, LookupTable_ok logger f table false s h1 h2, h3, Bool.not_true,
      Bool.false_eq_true, if_false, logI_apply, createTable, callI, writeToLog_ops,
      List.length_append, List.length_singleton, hf, Bool.true_or, if_true, pureI_apply,
      writeToLog_tables, writeToLog_schema, List.append_assoc, List.singleton_append]
    exact ⟨trivial, trivial, fun _ => ⟨trivial, trivial⟩, fun h => by cases h⟩
  · have hf2 : f (s.ops.length + 1) = false := by simpa using hf
    simp only [bindI_apply, LookupTable_ok logger f table false s h1 h2, h3, Bool.not_true,
      Bool.false_eq_true, if_false, logI_apply, createTable, callI, writeToLog_ops,
      List.length_append, List.length_singleton, hf2, Bool.false_or, pureI_apply,
      writeToLog_tables, writeToLog_schema, List.append_assoc, List.singleton_append, h3b]
    simp

theorem HoareI.HoareI_pure {α : Type} {P Q E : Env → Prop} (h : ∀ s, P s → Q s) (a : α) :
    HoareI P (pure a : I α) Q E :=
  fun s hs => ⟨fun _ => h s hs, fun hn => absurd rfl (hn a)⟩

theorem HoareI.HoareI_throwI {α : Type} {P Q E : Env → Prop} (h : ∀ s, P s → E s)
    (msg : String) : HoareI P (throwI msg : I α) Q E :=
  fun s hs => ⟨(fun ⟨_, ha⟩ => by cases ha), fun _ => h s hs⟩

theorem HoareI.HoareI_logI {P Q E : Env → Prop} (logger : Bool) (t : Nat) (msg : String)
    (h : ∀ s, P s → Q (s.writeToLog logger t msg)) : HoareI P (logI logger t msg) Q E :=
  fun s hs => ⟨fun _ => h s hs, fun hn => absurd rfl (hn ())⟩

theorem HoareI.HoareI_bind {α β : Type} {P R Q E : Env → Prop} {m : I α} {k : α → I β}
    (hm : HoareI P m R E) (hk : ∀ a, HoareI R (k a) Q E) : HoareI P (m >>= k) Q E := by
  intro s hs
  have h1 := hm s hs
  rw [bindI_apply]
  rcases hms : m s with ⟨r, s1⟩
  rw [hms] at h1
  cases r with
  | ret a => exact hk a s1 (h1.1 ⟨a, rfl⟩)
  | throw e =>
    exact ⟨(fun ⟨_, ha⟩ => by cases ha), fun _ => h1.2 fun a ha => by cases ha⟩
  | abort =>
    exact ⟨(fun ⟨_, ha⟩ => by cases ha), fun _ => h1.2 fun a ha => by cases ha⟩

theorem HoareI.HoareI_tryCatchI {α : Type} {P R Q E : Env → Prop} (logger : Bool)
    {body rest : I α} (hb : HoareI P body Q R) (hRE : ∀ s, R s → E s)
    (hlog : ∀ s msg, R s → R (s.writeToLog logger LOG_ERR msg)) (hr : HoareI R rest Q E) :
    HoareI P (tryCatchI logger body rest) Q E := by
  intro s hs
  have h1 := hb s hs
  unfold tryCatchI
  rcases hms : body s with ⟨r, s1⟩
  rw [hms] at h1
  cases r with
  | ret a => exact ⟨fun _ => h1.1 ⟨a, rfl⟩, fun hn => absurd rfl (hn a)⟩
  | throw e => exact hr _ (hlog _ _ (h1.2 fun a ha => by cases ha))
  | abort =>
    exact ⟨(fun ⟨_, ha⟩ => by cases ha), fun _ => hRE _ (h1.2 fun a ha => by cases ha)⟩

theorem HoareI.HoareI_callI {α : Type} {P Q E : Env → Prop} (f : Faults) (op : InitOp)
    (ok : Env → Bool) (run : Env → α × Env)
    (h : ∀ s, P s → E { s with ops := s.ops ++ [(op, true)] } ∧
      Q (run { s with ops := s.ops ++ [(op, false)] }).2) :
    HoareI P (callI f op ok run) Q E := by
  intro s hs
  unfold callI
  by_cases ht : (f s.ops.length || !ok s) = true
  · simp only [ht, if_true]
    exact ⟨(fun ⟨_, ha⟩ => by cases ha), fun _ => (h s hs).1⟩
  · have ht2 : (f s.ops.length || !ok s) = false := by simpa using ht
    simp only [ht2, Bool.false_eq_true, if_false]
    exact ⟨fun _ => (h s hs).2, fun hn => absurd rfl (hn _)⟩

/-- When the step always returns, the two conditions are one. -/
theorem HoareI.HoareI_final {α : Type} {P Q : Env → Prop} {m : I α} (h : HoareI P m Q Q) (s : Env)
    (hs : P s) : Q (m s).2 := by
  by_cases hr : ∃ a, (m s).1 = .ret a
  · exact (h s hs).1 hr
  · exact (h s hs).2 fun a ha => hr ⟨a, ha⟩

theorem InitEarly.InitEarly_refl (db : String) (s0 : Env) : InitEarly db s0 s0 :=
  ⟨rfl, [], (List.append_nil _).symm, fun _ h => absurd h (List.not_mem_nil _)⟩

theorem InitEarly.InitEarly_post {db : String} {s0 s : Env} (h : InitEarly db s0 s) :
    InitPost db s0 s := by
  obtain ⟨ht, ops, ho, hp⟩ := h
  refine ⟨⟨[], by rw [ht, List.append_nil], fun _ h => absurd h (List.not_mem_nil _)⟩,
    ⟨ops, ho, fun p hm => ?_, fun _ p hm hc => ?_⟩, fun _ => ht⟩
  · rcases hp p hm with h | h | h
    · exact Or.inl h
    · exact Or.inr (Or.inl h)
    · exact Or.inr (Or.inr (Or.inl h))
  · rcases hp p hm with h | h | h <;> rw [h] at hc <;> exact hc

theorem InitEarly.InitEarly_log {db : String} {s0 s : Env} (h : InitEarly db s0 s) (logger : Bool)
    (t : Nat) (msg : String) : InitEarly db s0 (s.writeToLog logger t msg) := by
  unfold InitEarly
  rw [writeToLog_tables, writeToLog_ops]
  exact h

theorem InitPost.InitPost_log {db : String} {s0 s : Env} (h : InitPost db s0 s) (logger : Bool)
    (t : Nat) (msg : String) : InitPost db s0 (s.writeToLog logger t msg) := by
  unfold InitPost
  rw [writeToLog_tables, writeToLog_ops]
  exact h

theorem InitEarly.InitEarly_call {db : String} {s0 s : Env} (h : InitEarly db s0 s) (op : InitOp)
    (hop : op = .getMetaData ∨ op = .getSchemas ∨ op = .setSchema db) (b : Bool) (s2 : Env)
    (ht : s2.tables = s.tables) (ho : s2.ops = s.ops ++ [(op, b)]) : InitEarly db s0 s2 := by
  obtain ⟨h1, ops, h2, h3⟩ := h
  refine ⟨ht.trans h1, ops ++ [(op, b)], by rw [ho, h2, List.append_assoc], fun p hp => ?_⟩
  rcases List.mem_append.mp hp with hm | hm
  · exact h3 p hm
  · rw [List.mem_singleton.mp hm]
    exact hop

theorem hasTable_of_hasBoth {db : String} {s : Env} {tables : List (String × String × String)}
    (hb : HasBoth db tables) (ht : s.tables = tables) (hs : s.schema = db) :
    s.hasTable STREAM_TABLE = true ∧ s.hasTable STREAMDATA_TABLE = true := by
  obtain ⟨⟨t1, m1, a1, b1⟩, ⟨t2, m2, a2, b2⟩⟩ := hb
  unfold Env.hasTable
  simp only [List.any_eq_true, Bool.and_eq_true, beq_iff_eq]
  rw [ht, hs]
  exact ⟨⟨t1, m1, a1, b1⟩, ⟨t2, m2, a2, b2⟩⟩

/-- One `initTable` for one of the two tables keeps the late invariant. -/
theorem InitLate.InitLate_initTable {db : String} {s0 s : Env} (h : InitLate db s0 s)
    (logger : Bool) (f : Faults) (table sql : String)
    (hts : (table = STREAM_TABLE ∧ sql = streamTableSql) ∨
      (table = STREAMDATA_TABLE ∧ sql = streamdataTableSql)) :
    InitLate db s0 (initTable logger f table sql s).2 := by
  obtain ⟨hs, ⟨added, ha, hadd⟩, ⟨ops, ho, hall, hnc⟩, hkeep⟩ := h
  have hget : InitAllowed db (.getTables s.schema table) := by
    rw [hs]
    rcases hts with ⟨h1, _⟩ | ⟨h1, _⟩ <;> rw [h1]
    · exact Or.inr (Or.inr (Or.inr (Or.inl rfl)))
    · exact Or.inr (Or.inr (Or.inr (Or.inr (Or.inl rfl))))
  have hcre : InitAllowed db (.createTable table sql) := by
    rcases hts with ⟨h1, h2⟩ | ⟨h1, h2⟩ <;> rw [h1, h2]
    · exact Or.inr (Or.inr (Or.inr (Or.inr (Or.inr (Or.inl rfl)))))
    · exact Or.inr (Or.inr (Or.inr (Or.inr (Or.inr (Or.inr rfl)))))
  have hentry : (s.schema, table, sql) = (db, STREAM_TABLE, streamTableSql) ∨
      (s.schema, table, sql) = (db, STREAMDATA_TABLE, streamdataTableSql) := by
    rw [hs]
    rcases hts with ⟨h1, h2⟩ | ⟨h1, h2⟩ <;> rw [h1, h2]
    · exact Or.inl rfl
    · exact Or.inr rfl
  have hpresent : HasBoth db s0.tables → s.hasTable table = true := by
    intro hb
    obtain ⟨p1, p2⟩ := hasTable_of_hasBoth hb (hkeep hb) hs
    rcases hts with ⟨h1, _⟩ | ⟨h1, _⟩ <;> rw [h1]
    · exact p1
    · exact p2
  -- the simple form: no table touched, one lookup call
  have hsimple : ∀ s2 : Env, s2.schema = s.schema → s2.tables = s.tables →
      (∃ b, s2.ops = s.ops ++ [(.getTables s.schema table, b)]) → InitLate db s0 s2 := by
    intro s2 e1 e2 ⟨b, e3⟩
    refine ⟨e1.trans hs, ⟨added, by rw [e2, ha], hadd⟩,
      ⟨ops ++ [(.getTables s.schema table, b)], by rw [e3, ho, List.append_assoc],
        fun p hp => ?_, fun hb p hp => ?_⟩, fun hb => by rw [e2]; exact hkeep hb⟩
    · rcases List.mem_append.mp hp with hm | hm
      · exact hall p hm
      · rw [List.mem_singleton.mp hm]
        exact hget
    · rcases List.mem_append.mp hp with hm | hm
      · exact hnc hb p hm
      · rw [List.mem_singleton.mp hm]
        exact id
  by_cases hfail : f s.ops.length = true ∨ s.listsTables = false
  · obtain ⟨_, e2, e1, e3⟩ := initTable_lookup_failed logger f table sql s hfail
    exact hsimple _ e1 e2 e3
  · have h1 : f s.ops.length = false := by
      by_contra hc
      exact hfail (Or.inl (by simpa using hc))
    have h2 : s.listsTables = true := by
      by_contra hc
      exact hfail (Or.inr (by simpa using hc))
    cases h3 : s.hasTable table with
    | true =>
      obtain ⟨_, e2, e1, e3⟩ := initTable_exists logger f table sql s h1 h2 h3
      exact hsimple _ e1 e2 ⟨false, e3⟩
    | false =>
      have hnb : ¬ HasBoth db s0.tables := fun hb => by
        rw [hpresent hb] at h3
        cases h3
      obtain ⟨e1, e3, c1, c2⟩ := initTable_absent logger f table sql s h1 h2 h3
      refine ⟨e1.trans hs, ?_, ⟨ops ++ [(.getTables s.schema table, false),
        (.createTable table sql, f (s.ops.length + 1))], by rw [e3, ho, List.append_assoc],
        fun p hp => ?_, fun hb => absurd hb hnb⟩, fun hb => absurd hb hnb⟩
      · cases hf : f (s.ops.length + 1) with
        | true => exact ⟨added, by rw [(c1 hf).2, ha], hadd⟩
        | false =>
          refine ⟨added ++ [(s.schema, table, sql)], by rw [(c2 hf).2, ha, List.append_assoc],
            fun t ht => ?_⟩
          rcases List.mem_append.mp ht with hm | hm
          · exact hadd t hm
          · rw [List.mem_singleton.mp hm]
            exact hentry
      · rcases List.mem_append.mp hp with hm | hm
        · exact hall p hm
        · simp only [List.mem_cons, List.mem_singleton, List.not_mem_nil, or_false] at hm
          rcases hm with hm | hm <;> rw [hm]
          · exact hget
          · exact hcre

theorem HoareI.HoareI_initTable (db : String) (s0 : Env) (logger : Bool) (f : Faults)
    (table sql : String)
    (hts : (table = STREAM_TABLE ∧ sql = streamTableSql) ∨
      (table = STREAMDATA_TABLE ∧ sql = streamdataTableSql)) :
    HoareI (InitLate db s0) (initTable logger f table sql) (InitLate db s0) (InitPost db s0) :=
  fun _ hs => ⟨fun _ => hs.InitLate_initTable logger f table sql hts,
    fun _ => (hs.InitLate_initTable logger f table sql hts).2⟩

/-- What `InitDatabase` leaves, for every outcome. -/
theorem InitDatabase_post (logger : Bool) (f : Faults) (db : String) (s0 : Env) :
    InitPost db s0 (InitDatabase logger f db s0).2 := by
  have hE : ∀ s, InitEarly db s0 s → InitPost db s0 s := fun s h => h.InitEarly_post
  have hL : ∀ s, InitLate db s0 s → InitPost db s0 s := fun s h => h.2
  have hmain : HoareI (InitEarly db s0) (InitDatabase logger f db) (InitPost db s0)
      (InitPost db s0) := by
    unfold InitDatabase
    refine HoareI.HoareI_tryCatchI logger ?_ (fun s h => h)
      (fun s msg h => h.InitPost_log logger LOG_ERR msg) (HoareI.HoareI_pure (fun s h => h) _)
    refine HoareI.HoareI_bind (R := InitEarly db s0) ?_ fun major => ?_
    · refine HoareI.HoareI_callI f _ _ _ fun s hs => ⟨?_, ?_⟩
      · exact hE _ (hs.InitEarly_call .getMetaData (Or.inl rfl) true _ rfl rfl)
      · exact hs.InitEarly_call .getMetaData (Or.inl rfl) false _ rfl rfl
    refine HoareI.HoareI_bind (R := InitEarly db s0)
      (HoareI.HoareI_logI logger _ _ fun s hs => hs.InitEarly_log logger _ _) fun _ => ?_
    split
    · exact HoareI.HoareI_throwI hE _
    refine HoareI.HoareI_bind (R := InitEarly db s0) ?_ fun minor => ?_
    · exact fun s hs => ⟨fun _ => hs, fun hn => absurd rfl (hn s.cdbcMinor)⟩
    refine HoareI.HoareI_bind (R := InitEarly db s0)
      (HoareI.HoareI_logI logger _ _ fun s hs => hs.InitEarly_log logger _ _) fun _ => ?_
    refine HoareI.HoareI_bind (R := InitEarly db s0) ?_ fun res => ?_
    · refine HoareI.HoareI_callI f _ _ _ fun s hs => ⟨?_, ?_⟩
      · exact hE _ (hs.InitEarly_call .getSchemas (Or.inr (Or.inl rfl)) true _ rfl rfl)
      · exact hs.InitEarly_call .getSchemas (Or.inr (Or.inl rfl)) false _ rfl rfl
    cases res with
    | none => exact HoareI.HoareI_throwI hE _
    | some names =>
      simp only []
      split
      · exact HoareI.HoareI_throwI hE _
      refine HoareI.HoareI_bind (R := InitLate db s0) ?_ fun _ => ?_
      · refine HoareI.HoareI_callI f _ _ _ fun s hs => ⟨?_, ?_⟩
        · exact hE _ (hs.InitEarly_call (.setSchema db) (Or.inr (Or.inr rfl)) true _ rfl rfl)
        · exact ⟨rfl, hE _ (hs.InitEarly_call (.setSchema db) (Or.inr (Or.inr rfl)) false _
            rfl rfl)⟩
      refine HoareI.HoareI_bind (R := InitLate db s0)
        (HoareI.HoareI_initTable db s0 logger f _ _ (Or.inl ⟨rfl, rfl⟩)) fun a => ?_
      split
      · exact HoareI.HoareI_throwI hL _
      refine HoareI.HoareI_bind (R := InitLate db s0)
        (HoareI.HoareI_initTable db s0 logger f _ _ (Or.inr ⟨rfl, rfl⟩)) fun b => ?_
      split
      · exact HoareI.HoareI_throwI hL _
      · exact HoareI.HoareI_pure hL _
  exact hmain.HoareI_final s0 (InitEarly.InitEarly_refl db s0)

theorem hasTable_congr {s s2 : Env} (h1 : s2.tables = s.tables) (h2 : s2.schema = s.schema)
    (t : String) : s2.hasTable t = s.hasTable t := by
  unfold Env.hasTable
  rw [h1, h2]

theorem hasTable_append {s s2 : Env} (entry : String × String × String)
    (h1 : s2.tables = s.tables ++ [entry]) (h2 : s2.schema = s.schema) (t : String) :
    s2.hasTable t = (s.hasTable t || (entry.1 == s.schema && entry.2.1 == t)) := by
  unfold Env.hasTable
  rw [h1, h2, List.any_append]
  simp

/-- An `initTable` that returns true leaves the table in the schema, and every
table that was there. -/
theorem initTable_ret_true (logger : Bool) (f : Faults) (table sql : String) (s s2 : Env)
    (h : initTable logger f table sql s = (.ret true, s2)) :
    s2.schema = s.schema ∧ s2.hasTable table = true ∧
    ∀ t, s.hasTable t = true → s2.hasTable t = true := by
  have hr : (initTable logger f table sql s).1 = .ret true := by rw [h]
  have h2e : (initTable logger f table sql s).2 = s2 := by rw [h]
  by_cases hfail : f s.ops.length = true ∨ s.listsTables = false
  · obtain ⟨e0, _⟩ := initTable_lookup_failed logger f table sql s hfail
    rw [hr] at e0
    cases e0
  · have h1 : f s.ops.length = false := by
      by_contra hc
      exact hfail (Or.inl (by simpa using hc))
    have h2 : s.listsTables = true := by
      by_contra hc
      exact hfail (Or.inr (by simpa using hc))
    cases h3 : s.hasTable table with
    | true =>
      obtain ⟨_, e2, e1, _⟩ := initTable_exists logger f table sql s h1 h2 h3
      rw [h2e] at e1 e2
      refine ⟨e1, by rw [hasTable_congr e2 e1, h3], fun t ht => by rw [hasTable_congr e2 e1, ht]⟩
    | false =>
      obtain ⟨e1, _, c1, c2⟩ := initTable_absent logger f table sql s h1 h2 h3
      cases hf : f (s.ops.length + 1) with
      | true =>
        have := (c1 hf).1
        rw [hr] at this
        cases this
      | false =>
        have e2 := (c2 hf).2
        rw [h2e] at e1 e2
        refine ⟨e1, ?_, fun t ht => ?_⟩
        · rw [hasTable_append _ e2 e1]
          simp
        · rw [hasTable_append _ e2 e1, ht]
          rfl

/-- An `InitDatabase` that returns true has set the schema and run both table
initialisations with the result true. -/
theorem InitDatabase_true_steps (logger : Bool) (f : Faults) (database : String) (s s2 : Env)
    (h : InitDatabase logger f database s = (.ret true, s2)) :
    ∃ s3 s4, s3.schema = database ∧
      initTable logger f STREAM_TABLE streamTableSql s3 = (.ret true, s4) ∧
      initTable logger f STREAMDATA_TABLE streamdataTableSql s4 = (.ret true, s2) := by
  unfold InitDatabase at h
  rcases tryCatchI_ret_inv _ _ _ _ _ _ h with hb | ⟨msg, s1, _, hr⟩
  swap
  · simp [pureI_apply] at hr
  rw [bindI_ret_iff] at hb
  obtain ⟨major, s1, _, hb⟩ := hb
  rw [bindI_ret_iff] at hb
  obtain ⟨_, s1b, _, hb⟩ := hb
  by_cases hmaj : major ≤ 0
  · simp [hmaj, throwI] at hb
  simp only [hmaj, if_false] at hb
  rw [bindI_ret_iff] at hb
  obtain ⟨minor, s1c, _, hb⟩ := hb
  rw [bindI_ret_iff] at hb
  obtain ⟨_, s1d, _, hb⟩ := hb
  rw [bindI_ret_iff] at hb
  obtain ⟨res, s2a, _, hb⟩ := hb
  cases res with
  | none => simp [throwI] at hb
  | some names =>
    simp only [] at hb
    by_cases hany : (names.any fun n => n == database) = true
    swap
    · simp [hany, throwI] at hb
    simp only [hany, Bool.not_true, Bool.false_eq_true, if_false] at hb
    rw [bindI_ret_iff] at hb
    obtain ⟨_, s3, hc3, hb⟩ := hb
    rw [callI_ret_iff] at hc3
    obtain ⟨_, _, _, hs3⟩ := hc3
    rw [bindI_ret_iff] at hb
    obtain ⟨a, s4, hi, hb⟩ := hb
    cases a with
    | false => simp [throwI] at hb
    | true =>
      simp only [Bool.not_true, Bool.false_eq_true, if_false] at hb
      rw [bindI_ret_iff] at hb
      obtain ⟨b, s5, hj, hb⟩ := hb
      cases b with
      | false => simp [throwI] at hb
      | true =>
        simp only [Bool.not_true, Bool.false_eq_true, if_false, pureI_apply, Prod.mk.injEq,
          true_and] at hb
        subst hb
        exact ⟨s3, s4, by rw [hs3], hi, hj⟩

theorem hasBoth_of_hasTable {s : Env} (h1 : s.hasTable STREAM_TABLE = true)
    (h2 : s.hasTable STREAMDATA_TABLE = true) : HasBoth s.schema s.tables := by
  unfold Env.hasTable at h1 h2
  simp only [List.any_eq_true, Bool.and_eq_true, beq_iff_eq] at h1 h2
  exact ⟨h1, h2⟩

/-- After an `InitDatabase` that returned true the schema is the database and
holds both tables. -/
theorem InitDatabase_true_both (logger : Bool) (f : Faults) (database : String) (s s2 : Env)
    (h : InitDatabase logger f database s = (.ret true, s2)) :
    s2.schema = database ∧ HasBoth database s2.tables := by
  obtain ⟨s3, s4, h3, hi, hj⟩ := InitDatabase_true_steps logger f database s s2 h
  obtain ⟨a1, a2, _⟩ := initTable_ret_true logger f _ _ s3 s4 hi
  obtain ⟨b1, b2, b3⟩ := initTable_ret_true logger f _ _ s4 s2 hj
  have hs : s2.schema = database := by rw [b1, a1, h3]
  have := hasBoth_of_hasTable (b3 _ a2) b2
  rw [hs] at this
  exact ⟨hs, this⟩

/-- The calls of `initTable`: a CREATE statement is among them only when the
lookup succeeded and did not find the table, and it is the one for this
table. -/
theorem initTable_ops (logger : Bool) (f : Faults) (table sql : String) (s : Env) :
    ∀ p ∈ (initTable logger f table sql s).2.ops.drop s.ops.length, IsCreate p.1 →
      s.hasTable table = false ∧ f s.ops.length = false ∧ s.listsTables = true ∧
        p.1 = .createTable table sql := by
  intro p hp hc
  by_cases hfail : f s.ops.length = true ∨ s.listsTables = false
  · obtain ⟨_, _, _, b, e3⟩ := initTable_lookup_failed logger f table sql s hfail
    rw [e3, List.drop_left, List.mem_singleton] at hp
    rw [hp] at hc
    exact absurd hc id
  · have h1 : f s.ops.length = false := by
      by_contra hc
      exact hfail (Or.inl (by simpa using hc))
    have h2 : s.listsTables = true := by
      by_contra hc
      exact hfail (Or.inr (by simpa using hc))
    cases h3 : s.hasTable table with
    | true =>
      obtain ⟨_, _, _, e3⟩ := initTable_exists logger f table sql s h1 h2 h3
      rw [e3, List.drop_left, List.mem_singleton] at hp
      rw [hp] at hc
      exact absurd hc id
    | false =>
      obtain ⟨_, e3, _, _⟩ := initTable_absent logger f table sql s h1 h2 h3
      rw [e3, List.drop_left] at hp
      simp only [List.mem_cons, List.mem_singleton, List.not_mem_nil, or_false] at hp
      rcases hp with hp | hp
      · rw [hp] at hc
        exact absurd hc id
      · exact ⟨rfl, h1, h2, by rw [hp]⟩

/-- After an `InitDatabase` that returned true, a second run sends no statement
and leaves the tables as they are, whatever its outcome. -/
theorem InitDatabase_second_run (logger : Bool) (f : Faults) (db : String) (s s1 : Env)
    (h1 : InitDatabase logger f db s = (.ret true, s1)) (logger2 : Bool) (f2 : Faults) :
    (InitDatabase logger2 f2 db s1).2.tables = s1.tables ∧
    ∀ p ∈ (InitDatabase logger2 f2 db s1).2.ops.drop s1.ops.length, ¬ IsCreate p.1 := by
  obtain ⟨_, hb⟩ := InitDatabase_true_both logger f db s s1 h1
  obtain ⟨_, ⟨ops, ho, _, hnc⟩, hk⟩ := InitDatabase_post logger2 f2 db s1
  refine ⟨hk hb, fun p hp => ?_⟩
  rw [ho, List.drop_left] at hp
  exact hnc hb p hp

theorem exServer_init : InitDatabase true noFault "test" exServer =
    (.ret true, (InitDatabase true noFault "test" exServer).2) :=
  Prod.ext (by rfl) rfl

/-- C22: schema initialisation is idempotent and does not destroy anything.
When the lookup succeeds and finds the table, `InitTranTable` and
`InitTranDataTable` make no call but the lookup, leave the tables as they are
and return true.  A CREATE statement is sent only when the lookup succeeded and
did not find the table, and it is the `CREATE TABLE IF NOT EXISTS` of that
table.  Whatever the outcome of `InitDatabase`, the tables it leaves are the
tables it found followed by at most the two tables of the engine, and the only
calls it makes are metadata calls, `setSchema` and these two CREATE statements
(no DROP, no ALTER).  After an `InitDatabase` that returned true, a second run,
whatever its logger and backend failures, sends no statement and leaves the
tables exactly as they are.  Example: on a server with an empty schema `test`,
the first run creates both tables, the second returns true and changes
nothing. -/
theorem C22_init_idempotent (logger : Bool) (f : Faults) (db : String) (s : Env) :
    (f s.ops.length = false → s.listsTables = true → s.hasTable STREAM_TABLE = true →
      (InitTranTable logger f s).1 = .ret true ∧
      (InitTranTable logger f s).2.tables = s.tables ∧
      (InitTranTable logger f s).2.ops = s.ops ++ [(.getTables s.schema STREAM_TABLE, false)]) ∧
    (f s.ops.length = false → s.listsTables = true → s.hasTable STREAMDATA_TABLE = true →
      (InitTranDataTable logger f s).1 = .ret true ∧
      (InitTranDataTable logger f s).2.tables = s.tables ∧
      (InitTranDataTable logger f s).2.ops =
        s.ops ++ [(.getTables s.schema STREAMDATA_TABLE, false)]) ∧
    (∀ p ∈ (InitTranTable logger f s).2.ops.drop s.ops.length, IsCreate p.1 →
      s.hasTable STREAM_TABLE = false ∧ f s.ops.length = false ∧ s.listsTables = true ∧
        p.1 = .createTable STREAM_TABLE streamTableSql) ∧
    (∀ p ∈ (InitTranDataTable logger f s).2.ops.drop s.ops.length, IsCreate p.1 →
      s.hasTable STREAMDATA_TABLE = false ∧ f s.ops.length = false ∧ s.listsTables = true ∧
        p.1 = .createTable STREAMDATA_TABLE streamdataTableSql) ∧
    InitPost db s (InitDatabase logger f db s).2 ∧
    ("CREATE TABLE IF NOT EXISTS stream (".toList <+: streamTableSql.toList ∧
      "CREATE TABLE IF NOT EXISTS streamdata (".toList <+: streamdataTableSql.toList) ∧
    (∀ s1, InitDatabase logger f db s = (.ret true, s1) →
      HasBoth db s1.tables ∧
      ∀ logger2 f2,
        (InitDatabase logger2 f2 db s1).2.tables = s1.tables ∧
        ∀ p ∈ (InitDatabase logger2 f2 db s1).2.ops.drop s1.ops.length, ¬ IsCreate p.1) ∧
    ((InitDatabase true noFault "test" exServer).1 = .ret true ∧
      (InitDatabase true noFault "test" exServer).2.tables =
        [("test", "stream", streamTableSql), ("test", "streamdata", streamdataTableSql)] ∧
      (InitDatabase true noFault "test" (InitDatabase true noFault "test" exServer).2).1 =
        .ret true ∧
      (InitDatabase true noFault "test" (InitDatabase true noFault "test" exServer).2).2.tables =
        (InitDatabase true noFault "test" exServer).2.tables) := by
  refine ⟨fun h1 h2 h3 => ?_, fun h1 h2 h3 => ?_, initTable_ops logger f _ _ s,
    initTable_ops logger f _ _ s, InitDatabase_post logger f db s, ⟨by decide, by decide⟩,
    fun s1 h1 => ?_, ?_⟩
  · obtain ⟨a, b, _, c⟩ := initTable_exists logger f STREAM_TABLE streamTableSql s h1 h2 h3
    exact ⟨a, b, c⟩
  · obtain ⟨a, b, _, c⟩ := initTable_exists logger f STREAMDATA_TABLE streamdataTableSql s h1 h2
      h3
    exact ⟨a, b, c⟩
  · exact ⟨(InitDatabase_true_both logger f db s s1 h1).2,
      fun logger2 f2 => InitDatabase_second_run logger f db s s1 h1 logger2 f2⟩
  · exact ⟨by rfl, by rfl, by rfl,
      (InitDatabase_second_run true noFault "test" exServer _ exServer_init true noFault).1⟩

/-- C4 fails when the rollback fails too.  `Write` of three bytes into the
empty store, with the backend failing the commit and then the rollback: the
`CATCH` logs the exception of the commit, `mCon->rollback()` runs outside any
`TRY` and throws, so `Write` does not return false but lets the exception out,
and the header row and the chunk row of the failed write are still in the
tables of the connection (the store was empty before the call). -/
theorem C4_rollback_failure_propagates :
    (Write exEngine exFaultCommitRollback (some exHdr) (StreamBuf [1, 2, 3]) exEmpty).1 =
      .throw "SQLException" ∧
    (Write exEngine exFaultCommitRollback (some exHdr) (StreamBuf [1, 2, 3]) exEmpty).2.tables =
      { stream := [{ id := 1, descr := "a", type := 1, size := 3, timestamp := 5 }],
        streamdata := [{ id := 1, masterid := 1, data := [1, 2, 3] }] } ∧
    exEmpty.tables = { stream := [], streamdata := [] } ∧
    (Write exEngine exFaultCommitRollback (some exHdr) (StreamBuf [1, 2, 3]) exEmpty).2.log =
      [.setAutoCommit false, .insertStream "a" 1 5, .selectLastInsertId, .prepareInsertData,
       .insertData 1 [1, 2, 3], .updateSize 3 1, .commit, .rollback] ∧
    (Write exEngine exFaultCommitRollback (some exHdr) (StreamBuf [1, 2, 3]) exEmpty).2.errors =
      ["SQLException"] := by
  refine ⟨by rfl, by rfl, rfl, by rfl, by rfl⟩

/-- C15: the statements of one `Delete`.  Whatever the outcome, every statement
it sends is one of: autocommit on, the WRITE lock, the `DELETE` on the header
table, the unlock, and, only when `reset_id` is true and `first == 0` and
`last == 0`, the two `ALTER table .. AUTO_INCREMENT=1` (on `stream` and on
`streamdata`).  Whenever it returns true the statements are exactly: autocommit
on, the lock, the one `DELETE`, then both resets if and only if `reset_id` is
true and `first == 0` and `last == 0`, then the unlock.  And it does return
true with exactly these statements when no statement fails and the column is
one the table has, as `id` always is; so with `reset_id` and both values 0 the
two resets are sent, and in every other case they are not. -/
theorem C15_delete_resets_counters (e : Engine) (f : Faults) (column : Option String)
    (first : Nat) (inclusive_first : Bool) (last : Nat) (inclusive_last : Bool) (reset_id : Bool)
    (w : World) :
    (∀ s ∈ (Delete e f column first inclusive_first last inclusive_last reset_id w).2.log.drop
        w.log.length,
      IsDeleteStmt column first inclusive_first last inclusive_last reset_id s) ∧
    (∀ col, column = some col →
      (Delete e f column first inclusive_first last inclusive_last reset_id w).1 = .ret true →
      (Delete e f column first inclusive_first last inclusive_last reset_id w).2.log =
        w.log ++ [.setAutoCommit true, .lockWrite,
          .deleteStreams (deleteWhere col first inclusive_first last inclusive_last)] ++
        (if reset_id = true ∧ first = 0 ∧ last = 0 then
          [.alterAutoIncrement STREAM_TABLE 1, .alterAutoIncrement STREAMDATA_TABLE 1] else []) ++
        [.unlock]) ∧
    (∀ col, whereValid (deleteWhere col first inclusive_first last inclusive_last) = true →
      (Delete e noFault (some col) first inclusive_first last inclusive_last reset_id w).1 =
        .ret true ∧
      (Delete e noFault (some col) first inclusive_first last inclusive_last reset_id w).2.log =
        w.log ++ [.setAutoCommit true, .lockWrite,
          .deleteStreams (deleteWhere col first inclusive_first last inclusive_last)] ++
        (if reset_id = true ∧ first = 0 ∧ last = 0 then
          [.alterAutoIncrement STREAM_TABLE 1, .alterAutoIncrement STREAMDATA_TABLE 1] else []) ++
        [.unlock]) ∧
    ((Delete e noFault (some "id") first inclusive_first last inclusive_last reset_id w).1 =
        .ret true ∧
      (Delete e noFault (some "id") first inclusive_first last inclusive_last reset_id w).2.log =
        w.log ++ [.setAutoCommit true, .lockWrite,
          .deleteStreams (deleteWhere "id" first inclusive_first last inclusive_last)] ++
        (if reset_id = true ∧ first = 0 ∧ last = 0 then
          [.alterAutoIncrement STREAM_TABLE 1, .alterAutoIncrement STREAMDATA_TABLE 1] else []) ++
        [.unlock]) ∧
    (Delete e noFault (some "id") 0 true 0 true true w).2.log =
      w.log ++ [.setAutoCommit true, .lockWrite, .deleteStreams [],
        .alterAutoIncrement "stream" 1, .alterAutoIncrement "streamdata" 1, .unlock] ∧
    (Delete e noFault (some "id") 0 true 0 true false w).2.log =
      w.log ++ [.setAutoCommit true, .lockWrite, .deleteStreams [], .unlock] := by
  refine ⟨(Inv.Inv_Delete e f column first inclusive_first last inclusive_last reset_id
    w).Issues_drop, fun col hcol hret => ?_, fun col hv => ?_, ?_, ?_, ?_⟩
  · subst hcol
    exact (Delete_ret e f col first inclusive_first last inclusive_last reset_id w _
      (Prod.ext hret rfl)).2.2.2
  · obtain ⟨h1, _, _, h4⟩ := Delete_noFault e col first inclusive_first last inclusive_last
      reset_id w hv
    exact ⟨h1, h4⟩
  · obtain ⟨h1, _, _, h4⟩ := Delete_noFault e "id" first inclusive_first last inclusive_last
      reset_id w (whereValid_id _ _ _ _)
    exact ⟨h1, h4⟩
  · rw [(Delete_noFault e "id" 0 true 0 true true w (whereValid_id _ _ _ _)).2.2.2]
    simp [deleteWhere, STREAM_TABLE, STREAMDATA_TABLE]
  · rw [(Delete_noFault e "id" 0 true 0 true false w (whereValid_id _ _ _ _)).2.2.2]
    simp [deleteWhere]

/-- C18 fails when `close()` throws.  On a server whose only schema is `test`,
`CreateDBStream` for the database `nope` connects, finds the database missing
(`InitDatabase` returns false) and calls `mCon->close()`; when that call throws,
the `mCon.reset()` after it is skipped, the constructor's `CATCH` logs the
exception and leaves `mCon` set, so `IsValid()` is true and `CreateDBStream`
returns the engine, not NULL, although the named database is not among the
server's schemas; the object stays allocated. -/
theorem C18_close_failure_returns_engine :
    (CreateDBStream exFaultAtClose "host" "user" "passwd" "nope" none true exServer).1 =
      .ret (some { engine := { mReader := none, mLogger := true }, mCon := true }) ∧
    (∀ obj, (CreateDBStream exFaultAtClose "host" "user" "passwd" "nope" none true exServer).1 =
      .ret (some obj) → obj.IsValid = true) ∧
    (CreateDBStream exFaultAtClose "host" "user" "passwd" "nope" none true exServer).2.ops =
      [(.connect "host" "user" "passwd", false), (.getMetaData, false), (.getSchemas, false),
       (.close, true)] ∧
    (CreateDBStream exFaultAtClose "host" "user" "passwd" "nope" none true exServer).2.objects =
      exServer.objects + 1 ∧
    exServer.schemas = some ["test"] ∧
    (CreateDBStream noFault "host" "user" "passwd" "nope" none true exServer).1 = .ret none := by
  refine ⟨by rfl, ?_, by rfl, by rfl, rfl, by rfl⟩
  intro obj h
  have h0 : (CreateDBStream exFaultAtClose "host" "user" "passwd" "nope" none true exServer).1 =
      .ret (some { engine := { mReader := none, mLogger := true }, mCon := true }) := by rfl
  rw [h0] at h
  simp only [Outcome.ret.injEq, Option.some.injEq] at h
  rw [← h]
  rfl

end DbStream
